import Mathlib

/-!
# nf_tables control plane (net/netfilter/nf_tables_api.c)

A shallow embedding of the transactional part of `nf_tables_api.c`: the
transaction log, the staging helpers, the two-generation rule arrays, the
commit and abort engines, ruleset validation and set element insertion.

Kernel objects live in heaps indexed by their address (`Ptr`); linked lists are
Lean lists of addresses in list order.  Unsigned 32-bit counters are natural
numbers with the wrap-around written out.  Calls that leave the engine
(notifications, hook registration, memory release) do not change the engine
state.  The callbacks of the expressions of a rule (`init`, `activate`,
`deactivate`) are given by the calls they make back into the engine.
-/

namespace NfTables

/-- Address of a kernel object; `0` stands for `NULL`. -/
abbrev Ptr := Nat

/-! ## Constants -/

def ENOENT : Int := 2
def EAGAIN : Int := 11
def ENOMEM : Int := 12
def EBUSY : Int := 16
def EEXIST : Int := 17
def EINVAL : Int := 22
def ENFILE : Int := 23
def EMFILE : Int := 24
def EMLINK : Int := 31
def ERANGE : Int := 34
def EOPNOTSUPP : Int := 95

def UINT_MAX : Nat := 4294967295
def INT_MAX : Nat := 2147483647

def NF_DROP : Int := 0
def NF_ACCEPT : Int := 1
def NF_QUEUE : Int := 3
def NFT_CONTINUE : Int := -1
def NFT_BREAK : Int := -2
def NFT_JUMP : Int := -3
def NFT_GOTO : Int := -4
def NFT_RETURN : Int := -5

/-- The value `NFT_CHAIN_POLICY_UNSET` stored in a chain record without a policy. -/
def NFT_CHAIN_POLICY_UNSET : Int := 255

def NFT_VALIDATE_SKIP : Nat := 0
def NFT_VALIDATE_NEED : Nat := 1
def NFT_VALIDATE_DO : Nat := 2

def NFT_JUMP_STACK_SIZE : Nat := 16

def NFT_TABLE_F_DORMANT : Nat := 1
def NFT_TABLE_F_MASK : Nat := 1
def __NFT_TABLE_F_INTERNAL : Nat := NFT_TABLE_F_MASK + 1
def __NFT_TABLE_F_WAS_DORMANT : Nat := __NFT_TABLE_F_INTERNAL <<< 0
def __NFT_TABLE_F_WAS_AWAKEN : Nat := __NFT_TABLE_F_INTERNAL <<< 1
def __NFT_TABLE_F_UPDATE : Nat := __NFT_TABLE_F_WAS_DORMANT ||| __NFT_TABLE_F_WAS_AWAKEN

def NFT_BASE_CHAIN : Nat := 1
def NFT_CHAIN_HW_OFFLOAD : Nat := 2

def NFT_SET_ANONYMOUS : Nat := 1
def NFT_SET_CONSTANT : Nat := 2
def NFT_SET_INTERVAL : Nat := 4
def NFT_SET_MAP : Nat := 8
def NFT_SET_TIMEOUT : Nat := 16
def NFT_SET_EVAL : Nat := 32
def NFT_SET_OBJECT : Nat := 64

def NFT_SET_ELEM_INTERVAL_END : Nat := 1

def NLM_F_REPLACE : Nat := 256
def NLM_F_EXCL : Nat := 512
def NLM_F_CREATE : Nat := 1024
def NLM_F_APPEND : Nat := 2048

/-- Size in bytes of a rule pointer, `sizeof(struct nft_rule *)`, on a 64-bit kernel. -/
def SIZEOF_RULE_PTR : Nat := 8

/-! ## Generation masks and use counters (include/net/netfilter/nf_tables.h) -/

/-- Modelled from the spec: `nft_gencursor_next` of include/net/netfilter/nf_tables.h,
which is not under src/; the single-bit generation cursor, flipped. -/
def nft_gencursor_next (gencursor : Nat) : Nat :=
  if gencursor + 1 = 1 then 1 else 0

/-- Modelled from the spec: header helper `nft_genmask_next`, the bit of the next generation. -/
def nft_genmask_next (gencursor : Nat) : Nat :=
  1 <<< nft_gencursor_next gencursor

/-- Modelled from the spec: header helper `nft_genmask_cur`, the bit of the current generation. -/
def nft_genmask_cur (gencursor : Nat) : Nat :=
  1 <<< gencursor

/-- Modelled from the spec: header macro `nft_is_active`; an object is active in the
current generation iff its bit for that generation is clear. -/
def nft_is_active (gencursor genmask : Nat) : Bool :=
  (genmask &&& nft_genmask_cur gencursor) == 0

/-- Modelled from the spec: header macro `nft_is_active_next`. -/
def nft_is_active_next (gencursor genmask : Nat) : Bool :=
  (genmask &&& nft_genmask_next gencursor) == 0

/-- Modelled from the spec: header macro `nft_active_genmask`. -/
def nft_active_genmask (obj_genmask genmask : Nat) : Bool :=
  (obj_genmask &&& genmask) == 0

/-- Modelled from the spec: header macro `nft_activate_next`; the new value of the
object's two-bit generation mask. -/
def nft_activate_next (gencursor : Nat) : Nat :=
  nft_genmask_cur gencursor

/-- Modelled from the spec: header macro `nft_deactivate_next`; the new value of the
object's two-bit generation mask. -/
def nft_deactivate_next (gencursor : Nat) : Nat :=
  nft_genmask_next gencursor

/-- Modelled from the spec: header macro `nft_clear`, `genmask &= ~nft_genmask_next(net)`
on the two-bit field. -/
def nft_clear (gencursor genmask : Nat) : Nat :=
  genmask &&& (3 ^^^ nft_genmask_next gencursor)

/-- Modelled from the spec: header helper `nft_use_inc` on a `u32` counter; returns
whether the counter could be incremented and its new value. -/
def nft_use_inc (use : Nat) : Bool × Nat :=
  if use = UINT_MAX then (false, use) else (true, use + 1)

/-- Modelled from the spec: header helper `nft_use_dec`, `WARN_ON_ONCE((*use)-- == 0)`;
returns the new value (wrapping) and whether the warning fired. -/
def nft_use_dec (use : Nat) : Nat × Bool :=
  if use = 0 then (UINT_MAX, true) else (use - 1, false)

/-- Modelled from the spec: header helper `nft_use_inc_restore`,
`WARN_ON_ONCE(!nft_use_inc(use))`. -/
def nft_use_inc_restore (use : Nat) : Nat × Bool :=
  ((nft_use_inc use).2, !(nft_use_inc use).1)

/-! ## Objects -/

/-- Phases passed to an expression's `deactivate` callback. -/
inductive nft_trans_phase where
  | PREPARE_ERROR | PREPARE | ABORT | COMMIT | RELEASE
  deriving DecidableEq, Repr

/-- Message kinds of transaction records. -/
inductive MsgType where
  | NEWTABLE | DELTABLE | NEWCHAIN | DELCHAIN | NEWRULE | DELRULE
  | NEWSET | DELSET | NEWSETELEM | DELSETELEM | NEWOBJ | DELOBJ
  | NEWFLOWTABLE | DELFLOWTABLE
  deriving DecidableEq, Repr

/-- The part of `struct nft_data` the engine looks at: a plain value or a verdict with
its target chain. -/
inductive nft_data where
  | value (bytes : List Nat)
  | verdict (code : Int) (chain : Ptr)
  deriving DecidableEq, Repr

/-- Set binding: the chain of the rule that uses the set, and the binding flags. -/
structure nft_set_binding where
  chain : Ptr := 0
  flags : Nat := 0
  deriving DecidableEq, Repr

/-- An expression of a rule.  `immediate` is the verdict expression; `lookup` stands for
an expression bound to a set (lookup, dynset, objref map), with the set and the binding
it holds; `objref` holds a reference to a stateful object and `flow_offload` one to a
flowtable; every other expression makes no call into the engine.  `validate` is the
result of the optional `validate` callback. -/
inductive nft_expr where
  | immediate (code : Int) (chain : Ptr)
  | lookup (set : Ptr) (binding : nft_set_binding) (validate : Option Int)
  | objref (obj : Ptr)
  | flow_offload (flowtable : Ptr) (validate : Option Int)
  | other (validate : Option Int)
  deriving DecidableEq, Repr

structure nft_table where
  use : Nat := 0
  flags : Nat := 0
  genmask : Nat := 0
  hgenerator : Nat := 0
  chains : List Ptr := []
  sets : List Ptr := []
  objects : List Ptr := []
  flowtables : List Ptr := []
  deriving DecidableEq, Repr

/-- Chain, with the `struct nft_base_chain` members a base chain carries. -/
structure nft_chain where
  table : Ptr := 0
  name : String := ""
  handle : Nat := 0
  use : Nat := 0
  genmask : Nat := 0
  flags : Nat := 0
  policy : Int := 0
  rules : List Ptr := []
  rules_gen_0 : Ptr := 0
  rules_gen_1 : Ptr := 0
  rules_next : Option Ptr := none
  deriving DecidableEq, Repr

structure nft_rule where
  handle : Nat := 0
  genmask : Nat := 0
  exprs : List nft_expr := []
  deriving DecidableEq, Repr

structure nft_set where
  table : Ptr := 0
  flags : Nat := 0
  genmask : Nat := 0
  use : Nat := 0
  dead : Bool := false
  size : Nat := 0
  nelems : Int := 0
  ndeact : Nat := 0
  dlen : Nat := 0
  timeout : Nat := 0
  bindings : List nft_set_binding := []
  elems : List Ptr := []
  klen : Nat := 0
  dtype : Nat := 0
  name : String := ""
  deriving DecidableEq, Repr

/-- Set element: the extensions of `struct nft_set_ext`; an extension that is absent
is `none` (flags: `0`). -/
structure nft_set_ext where
  key : List Nat := []
  genmask : Nat := 0
  flags : Nat := 0
  data : Option nft_data := none
  objref : Option Ptr := none
  timeout : Option Nat := none
  expiration : Option Nat := none
  userdata : Option (List Nat) := none
  deriving DecidableEq, Repr

structure nft_object where
  table : Ptr := 0
  genmask : Nat := 0
  use : Nat := 0
  deriving DecidableEq, Repr

/-- Flowtable; `flags` is `data.flags`, and `ops_dev` holds the device of each hook of
`ops[0 .. ops_len)` (`none` for a hook without device). -/
structure nft_flowtable where
  table : Ptr := 0
  genmask : Nat := 0
  use : Nat := 0
  name : String := ""
  handle : Nat := 0
  flags : Nat := 0
  ops_dev : List (Option Nat) := []
  deriving DecidableEq, Repr

/-- Transaction record.  The members of the per-kind union are separate fields. -/
structure nft_trans where
  msg_type : MsgType
  ctx_table : Ptr := 0
  ctx_chain : Ptr := 0
  on_binding_list : Bool := false
  table_update : Bool := false
  chain_update : Bool := false
  chain_policy : Int := 0
  chain_name : Option String := none
  rule : Ptr := 0
  rule_id : Nat := 0
  set : Ptr := 0
  set_id : Nat := 0
  set_bound : Bool := false
  elem : Ptr := 0
  obj : Ptr := 0
  obj_update : Bool := false
  obj_newobj : Ptr := 0
  flowtable : Ptr := 0
  put_net : Bool := false
  deriving DecidableEq, Repr

/-- The context a staging call runs in (`struct nft_ctx`). -/
structure nft_ctx where
  table : Ptr := 0
  chain : Ptr := 0
  level : Nat := 0
  flags : Nat := 0
  deriving DecidableEq, Repr

/-- The network namespace: `struct nftables_pernet`, `net->nft.gencursor`, the
objects reachable from it and the rule arrays. -/
structure State where
  gencursor : Nat := 0
  base_seq : Nat := 1
  gc_seq : Nat := 0
  validate_state : Nat := 0
  tables : List Ptr := []
  commit_list : List nft_trans := []
  destroy_list : List nft_trans := []
  table : Ptr → nft_table := fun _ => {}
  chain : Ptr → nft_chain := fun _ => {}
  rule : Ptr → nft_rule := fun _ => {}
  set : Ptr → nft_set := fun _ => {}
  elem : Ptr → nft_set_ext := fun _ => {}
  obj : Ptr → nft_object := fun _ => {}
  flowtable : Ptr → nft_flowtable := fun _ => {}
  rules_mem : Ptr → List (Option Ptr) := fun _ => []
  rcu_free : List Ptr := []
  brk : Ptr := 1
  warned : Bool := false

/-- The binding list: the records of the commit list that
`nft_trans_commit_list_add_tail` also linked into `binding_list`. -/
def State.binding_list (s : State) : List nft_trans :=
  s.commit_list.filter (fun t => t.on_binding_list)

def State.updTable (s : State) (p : Ptr) (f : nft_table → nft_table) : State :=
  { s with table := Function.update s.table p (f (s.table p)) }

def State.updChain (s : State) (p : Ptr) (f : nft_chain → nft_chain) : State :=
  { s with chain := Function.update s.chain p (f (s.chain p)) }

def State.updRule (s : State) (p : Ptr) (f : nft_rule → nft_rule) : State :=
  { s with rule := Function.update s.rule p (f (s.rule p)) }

def State.updSet (s : State) (p : Ptr) (f : nft_set → nft_set) : State :=
  { s with set := Function.update s.set p (f (s.set p)) }

def State.updElem (s : State) (p : Ptr) (f : nft_set_ext → nft_set_ext) : State :=
  { s with elem := Function.update s.elem p (f (s.elem p)) }

def State.updObj (s : State) (p : Ptr) (f : nft_object → nft_object) : State :=
  { s with obj := Function.update s.obj p (f (s.obj p)) }

def State.updFlowtable (s : State) (p : Ptr) (f : nft_flowtable → nft_flowtable) : State :=
  { s with flowtable := Function.update s.flowtable p (f (s.flowtable p)) }

/-- Raise the kernel warning flag (`WARN_ON_ONCE`). -/
def State.warn (s : State) (w : Bool) : State :=
  { s with warned := s.warned || w }

/-- The call `nft_use_dec(&table->use)`. -/
def table_use_dec (s : State) (p : Ptr) : State :=
  (s.updTable p (fun t => { t with use := (nft_use_dec t.use).1 })).warn
    (nft_use_dec (s.table p).use).2

/-- The call `nft_use_inc_restore(&table->use)`. -/
def table_use_inc_restore (s : State) (p : Ptr) : State :=
  (s.updTable p (fun t => { t with use := (nft_use_inc_restore t.use).1 })).warn
    (nft_use_inc_restore (s.table p).use).2

/-- The call `nft_use_dec(&chain->use)`. -/
def chain_use_dec (s : State) (p : Ptr) : State :=
  (s.updChain p (fun c => { c with use := (nft_use_dec c.use).1 })).warn
    (nft_use_dec (s.chain p).use).2

/-- The call `nft_use_inc_restore(&chain->use)`. -/
def chain_use_inc_restore (s : State) (p : Ptr) : State :=
  (s.updChain p (fun c => { c with use := (nft_use_inc_restore c.use).1 })).warn
    (nft_use_inc_restore (s.chain p).use).2

/-- The call `nft_use_dec(&set->use)`. -/
def set_use_dec (s : State) (p : Ptr) : State :=
  (s.updSet p (fun c => { c with use := (nft_use_dec c.use).1 })).warn
    (nft_use_dec (s.set p).use).2

/-- The call `nft_use_inc_restore(&set->use)`. -/
def set_use_inc_restore (s : State) (p : Ptr) : State :=
  (s.updSet p (fun c => { c with use := (nft_use_inc_restore c.use).1 })).warn
    (nft_use_inc_restore (s.set p).use).2

/-- The call `nft_use_dec(&obj->use)`. -/
def obj_use_dec (s : State) (p : Ptr) : State :=
  (s.updObj p (fun c => { c with use := (nft_use_dec c.use).1 })).warn
    (nft_use_dec (s.obj p).use).2

/-- The call `nft_use_inc_restore(&obj->use)`. -/
def obj_use_inc_restore (s : State) (p : Ptr) : State :=
  (s.updObj p (fun c => { c with use := (nft_use_inc_restore c.use).1 })).warn
    (nft_use_inc_restore (s.obj p).use).2

/-- The call `nft_use_dec(&flowtable->use)`. -/
def flowtable_use_dec (s : State) (p : Ptr) : State :=
  (s.updFlowtable p (fun c => { c with use := (nft_use_dec c.use).1 })).warn
    (nft_use_dec (s.flowtable p).use).2

/-- The call `nft_use_inc_restore(&flowtable->use)`. -/
def flowtable_use_inc_restore (s : State) (p : Ptr) : State :=
  (s.updFlowtable p (fun c => { c with use := (nft_use_inc_restore c.use).1 })).warn
    (nft_use_inc_restore (s.flowtable p).use).2

def nft_set_is_anonymous (set : nft_set) : Bool :=
  (set.flags &&& NFT_SET_ANONYMOUS) != 0

def nft_is_base_chain (chain : nft_chain) : Bool :=
  (chain.flags &&& NFT_BASE_CHAIN) != 0

/-! ## Transaction log helpers -/

def nft_validate_state_update (s : State) (new_validate_state : Nat) : State :=
  if s.validate_state = NFT_VALIDATE_SKIP then
    { (s.warn (new_validate_state == NFT_VALIDATE_DO)) with validate_state := new_validate_state }
  else if s.validate_state = NFT_VALIDATE_NEED then
    { s with validate_state := new_validate_state }
  else if s.validate_state = NFT_VALIDATE_DO ∧ new_validate_state = NFT_VALIDATE_NEED then
    s
  else
    { s with validate_state := new_validate_state }

/-- Append a record to the commit list; a `NEWSET` record of an anonymous set is also
linked into the binding list. -/
def nft_trans_commit_list_add_tail (s : State) (trans : nft_trans) : State :=
  match trans.msg_type with
  | .NEWSET =>
    if nft_set_is_anonymous (s.set trans.set) then
      { s with commit_list := s.commit_list ++ [{ trans with on_binding_list := true }] }
    else
      { s with commit_list := s.commit_list ++ [trans] }
  | _ => { s with commit_list := s.commit_list ++ [trans] }

/-- The effect of `nft_trans_destroy` on the record that was appended last. -/
def nft_trans_destroy_last (s : State) : State :=
  { s with commit_list := s.commit_list.dropLast }

/-- Change the record that was appended last (writes through the `trans` pointer a
staging helper returned). -/
def State.updLastTrans (s : State) (f : nft_trans → nft_trans) : State :=
  match s.commit_list.getLast? with
  | none => s
  | some t => { s with commit_list := s.commit_list.dropLast ++ [f t] }

/-- Set the bound flag of the `NEWSET` / `NEWSETELEM` records of an anonymous set. -/
def __nft_set_trans_bind (s : State) (set : Ptr) (bind : Bool) : State :=
  if !nft_set_is_anonymous (s.set set) then s
  else
    { s with commit_list := s.commit_list.map (fun trans =>
        match trans.msg_type with
        | .NEWSET => if trans.set = set then { trans with set_bound := bind } else trans
        | .NEWSETELEM => if trans.set = set then { trans with set_bound := bind } else trans
        | _ => trans) }

def nft_set_trans_bind (s : State) (set : Ptr) : State :=
  __nft_set_trans_bind s set true

def nft_set_trans_unbind (s : State) (set : Ptr) : State :=
  __nft_set_trans_bind s set false

/-- Returns `none` for `ERR_PTR(-ENOMEM)`; otherwise the new record is the last one of
the commit list. -/
def nft_trans_chain_add (ctx : nft_ctx) (msg_type : MsgType) (kzalloc_ok : Bool)
    (s : State) : Option State :=
  if !kzalloc_ok then none
  else
    let s1 := if msg_type = .NEWCHAIN then
        s.updChain ctx.chain (fun c => { c with genmask := nft_activate_next s.gencursor })
      else s
    some (nft_trans_commit_list_add_tail s1
      { msg_type := msg_type, ctx_table := ctx.table, ctx_chain := ctx.chain })

def nft_delchain (ctx : nft_ctx) (kzalloc_ok : Bool) (s : State) : Int × State :=
  match nft_trans_chain_add ctx .DELCHAIN kzalloc_ok s with
  | none => (-ENOMEM, s)
  | some s1 =>
    let s2 := table_use_dec s1 ctx.table
    let s3 := s2.updChain ctx.chain (fun c => { c with genmask := nft_deactivate_next s2.gencursor })
    (0, s3)

/-- `set_id` is the `NFTA_SET_ID` attribute when present. -/
def nft_trans_set_add (ctx : nft_ctx) (msg_type : MsgType) (set : Ptr)
    (set_id : Option Nat) (kzalloc_ok : Bool) (s : State) : Int × State :=
  if !kzalloc_ok then (-ENOMEM, s)
  else
    match set_id with
    | some i =>
      if msg_type = .NEWSET then
        let s1 := s.updSet set (fun x => { x with genmask := nft_activate_next s.gencursor })
        (0, nft_trans_commit_list_add_tail s1
          { msg_type := msg_type, ctx_table := ctx.table, ctx_chain := ctx.chain,
            set := set, set_id := i })
      else
        (0, nft_trans_commit_list_add_tail s
          { msg_type := msg_type, ctx_table := ctx.table, ctx_chain := ctx.chain, set := set })
    | none =>
      (0, nft_trans_commit_list_add_tail s
        { msg_type := msg_type, ctx_table := ctx.table, ctx_chain := ctx.chain, set := set })

/-- The reference drop of a verdict: `nft_data_release` / `nft_verdict_uninit`. -/
def nft_data_release (s : State) (data : nft_data) : State :=
  match data with
  | .value _ => s
  | .verdict code chain =>
    if code = NFT_JUMP ∨ code = NFT_GOTO then chain_use_dec s chain else s

def nft_data_hold (s : State) (data : nft_data) : State :=
  match data with
  | .value _ => s
  | .verdict code chain =>
    if code = NFT_JUMP ∨ code = NFT_GOTO then chain_use_inc_restore s chain else s

def nft_setelem_data_activate (s : State) (elem : Ptr) : State :=
  let s1 := match (s.elem elem).data with
    | some d => nft_data_hold s d
    | none => s
  match (s.elem elem).objref with
  | some o => obj_use_inc_restore s1 o
  | none => s1

def nft_setelem_data_deactivate (s : State) (elem : Ptr) : State :=
  let s1 := match (s.elem elem).data with
    | some d => nft_data_release s d
    | none => s
  match (s.elem elem).objref with
  | some o => obj_use_dec s1 o
  | none => s1

/-- Modelled from the spec: the set backend's `walk` (the backends are not under
src/): the callback runs on every element of the set that is active under the
iterator's generation mask, in the container's order. -/
def set_walk (s : State) (set : Ptr) (genmask : Nat) (fn : State → Ptr → State) : State :=
  ((s.set set).elems.filter (fun e => nft_active_genmask (s.elem e).genmask genmask)).foldl fn s

def nft_map_deactivate (s : State) (set : Ptr) : State :=
  set_walk s set (nft_genmask_next s.gencursor) nft_setelem_data_deactivate

def nft_map_activate (s : State) (set : Ptr) : State :=
  set_walk s set (nft_genmask_next s.gencursor) nft_setelem_data_activate

/-- `nf_tables_unbind_set`: the binding leaves the list of the set; an anonymous set
without a binding left leaves the list of its table and is marked dead (the event is a
notification). -/
def nf_tables_unbind_set (s : State) (set : Ptr) (binding : nft_set_binding)
    (_event : Bool) : State :=
  let s1 := s.updSet set (fun x => { x with bindings := x.bindings.erase binding })
  if (s1.set set).bindings = [] ∧ nft_set_is_anonymous (s1.set set) then
    (s1.updTable (s1.set set).table (fun t => { t with sets := t.sets.erase set })).updSet set
      (fun x => { x with dead := true })
  else s1

/-- `nf_tables_activate_set`, called by the `activate` callback of an expression bound
to a set. -/
def nf_tables_activate_set (s : State) (set : Ptr) : State :=
  let s1 :=
    if nft_set_is_anonymous (s.set set) then
      let s2 := if (s.set set).flags &&& (NFT_SET_MAP ||| NFT_SET_OBJECT) ≠ 0 then
          nft_map_activate s set
        else s
      s2.updSet set (fun x => { x with genmask := nft_clear s2.gencursor x.genmask })
    else s
  set_use_inc_restore s1 set

/-- `nf_tables_deactivate_set`, called by the `deactivate` callback of an expression
bound to a set with its binding. -/
def nf_tables_deactivate_set (s : State) (set : Ptr) (binding : nft_set_binding)
    (phase : nft_trans_phase) : State :=
  match phase with
  | .PREPARE_ERROR =>
    let s1 := nft_set_trans_unbind s set
    let s2 := if nft_set_is_anonymous (s1.set set) then
        s1.updSet set (fun x => { x with genmask := nft_deactivate_next s1.gencursor })
      else s1.updSet set (fun x => { x with bindings := x.bindings.erase binding })
    set_use_dec s2 set
  | .PREPARE =>
    let s1 :=
      if nft_set_is_anonymous (s.set set) then
        let s2 := if (s.set set).flags &&& (NFT_SET_MAP ||| NFT_SET_OBJECT) ≠ 0 then
            nft_map_deactivate s set
          else s
        s2.updSet set (fun x => { x with genmask := nft_deactivate_next s2.gencursor })
      else s
    set_use_dec s1 set
  | .ABORT | .RELEASE =>
    let s1 := if nft_set_is_anonymous (s.set set) ∧
          (s.set set).flags &&& (NFT_SET_MAP ||| NFT_SET_OBJECT) ≠ 0 then
        nft_map_deactivate s set
      else s
    nf_tables_unbind_set (set_use_dec s1 set) set binding false
  | .COMMIT => nf_tables_unbind_set s set binding true

/-- `nf_tables_deactivate_flowtable`, called by the `deactivate` callback of an
expression that holds a flowtable. -/
def nf_tables_deactivate_flowtable (s : State) (flowtable : Ptr) (phase : nft_trans_phase) :
    State :=
  match phase with
  | .PREPARE_ERROR | .PREPARE | .ABORT | .RELEASE => flowtable_use_dec s flowtable
  | .COMMIT => s

/-- Modelled from the spec: the `activate` callback of an expression (the expression
modules are not under src/), by the calls it makes into the engine: the verdict
expression holds its data again (`nft_data_hold`), an expression bound to a set calls
`nf_tables_activate_set`, a reference to an object or to a flowtable takes its use of it
again (`nft_use_inc_restore`). -/
def nft_expr_activate (s : State) : nft_expr → State
  | .immediate code chain => nft_data_hold s (.verdict code chain)
  | .lookup set _ _ => nf_tables_activate_set s set
  | .objref obj => obj_use_inc_restore s obj
  | .flow_offload flowtable _ => flowtable_use_inc_restore s flowtable
  | .other _ => s

/-- Modelled from the spec: the `deactivate` callback of an expression (the expression
modules are not under src/), by the calls it makes into the engine: the verdict
expression releases its data except in the commit phase (`nft_data_release`), an
expression bound to a set calls `nf_tables_deactivate_set` with its binding, a reference
to an object drops its use of it except in the commit phase (`nft_use_dec`), a
reference to a flowtable calls `nf_tables_deactivate_flowtable`. -/
def nft_expr_deactivate (phase : nft_trans_phase) (s : State) : nft_expr → State
  | .immediate code chain =>
    if phase = .COMMIT then s else nft_data_release s (.verdict code chain)
  | .lookup set binding _ => nf_tables_deactivate_set s set binding phase
  | .objref obj => if phase = .COMMIT then s else obj_use_dec s obj
  | .flow_offload flowtable _ => nf_tables_deactivate_flowtable s flowtable phase
  | .other _ => s

/-- The engine calls `activate` on every expression of the rule that has one, in the
order of the expressions. -/
def nft_rule_expr_activate (s : State) (rule : Ptr) : State :=
  (s.rule rule).exprs.foldl nft_expr_activate s

/-- The engine calls `deactivate` on every expression of the rule that has one, in the
order of the expressions. -/
def nft_rule_expr_deactivate (s : State) (rule : Ptr) (phase : nft_trans_phase) : State :=
  (s.rule rule).exprs.foldl (nft_expr_deactivate phase) s

def nf_tables_delrule_deactivate (ctx : nft_ctx) (rule : Ptr) (s : State) : Int × State :=
  if nft_is_active_next s.gencursor (s.rule rule).genmask then
    let s1 := s.updRule rule (fun r => { r with genmask := nft_deactivate_next s.gencursor })
    (0, chain_use_dec s1 ctx.chain)
  else
    (-ENOENT, s)

/-- Returns `none` for `NULL`; `rule_id` is the `NFTA_RULE_ID` attribute when present. -/
def nft_trans_rule_add (ctx : nft_ctx) (msg_type : MsgType) (rule : Ptr)
    (rule_id : Option Nat) (kzalloc_ok : Bool) (s : State) : Option State :=
  if !kzalloc_ok then none
  else
    let id := match rule_id with
      | some i => if msg_type = .NEWRULE then i else 0
      | none => 0
    some (nft_trans_commit_list_add_tail s
      { msg_type := msg_type, ctx_table := ctx.table, ctx_chain := ctx.chain,
        rule := rule, rule_id := id })

def nft_delrule (ctx : nft_ctx) (rule : Ptr) (kzalloc_ok : Bool) (s : State) : Int × State :=
  match nft_trans_rule_add ctx .DELRULE rule none kzalloc_ok s with
  | none => (-ENOMEM, s)
  | some s1 =>
    let r := nf_tables_delrule_deactivate ctx rule s1
    if r.1 < 0 then
      (r.1, nft_trans_destroy_last r.2)
    else
      (0, nft_rule_expr_deactivate r.2 rule .PREPARE)

def nft_trans_flowtable_add (ctx : nft_ctx) (msg_type : MsgType) (flowtable : Ptr)
    (kzalloc_ok : Bool) (s : State) : Int × State :=
  if !kzalloc_ok then (-ENOMEM, s)
  else
    let s1 := if msg_type = .NEWFLOWTABLE then
        s.updFlowtable flowtable (fun o => { o with genmask := nft_activate_next s.gencursor })
      else s
    (0, nft_trans_commit_list_add_tail s1
      { msg_type := msg_type, ctx_table := ctx.table, ctx_chain := ctx.chain,
        flowtable := flowtable })

/-- Modelled from the spec: the `validate` callback of an expression (the expression
modules are not under src/).  The verdict expression with a jump or goto verdict
validates the target chain one call level deeper (`recur`), returning its error;
any other expression returns the fixed result of its callback, and a reference to an
object has no such callback. -/
def nft_expr_validate (recur : Ptr → Int) : nft_expr → Option Int
  | .immediate code chain =>
    if code = NFT_JUMP ∨ code = NFT_GOTO then
      some (if recur chain < 0 then recur chain else 0)
    else some 0
  | .lookup _ _ v => v
  | .objref _ => none
  | .flow_offload _ v => v
  | .other v => v

/-- The loop `nft_rule_for_each_expr` of `nft_chain_validate`: the first negative
result of a callback, or `0`. -/
def nft_rule_validate (recur : Ptr → Int) : List nft_expr → Int
  | [] => 0
  | e :: es =>
    match nft_expr_validate recur e with
    | none => nft_rule_validate recur es
    | some err => if err < 0 then err else nft_rule_validate recur es

/-- The loop over the rules of the chain in `nft_chain_validate`. -/
def nft_rules_validate (s : State) (recur : Ptr → Int) : List Ptr → Int
  | [] => 0
  | r :: rs =>
    if !nft_is_active_next s.gencursor (s.rule r).genmask then
      nft_rules_validate s recur rs
    else if nft_rule_validate recur (s.rule r).exprs < 0 then
      nft_rule_validate recur (s.rule r).exprs
    else
      nft_rules_validate s recur rs

/-- Loop detection and hook validation.  The second argument is
`NFT_JUMP_STACK_SIZE - ctx->level`: the test `ctx->level == NFT_JUMP_STACK_SIZE` is
the case `0`, and a callback that recurses with `ctx->level + 1` uses the
predecessor. -/
def nft_chain_validate (s : State) : Nat → Ptr → Int
  | 0, _ => -EMLINK
  | depth + 1, chain =>
    nft_rules_validate s (nft_chain_validate s depth) (s.chain chain).rules

/-- The loop over the chains of the table in `nft_table_validate`; the context starts
at call level `0`. -/
def nft_table_validate_chains (s : State) : List Ptr → Int
  | [] => 0
  | c :: cs =>
    if !nft_is_base_chain (s.chain c) then nft_table_validate_chains s cs
    else if nft_chain_validate s NFT_JUMP_STACK_SIZE c < 0 then
      nft_chain_validate s NFT_JUMP_STACK_SIZE c
    else nft_table_validate_chains s cs

def nft_table_validate (s : State) (table : Ptr) : Int :=
  nft_table_validate_chains s (s.table table).chains

/-- The loop over the tables in `nf_tables_validate`: whether some table fails. -/
def nf_tables_validate_tables (s : State) : List Ptr → Bool
  | [] => false
  | t :: ts => if nft_table_validate s t < 0 then true else nf_tables_validate_tables s ts

def nf_tables_validate (s : State) : Int × State :=
  if s.validate_state = NFT_VALIDATE_SKIP then (0, s)
  else if s.validate_state = NFT_VALIDATE_NEED ∨ s.validate_state = NFT_VALIDATE_DO then
    let s1 := if s.validate_state = NFT_VALIDATE_NEED then
        nft_validate_state_update s NFT_VALIDATE_DO
      else s
    if nf_tables_validate_tables s1 s1.tables then (-EAGAIN, s1)
    else (0, nft_validate_state_update s1 NFT_VALIDATE_SKIP)
  else (0, s)

/-! ## Set backend -/

/-- Modelled from the spec: the backend's `activate` (and, on its way back, the
change `deactivate` / `flush` made): the hash backends, not under src/, toggle the
element's bit of the next generation. -/
def set_elem_change_active (s : State) (elem : Ptr) : State :=
  s.updElem elem (fun e => { e with genmask := e.genmask ^^^ nft_genmask_next s.gencursor })

/-- Modelled from the spec: the backend's `remove(elem)`: the element leaves the
container. -/
def set_ops_remove (s : State) (set : Ptr) (elem : Ptr) : State :=
  s.updSet set (fun x => { x with elems := x.elems.erase elem })

/-! ## The two-generation rule arrays -/

/-- Result of one `kvmalloc`: whether it succeeds, and the contents of the fresh,
uninitialised memory by index. -/
structure Kvmalloc where
  ok : Bool := true
  junk : Nat → Option Ptr := fun _ => none

/-- Allocate an array for `alloc` rule pointers and the end marker.  `alloc` is an
`unsigned int`.  On success the array is at the address `s.brk`. -/
def nf_tables_chain_alloc_rules (alloc : Nat) (m : Kvmalloc) (s : State) : Option Ptr × State :=
  if alloc > INT_MAX then (none, s)
  else if SIZEOF_RULE_PTR > INT_MAX / ((alloc + 1) % 2 ^ 32) then (none, s)
  else if !m.ok then (none, s)
  else
    (some s.brk,
      { s with
        rules_mem := Function.update s.rules_mem s.brk
          ((List.range ((alloc + 1) % 2 ^ 32)).map m.junk),
        brk := s.brk + 1 })

/-- First loop of `nf_tables_commit_chain_prepare`: count the rules that are active in
the next generation (`unsigned int alloc`). -/
def count_active_next (s : State) : List Ptr → Nat → Nat
  | [], alloc => alloc
  | r :: rs, alloc =>
    if nft_is_active_next s.gencursor (s.rule r).genmask then
      count_active_next s rs ((alloc + 1) % 2 ^ 32)
    else count_active_next s rs alloc

/-- Second loop of `nf_tables_commit_chain_prepare`: `chain->rules_next[i++] = rule`
for the rules that are active in the next generation. -/
def fill_rules_next (s : State) : List Ptr → List (Option Ptr) → Nat → List (Option Ptr) × Nat
  | [], arr, i => (arr, i)
  | r :: rs, arr, i =>
    if nft_is_active_next s.gencursor (s.rule r).genmask then
      fill_rules_next s rs (arr.set i (some r)) (i + 1)
    else fill_rules_next s rs arr i

def nf_tables_commit_chain_prepare (chain : Ptr) (m : Kvmalloc) (s : State) : Int × State :=
  if (s.chain chain).rules_next.isSome ∨
      !nft_is_active_next s.gencursor (s.chain chain).genmask then
    (0, s)
  else
    let alloc := count_active_next s (s.chain chain).rules 0
    match nf_tables_chain_alloc_rules alloc m s with
    | (none, s1) => (-ENOMEM, s1)
    | (some p, s1) =>
      let s2 := s1.updChain chain (fun c => { c with rules_next := some p })
      let filled := fill_rules_next s2 (s2.chain chain).rules (s2.rules_mem p) 0
      (0, { s2 with rules_mem := Function.update s2.rules_mem p (filled.1.set filled.2 none) })

/-- One step of the loop of `nf_tables_commit_chain_prepare_cancel`. -/
def prepare_cancel_one (s : State) (trans : nft_trans) : State :=
  if trans.msg_type = .NEWRULE ∨ trans.msg_type = .DELRULE then
    s.updChain trans.ctx_chain (fun c => { c with rules_next := none })
  else s

def nf_tables_commit_chain_prepare_cancel (s : State) : State :=
  s.commit_list.foldl prepare_cancel_one s

/-- The old array is handed to `call_rcu`; it is released after a grace period. -/
def nf_tables_commit_chain_free_rules_old (s : State) (rules : Ptr) : State :=
  { s with rcu_free := s.rcu_free ++ [rules] }

def nf_tables_commit_chain (s : State) (chain : Ptr) : State :=
  let next_genbit : Bool := nft_gencursor_next s.gencursor != 0
  let g0 := (s.chain chain).rules_gen_0
  let g1 := (s.chain chain).rules_gen_1
  match (s.chain chain).rules_next with
  | none =>
    if g0 = g1 then s
    else if next_genbit then
      nf_tables_commit_chain_free_rules_old
        (s.updChain chain (fun c => { c with rules_gen_1 := g0 })) g1
    else
      nf_tables_commit_chain_free_rules_old
        (s.updChain chain (fun c => { c with rules_gen_0 := g1 })) g0
  | some next =>
    let s1 := if next_genbit then
        s.updChain chain (fun c => { c with rules_gen_1 := next })
      else
        s.updChain chain (fun c => { c with rules_gen_0 := next })
    let s2 := s1.updChain chain (fun c => { c with rules_next := none })
    if g0 = g1 then s2
    else if next_genbit then nf_tables_commit_chain_free_rules_old s2 g1
    else nf_tables_commit_chain_free_rules_old s2 g0

/-! ## Commit -/

def nft_chain_commit_drop_policy (s : State) (trans : nft_trans) : State :=
  if trans.chain_policy ≠ NF_DROP then s
  else if !nft_is_base_chain (s.chain trans.ctx_chain) then s
  else s.updChain trans.ctx_chain (fun c => { c with policy := NF_DROP })

/-- The rename swaps the names of the chain and of the record (the record is released
afterwards, its side of the swap is dropped); the statistics of a base chain are not
part of the state. -/
def nft_chain_commit_update (s : State) (trans : nft_trans) : State :=
  let s1 := match trans.chain_name with
    | some n => s.updChain trans.ctx_chain (fun c => { c with name := n })
    | none => s
  if !nft_is_base_chain (s1.chain trans.ctx_chain) then s1
  else if trans.chain_policy = NF_DROP ∨ trans.chain_policy = NF_ACCEPT then
    s1.updChain trans.ctx_chain (fun c => { c with policy := trans.chain_policy })
  else s1

/-- `nf_tables_table_disable`: the dormant flag is cleared while the hooks are
unregistered and set again. -/
def nf_tables_table_disable (s : State) (table : Ptr) : State :=
  s.updTable table (fun t =>
    { t with flags := (t.flags &&& (UINT_MAX ^^^ NFT_TABLE_F_DORMANT)) ||| NFT_TABLE_F_DORMANT })

/-- One iteration of the record loop of `nf_tables_commit`; the flag tells whether the
record stays on the commit list (it is released after the grace period). -/
def commit_one (s : State) (trans : nft_trans) : State × Bool :=
  match trans.msg_type with
  | .NEWTABLE =>
    if trans.table_update then
      if (s.table trans.ctx_table).flags &&& __NFT_TABLE_F_UPDATE = 0 then (s, false)
      else
        let s1 := if (s.table trans.ctx_table).flags &&& NFT_TABLE_F_DORMANT ≠ 0 then
            nf_tables_table_disable s trans.ctx_table
          else s
        (s1.updTable trans.ctx_table (fun t =>
          { t with flags := t.flags &&& (UINT_MAX ^^^ __NFT_TABLE_F_UPDATE) }), false)
    else
      (s.updTable trans.ctx_table (fun t =>
        { t with genmask := nft_clear s.gencursor t.genmask }), false)
  | .DELTABLE => ({ s with tables := s.tables.erase trans.ctx_table }, true)
  | .NEWCHAIN =>
    if trans.chain_update then (nft_chain_commit_update s trans, true)
    else
      let s1 := nft_chain_commit_drop_policy s trans
      (s1.updChain trans.ctx_chain (fun c =>
        { c with genmask := nft_clear s1.gencursor c.genmask }), false)
  | .DELCHAIN =>
    (s.updTable (s.chain trans.ctx_chain).table (fun t =>
      { t with chains := t.chains.erase trans.ctx_chain }), true)
  | .NEWRULE =>
    (s.updRule trans.rule (fun r => { r with genmask := nft_clear s.gencursor r.genmask }), false)
  | .DELRULE =>
    (nft_rule_expr_deactivate
      (s.updChain trans.ctx_chain (fun c => { c with rules := c.rules.erase trans.rule }))
      trans.rule .COMMIT, true)
  | .NEWSET =>
    let s1 := s.updSet trans.set (fun x => { x with genmask := nft_clear s.gencursor x.genmask })
    let s2 := if nft_set_is_anonymous (s1.set trans.set) ∧ (s1.set trans.set).bindings ≠ [] then
        table_use_dec s1 trans.ctx_table
      else s1
    (s2, false)
  | .DELSET =>
    let s1 := s.updSet trans.set (fun x => { x with dead := true })
    (s1.updTable (s1.set trans.set).table (fun t =>
      { t with sets := t.sets.erase trans.set }), true)
  | .NEWSETELEM => (set_elem_change_active s trans.elem, false)
  | .DELSETELEM =>
    let s1 := set_ops_remove s trans.set trans.elem
    (s1.updSet trans.set (fun x =>
      { x with nelems := x.nelems - 1, ndeact := (x.ndeact + 2 ^ 32 - 1) % 2 ^ 32 }), true)
  | .NEWOBJ =>
    if trans.obj_update then (s, true)
    else
      (s.updObj trans.obj (fun o => { o with genmask := nft_clear s.gencursor o.genmask }), false)
  | .DELOBJ =>
    (s.updTable (s.obj trans.obj).table (fun t =>
      { t with objects := t.objects.erase trans.obj }), true)
  | .NEWFLOWTABLE =>
    (s.updFlowtable trans.flowtable (fun o =>
      { o with genmask := nft_clear s.gencursor o.genmask }), false)
  | .DELFLOWTABLE =>
    (s.updTable (s.flowtable trans.flowtable).table (fun t =>
      { t with flowtables := t.flowtables.erase trans.flowtable }), true)

/-- The record loop of `nf_tables_commit`, with the records that stay on the list. -/
def commit_loop : List nft_trans → State → State × List nft_trans
  | [], s => (s, [])
  | t :: ts, s =>
    let r := commit_one s t
    let rest := commit_loop ts r.1
    (rest.1, if r.2 then t :: rest.2 else rest.2)

/-- Step 1 of `nf_tables_commit`: prepare the next-generation array of every chain a
`NEWRULE` / `DELRULE` record names.  `alloc` gives the outcome of the allocation for a
chain.  On failure all prepared arrays are cancelled. -/
def commit_prepare_loop (alloc : Ptr → Kvmalloc) : List nft_trans → State → Int × State
  | [], s => (0, s)
  | t :: ts, s =>
    if t.msg_type = .NEWRULE ∨ t.msg_type = .DELRULE then
      let r := nf_tables_commit_chain_prepare t.ctx_chain (alloc t.ctx_chain) s
      if r.1 < 0 then (r.1, nf_tables_commit_chain_prepare_cancel r.2)
      else commit_prepare_loop alloc ts r.2
    else commit_prepare_loop alloc ts s

/-- Step 2 of `nf_tables_commit`: publish the arrays of every chain of every table. -/
def commit_publish_chains (s : State) : State :=
  s.tables.foldl (fun s1 t => (s1.table t).chains.foldl nf_tables_commit_chain s1) s

/-- Bump of the generation counter, `while (++nft_net->base_seq == 0);` on a `u32`. -/
def base_seq_bump (base_seq : Nat) : Nat :=
  if (base_seq + 1) % 2 ^ 32 = 0 then 1 else (base_seq + 1) % 2 ^ 32

/-- `nft_gc_seq_begin`: the counter becomes odd; returns the new value. -/
def nft_gc_seq_begin (s : State) : Nat × State :=
  ((s.gc_seq + 1) % 2 ^ 32, { s with gc_seq := (s.gc_seq + 1) % 2 ^ 32 })

def nft_gc_seq_end (s : State) (gc_seq : Nat) : State :=
  { s with gc_seq := (gc_seq + 1) % 2 ^ 32 }

/-- Steps 2 and 3 of `nf_tables_commit` up to the flip of the generation cursor. -/
def commit_publish (s : State) : Nat × State :=
  let s1 := commit_publish_chains s
  let s2 := { s1 with base_seq := base_seq_bump s1.base_seq }
  let g := nft_gc_seq_begin s2
  (g.1, { g.2 with gencursor := nft_gencursor_next g.2.gencursor })

/-- `nf_tables_commit_release`: the records left on the commit list move to the
destroy list, the last one carrying the namespace reference. -/
def nf_tables_commit_release (s : State) : State :=
  match s.commit_list.getLast? with
  | none => s
  | some last =>
    { s with
      destroy_list := s.destroy_list ++ s.commit_list.dropLast ++ [{ last with put_net := true }],
      commit_list := [] }

/-- The check of the binding list at the start of `nf_tables_commit`. -/
def commit_unbound_anon (s : State) : Bool :=
  s.binding_list.any (fun trans =>
    trans.msg_type = .NEWSET ∧ nft_set_is_anonymous (s.set trans.set) ∧ !trans.set_bound)

/-- The environment of a commit: the result of `nft_flow_rule_offload_commit` and the
outcome of the array allocation for each chain. -/
structure CommitEnv where
  offload : Int := 0
  alloc : Ptr → Kvmalloc := fun _ => {}

def nf_tables_commit (env : CommitEnv) (s : State) : Int × State :=
  if s.commit_list = [] then (0, s)
  else if commit_unbound_anon s then (-EINVAL, s)
  else
    let v := nf_tables_validate s
    if v.1 < 0 then (-EAGAIN, v.2)
    else if env.offload < 0 then (env.offload, v.2)
    else
      let p := commit_prepare_loop env.alloc v.2.commit_list v.2
      if p.1 < 0 then (p.1, p.2)
      else
        let pub := commit_publish p.2
        let r := commit_loop pub.2.commit_list pub.2
        let s1 := { r.1 with commit_list := r.2 }
        (0, nf_tables_commit_release (nft_gc_seq_end s1 pub.1))

/-! ## Abort -/

/-- One iteration of the record loop of `__nf_tables_abort`; the flag tells whether the
record stays on the commit list for `nf_tables_abort_release`. -/
def abort_one (s : State) (trans : nft_trans) : State × Bool :=
  match trans.msg_type with
  | .NEWTABLE =>
    if trans.table_update then
      if (s.table trans.ctx_table).flags &&& __NFT_TABLE_F_UPDATE = 0 then (s, false)
      else
        let s1 :=
          if (s.table trans.ctx_table).flags &&& __NFT_TABLE_F_WAS_DORMANT ≠ 0 then
            (nf_tables_table_disable s trans.ctx_table).updTable trans.ctx_table
              (fun t => { t with flags := t.flags ||| NFT_TABLE_F_DORMANT })
          else if (s.table trans.ctx_table).flags &&& __NFT_TABLE_F_WAS_AWAKEN ≠ 0 then
            s.updTable trans.ctx_table
              (fun t => { t with flags := t.flags &&& (UINT_MAX ^^^ NFT_TABLE_F_DORMANT) })
          else s
        (s1.updTable trans.ctx_table (fun t =>
          { t with flags := t.flags &&& (UINT_MAX ^^^ __NFT_TABLE_F_UPDATE) }), false)
    else ({ s with tables := s.tables.erase trans.ctx_table }, true)
  | .DELTABLE =>
    (s.updTable trans.ctx_table (fun t =>
      { t with genmask := nft_clear s.gencursor t.genmask }), false)
  | .NEWCHAIN =>
    if trans.chain_update then (s, false)
    else
      let s1 := table_use_dec s trans.ctx_table
      (s1.updTable (s1.chain trans.ctx_chain).table (fun t =>
        { t with chains := t.chains.erase trans.ctx_chain }), true)
  | .DELCHAIN =>
    let s1 := table_use_inc_restore s trans.ctx_table
    (s1.updChain trans.ctx_chain (fun c =>
      { c with genmask := nft_clear s1.gencursor c.genmask }), false)
  | .NEWRULE =>
    let s1 := chain_use_dec s trans.ctx_chain
    (nft_rule_expr_deactivate
      (s1.updChain trans.ctx_chain (fun c => { c with rules := c.rules.erase trans.rule }))
      trans.rule .ABORT, true)
  | .DELRULE =>
    let s1 := chain_use_inc_restore s trans.ctx_chain
    let s2 := s1.updRule trans.rule (fun r => { r with genmask := nft_clear s1.gencursor r.genmask })
    (nft_rule_expr_activate s2 trans.rule, false)
  | .NEWSET =>
    let s1 := table_use_dec s trans.ctx_table
    if trans.set_bound then (s1, false)
    else
      let s2 := s1.updSet trans.set (fun x => { x with dead := true })
      (s2.updTable (s2.set trans.set).table (fun t =>
        { t with sets := t.sets.erase trans.set }), true)
  | .DELSET =>
    let s1 := table_use_inc_restore s trans.ctx_table
    let s2 := s1.updSet trans.set (fun x => { x with genmask := nft_clear s1.gencursor x.genmask })
    let s3 := if (s2.set trans.set).flags &&& (NFT_SET_MAP ||| NFT_SET_OBJECT) ≠ 0 then
        nft_map_activate s2 trans.set
      else s2
    (s3, false)
  | .NEWSETELEM =>
    if trans.set_bound then (s, false)
    else
      let s1 := set_ops_remove s trans.set trans.elem
      (s1.updSet trans.set (fun x => { x with nelems := x.nelems - 1 }), true)
  | .DELSETELEM =>
    let s1 := nft_setelem_data_activate s trans.elem
    let s2 := set_elem_change_active s1 trans.elem
    (s2.updSet trans.set (fun x => { x with ndeact := (x.ndeact + 2 ^ 32 - 1) % 2 ^ 32 }), false)
  | .NEWOBJ =>
    if trans.obj_update then (s, false)
    else
      let s1 := table_use_dec s trans.ctx_table
      (s1.updTable (s1.obj trans.obj).table (fun t =>
        { t with objects := t.objects.erase trans.obj }), true)
  | .DELOBJ =>
    let s1 := table_use_inc_restore s trans.ctx_table
    (s1.updObj trans.obj (fun o => { o with genmask := nft_clear s1.gencursor o.genmask }), false)
  | .NEWFLOWTABLE =>
    let s1 := table_use_dec s trans.ctx_table
    (s1.updTable (s1.flowtable trans.flowtable).table (fun t =>
      { t with flowtables := t.flowtables.erase trans.flowtable }), true)
  | .DELFLOWTABLE =>
    let s1 := table_use_inc_restore s trans.ctx_table
    (s1.updFlowtable trans.flowtable (fun o =>
      { o with genmask := nft_clear s1.gencursor o.genmask }), false)

/-- The record loop of `__nf_tables_abort` over the records in the order it visits them
(the commit list reversed). -/
def abort_loop : List nft_trans → State → State
  | [], s => s
  | t :: ts, s => abort_loop ts (abort_one s t).1

/-- The records the record loop of `__nf_tables_abort` leaves on the commit list, in the
order it visited them. -/
def abort_left : List nft_trans → State → List nft_trans
  | [], _ => []
  | t :: ts, s =>
    if (abort_one s t).2 then t :: abort_left ts (abort_one s t).1
    else abort_left ts (abort_one s t).1

/-- `nft_set_elem_destroy` (gc, dynset and abort path): the references held by the
data and by the object reference of the element are dropped; the key is a value.  The
destroy callback of an attached expression and the freeing of the element are not part
of the state. -/
def nft_set_elem_destroy (s : State) (elem : Ptr) : State :=
  let s1 := match (s.elem elem).data with
    | some d => nft_data_release s d
    | none => s
  match (s.elem elem).objref with
  | some o => obj_use_dec s1 o
  | none => s1

/-- `nf_tables_chain_destroy`: a chain still in use warns and is kept; otherwise
`nf_tables_chain_free_chain_rules` warns about a pending `rules_next` and the memory
is freed. -/
def nf_tables_chain_destroy (s : State) (chain : Ptr) : State :=
  if 0 < (s.chain chain).use then s.warn true
  else s.warn (s.chain chain).rules_next.isSome

/-- `nf_tables_abort_release`: a new set element drops its references; a new table,
chain or set that is still in use raises the warning and is kept; apart from that the
memory of the object is freed, which the state does not record (the destroy callbacks
of expressions, set backends and stateful objects are not part of the state). -/
def nf_tables_abort_release (s : State) (trans : nft_trans) : State :=
  match trans.msg_type with
  | .NEWTABLE => s.warn (decide (0 < (s.table trans.ctx_table).use))
  | .NEWCHAIN => nf_tables_chain_destroy s trans.ctx_chain
  | .NEWSET => s.warn (decide (0 < (s.set trans.set).use))
  | .NEWSETELEM => nft_set_elem_destroy s trans.elem
  | _ => s

/-- `action_validate` is `action == NFNL_ABORT_VALIDATE`.  After the record loop the
records left on the list are unlinked and released, in the same (reverse) order. -/
def __nf_tables_abort (action_validate : Bool) (s : State) : Int × State :=
  let v := if action_validate then nf_tables_validate s else (0, s)
  let err : Int := if action_validate ∧ v.1 < 0 then -EAGAIN else 0
  let s1 := abort_loop v.2.commit_list.reverse v.2
  let s2 := (abort_left v.2.commit_list.reverse v.2).foldl nf_tables_abort_release s1
  (err, { s2 with commit_list := [] })

def nf_tables_abort (action_validate : Bool) (s : State) : Int × State :=
  let g := nft_gc_seq_begin s
  let r := __nf_tables_abort action_validate g.2
  (r.1, nft_gc_seq_end r.2 g.1)

/-! ## Creating and updating chains -/

/-- `nft_chain_lookup`: the chain of the table with the given name that is active under
the generation mask (the hash index holds the chains of the table's list). -/
def nft_chain_lookup (s : State) (table : Ptr) (name : String) (genmask : Nat) : Option Ptr :=
  (s.table table).chains.find?
    (fun c => (s.chain c).name = name ∧ nft_active_genmask (s.chain c).genmask genmask)

/-- `nf_tables_alloc_handle`: `++table->hgenerator` on a `u64`; returns the handle. -/
def nf_tables_alloc_handle (s : State) (table : Ptr) : Nat × State :=
  (((s.table table).hgenerator + 1) % 2 ^ 64,
    s.updTable table (fun t => { t with hgenerator := (t.hgenerator + 1) % 2 ^ 64 }))

/-- The attributes of a chain creation request and the outcomes of the calls
`nf_tables_addchain` makes outside the engine (allocations, hook parsing and
registration, the name index). -/
structure AddChainEnv where
  name : String := ""
  hook : Bool := false
  parse_hook : Int := 0
  chain_alloc_ok : Bool := true
  counters : Option Int := none
  offload_priority : Int := 0
  name_ok : Bool := true
  rules : Kvmalloc := {}
  register_hook : Int := 0
  ht_insert : Int := 0
  trans_ok : Bool := true

/-- `nf_tables_register_hook`: nothing to do for a dormant table or a regular chain,
otherwise the result of the hook registration service. -/
def nf_tables_register_hook (s : State) (table chain : Ptr) (result : Int) : Int :=
  if (s.table table).flags &&& NFT_TABLE_F_DORMANT ≠ 0 ∨ !nft_is_base_chain (s.chain chain) then 0
  else result

/-- The part of `nf_tables_addchain` after the chain object `chain` is allocated
(from `ctx->chain = chain` on). -/
def nf_tables_addchain_init (ctx : nft_ctx) (chain : Ptr) (policy : Int) (env : AddChainEnv)
    (s : State) : Int × State :=
  let h := nf_tables_alloc_handle s ctx.table
  let s1 := h.2.updChain chain (fun c =>
    { c with rules := [], handle := h.1, table := ctx.table, name := env.name })
  if !env.name_ok then (-ENOMEM, s1)
  else
    match nf_tables_chain_alloc_rules 0 env.rules s1 with
    | (none, s2) => (-ENOMEM, s2)
    | (some rules, s2) =>
      let s3 := { s2 with
        rules_mem := Function.update s2.rules_mem rules ((s2.rules_mem rules).set 0 none) }
      let s4 := s3.updChain chain (fun c => { c with rules_gen_0 := rules, rules_gen_1 := rules })
      let err := nf_tables_register_hook s4 ctx.table chain env.register_hook
      if err < 0 then (err, s4)
      else if !(nft_use_inc (s4.table ctx.table).use).1 then (-EMFILE, s4)
      else
        let s5 := s4.updTable ctx.table (fun t => { t with use := (nft_use_inc t.use).2 })
        if env.ht_insert ≠ 0 then (env.ht_insert, table_use_dec s5 ctx.table)
        else
          match nft_trans_chain_add { ctx with chain := chain } .NEWCHAIN env.trans_ok s5 with
          | none => (-ENOMEM, table_use_dec s5 ctx.table)
          | some s6 =>
            let s7 := s6.updLastTrans (fun t =>
              { t with chain_policy :=
                  if nft_is_base_chain (s6.chain chain) then policy else NFT_CHAIN_POLICY_UNSET })
            (0, s7.updTable ctx.table (fun t => { t with chains := t.chains ++ [chain] }))

/-- Create a chain.  The new chain object is at the address `s.brk`. -/
def nf_tables_addchain (ctx : nft_ctx) (policy : Int) (flags : Nat) (env : AddChainEnv)
    (s : State) : Int × State :=
  if env.hook then
    if (s.table ctx.table).flags &&& __NFT_TABLE_F_UPDATE ≠ 0 then (-EINVAL, s)
    else if env.parse_hook < 0 then (env.parse_hook, s)
    else if !env.chain_alloc_ok then (-ENOMEM, s)
    else if (match env.counters with | some e => decide (e < 0) | none => false) then
      (env.counters.getD 0, s)
    else
      let s1 := { s with
        chain := Function.update s.chain s.brk
          { flags := NFT_BASE_CHAIN ||| flags, policy := NF_ACCEPT },
        brk := s.brk + 1 }
      if (NFT_BASE_CHAIN ||| flags) &&& NFT_CHAIN_HW_OFFLOAD ≠ 0 ∧ env.offload_priority < 0 then
        (-EOPNOTSUPP, s1)
      else nf_tables_addchain_init ctx s.brk policy env s1
  else
    if !env.chain_alloc_ok then (-ENOMEM, s)
    else
      nf_tables_addchain_init ctx s.brk policy env
        { s with chain := Function.update s.chain s.brk {}, brk := s.brk + 1 }

/-- The attributes of a chain update request and the outcomes of the calls
`nf_tables_updchain` makes outside the engine. -/
structure UpdChainEnv where
  hook : Bool := false
  parse_hook : Int := 0
  hook_same : Bool := true
  rename : Option String := none
  counters : Option Int := none
  has_policy : Bool := false
  trans_ok : Bool := true
  name_ok : Bool := true

/-- Stage the update of the chain `ctx.chain`. -/
def nf_tables_updchain (ctx : nft_ctx) (genmask : Nat) (policy : Int) (flags : Nat)
    (env : UpdChainEnv) (s : State) : Int × State :=
  if (s.chain ctx.chain).flags ^^^ flags ≠ 0 then (-EOPNOTSUPP, s)
  else if env.hook ∧ !nft_is_base_chain (s.chain ctx.chain) then (-EBUSY, s)
  else if env.hook ∧ env.parse_hook < 0 then (env.parse_hook, s)
  else if env.hook ∧ !env.hook_same then (-EBUSY, s)
  else if (match env.rename with
      | some n => (nft_chain_lookup s ctx.table n genmask).isSome
      | none => false) then (-EEXIST, s)
  else if env.counters.isSome ∧ !nft_is_base_chain (s.chain ctx.chain) then (-EOPNOTSUPP, s)
  else if (match env.counters with | some e => decide (e < 0) | none => false) then
    (env.counters.getD 0, s)
  else if !env.trans_ok then (-ENOMEM, s)
  else
    let trans : nft_trans :=
      { msg_type := .NEWCHAIN, ctx_table := ctx.table, ctx_chain := ctx.chain,
        chain_update := true, chain_policy := if env.has_policy then policy else -1 }
    match env.rename with
    | some n =>
      if !env.name_ok then (-ENOMEM, s)
      else if s.commit_list.any (fun tmp =>
          tmp.msg_type = .NEWCHAIN ∧ tmp.ctx_table = ctx.table ∧ tmp.chain_update ∧
          tmp.chain_name = some n) then (-EEXIST, s)
      else (0, nft_trans_commit_list_add_tail s { trans with chain_name := some n })
    | none => (0, nft_trans_commit_list_add_tail s trans)

/-! ## Batches of staged deletions -/

/-- A staged deletion: the helper that is called and its arguments. -/
inductive DelOp where
  | delchain (ctx : nft_ctx) (kzalloc_ok : Bool)
  | delrule (ctx : nft_ctx) (rule : Ptr) (kzalloc_ok : Bool)
  | delset (ctx : nft_ctx) (set : Ptr) (kzalloc_ok : Bool)
  | delobj (ctx : nft_ctx) (obj : Ptr) (kzalloc_ok : Bool)
  | delflowtable (ctx : nft_ctx) (flowtable : Ptr) (kzalloc_ok : Bool)

/-- The generation mask of the entity a deletion names. -/
def DelOp.genmask (s : State) : DelOp → Nat
  | .delchain ctx _ => (s.chain ctx.chain).genmask
  | .delrule _ rule _ => (s.rule rule).genmask
  | .delset _ set _ => (s.set set).genmask
  | .delobj _ obj _ => (s.obj obj).genmask
  | .delflowtable _ ft _ => (s.flowtable ft).genmask

/-- Every use counter of the state is a `u32` value. -/
def State.u32_counters (s : State) : Prop :=
  (∀ t, (s.table t).use ≤ UINT_MAX) ∧ (∀ c, (s.chain c).use ≤ UINT_MAX) ∧
  (∀ o, (s.obj o).use ≤ UINT_MAX) ∧ (∀ x, (s.set x).use ≤ UINT_MAX) ∧
  (∀ f, (s.flowtable f).use ≤ UINT_MAX)

/-! ## Auxiliary notions for the abort proofs -/

/-- Relation between an object's generation mask while aborting (`gx`) and while
staging (`gy`): equal, or already cleared while staging had deactivated the object. -/
def GenRel (m gx gy : Nat) : Prop := gx = gy ∨ (gx = 0 ∧ gy = m)

/-- Number of jump/goto references from the data to the chain. -/
def data_chain_refs (d : nft_data) (c : Ptr) : Nat :=
  match d with
  | .verdict code ch => if (code = NFT_JUMP ∨ code = NFT_GOTO) ∧ ch = c then 1 else 0
  | .value _ => 0

/-- Number of jump/goto references from the element to the chain. -/
def elem_chain_refs (ext : nft_set_ext) (c : Ptr) : Nat :=
  match ext.data with
  | some d => data_chain_refs d c
  | none => 0

/-- Number of references from the element to the stateful object. -/
def elem_obj_refs (ext : nft_set_ext) (o : Ptr) : Nat :=
  match ext.objref with
  | some p => if p = o then 1 else 0
  | none => 0

/-- The state `w` differs from `z` at most in the use counters of chains and objects
(and in the warning flag and the callback log). -/
structure UseFrame (z w : State) : Prop where
  gencursor : w.gencursor = z.gencursor
  tables : w.tables = z.tables
  commit_list : w.commit_list = z.commit_list
  table : w.table = z.table
  rule : w.rule = z.rule
  set : w.set = z.set
  elem : w.elem = z.elem
  flowtable : w.flowtable = z.flowtable
  chain : ∀ c, { w.chain c with use := 0 } = { z.chain c with use := 0 }
  obj : ∀ o, { w.obj o with use := 0 } = { z.obj o with use := 0 }

/-- The references the expressions of a rule hold: the number of references to every
chain, stateful object, set and flowtable, and the anonymous sets, whose generation
mask the callbacks write. -/
structure ExprRefs where
  chain : Ptr → Nat
  obj : Ptr → Nat
  set : Ptr → Nat
  flowtable : Ptr → Nat
  anon : Ptr → Bool

def ExprRefs.zero : ExprRefs :=
  { chain := fun _ => 0, obj := fun _ => 0, set := fun _ => 0, flowtable := fun _ => 0,
    anon := fun _ => false }

def ExprRefs.add (a b : ExprRefs) : ExprRefs :=
  { chain := fun p => a.chain p + b.chain p, obj := fun p => a.obj p + b.obj p,
    set := fun p => a.set p + b.set p, flowtable := fun p => a.flowtable p + b.flowtable p,
    anon := fun p => a.anon p || b.anon p }

/-- The elements of the set that the walks of `nft_map_activate` and
`nft_map_deactivate` visit. -/
def map_elems (s : State) (set : Ptr) : List Ptr :=
  (s.set set).elems.filter
    (fun e => nft_active_genmask (s.elem e).genmask (nft_genmask_next s.gencursor))

/-- The references of one expression: a verdict expression refers to the chain of its
jump or goto, a reference to an object or flowtable to it, an expression bound to a set
to the set, and through an anonymous map to what the elements of the map refer to. -/
def expr_refs (s : State) : nft_expr → ExprRefs
  | .immediate code chain =>
    { ExprRefs.zero with chain := data_chain_refs (.verdict code chain) }
  | .lookup set _ _ =>
    if nft_set_is_anonymous (s.set set) then
      if (s.set set).flags &&& (NFT_SET_MAP ||| NFT_SET_OBJECT) ≠ 0 then
        { chain := fun c => ((map_elems s set).map (fun e => elem_chain_refs (s.elem e) c)).sum,
          obj := fun o => ((map_elems s set).map (fun e => elem_obj_refs (s.elem e) o)).sum,
          set := fun x => if set = x then 1 else 0,
          flowtable := fun _ => 0,
          anon := fun x => decide (set = x) }
      else
        { ExprRefs.zero with set := fun x => if set = x then 1 else 0,
                             anon := fun x => decide (set = x) }
    else { ExprRefs.zero with set := fun x => if set = x then 1 else 0 }
  | .objref obj => { ExprRefs.zero with obj := fun o => if obj = o then 1 else 0 }
  | .flow_offload flowtable _ =>
    { ExprRefs.zero with flowtable := fun f => if flowtable = f then 1 else 0 }
  | .other _ => ExprRefs.zero

/-- The references of a list of expressions. -/
def exprs_refs (s : State) : List nft_expr → ExprRefs
  | [] => ExprRefs.zero
  | e :: es => (expr_refs s e).add (exprs_refs s es)

/-- The state `w` differs from `z` at most in the use counters of chains, stateful
objects, sets and flowtables, in the generation masks of sets and in the warning
flag. -/
structure ExprFrame (z w : State) : Prop where
  gencursor : w.gencursor = z.gencursor
  tables : w.tables = z.tables
  commit_list : w.commit_list = z.commit_list
  table : w.table = z.table
  rule : w.rule = z.rule
  elem : w.elem = z.elem
  chain : ∀ c, { w.chain c with use := 0 } = { z.chain c with use := 0 }
  obj : ∀ o, { w.obj o with use := 0 } = { z.obj o with use := 0 }
  set : ∀ x, { w.set x with use := 0, genmask := 0 } = { z.set x with use := 0, genmask := 0 }
  flowtable : ∀ f, { w.flowtable f with use := 0 } = { z.flowtable f with use := 0 }

/-- The state `w` differs from `z` at most in what the callbacks of expressions write:
the use counters of chains, stateful objects, sets and flowtables, the generation masks,
bindings and dead flags of sets, the set lists of tables, the bound flags of records and
the warning flag. -/
structure CallbackFrame (z w : State) : Prop where
  gencursor : w.gencursor = z.gencursor
  tables : w.tables = z.tables
  rule : w.rule = z.rule
  elem : w.elem = z.elem
  chain : ∀ c, { w.chain c with use := 0 } = { z.chain c with use := 0 }
  obj : ∀ o, { w.obj o with use := 0 } = { z.obj o with use := 0 }
  flowtable : ∀ f, { w.flowtable f with use := 0 } = { z.flowtable f with use := 0 }
  set : ∀ x, { w.set x with use := 0, genmask := 0, bindings := [], dead := false } =
    { z.set x with use := 0, genmask := 0, bindings := [], dead := false }
  table : ∀ t, { w.table t with sets := [] } = { z.table t with sets := [] }
  commit_list : w.commit_list.map (fun r => { r with set_bound := false }) =
    z.commit_list.map (fun r => { r with set_bound := false })

/-- The state `w` has the counters, the validation state, the destroy list, the array
memory and the allocator of `z`. -/
structure MetaFrame (z w : State) : Prop where
  base_seq : w.base_seq = z.base_seq
  gc_seq : w.gc_seq = z.gc_seq
  validate_state : w.validate_state = z.validate_state
  destroy_list : w.destroy_list = z.destroy_list
  rules_mem : w.rules_mem = z.rules_mem
  rcu_free : w.rcu_free = z.rcu_free
  brk : w.brk = z.brk

/-- The state `w` results from `z` by dropping the references `r`: the use counters
are lower by the numbers of references, and the anonymous sets of `r` are inactive in
the next generation. -/
structure Dropped (z w : State) (r : ExprRefs) : Prop where
  frame : ExprFrame z w
  chain : ∀ c, (z.chain c).use = (w.chain c).use + r.chain c
  obj : ∀ o, (z.obj o).use = (w.obj o).use + r.obj o
  set : ∀ x, (z.set x).use = (w.set x).use + r.set x
  flowtable : ∀ f, (z.flowtable f).use = (w.flowtable f).use + r.flowtable f
  genmask : ∀ x, (w.set x).genmask =
    if r.anon x then nft_genmask_next z.gencursor else (z.set x).genmask

/-- The sets the expressions of the rule of a staged rule deletion are bound to. -/
def DelOp.sets (s : State) : DelOp → List Ptr
  | .delrule _ rule _ =>
    (s.rule rule).exprs.filterMap (fun e => match e with
      | .lookup set _ _ => some set
      | _ => none)
  | _ => []

/-- The array a chain publishes for the generation `bit` (`rules_gen_0` / `rules_gen_1`). -/
def nft_chain.rules_gen (c : nft_chain) (bit : Nat) : Ptr :=
  if bit = 0 then c.rules_gen_0 else c.rules_gen_1

/-- The rules of the chain that are active in the next generation, in list order. -/
def active_next_rules (s : State) (chain : Ptr) : List Ptr :=
  (s.chain chain).rules.filter (fun r => nft_is_active_next s.gencursor (s.rule r).genmask)


/-! ## Example states -/

/-- Example: chain `10` with the array `1` in both slots and the prepared array `2`. -/
def ex_publish_state : State :=
  { chain := fun p => if p = 10 then
        { rules := [100, 101], rules_gen_0 := 1, rules_gen_1 := 1, rules_next := some 2 }
      else {},
    rules_mem := fun p => if p = 1 then [some 100, none] else if p = 2 then [some 100, some 101, none]
      else [],
    brk := 3 }

/-- Example: chain `10` without a prepared array whose slots differ (cursor `1`). -/
def ex_converge_state : State :=
  { gencursor := 1,
    chain := fun p => if p = 10 then
        { rules := [100], rules_gen_0 := 1, rules_gen_1 := 2, rules_next := none }
      else {},
    rules_mem := fun p => if p = 1 then [none] else if p = 2 then [some 100, none] else [],
    brk := 3 }

/-- Example: chain `10` with rules `100` (committed), `101` (deleted in this batch) and
`102` (added in this batch); the fresh memory holds stale pointers. -/
def ex_prepare_state : State :=
  { chain := fun p => if p = 10 then { rules := [100, 101, 102], rules_gen_0 := 1, rules_gen_1 := 1 }
      else {},
    rule := fun p => if p = 101 then { handle := 2, genmask := 2 }
      else if p = 102 then { handle := 3, genmask := 1 } else { handle := 1 },
    rules_mem := fun p => if p = 1 then [some 100, some 101, none] else [],
    brk := 2 }


/-- Example namespace: table `1` with chains `10` (one rule, `100`) and `11`, the
verdict map `20` whose element `200` jumps to chain `11`, object `30` and flowtable
`40`.  The rule jumps to chain `11`, is bound to the anonymous verdict map `21`, whose
element `201` goes to chain `11`, and refers to the object and to the flowtable. -/
def ex_del_state : State :=
  { table := fun p => if p = 1 then
        { use := 5, chains := [10, 11], sets := [20, 21], objects := [30], flowtables := [40] }
      else {},
    tables := [1],
    chain := fun p =>
      if p = 10 then { table := 1, use := 1, rules := [100] }
      else if p = 11 then { table := 1, use := 3 }
      else {},
    rule := fun p =>
      if p = 100 then
        { handle := 1,
          exprs := [.immediate NFT_JUMP 11, .lookup 21 { chain := 10, flags := NFT_SET_MAP } none,
            .objref 30, .flow_offload 40 none] }
      else {},
    set := fun p =>
      if p = 20 then { table := 1, flags := NFT_SET_MAP, elems := [200], nelems := 1 }
      else if p = 21 then
        { table := 1, flags := NFT_SET_ANONYMOUS ||| NFT_SET_MAP, use := 1,
          bindings := [{ chain := 10, flags := NFT_SET_MAP }], elems := [201], nelems := 1 }
      else {},
    elem := fun p =>
      if p = 200 then { key := [7], data := some (.verdict NFT_JUMP 11) }
      else if p = 201 then { key := [8], data := some (.verdict NFT_GOTO 11) }
      else {},
    obj := fun p => if p = 30 then { table := 1, use := 1 } else {},
    flowtable := fun p => if p = 40 then { table := 1, use := 1 } else {} }

/-- Example: base chain `10` of table `1` holds the staged rule `100` whose expression's
`validate` callback fails with `-EOPNOTSUPP`; validation is needed. -/
def ex_invalid_state : State :=
  { validate_state := NFT_VALIDATE_NEED,
    tables := [1],
    table := fun p => if p = 1 then { use := 1, chains := [10] } else {},
    chain := fun p => if p = 10 then
        { table := 1, flags := NFT_BASE_CHAIN, policy := NF_ACCEPT, use := 1, rules := [100],
          rules_gen_0 := 1, rules_gen_1 := 1 }
      else {},
    rule := fun p => if p = 100 then { handle := 1, genmask := 1, exprs := [.other (some (-95))] }
      else {},
    rules_mem := fun p => if p = 1 then [none] else [],
    brk := 2,
    commit_list := [{ msg_type := .NEWRULE, ctx_table := 1, ctx_chain := 10, rule := 100 }] }

/-- The state `s'` differs from `s` at most in the prepared arrays (`rules_next`), the
array memory and the allocator. -/
structure PrepFrame (s s' : State) : Prop where
  gencursor : s'.gencursor = s.gencursor
  base_seq : s'.base_seq = s.base_seq
  gc_seq : s'.gc_seq = s.gc_seq
  tables : s'.tables = s.tables
  commit_list : s'.commit_list = s.commit_list
  table : s'.table = s.table
  rule : s'.rule = s.rule
  set : s'.set = s.set
  chain : ∀ c, { s'.chain c with rules_next := none } = { s.chain c with rules_next := none }

/-- Example: a batch with a new rule `101` in chain `10`, ready to commit. -/
def ex_commit_state : State :=
  { tables := [1],
    table := fun p => if p = 1 then { use := 1, chains := [10] } else {},
    chain := fun p => if p = 10 then
        { table := 1, flags := NFT_BASE_CHAIN, policy := NF_ACCEPT, use := 2, rules := [100, 101],
          rules_gen_0 := 1, rules_gen_1 := 1 }
      else {},
    rule := fun p => if p = 100 then { handle := 1 } else if p = 101 then { handle := 2, genmask := 1 }
      else {},
    rules_mem := fun p => if p = 1 then [some 100, none] else [],
    brk := 2,
    commit_list := [{ msg_type := .NEWRULE, ctx_table := 1, ctx_chain := 10, rule := 101 }] }

/-! ## C7: validation of jump cycles: definitions -/

/-- Example: the regular chains `10` and `11` of table `1` hold the staged rules `100`
(`goto 11`) and `101` (`goto 10`); the table has no base chain. -/
def ex_cycle_state : State :=
  { validate_state := NFT_VALIDATE_NEED,
    tables := [1],
    table := fun p => if p = 1 then { use := 2, chains := [10, 11] } else {},
    chain := fun p =>
      if p = 10 then { table := 1, use := 2, rules := [100], rules_gen_0 := 1, rules_gen_1 := 1 }
      else if p = 11 then
        { table := 1, use := 2, rules := [101], rules_gen_0 := 2, rules_gen_1 := 2 }
      else {},
    rule := fun p =>
      if p = 100 then { handle := 3, genmask := 1, exprs := [.immediate NFT_GOTO 11] }
      else if p = 101 then { handle := 4, genmask := 1, exprs := [.immediate NFT_GOTO 10] }
      else {},
    rules_mem := fun p => if p = 1 then [none] else if p = 2 then [none] else [],
    brk := 3,
    commit_list :=
      [{ msg_type := .NEWRULE, ctx_table := 1, ctx_chain := 10, rule := 100 },
       { msg_type := .NEWRULE, ctx_table := 1, ctx_chain := 11, rule := 101 }] }

/-- Example: an empty table `1`; the next free address is `10`. -/
def ex_policy_state : State :=
  { tables := [1],
    table := fun p => if p = 1 then { hgenerator := 0 } else {},
    brk := 10 }

/-- Example: a request for a base chain. -/
def ex_policy_env : AddChainEnv :=
  { name := "input", hook := true }

/-! ## C10: adding a set element: definitions -/

def EOVERFLOW : Int := 75

def NFT_DATA_VALUE : Nat := 0

def NFT_DATA_VERDICT : Nat := 0xffffff00

def NFT_DATA_VALUE_MAXLEN : Nat := 64

/-- Modelled from the spec: `sizeof(struct nft_verdict)` of the header (a `u32` code and
a chain pointer, 64-bit layout). -/
def NFT_VERDICT_SIZE : Nat := 16

/-- Modelled from the spec: header enum `nft_registers` and the register sizes. -/
def NFT_REG_VERDICT : Nat := 0

def NFT_REG_1 : Nat := 1

def NFT_REG_SIZE : Nat := 16

def NFT_REG32_SIZE : Nat := 4

/-- Modelled from the spec: `FIELD_SIZEOF(struct nft_regs, data)` of the header, twenty
32-bit registers. -/
def NFT_REGS_DATA_SIZE : Nat := 80

def NSEC_PER_MSEC : Nat := 1000000

/-- Modelled from the spec: the timer frequency `HZ` of the kernel configuration. -/
def HZ : Nat := 250

/-- Modelled from the spec: `nsecs_to_jiffies64` of the timer code, not under src/. -/
def nsecs_to_jiffies64 (n : Nat) : Nat :=
  n / (1000000000 / HZ)

/-- Modelled from the spec: header helper `nft_type_to_reg`. -/
def nft_type_to_reg (type : Nat) : Nat :=
  if type = NFT_DATA_VERDICT then NFT_REG_VERDICT else NFT_REG_1 * NFT_REG_SIZE / NFT_REG32_SIZE

structure nft_data_desc where
  type : Nat := 0
  len : Nat := 0
  deriving DecidableEq, Repr

/-- A nested verdict attribute as `nla_parse_nested_deprecated` delivers it: the result
of the parse, `NFTA_VERDICT_CODE` and `NFTA_VERDICT_CHAIN`. -/
structure VerdictAttr where
  parse : Int := 0
  code : Option Int := none
  chain : Option String := none
  deriving DecidableEq, Repr

/-- A nested data attribute: the result of the parse, `NFTA_DATA_VALUE` (its bytes)
and `NFTA_DATA_VERDICT`. -/
structure DataAttr where
  parse : Int := 0
  value : Option (List Nat) := none
  verdict : Option VerdictAttr := none
  deriving DecidableEq, Repr

/-- The attributes of one element of `NFTA_SET_ELEM_LIST_ELEMENTS`.  `timeout` and
`expiration` are the 64-bit millisecond values, `objref` is what the object name index
holds under the attribute's name for the set's object type. -/
structure SetElemAttr where
  parse : Int := 0
  key : Option DataAttr := none
  flags : Option Nat := none
  data : Option DataAttr := none
  objref : Option (List Ptr) := none
  timeout : Option Nat := none
  expiration : Option Nat := none
  userdata : Option (List Nat) := none
  expr : Bool := false
  deriving DecidableEq, Repr

/-- What `nft_add_set_elem` gets from outside the engine: the clock and the two
allocations. -/
structure AddElemEnv where
  jiffies : Nat := 0
  elem_alloc_ok : Bool := true
  trans_alloc_ok : Bool := true
  deriving DecidableEq, Repr

/-- `nf_msecs_to_jiffies64` on the 64-bit millisecond value of the attribute; the second
component is the value stored in `*result` (`0` when nothing is stored).  The product
`ms *= NSEC_PER_MSEC` is a `u64`. -/
def nf_msecs_to_jiffies64 (ms : Nat) : Int × Nat :=
  if ms ≥ (2 ^ 64 - 1) / NSEC_PER_MSEC then (-ERANGE, 0)
  else
    (0, if nsecs_to_jiffies64 (ms * NSEC_PER_MSEC % 2 ^ 64) ≠ 0 then
        nsecs_to_jiffies64 (ms * NSEC_PER_MSEC % 2 ^ 64)
      else if ms * NSEC_PER_MSEC % 2 ^ 64 ≠ 0 then 1 else 0)

def nft_value_init (size : Nat) (nla : List Nat) : Int × nft_data × nft_data_desc :=
  if nla.length = 0 then (-EINVAL, .value [], {})
  else if nla.length > size then (-EOVERFLOW, .value [], {})
  else (0, .value nla, { type := NFT_DATA_VALUE, len := nla.length })

def nft_verdict_init (s : State) (ctx : nft_ctx) (nla : VerdictAttr) :
    Int × State × nft_data × nft_data_desc :=
  if nla.parse < 0 then (nla.parse, s, .value [], {})
  else
    match nla.code with
    | none => (-EINVAL, s, .value [], {})
    | some code =>
      if code = NF_ACCEPT ∨ code = NF_DROP ∨ code = NF_QUEUE ∨
          code = NFT_CONTINUE ∨ code = NFT_BREAK ∨ code = NFT_RETURN then
        (0, s, .verdict code 0, { type := NFT_DATA_VERDICT, len := NFT_VERDICT_SIZE })
      else if code = NFT_JUMP ∨ code = NFT_GOTO then
        match nla.chain with
        | none => (-EINVAL, s, .verdict code 0, {})
        | some name =>
          match nft_chain_lookup s ctx.table name (nft_genmask_next s.gencursor) with
          | none => (-ENOENT, s, .verdict code 0, {})
          | some chain =>
            if nft_is_base_chain (s.chain chain) then (-EOPNOTSUPP, s, .verdict code 0, {})
            else if !(nft_use_inc (s.chain chain).use).1 then (-EMFILE, s, .verdict code 0, {})
            else
              (0, s.updChain chain (fun c => { c with use := (nft_use_inc c.use).2 }),
                .verdict code chain, { type := NFT_DATA_VERDICT, len := NFT_VERDICT_SIZE })
      else (-EINVAL, s, .verdict code 0, {})

/-- `nft_data_init` with a context (`ctx != NULL`). -/
def nft_data_init (s : State) (ctx : nft_ctx) (size : Nat) (nla : DataAttr) :
    Int × State × nft_data × nft_data_desc :=
  if nla.parse < 0 then (nla.parse, s, .value [], {})
  else
    match nla.value with
    | some v => ((nft_value_init size v).1, s, (nft_value_init size v).2)
    | none =>
      match nla.verdict with
      | some v => nft_verdict_init s ctx v
      | none => (-EINVAL, s, .value [], {})

/-- `nft_data_release(data, type)`: nothing for a type below `NFT_DATA_VERDICT`. -/
def nft_data_release_type (s : State) (data : nft_data) (type : Nat) : State :=
  if type < NFT_DATA_VERDICT then s
  else if type = NFT_DATA_VERDICT then nft_data_release s data
  else s.warn true

def nft_setelem_parse_flags (set : nft_set) (attr : Option Nat) : Int × Nat :=
  match attr with
  | none => (0, 0)
  | some flags =>
    if flags &&& (UINT_MAX ^^^ NFT_SET_ELEM_INTERVAL_END) ≠ 0 then (-EINVAL, flags)
    else if set.flags &&& NFT_SET_INTERVAL = 0 ∧ flags &&& NFT_SET_ELEM_INTERVAL_END ≠ 0 then
      (-EINVAL, flags)
    else (0, flags)

def nft_setelem_parse_key (s : State) (ctx : nft_ctx) (set : Ptr) (attr : DataAttr) :
    Int × State × nft_data :=
  let r := nft_data_init s ctx NFT_DATA_VALUE_MAXLEN attr
  if r.1 < 0 then (r.1, r.2.1, r.2.2.1)
  else if r.2.2.2.type ≠ NFT_DATA_VALUE ∨ r.2.2.2.len ≠ (s.set set).klen then
    (-EINVAL, nft_data_release_type r.2.1 r.2.2.1 r.2.2.2.type, r.2.2.1)
  else (0, r.2.1, r.2.2.1)

def nft_setelem_parse_data (s : State) (ctx : nft_ctx) (set : Ptr) (attr : DataAttr) :
    Int × State × nft_data × nft_data_desc :=
  let r := nft_data_init s ctx NFT_DATA_VALUE_MAXLEN attr
  if r.1 < 0 then r
  else
    let dtype := if (s.set set).dtype = NFT_DATA_VERDICT then NFT_DATA_VERDICT else NFT_DATA_VALUE
    if dtype ≠ r.2.2.2.type ∨ (s.set set).dlen ≠ r.2.2.2.len then
      (-EINVAL, nft_data_release_type r.2.1 r.2.2.1 r.2.2.2.type, r.2.2.1, r.2.2.2)
    else r

/-- `nft_obj_lookup` on the objects the name index returns. -/
def nft_obj_lookup (s : State) (list : List Ptr) (genmask : Nat) : Option Ptr :=
  list.find? (fun o => nft_active_genmask (s.obj o).genmask genmask)

def nft_validate_register_store (s : State) (ctx : nft_ctx) (reg : Nat) (data : nft_data)
    (type len : Nat) : Int :=
  if reg = NFT_REG_VERDICT then
    if type ≠ NFT_DATA_VERDICT then -EINVAL
    else
      match data with
      | .verdict code chain =>
        if (code = NFT_GOTO ∨ code = NFT_JUMP) ∧
            nft_chain_validate s (NFT_JUMP_STACK_SIZE - ctx.level) chain < 0 then
          nft_chain_validate s (NFT_JUMP_STACK_SIZE - ctx.level) chain
        else 0
      | .value _ => 0
  else
    if type ≠ NFT_DATA_VALUE then -EINVAL
    else if reg < NFT_REG_1 * NFT_REG_SIZE / NFT_REG32_SIZE then -EINVAL
    else if len = 0 then -EINVAL
    else if reg * NFT_REG32_SIZE + len > NFT_REGS_DATA_SIZE then -ERANGE
    else 0

/-- The test `data->verdict.code == NFT_GOTO || data->verdict.code == NFT_JUMP`. -/
def nft_data.is_jump (d : nft_data) : Bool :=
  match d with
  | .verdict code _ => decide (code = NFT_GOTO ∨ code = NFT_JUMP)
  | .value _ => false

/-- The loop of `nft_add_set_elem` over the bindings of the set. -/
def add_elem_bindings (ctx : nft_ctx) (dreg : Nat) (data : nft_data) (desc : nft_data_desc) :
    List nft_set_binding → State → Int × State
  | [], s => (0, s)
  | binding :: rest, s =>
    if binding.flags &&& NFT_SET_MAP = 0 then add_elem_bindings ctx dreg data desc rest s
    else if nft_validate_register_store s { table := ctx.table, chain := binding.chain } dreg data
        desc.type desc.len < 0 then
      (nft_validate_register_store s { table := ctx.table, chain := binding.chain } dreg data
        desc.type desc.len, s)
    else
      add_elem_bindings ctx dreg data desc rest
        (if desc.type = NFT_DATA_VERDICT ∧ data.is_jump then
          nft_validate_state_update s NFT_VALIDATE_NEED
        else s)

/-- The bytes a `memcpy` of `len` bytes takes from a `struct nft_data`. -/
def nft_data.bytes (d : nft_data) (len : Nat) : List Nat :=
  match d with
  | .value b => b.take len
  | .verdict _ _ => []

/-- `nft_set_elem_init`, followed by the stores of the flags, the user data and the
object into the new element.  On success the element is at the address `s.brk`. -/
def nft_set_elem_init (s : State) (set : Ptr) (key : nft_data) (data : Option nft_data)
    (obj : Option Ptr) (flags : Nat) (timeout expiration : Nat) (userdata : Option (List Nat))
    (env : AddElemEnv) : Option Ptr × State :=
  if !env.elem_alloc_ok then (none, s)
  else
    (some s.brk,
      { s with
        elem := Function.update s.elem s.brk
          { key := key.bytes (s.set set).klen,
            genmask := 0,
            flags := flags,
            data := data,
            objref := obj,
            timeout := if timeout > 0 ∧ timeout ≠ (s.set set).timeout then some timeout else none,
            expiration :=
              if timeout > 0 then
                some ((env.jiffies + expiration + (if expiration = 0 then timeout else 0)) % 2 ^ 64)
              else none,
            userdata :=
              match userdata with
              | some u => if u.length % 256 > 0 then some (u.take (u.length % 256)) else none
              | none => none },
        brk := s.brk + 1 })

/-- The label `err2` of `nft_add_set_elem`. -/
def add_elem_err2 (s : State) (obj : Option Ptr) : State :=
  match obj with
  | some o => obj_use_dec s o
  | none => s

/-- The label `err3` of `nft_add_set_elem`. -/
def add_elem_err3 (s : State) (data : Option (nft_data × nft_data_desc)) (obj : Option Ptr) :
    State :=
  add_elem_err2
    (match data with
      | some d => nft_data_release_type s d.1 d.2.type
      | none => s) obj

/-- The locals of `nft_add_set_elem` at the call of the backend's `insert`. -/
structure ElemBuild where
  err : Int := 0
  s : State
  elem : Ptr := 0
  data : Option (nft_data × nft_data_desc) := none
  obj : Option Ptr := none

/-- Modelled from the spec: the backend's `insert(elem) -> (ok | conflict-with-existing)`;
the backends are not under src/.  An element of the container with the same key that is
active in the next generation is the conflict, reported with `-EEXIST`; otherwise the
element joins the container. -/
def set_ops_insert (s : State) (set elem : Ptr) : Option Ptr × State :=
  match (s.set set).elems.find? (fun e => (s.elem e).key = (s.elem elem).key ∧
      nft_active_genmask (s.elem e).genmask (nft_genmask_next s.gencursor)) with
  | some e => (some e, s)
  | none => (none, s.updSet set (fun x => { x with elems := x.elems ++ [elem] }))

/-- The test `memcmp(a, b, len) != 0` on two `struct nft_data`. -/
def nft_data_differ (a b : nft_data) (len : Nat) : Bool :=
  match a, b with
  | .value x, .value y => x.take len != y.take len
  | .verdict c x, .verdict d y => c != d || x != y
  | _, _ => true

/-- The timeout and the expiration of the new element, in jiffies (the part of
`nft_add_set_elem` from `timeout = 0` to the call of `nft_setelem_parse_key`). -/
def add_elem_timeouts (set : nft_set) (nla : SetElemAttr) : Int × Nat × Nat :=
  let t : Int × Nat :=
    match nla.timeout with
    | some ms =>
      if set.flags &&& NFT_SET_TIMEOUT = 0 then (-EINVAL, 0)
      else nf_msecs_to_jiffies64 ms
    | none => (0, if set.flags &&& NFT_SET_TIMEOUT ≠ 0 then set.timeout else 0)
  if t.1 ≠ 0 then (t.1, 0, 0)
  else
    match nla.expiration with
    | some ms =>
      if set.flags &&& NFT_SET_TIMEOUT = 0 then (-EINVAL, 0, 0)
      else if t.2 = 0 then (-EOPNOTSUPP, 0, 0)
      else if (nf_msecs_to_jiffies64 ms).1 ≠ 0 then ((nf_msecs_to_jiffies64 ms).1, 0, 0)
      else if (nf_msecs_to_jiffies64 ms).2 > t.2 then (-ERANGE, 0, 0)
      else (0, t.2, (nf_msecs_to_jiffies64 ms).2)
    | none => (0, t.2, 0)

/-- The checks of `nft_add_set_elem` on the presence of the attributes, after the flags
are parsed. -/
def add_elem_attr_check (set : nft_set) (nla : SetElemAttr) (flags : Nat) : Int :=
  if (if set.flags &&& NFT_SET_MAP ≠ 0 then
        nla.data.isNone ∧ flags &&& NFT_SET_ELEM_INTERVAL_END = 0
      else nla.data.isSome) then -EINVAL
  else if (if set.flags &&& NFT_SET_OBJECT ≠ 0 then
        nla.objref.isNone ∧ flags &&& NFT_SET_ELEM_INTERVAL_END = 0
      else nla.objref.isSome) then -EINVAL
  else if flags &&& NFT_SET_ELEM_INTERVAL_END ≠ 0 ∧
      (nla.data.isSome ∨ nla.objref.isSome ∨ nla.timeout.isSome ∨ nla.expiration.isSome ∨
        nla.userdata.isSome ∨ nla.expr) then -EINVAL
  else 0

/-- The object reference of the new element: `nft_obj_lookup` and `nft_use_inc`.  A
failure leaves `obj = NULL`. -/
def add_elem_objref (s : State) (attr : Option (List Ptr)) : Int × State × Option Ptr :=
  match attr with
  | none => (0, s, none)
  | some list =>
    match nft_obj_lookup s list (nft_genmask_next s.gencursor) with
    | none => (-ENOENT, s, none)
    | some obj =>
      if !(nft_use_inc (s.obj obj).use).1 then (-EMFILE, s, none)
      else (0, s.updObj obj (fun o => { o with use := (nft_use_inc o.use).2 }), some obj)

/-- The data of the new element: `nft_setelem_parse_data` and the loop over the
bindings.  The flag tells whether a failure leaves by the label `err3` (else `err2`). -/
def add_elem_data (s : State) (ctx : nft_ctx) (set : Ptr) (attr : Option DataAttr) :
    Int × State × Option (nft_data × nft_data_desc) × Bool :=
  match attr with
  | none => (0, s, none, false)
  | some a =>
    let r := nft_setelem_parse_data s ctx set a
    if r.1 < 0 then (r.1, r.2.1, none, false)
    else
      let l := add_elem_bindings ctx (nft_type_to_reg (r.2.1.set set).dtype) r.2.2.1 r.2.2.2
        (r.2.1.set set).bindings r.2.1
      (l.1, l.2, some r.2.2, true)

/-- The part of `nft_add_set_elem` before the call of the backend's `insert`: the checks
of the attributes, the references taken, the new element and the record.  A negative
`err` is the value the function returns, with the state its error labels leave. -/
def nft_add_set_elem_init (ctx : nft_ctx) (set : Ptr) (nla : SetElemAttr) (env : AddElemEnv)
    (s : State) : ElemBuild :=
  if nla.parse < 0 then { err := nla.parse, s := s }
  else
    match nla.key with
    | none => { err := -EINVAL, s := s }
    | some keyattr =>
      if (nft_setelem_parse_flags (s.set set) nla.flags).1 < 0 then
        { err := (nft_setelem_parse_flags (s.set set) nla.flags).1, s := s }
      else
        let flags := (nft_setelem_parse_flags (s.set set) nla.flags).2
        if add_elem_attr_check (s.set set) nla flags ≠ 0 then
          { err := add_elem_attr_check (s.set set) nla flags, s := s }
        else
          let t := add_elem_timeouts (s.set set) nla
          if t.1 ≠ 0 then { err := t.1, s := s }
          else
            let k := nft_setelem_parse_key s ctx set keyattr
            if k.1 < 0 then { err := k.1, s := k.2.1 }
            else
              let o := add_elem_objref k.2.1 nla.objref
              if o.1 < 0 then { err := o.1, s := add_elem_err2 o.2.1 o.2.2 }
              else
                let d := add_elem_data o.2.1 ctx set nla.data
                if d.1 < 0 then
                  { err := d.1,
                    s := if d.2.2.2 then add_elem_err3 d.2.1 d.2.2.1 o.2.2
                      else add_elem_err2 d.2.1 o.2.2 }
                else
                  let e := nft_set_elem_init d.2.1 set k.2.2 (d.2.2.1.map (fun x => x.1)) o.2.2
                    flags t.2.1 t.2.2 nla.userdata env
                  match e.1 with
                  | none => { err := -ENOMEM, s := add_elem_err3 e.2 d.2.2.1 o.2.2 }
                  | some elem =>
                    if !env.trans_alloc_ok then
                      { err := -ENOMEM, s := add_elem_err3 e.2 d.2.2.1 o.2.2, elem := elem }
                    else
                      { err := 0,
                        s := e.2.updElem elem (fun x =>
                          { x with genmask := nft_genmask_cur e.2.gencursor }),
                        elem := elem, data := d.2.2.1, obj := o.2.2 }

/-- The value `nft_add_set_elem` returns when the backend's `insert` reports `-EEXIST`
with the element `ext2`, for the new element `ext`. -/
def add_elem_exists (ext ext2 : nft_set_ext) (dlen nlmsg_flags : Nat) : Int :=
  if (ext.data.isSome ^^ ext2.data.isSome) || (ext.objref.isSome ^^ ext2.objref.isSome) then
    -EBUSY
  else if (match ext.data, ext2.data with
        | some x, some y => nft_data_differ x y dlen
        | _, _ => false) ||
      (match ext.objref, ext2.objref with
        | some x, some y => x != y
        | _, _ => false) then -EBUSY
  else if nlmsg_flags &&& NLM_F_EXCL = 0 then 0
  else -EEXIST

/-- Modelled from the spec: `atomic_add_unless(v, a, u)` of the atomic operations of the
kernel, not under src/: adds `a` to the counter unless its value is `u`, and returns
whether it did.  The counter is modelled by its integer value. -/
def atomic_add_unless (v a u : Int) : Bool × Int :=
  if v = u then (false, v) else (true, v + a)

/-- The argument `set->size + set->ndeact` of `atomic_add_unless`: the sum of two `u32`,
converted to `int`. -/
def set_elem_limit (set : nft_set) : Int :=
  if (set.size + set.ndeact) % 2 ^ 32 < 2 ^ 31 then ((set.size + set.ndeact) % 2 ^ 32 : Nat)
  else (((set.size + set.ndeact) % 2 ^ 32 : Nat) : Int) - 2 ^ 32

/-- Add one element to a set (`NFT_MSG_NEWSETELEM`). -/
def nft_add_set_elem (ctx : nft_ctx) (set : Ptr) (nla : SetElemAttr) (nlmsg_flags : Nat)
    (env : AddElemEnv) (s : State) : Int × State :=
  let b := nft_add_set_elem_init ctx set nla env s
  if b.err < 0 then (b.err, b.s)
  else
    let i := set_ops_insert b.s set b.elem
    match i.1 with
    | some e2 =>
      (add_elem_exists (i.2.elem b.elem) (i.2.elem e2) (i.2.set set).dlen nlmsg_flags,
        add_elem_err3 i.2 b.data b.obj)
    | none =>
      if (i.2.set set).size ≠ 0 ∧
          !(atomic_add_unless (i.2.set set).nelems 1 (set_elem_limit (i.2.set set))).1 then
        (-ENFILE, add_elem_err3 (set_ops_remove i.2 set b.elem) b.data b.obj)
      else
        (0, nft_trans_commit_list_add_tail
          (if (i.2.set set).size ≠ 0 then
            i.2.updSet set (fun x =>
              { x with nelems := (atomic_add_unless x.nelems 1 (set_elem_limit x)).2 })
            else i.2)
          { msg_type := .NEWSETELEM, ctx_table := ctx.table, ctx_chain := ctx.chain,
            set := set, elem := b.elem })

/-- The state `w` agrees with `z` on the cursor, the commit list, the sets and every
element except the one at `p`. -/
structure AddElemFrame (z w : State) (p : Ptr) : Prop where
  gencursor : w.gencursor = z.gencursor
  commit_list : w.commit_list = z.commit_list
  set : w.set = z.set
  elem : ∀ e, e ≠ p → w.elem e = z.elem e

/-- Example: the map `20` of table `1` (4-byte keys and values, at most 8 elements)
holds the element `200`, key `1 2 3 4` with data `9 9 9 9`. -/
def ex_elem_state : State :=
  { tables := [1],
    table := fun p => if p = 1 then { use := 1, sets := [20] } else {},
    set := fun p => if p = 20 then
        { table := 1, flags := NFT_SET_MAP, klen := 4, dlen := 4, size := 8, nelems := 1,
          elems := [200] }
      else {},
    elem := fun p => if p = 200 then { key := [1, 2, 3, 4], data := some (.value [9, 9, 9, 9]) }
      else {},
    brk := 201 }

/-- Example: a request for the element `1 2 3 4` with data `9 9 9 9`. -/
def ex_elem_attr : SetElemAttr :=
  { key := some { value := some [1, 2, 3, 4] },
    data := some { value := some [9, 9, 9, 9] } }

/-! ## Creating and binding sets -/

/-- The attributes of a set creation request and the outcomes of the calls
`nf_tables_newset` makes outside the engine (allocations, the name index, the backend's
`init`). -/
structure NewSetEnv where
  flags : Nat := 0
  klen : Nat := 4
  dtype : Nat := 0
  dlen : Nat := 0
  size : Nat := 0
  timeout : Nat := 0
  set_id : Option Nat := none
  set_alloc_ok : Bool := true
  name_ok : Bool := true
  alloc_name : Int := 0
  init : Int := 0
  trans_ok : Bool := true

/-- The part of `nf_tables_newset` that creates a set, from `nft_use_inc(&table->use)`
on (the name is free and `NLM_F_CREATE` is given).  The new set is at the address
`s.brk`. -/
def nf_tables_newset (ctx : nft_ctx) (env : NewSetEnv) (s : State) : Int × State :=
  if !(nft_use_inc (s.table ctx.table).use).1 then (-EMFILE, s)
  else
    let s1 := s.updTable ctx.table (fun t => { t with use := (nft_use_inc t.use).2 })
    if !env.set_alloc_ok then (-ENOMEM, table_use_dec s1 ctx.table)
    else
      let s2 := { s1 with set := Function.update s1.set s1.brk {}, brk := s1.brk + 1 }
      if !env.name_ok then (-ENOMEM, table_use_dec s2 ctx.table)
      else if env.alloc_name < 0 then (env.alloc_name, table_use_dec s2 ctx.table)
      else
        let s3 := (nf_tables_alloc_handle s2 ctx.table).2.updSet s.brk (fun x =>
          { x with bindings := [], table := ctx.table, klen := env.klen, dtype := env.dtype,
                   dlen := env.dlen, flags := env.flags, size := env.size,
                   timeout := env.timeout })
        if env.init < 0 then (env.init, table_use_dec s3 ctx.table)
        else
          let r := nft_trans_set_add ctx .NEWSET s.brk env.set_id env.trans_ok s3
          if r.1 < 0 then (r.1, table_use_dec r.2 ctx.table)
          else (0, r.2.updTable ctx.table (fun t => { t with sets := t.sets ++ [s.brk] }))

/-- Modelled from the spec: the set backend's `walk` with a callback that can fail: the
walk stops at the first element, active under the generation mask, for which the
callback returns an error, which becomes `iter.err`. -/
def set_walk_err (s : State) (set : Ptr) (genmask : Nat) (fn : Ptr → Int) : Int :=
  ((((s.set set).elems.filter (fun e => nft_active_genmask (s.elem e).genmask genmask)).map
    fn).find? (fun e => decide (e < 0))).getD 0

def nf_tables_bind_check_setelem (s : State) (ctx : nft_ctx) (set : Ptr) (elem : Ptr) : Int :=
  nft_validate_register_store s ctx (nft_type_to_reg (s.set set).dtype)
    (((s.elem elem).data).getD (.value []))
    (if (s.set set).dtype = NFT_DATA_VERDICT then NFT_DATA_VERDICT else NFT_DATA_VALUE)
    (s.set set).dlen

/-- Bind a set to the rule being created in `ctx.chain`; `binding` is the caller's
binding as it is passed in. -/
def nf_tables_bind_set (ctx : nft_ctx) (set : Ptr) (binding : nft_set_binding) (s : State) :
    Int × State :=
  if (s.set set).bindings ≠ [] ∧ nft_set_is_anonymous (s.set set) then (-EBUSY, s)
  else
    let err : Int :=
      if binding.flags &&& NFT_SET_MAP ≠ 0 then
        if (s.set set).bindings.any (fun i =>
            decide (i.flags &&& NFT_SET_MAP ≠ 0 ∧ i.chain = binding.chain)) then 0
        else
          set_walk_err s set (nft_genmask_next s.gencursor)
            (nf_tables_bind_check_setelem s ctx set)
      else 0
    if err < 0 then (err, s)
    else if !(nft_use_inc (s.set set).use).1 then (-EMFILE, s)
    else
      (0, nft_set_trans_bind
        (s.updSet set (fun x =>
          { x with use := (nft_use_inc x.use).2,
                   bindings := x.bindings ++ [{ binding with chain := ctx.chain }] })) set)

/-! ## C2: the use count of a table: definitions -/

/-- A set is counted by its table's use counter: an anonymous set with a binding only
while a `NEWSET` record for it is pending in `L`, every other set when it is active
under the generation mask `g`. -/
def set_counted (g : Nat) (s : State) (L : List nft_trans) (x : Ptr) : Bool :=
  if nft_set_is_anonymous (s.set x) && !(s.set x).bindings.isEmpty then
    L.any (fun t => decide (t.msg_type = .NEWSET ∧ t.set = x))
  else nft_active_genmask (s.set x).genmask g

/-- The number of chains, counted sets, stateful objects and flowtables on the lists of
the table that are active under the generation mask `g`. -/
def table_count (g : Nat) (s : State) (L : List nft_trans) (t : Ptr) : Nat :=
  (s.table t).chains.countP (fun c => nft_active_genmask (s.chain c).genmask g) +
  (s.table t).sets.countP (set_counted g s L) +
  (s.table t).objects.countP (fun o => nft_active_genmask (s.obj o).genmask g) +
  (s.table t).flowtables.countP (fun f => nft_active_genmask (s.flowtable f).genmask g)

/-- The accounting of the use counters of the tables, for the generation with mask `g`
and the pending records `L`. -/
def UseInv (g : Nat) (s : State) (L : List nft_trans) : Prop :=
  ∀ t ∈ s.tables, (s.table t).use = table_count g s L t

/-- What a record to be committed says about the state: a deleted object is inactive
under `g`, a deleted set is not a bound anonymous set, and a new anonymous set with a
binding is on the list of the table the record names. -/
def commit_rec_ok (g : Nat) (s : State) (r : nft_trans) : Prop :=
  match r.msg_type with
  | .DELCHAIN => nft_active_genmask (s.chain r.ctx_chain).genmask g = false
  | .DELOBJ => nft_active_genmask (s.obj r.obj).genmask g = false
  | .DELFLOWTABLE => nft_active_genmask (s.flowtable r.flowtable).genmask g = false
  | .DELSET =>
    nft_active_genmask (s.set r.set).genmask g = false ∧
    ¬ (nft_set_is_anonymous (s.set r.set) = true ∧ (s.set r.set).bindings ≠ [])
  | .NEWSET =>
    (nft_set_is_anonymous (s.set r.set) = true ∧ (s.set r.set).bindings ≠ []) →
      (s.set r.set).table = r.ctx_table ∧
      (r.ctx_table ∈ s.tables → r.set ∈ (s.table r.ctx_table).sets)
  | _ => True

/-- Well-formedness of the set lists: no set twice on a list, and every set on a list
points back to the table. -/
def SetsWf (s : State) : Prop :=
  ∀ t ∈ s.tables, (s.table t).sets.Nodup ∧ ∀ x ∈ (s.table t).sets, (s.set x).table = t

/-- Well-formedness of a batch to be committed. -/
def CommitWf (g : Nat) (s : State) (L : List nft_trans) : Prop :=
  SetsWf s ∧
  L.Pairwise (fun a b => ¬ (a.msg_type = .NEWSET ∧ b.msg_type = .NEWSET ∧ a.set = b.set)) ∧
  ∀ r ∈ L, commit_rec_ok g s r

/-- The state `s'` counts like `s`: the use counters and the activity under `g` are the
same, no table is new, and a list of a table lost at most an element that is not
counted. -/
structure AcctStep (g : Nat) (s s' : State) : Prop where
  tables : ∀ t ∈ s'.tables, t ∈ s.tables
  use : ∀ t, (s'.table t).use = (s.table t).use
  chains : ∀ t, (s'.table t).chains = (s.table t).chains ∨
    ∃ c, nft_active_genmask (s.chain c).genmask g = false ∧
      (s'.table t).chains = (s.table t).chains.erase c
  objects : ∀ t, (s'.table t).objects = (s.table t).objects ∨
    ∃ c, nft_active_genmask (s.obj c).genmask g = false ∧
      (s'.table t).objects = (s.table t).objects.erase c
  flowtables : ∀ t, (s'.table t).flowtables = (s.table t).flowtables ∨
    ∃ c, nft_active_genmask (s.flowtable c).genmask g = false ∧
      (s'.table t).flowtables = (s.table t).flowtables.erase c
  sets : ∀ t, (s'.table t).sets = (s.table t).sets ∨
    ∃ x, nft_active_genmask (s.set x).genmask g = false ∧
      ¬ (nft_set_is_anonymous (s.set x) = true ∧ (s.set x).bindings ≠ []) ∧
      (s'.table t).sets = (s.table t).sets.erase x
  chain : ∀ c, nft_active_genmask (s'.chain c).genmask g =
    nft_active_genmask (s.chain c).genmask g
  obj : ∀ c, nft_active_genmask (s'.obj c).genmask g = nft_active_genmask (s.obj c).genmask g
  flowtable : ∀ c, nft_active_genmask (s'.flowtable c).genmask g =
    nft_active_genmask (s.flowtable c).genmask g
  set : ∀ x, nft_active_genmask (s'.set x).genmask g = nft_active_genmask (s.set x).genmask g ∧
    (s'.set x).flags = (s.set x).flags ∧ (s'.set x).bindings = (s.set x).bindings ∧
    (s'.set x).table = (s.set x).table

/-- The state `s'` counts like `s` and has the same tables and lists. -/
structure AcctSame (g : Nat) (s s' : State) : Prop where
  tables : s'.tables = s.tables
  table : ∀ t, (s'.table t).use = (s.table t).use ∧ (s'.table t).chains = (s.table t).chains ∧
    (s'.table t).sets = (s.table t).sets ∧ (s'.table t).objects = (s.table t).objects ∧
    (s'.table t).flowtables = (s.table t).flowtables
  chain : ∀ c, nft_active_genmask (s'.chain c).genmask g =
      nft_active_genmask (s.chain c).genmask g ∧ (s'.chain c).table = (s.chain c).table
  obj : ∀ c, nft_active_genmask (s'.obj c).genmask g = nft_active_genmask (s.obj c).genmask g ∧
    (s'.obj c).table = (s.obj c).table
  flowtable : ∀ c, nft_active_genmask (s'.flowtable c).genmask g =
      nft_active_genmask (s.flowtable c).genmask g ∧
    (s'.flowtable c).table = (s.flowtable c).table
  set : ∀ x, nft_active_genmask (s'.set x).genmask g = nft_active_genmask (s.set x).genmask g ∧
    (s'.set x).flags = (s.set x).flags ∧ (s'.set x).bindings = (s.set x).bindings ∧
    (s'.set x).table = (s.set x).table

/-- The state `s'` differs from `s` at most in the rule arrays of the chains, the array
memory, the allocator and the counters of the namespace. -/
structure ArrayFrame (s s' : State) : Prop where
  tables : s'.tables = s.tables
  commit_list : s'.commit_list = s.commit_list
  table : s'.table = s.table
  set : s'.set = s.set
  obj : s'.obj = s.obj
  flowtable : s'.flowtable = s.flowtable
  chain : ∀ c, (s'.chain c).genmask = (s.chain c).genmask ∧ (s'.chain c).table = (s.chain c).table

/-- Well-formedness of the lists of the tables: no object twice on a list, and every
object on a list points back to the table. -/
def ListsWf (s : State) : Prop :=
  ∀ t ∈ s.tables,
    ((s.table t).chains.Nodup ∧ ∀ c ∈ (s.table t).chains, (s.chain c).table = t) ∧
    ((s.table t).sets.Nodup ∧ ∀ x ∈ (s.table t).sets, (s.set x).table = t) ∧
    ((s.table t).objects.Nodup ∧ ∀ o ∈ (s.table t).objects, (s.obj o).table = t) ∧
    ((s.table t).flowtables.Nodup ∧ ∀ f ∈ (s.table t).flowtables, (s.flowtable f).table = t)

/-- What a record says about the state at the time it is undone, `L` being the records
still to undo: a new object is on the list of the table the record names and counted, a
deleted object is on that list and inactive under `g`, the counter of the table can
take the object back, and a bound anonymous set has no second `NEWSET` record. -/
def abort_rec_ok (g : Nat) (s : State) (r : nft_trans) (L : List nft_trans) : Prop :=
  match r.msg_type with
  | .NEWCHAIN =>
    r.chain_update = true ∨
    (nft_active_genmask (s.chain r.ctx_chain).genmask g = true ∧
      (s.chain r.ctx_chain).table = r.ctx_table ∧ r.ctx_chain ∈ (s.table r.ctx_table).chains)
  | .DELCHAIN =>
    nft_active_genmask (s.chain r.ctx_chain).genmask g = false ∧
    (s.chain r.ctx_chain).table = r.ctx_table ∧ r.ctx_chain ∈ (s.table r.ctx_table).chains ∧
    (s.table r.ctx_table).use < UINT_MAX
  | .NEWOBJ =>
    r.obj_update = true ∨
    (nft_active_genmask (s.obj r.obj).genmask g = true ∧
      (s.obj r.obj).table = r.ctx_table ∧ r.obj ∈ (s.table r.ctx_table).objects)
  | .DELOBJ =>
    nft_active_genmask (s.obj r.obj).genmask g = false ∧
    (s.obj r.obj).table = r.ctx_table ∧ r.obj ∈ (s.table r.ctx_table).objects ∧
    (s.table r.ctx_table).use < UINT_MAX
  | .NEWFLOWTABLE =>
    nft_active_genmask (s.flowtable r.flowtable).genmask g = true ∧
    (s.flowtable r.flowtable).table = r.ctx_table ∧
    r.flowtable ∈ (s.table r.ctx_table).flowtables
  | .DELFLOWTABLE =>
    nft_active_genmask (s.flowtable r.flowtable).genmask g = false ∧
    (s.flowtable r.flowtable).table = r.ctx_table ∧
    r.flowtable ∈ (s.table r.ctx_table).flowtables ∧
    (s.table r.ctx_table).use < UINT_MAX
  | .NEWSET =>
    (s.set r.set).table = r.ctx_table ∧ r.set ∈ (s.table r.ctx_table).sets ∧
    (if r.set_bound then
      nft_set_is_anonymous (s.set r.set) = true ∧ (s.set r.set).bindings ≠ [] ∧
      L.any (fun t => decide (t.msg_type = .NEWSET ∧ t.set = r.set)) = false
    else set_counted g s (r :: L) r.set = true)
  | .DELSET =>
    nft_active_genmask (s.set r.set).genmask g = false ∧
    ¬ (nft_set_is_anonymous (s.set r.set) = true ∧ (s.set r.set).bindings ≠ []) ∧
    (s.set r.set).table = r.ctx_table ∧ r.set ∈ (s.table r.ctx_table).sets ∧
    (s.table r.ctx_table).use < UINT_MAX
  | _ => True

/-- Every record of the list, in the order `__nf_tables_abort` undoes them, is
consistent with the state it is undone in. -/
def abort_ok (g : Nat) : List nft_trans → State → Prop
  | [], _ => True
  | r :: L, s => abort_rec_ok g s r L ∧ abort_ok g L (abort_one s r).1

/-- The state the record loop of `nf_tables_abort` starts from. -/
def abort_start (action_validate : Bool) (s : State) : State :=
  (if action_validate then nf_tables_validate (nft_gc_seq_begin s).2
    else (0, (nft_gc_seq_begin s).2)).2

/-- The use count the specification states for a table: the number of its chains,
sets, stateful objects and flowtables that are active in the current generation. -/
def table_use_spec (s : State) (t : Ptr) : Nat :=
  (s.table t).chains.countP (fun c => nft_is_active s.gencursor (s.chain c).genmask) +
  (s.table t).sets.countP (fun x => nft_is_active s.gencursor (s.set x).genmask) +
  (s.table t).objects.countP (fun o => nft_is_active s.gencursor (s.obj o).genmask) +
  (s.table t).flowtables.countP (fun f => nft_is_active s.gencursor (s.flowtable f).genmask)

/-- Example: table `1` with the base chain `10` and the regular chain `11`; the next
free address is `20`. -/
def ex_use_state : State :=
  { tables := [1],
    table := fun p => if p = 1 then { use := 2, chains := [10, 11], hgenerator := 2 } else {},
    chain := fun p =>
      if p = 10 then
        { table := 1, name := "input", handle := 1, flags := NFT_BASE_CHAIN, policy := NF_ACCEPT }
      else if p = 11 then { table := 1, name := "aux", handle := 2 }
      else {},
    brk := 20 }

/-- Example: the batch that creates the anonymous set `20` in table `1`, binds it to a
rule of chain `10`, deletes chain `11` and creates the regular chain `21`. -/
def ex_use_batch : State :=
  (nf_tables_addchain { table := 1 } NF_ACCEPT 0 { name := "fwd" }
    (nft_delchain { table := 1, chain := 11 } true
      (nf_tables_bind_set { table := 1, chain := 10 } 20 {}
        (nf_tables_newset { table := 1 }
          { flags := NFT_SET_ANONYMOUS ||| NFT_SET_CONSTANT, set_id := some 1 }
          ex_use_state).2).2).2).2

/-- The number of chains, stateful objects and flowtables of the table, and of its sets
other than anonymous sets with a binding, that are active under the generation mask
`g`. -/
def table_use_amended (g : Nat) (s : State) (t : Ptr) : Nat :=
  (s.table t).chains.countP (fun c => nft_active_genmask (s.chain c).genmask g) +
  (s.table t).sets.countP (fun x =>
    !(nft_set_is_anonymous (s.set x) && !(s.set x).bindings.isEmpty) &&
      nft_active_genmask (s.set x).genmask g) +
  (s.table t).objects.countP (fun o => nft_active_genmask (s.obj o).genmask g) +
  (s.table t).flowtables.countP (fun f => nft_active_genmask (s.flowtable f).genmask g)

/-! ## C11: conflicting set elements: definitions -/

/-- Example: the request of `ex_elem_attr` with user data `7`. -/
def ex_elem_attr_udata : SetElemAttr :=
  { key := some { value := some [1, 2, 3, 4] },
    data := some { value := some [9, 9, 9, 9] },
    userdata := some [7] }

/-- Example: the request of `ex_elem_attr` with the data `8 8 8 8`. -/
def ex_elem_attr_other : SetElemAttr :=
  { key := some { value := some [1, 2, 3, 4] },
    data := some { value := some [8, 8, 8, 8] } }

/-! ## C16: unbound anonymous sets at commit: definitions -/

/-- Example: `ex_use_state` after the creation of the anonymous set `20`, which no
rule has bound. -/
def ex_unbound_state : State :=
  (nf_tables_newset { table := 1 }
    { flags := NFT_SET_ANONYMOUS ||| NFT_SET_CONSTANT, set_id := some 1 } ex_use_state).2

/-! ## C17: batches of the garbage collector: definitions -/

/-- A batch of the garbage collector, `struct nft_trans_gc`: the set, the value of
`gc_seq` captured when the batch was built, and the first `count` entries of `priv`. -/
structure nft_trans_gc where
  set : Ptr := 0
  seq : Nat := 0
  count : Nat := 0
  priv : List Ptr := []
  deriving DecidableEq, Repr

def nft_trans_gc_setelem_remove (s : State) (trans : nft_trans_gc) : State :=
  (List.range trans.count).foldl (fun s1 i =>
    set_ops_remove (nft_setelem_data_deactivate s1 (trans.priv.getD i 0)) trans.set
      (trans.priv.getD i 0)) s

/-- `nft_trans_gc_work_done`, under the commit mutex. -/
def nft_trans_gc_work_done (s : State) (trans : nft_trans_gc) : Bool × State :=
  if s.gc_seq ≠ trans.seq ∨ (s.set trans.set).dead = true then (false, s)
  else (true, nft_trans_gc_setelem_remove s trans)

/-- Example: the map `20` of `ex_elem_state` holds the elements `200`, `201` and `202`;
`201` refers to the object `30`. -/
def ex_gc_state : State :=
  { ex_elem_state with
    gc_seq := 4,
    set := fun p => if p = 20 then
        { table := 1, flags := NFT_SET_MAP, klen := 4, dlen := 4, size := 8, nelems := 3,
          elems := [200, 201, 202] }
      else {},
    elem := fun p =>
      if p = 200 then { key := [1, 2, 3, 4], data := some (.value [9, 9, 9, 9]) }
      else if p = 201 then { key := [1, 2, 3, 5], objref := some 30 }
      else if p = 202 then { key := [1, 2, 3, 6] }
      else {},
    obj := fun p => if p = 30 then { table := 1, use := 1 } else {} }

/-! ## C18, C19: the generation counters: definitions -/

/-- The state `w` has the counters `base_seq` and `gc_seq` of `z`. -/
structure SeqFrame (z w : State) : Prop where
  base_seq : w.base_seq = z.base_seq
  gc_seq : w.gc_seq = z.gc_seq

/-- `nf_tables_init_net`: the state of a new network namespace. -/
def nf_tables_init_net : State :=
  { tables := [], commit_list := [], base_seq := 1, validate_state := NFT_VALIDATE_SKIP,
    gc_seq := 0 }

/-- The result of `nf_tables_valid_genid` (the time stamp and the commit mutex are not
part of the state). -/
def nf_tables_valid_genid (s : State) (genid : Nat) : Bool :=
  genid == 0 || s.base_seq == genid

/-- The states of a network namespace between two operations of the control plane: the
state `nf_tables_init_net` leaves, and the states reached from it by `nf_tables_commit`,
by `nf_tables_abort` and by the steps of the other operations, none of which writes
`base_seq` or `gc_seq`. -/
inductive Reachable : State → Prop
  | init : Reachable nf_tables_init_net
  | commit (env : CommitEnv) (s : State) : Reachable s → Reachable (nf_tables_commit env s).2
  | abort (action_validate : Bool) (s : State) :
    Reachable s → Reachable (nf_tables_abort action_validate s).2
  | other (s s' : State) :
    Reachable s → s'.base_seq = s.base_seq → s'.gc_seq = s.gc_seq → Reachable s'

/-- Example: `ex_commit_state` with the generation counters at their last values. -/
def ex_wrap_state : State :=
  { ex_commit_state with base_seq := 4294967295, gc_seq := 4294967294 }

/-! ## C20: bounded depth of chain validation: definitions -/

/-- Modelled from the spec: the `validate` callback of an expression as in
`nft_expr_validate`, with the number of nested calls bounded: `recur` is `none` when
the bound is used up, and so is the result then. -/
def nft_expr_validate_fuel (recur : Ptr → Option Int) : nft_expr → Option (Option Int)
  | .immediate code chain =>
    if code = NFT_JUMP ∨ code = NFT_GOTO then
      (recur chain).map (fun r => some (if r < 0 then r else 0))
    else some (some 0)
  | .lookup _ _ v => some v
  | .objref _ => some none
  | .flow_offload _ v => some v
  | .other v => some v

/-- The loop `nft_rule_for_each_expr` of `nft_chain_validate` with bounded nesting. -/
def nft_rule_validate_fuel (recur : Ptr → Option Int) : List nft_expr → Option Int
  | [] => some 0
  | e :: es =>
    match nft_expr_validate_fuel recur e with
    | none => none
    | some none => nft_rule_validate_fuel recur es
    | some (some err) => if err < 0 then some err else nft_rule_validate_fuel recur es

/-- The loop over the rules of the chain in `nft_chain_validate` with bounded nesting. -/
def nft_rules_validate_fuel (s : State) (recur : Ptr → Option Int) : List Ptr → Option Int
  | [] => some 0
  | r :: rs =>
    if !nft_is_active_next s.gencursor (s.rule r).genmask then
      nft_rules_validate_fuel s recur rs
    else
      match nft_rule_validate_fuel recur (s.rule r).exprs with
      | none => none
      | some err => if err < 0 then some err else nft_rules_validate_fuel s recur rs

/-- `nft_chain_validate` with the call level `ctx->level` explicit: a callback that
recurses does so with the level incremented by one.  The first argument bounds the
number of nested calls; `none` means that the bound was too small for the walk to
finish. -/
def nft_chain_validate_level (s : State) : Nat → Nat → Ptr → Option Int
  | 0, _, _ => none
  | fuel + 1, level, chain =>
    if level = NFT_JUMP_STACK_SIZE then some (-EMLINK)
    else
      nft_rules_validate_fuel s (nft_chain_validate_level s fuel (level + 1))
        (s.chain chain).rules

/-! ## C14, C15: selection of the set backend: definitions -/

def NFT_SET_POL_PERFORMANCE : Nat := 0

def NFT_SET_POL_MEMORY : Nat := 1

def NFT_SET_FEATURES : Nat :=
  NFT_SET_INTERVAL ||| NFT_SET_MAP ||| NFT_SET_TIMEOUT ||| NFT_SET_OBJECT ||| NFT_SET_EVAL

/-- Modelled from the spec: `MODULE_NAME_LEN` of the module header, `64` less the size
of an `unsigned long`. -/
def MODULE_NAME_LEN : Nat := 56

structure nft_module_request where
  module : String := ""
  done : Bool := false
  deriving DecidableEq, Repr

structure nft_set_desc where
  klen : Nat := 0
  dlen : Nat := 0
  size : Nat := 0
  deriving DecidableEq, Repr

/-- The cost estimate of a backend: the total size (`u64`) and the classes of the
lookup cost and of the memory cost. -/
structure nft_set_estimate where
  size : Nat := 0
  lookup : Nat := 0
  space : Nat := 0
  deriving DecidableEq, Repr

/-- A registered set type with what `nft_select_set_ops` uses of it: the feature mask,
the `estimate` callback of its operations (`none`: the callback returns false) and the
outcome of `try_module_get` on its owner. -/
structure nft_set_type where
  name : String := ""
  features : Nat := 0
  estimate : nft_set_desc → Nat → Option nft_set_estimate := fun _ _ => none
  owner_live : Bool := true

/-- What `nft_select_set_ops` gets from outside: whether the kernel is built with
`CONFIG_MODULES`, the list of module requests of the namespace and the outcome of the
allocation of a new request. -/
structure SelectEnv where
  config_modules : Bool := true
  module_list : List nft_module_request := []
  kmalloc_ok : Bool := true
  deriving DecidableEq, Repr

/-- `nft_request_module` for the formatted name: the result and the list of requests. -/
def nft_request_module (list : List nft_module_request) (module_name : String)
    (kmalloc_ok : Bool) : Int × List nft_module_request :=
  if module_name.length ≥ MODULE_NAME_LEN then (0, list)
  else
    match list.find? (fun req => req.module == module_name) with
    | some req => if req.done then (0, list) else (-EAGAIN, list)
    | none =>
      if !kmalloc_ok then (-ENOMEM, list)
      else (-EAGAIN, list ++ [{ module := module_name, done := false }])

def nft_set_ops_candidate (type : nft_set_type) (flags : Nat) : Bool :=
  (flags &&& type.features) == (flags &&& NFT_SET_FEATURES)

/-- The start of the search: no backend, `best.size = ~0` on a `u64`, `best.lookup = ~0`
and `best.space = ~0` on the 32-bit enumeration of the classes. -/
def select_init : Option nft_set_type × nft_set_estimate :=
  (none, { size := 2 ^ 64 - 1, lookup := UINT_MAX, space := UINT_MAX })

/-- The `switch (policy)` of `nft_select_set_ops`: whether the estimate replaces the
best one so far (`break`) or the type is skipped (`continue`). -/
def select_better (desc : nft_set_desc) (policy : Nat)
    (acc : Option nft_set_type × nft_set_estimate) (est : nft_set_estimate) : Bool :=
  if policy = NFT_SET_POL_PERFORMANCE then
    decide (est.lookup < acc.2.lookup) ||
      (est.lookup == acc.2.lookup && decide (est.space < acc.2.space))
  else if policy = NFT_SET_POL_MEMORY then
    if desc.size = 0 then
      decide (est.space < acc.2.space) ||
        (est.space == acc.2.space && decide (est.lookup < acc.2.lookup))
    else decide (est.size < acc.2.size) || acc.1.isNone
  else true

/-- One iteration of the loop of `nft_select_set_ops` over the registered types; the
state is `bops` and `best`. -/
def select_step (flags : Nat) (desc : nft_set_desc) (policy : Nat)
    (acc : Option nft_set_type × nft_set_estimate) (type : nft_set_type) :
    Option nft_set_type × nft_set_estimate :=
  if !nft_set_ops_candidate type flags then acc
  else
    match type.estimate desc flags with
    | none => acc
    | some est =>
      if !select_better desc policy acc est then acc
      else if !type.owner_live then acc
      else (some type, est)

/-- Select a set implementation.  `types` is the list `nf_tables_set_types` in
registration order, `flags_attr` the attribute `NFTA_SET_FLAGS`.  The result is the
error of `ERR_PTR` (zero when a backend is returned), the backend, and the list of
module requests. -/
def nft_select_set_ops (env : SelectEnv) (types : List nft_set_type) (flags_attr : Option Nat)
    (desc : nft_set_desc) (policy : Nat) :
    Int × Option nft_set_type × List nft_module_request :=
  let req := if env.config_modules && types.isEmpty then
      nft_request_module env.module_list "nft-set" env.kmalloc_ok
    else (0, env.module_list)
  if req.1 = -EAGAIN then (-EAGAIN, none, req.2)
  else
    match (types.foldl (select_step (flags_attr.getD 0) desc policy) select_init).1 with
    | some bops => (0, some bops, req.2)
    | none => (-EOPNOTSUPP, none, req.2)

/-- Example: three backends; `hash` and `rbtree` support maps, `bitmap` does not. -/
def ex_set_types : List nft_set_type :=
  [{ name := "rbtree", features := NFT_SET_INTERVAL ||| NFT_SET_MAP ||| NFT_SET_OBJECT,
     estimate := fun d _ => some { size := 100 * d.size, lookup := 1, space := 2 } },
   { name := "hash", features := NFT_SET_MAP ||| NFT_SET_OBJECT ||| NFT_SET_TIMEOUT,
     estimate := fun d _ => some { size := 200 * d.size, lookup := 0, space := 2 } },
   { name := "bitmap", features := 0,
     estimate := fun d _ => some { size := 10 * d.size, lookup := 0, space := 1 } }]

/-- The estimate `a` is at most `b` in the order of the policy: by lookup cost and then
memory cost for the performance policy, by memory cost and then lookup cost for the
memory policy without a size, by total size for the memory policy with a size. -/
def estimate_le (desc : nft_set_desc) (policy : Nat) (a b : nft_set_estimate) : Prop :=
  (policy = NFT_SET_POL_PERFORMANCE →
    a.lookup < b.lookup ∨ (a.lookup = b.lookup ∧ a.space ≤ b.space)) ∧
  (policy = NFT_SET_POL_MEMORY → desc.size = 0 →
    a.space < b.space ∨ (a.space = b.space ∧ a.lookup ≤ b.lookup)) ∧
  (policy = NFT_SET_POL_MEMORY → desc.size ≠ 0 → a.size ≤ b.size)

/-- The invariant of the loop of `nft_select_set_ops` after the types `P`: `bops` is one
of them, a candidate with the estimate `best`, and `best` is at most the estimate of
every candidate among them whose module reference can be taken. -/
def select_inv (flags : Nat) (desc : nft_set_desc) (policy : Nat) (P : List nft_set_type)
    (acc : Option nft_set_type × nft_set_estimate) : Prop :=
  (∀ t, acc.1 = some t → t ∈ P ∧ nft_set_ops_candidate t flags = true ∧
    t.estimate desc flags = some acc.2) ∧
  (∀ c ∈ P, c.owner_live = true → nft_set_ops_candidate c flags = true →
    ∀ e, c.estimate desc flags = some e →
      estimate_le desc policy acc.2 e ∧
      (policy = NFT_SET_POL_MEMORY → desc.size ≠ 0 → acc.1.isSome = true))

/-! ## C12, C13: the element counters of a set: definitions -/

/-- Modelled from the spec: the backend's `deactivate(elem) -> removed-handle |
not-found`; the backends are not under src/.  The element of the container with the key
of `elem` that is active in the next generation becomes inactive in the next generation
and is the handle. -/
def set_ops_deactivate (s : State) (set elem : Ptr) : Option Ptr × State :=
  match (s.set set).elems.find? (fun e => (s.elem e).key = (s.elem elem).key ∧
      nft_active_genmask (s.elem e).genmask (nft_genmask_next s.gencursor)) with
  | some e => (some e, set_elem_change_active s e)
  | none => (none, s)

/-- Delete one element from a set (`NFT_MSG_DELSETELEM`): the temporary element that
carries the key is at the address `s.brk`; the record names the element of the
container. -/
def nft_del_setelem (ctx : nft_ctx) (set : Ptr) (nla : SetElemAttr) (env : AddElemEnv)
    (s : State) : Int × State :=
  if nla.parse < 0 then (nla.parse, s)
  else
    match nla.key with
    | none => (-EINVAL, s)
    | some keyattr =>
      if (nft_setelem_parse_flags (s.set set) nla.flags).1 < 0 then
        ((nft_setelem_parse_flags (s.set set) nla.flags).1, s)
      else
        let k := nft_setelem_parse_key s ctx set keyattr
        if k.1 < 0 then (k.1, k.2.1)
        else
          let e := nft_set_elem_init k.2.1 set k.2.2 none none
            (nft_setelem_parse_flags (s.set set) nla.flags).2 0 0 none env
          match e.1 with
          | none => (-ENOMEM, nft_data_release_type e.2 k.2.2 NFT_DATA_VALUE)
          | some elem =>
            if !env.trans_alloc_ok then
              (-ENOMEM, nft_data_release_type e.2 k.2.2 NFT_DATA_VALUE)
            else
              match (set_ops_deactivate e.2 set elem).1 with
              | none =>
                (-ENOENT,
                  nft_data_release_type (set_ops_deactivate e.2 set elem).2 k.2.2 NFT_DATA_VALUE)
              | some priv =>
                (0, nft_trans_commit_list_add_tail
                  (nft_setelem_data_deactivate (set_ops_deactivate e.2 set elem).2 priv)
                  { msg_type := .DELSETELEM, ctx_table := ctx.table, ctx_chain := ctx.chain,
                    set := set, elem := priv })

/-- What `nft_flush_set` gets from outside for an element: the outcome of the atomic
allocation of the record and the result of the backend's `flush`. -/
structure FlushEnv where
  trans_alloc_ok : Ptr → Bool := fun _ => true
  flush_ok : Ptr → Bool := fun _ => true

/-- The callback `nft_flush_set` of the walk over a set.  Modelled from the spec for the
backend's `flush-one(elem) -> bool`, which is not under src/: when it returns true the
element has become inactive in the next generation. -/
def nft_flush_set (ctx : nft_ctx) (set : Ptr) (env : FlushEnv) (s : State) (elem : Ptr) :
    Int × State :=
  if !env.trans_alloc_ok elem then (-ENOMEM, s)
  else if !env.flush_ok elem then (-ENOENT, s)
  else
    let s1 := set_elem_change_active s elem
    let s2 := s1.updSet set (fun x => { x with ndeact := (x.ndeact + 1) % 2 ^ 32 })
    (0, nft_trans_commit_list_add_tail (nft_setelem_data_deactivate s2 elem)
      { msg_type := .DELSETELEM, ctx_table := ctx.table, ctx_chain := ctx.chain,
        set := set, elem := elem })

/-- Modelled from the spec: the backend's `walk(iterator-callback)` with a callback that
changes the state, over the elements of the container in order: an element that is not
active under the generation mask is skipped, and the walk stops at the first error of
the callback, which becomes `iter.err`. -/
def set_walk_stop (fn : State → Ptr → Int × State) (genmask : Nat) :
    List Ptr → State → Int × State
  | [], s => (0, s)
  | e :: es, s =>
    if !nft_active_genmask (s.elem e).genmask genmask then set_walk_stop fn genmask es s
    else if (fn s e).1 < 0 then fn s e
    else set_walk_stop fn genmask es (fn s e).2

/-- The loop of `nf_tables_delsetelem` over the elements of the request, each with the
outcomes of its allocations. -/
def delsetelem_loop (ctx : nft_ctx) (set : Ptr) :
    List (SetElemAttr × AddElemEnv) → State → Int × State
  | [], s => (0, s)
  | a :: rest, s =>
    if (nft_del_setelem ctx set a.1 a.2 s).1 < 0 then nft_del_setelem ctx set a.1 a.2 s
    else
      delsetelem_loop ctx set rest
        ((nft_del_setelem ctx set a.1 a.2 s).2.updSet set (fun x =>
          { x with ndeact := (x.ndeact + 1) % 2 ^ 32 }))

/-- `nf_tables_delsetelem` after the lookup of the table and of the set.  `attrs` is the
attribute `NFTA_SET_ELEM_LIST_ELEMENTS`; without it the set is flushed. -/
def nf_tables_delsetelem (ctx : nft_ctx) (set : Ptr)
    (attrs : Option (List (SetElemAttr × AddElemEnv))) (env : FlushEnv) (s : State) :
    Int × State :=
  if nft_set_is_anonymous (s.set set) then (-EOPNOTSUPP, s)
  else if (s.set set).bindings ≠ [] ∧ (s.set set).flags &&& NFT_SET_CONSTANT ≠ 0 then (-EBUSY, s)
  else
    match attrs with
    | none =>
      set_walk_stop (nft_flush_set ctx set env) (nft_genmask_next s.gencursor)
        (s.set set).elems s
    | some l => delsetelem_loop ctx set l s

/-- The number of records of the list that add an element to the set `x` and are not
marked as bound: the additions `__nf_tables_abort` takes back. -/
def pend_new (x : Ptr) (L : List nft_trans) : Nat :=
  L.countP (fun r => decide (r.msg_type = .NEWSETELEM ∧ r.set = x ∧ r.set_bound = false))

/-- The number of records of the list that delete an element of the set `x`. -/
def pend_del (x : Ptr) (L : List nft_trans) : Nat :=
  L.countP (fun r => decide (r.msg_type = .DELSETELEM ∧ r.set = x))

/-- Every record of the list adds or deletes a set element. -/
def ElemRecs (L : List nft_trans) : Prop :=
  ∀ r ∈ L, r.msg_type = .NEWSETELEM ∨ r.msg_type = .DELSETELEM

/-- One call of `nft_add_set_elem` with its arguments. -/
structure AddElemReq where
  ctx : nft_ctx := {}
  set : Ptr := 0
  nla : SetElemAttr := {}
  nlmsg_flags : Nat := 0
  env : AddElemEnv := {}

/-- A batch of calls of `nft_add_set_elem`, each on the state the one before left. -/
def stage_add_elems : List AddElemReq → State → State
  | [], s => s
  | r :: rest, s =>
    stage_add_elems rest (nft_add_set_elem r.ctx r.set r.nla r.nlmsg_flags r.env s).2

/-- The state `w` has the cursor of `z`, and its sets have the size limit and the
counters of the sets of `z`. -/
structure CountFrame (z w : State) : Prop where
  gencursor : w.gencursor = z.gencursor
  size : ∀ x, (w.set x).size = (z.set x).size
  nelems : ∀ x, (w.set x).nelems = (z.set x).nelems
  ndeact : ∀ x, (w.set x).ndeact = (z.set x).ndeact

/-- Example: a request for the element `5 6 7 8` with data `9 9 9 9`. -/
def ex_elem_attr_new : SetElemAttr :=
  { key := some { value := some [5, 6, 7, 8] },
    data := some { value := some [9, 9, 9, 9] } }

/-- Example: the map `20` of table `1` has no size limit and no element. -/
def ex_unsized_state : State :=
  { tables := [1],
    table := fun p => if p = 1 then { use := 1, sets := [20] } else {},
    set := fun p => if p = 20 then { table := 1, flags := NFT_SET_MAP, klen := 4, dlen := 4 }
      else {},
    brk := 200 }

/-- The step from `s` to `s'` appends records that delete set elements, leaves the size
limits and the counters `nelems`, and increments the counter `ndeact` of each set (a
`u32`) once for each appended record for the set. -/
def DelEffect (s s' : State) : Prop :=
  ∃ L, s'.commit_list = s.commit_list ++ L ∧ (∀ r ∈ L, r.msg_type = .DELSETELEM) ∧
    ∀ x, (s'.set x).size = (s.set x).size ∧ (s'.set x).nelems = (s.set x).nelems ∧
      (s'.set x).ndeact = (fun d => (d + 1) % 2 ^ 32)^[pend_del x L] (s.set x).ndeact

/-- The elements named by the records of the list that delete an element of the set
`x`, in the order of the records. -/
def del_elems (x : Ptr) (L : List nft_trans) : List Ptr :=
  (L.filter (fun r => decide (r.msg_type = .DELSETELEM ∧ r.set = x))).map (fun r => r.elem)

/-- The elements named by the records of the list that add an element to the set `x`
and are not marked as bound, in the order of the records. -/
def new_elems (x : Ptr) (L : List nft_trans) : List Ptr :=
  (L.filter (fun r => decide (r.msg_type = .NEWSETELEM ∧ r.set = x ∧ r.set_bound = false))).map
    (fun r => r.elem)

/-- The element is active in the next generation. -/
def elem_active_next (s : State) (e : Ptr) : Bool :=
  nft_active_genmask (s.elem e).genmask (nft_genmask_next s.gencursor)

/-- The state `w` has the cursor, the commit list and the sets of `z`, every element
below the allocation mark of `z` is as in `z`, and the mark did not go back. -/
structure ElemFrame (z w : State) : Prop where
  gencursor : w.gencursor = z.gencursor
  commit_list : w.commit_list = z.commit_list
  set : w.set = z.set
  elem : ∀ e, e < z.brk → w.elem e = z.elem e
  brk : z.brk ≤ w.brk

/-- A step of staging deletions, seen from the set `x`: the cursor and the elements of
the set stay, the allocation mark does not go back, an element below the mark that was
inactive in the next generation stays so, and the elements of `x` the appended records
delete are distinct elements of the set that were active in the next generation and are
inactive now. -/
structure DelStep (x : Ptr) (s s' : State) : Prop where
  gencursor : s'.gencursor = s.gencursor
  brk : s.brk ≤ s'.brk
  elems : (s'.set x).elems = (s.set x).elems
  keep : ∀ e, e < s.brk → elem_active_next s e = false → elem_active_next s' e = false
  recs : ∃ L, s'.commit_list = s.commit_list ++ L ∧ (del_elems x L).Nodup ∧
    ∀ e ∈ del_elems x L, e ∈ (s.set x).elems ∧ elem_active_next s e = true ∧
      elem_active_next s' e = false

/-- The invariant of the set `x`, which has a size limit, between two operations: the
commit list holds records of set elements only; the elements of the set are distinct,
below the allocation mark and fewer than `2 ^ 31`; `nelems` is their number and `ndeact`
the number of pending deletions of the set; the elements the pending deletions name are
distinct elements of the set, inactive in the next generation; the elements the pending
additions name are distinct elements of the set; and the number of elements is at most
`size + ndeact` and, without the pending additions, at most `size`. -/
structure ElemInv (x : Ptr) (s : State) : Prop where
  recs : ElemRecs s.commit_list
  size_pos : (s.set x).size ≠ 0
  size_u32 : (s.set x).size < 2 ^ 32
  nodup : (s.set x).elems.Nodup
  below : ∀ e ∈ (s.set x).elems, e < s.brk
  count : (s.set x).nelems = (s.set x).elems.length
  small : (s.set x).elems.length < 2 ^ 31
  ndeact : (s.set x).ndeact = pend_del x s.commit_list
  del_nodup : (del_elems x s.commit_list).Nodup
  del_mem : ∀ e ∈ del_elems x s.commit_list,
    e ∈ (s.set x).elems ∧ elem_active_next s e = false
  new_nodup : (new_elems x s.commit_list).Nodup
  new_mem : ∀ e ∈ new_elems x s.commit_list, e ∈ (s.set x).elems
  limit : (s.set x).elems.length ≤ (s.set x).size + (s.set x).ndeact
  base : (s.set x).elems.length ≤ (s.set x).size + pend_new x s.commit_list

/-- The states reachable for the set `x`, which has a size limit (any `u32` but zero),
by staging additions (`nft_add_set_elem`) and deletions (`nf_tables_delsetelem`) of
elements of any set, by `nf_tables_commit` and by `nf_tables_abort`, from a state with an
empty commit list in which the set has no pending deletion, its elements are distinct
and below the allocation mark, `nelems` is their number and at most `size`.  The set
holds fewer than `2 ^ 31` elements at any time, the range of the counter `nelems`. -/
inductive ElemReach (x : Ptr) : State → Prop
  | init (s : State) : s.commit_list = [] → (s.set x).size ≠ 0 → (s.set x).size < 2 ^ 32 →
    (s.set x).ndeact = 0 → (s.set x).elems.Nodup → (∀ e ∈ (s.set x).elems, e < s.brk) →
    (s.set x).nelems = (s.set x).elems.length → (s.set x).elems.length ≤ (s.set x).size →
    (s.set x).elems.length < 2 ^ 31 → ElemReach x s
  | add (s : State) (ctx : nft_ctx) (set : Ptr) (nla : SetElemAttr) (nlmsg_flags : Nat)
    (env : AddElemEnv) :
    ElemReach x s →
    ((nft_add_set_elem ctx set nla nlmsg_flags env s).2.set x).elems.length < 2 ^ 31 →
    ElemReach x (nft_add_set_elem ctx set nla nlmsg_flags env s).2
  | del (s : State) (ctx : nft_ctx) (set : Ptr)
    (attrs : Option (List (SetElemAttr × AddElemEnv))) (env : FlushEnv) :
    ElemReach x s → ElemReach x (nf_tables_delsetelem ctx set attrs env s).2
  | commit (s : State) (env : CommitEnv) :
    ElemReach x s → ElemReach x (nf_tables_commit env s).2
  | abort (s : State) (action_validate : Bool) :
    ElemReach x s → ElemReach x (nf_tables_abort action_validate s).2

/-- Example: the map `20` of `ex_elem_state` with the size limit `1`, which its one
element reaches. -/
def ex_full_state : State :=
  { ex_elem_state with
    set := fun p => if p = 20 then
        { table := 1, flags := NFT_SET_MAP, klen := 4, dlen := 4, size := 1, nelems := 1,
          elems := [200] }
      else {} }

/-- Example: the map `20` of `ex_elem_state` with the largest size limit of a `u32`. -/
def ex_wide_state : State :=
  { ex_elem_state with
    set := fun p => if p = 20 then
        { table := 1, flags := NFT_SET_MAP, klen := 4, dlen := 4, size := 4294967295,
          nelems := 1, elems := [200] }
      else {} }

/-! ## C23, C25, C26: registers and expression types: definitions -/

/-- Modelled from the spec: header enum `nft_registers`: `NFT_REG_4`, the last 128-bit
register. -/
def NFT_REG_4 : Nat := 4

/-- Modelled from the spec: header enum `nft_registers`: the first 32-bit register. -/
def NFT_REG32_00 : Nat := 8

/-- Modelled from the spec: header enum `nft_registers`: the last 32-bit register. -/
def NFT_REG32_15 : Nat := 23

/-- `nft_parse_register` on the `u32` value of the attribute: the result and the value
stored in `*preg` (`none` when nothing is stored). -/
def nft_parse_register (reg : Nat) : Int × Option Nat :=
  if NFT_REG_VERDICT ≤ reg ∧ reg ≤ NFT_REG_4 then
    (0, some (reg * NFT_REG_SIZE / NFT_REG32_SIZE))
  else if NFT_REG32_00 ≤ reg ∧ reg ≤ NFT_REG32_15 then
    (0, some (reg + NFT_REG_SIZE / NFT_REG32_SIZE - NFT_REG32_00))
  else (-ERANGE, none)

/-- `nft_dump_register`: the `u32` value put into the attribute for the register `reg`
(an `unsigned int`). -/
def nft_dump_register (reg : Nat) : Nat :=
  if reg % (NFT_REG_SIZE / NFT_REG32_SIZE) = 0 then reg / (NFT_REG_SIZE / NFT_REG32_SIZE)
  else (reg + 2 ^ 32 - NFT_REG_SIZE / NFT_REG32_SIZE + NFT_REG32_00) % 2 ^ 32

/-- `nft_validate_register_load`; `reg` and `len` are `unsigned int`, so is the sum that
is compared with the size of the register file. -/
def nft_validate_register_load (reg len : Nat) : Int :=
  if reg < NFT_REG_1 * NFT_REG_SIZE / NFT_REG32_SIZE then -EINVAL
  else if len = 0 then -EINVAL
  else if (reg * NFT_REG32_SIZE + len) % 2 ^ 32 > NFT_REGS_DATA_SIZE then -ERANGE
  else 0

/-- `nft_parse_register_load` on the `u32` value of the attribute; `sreg` is the content
of the output register (a `u8`) before the call, the second component its content
after the call. -/
def nft_parse_register_load (attr sreg len : Nat) : Int × Nat :=
  match nft_parse_register attr with
  | (err, none) => (err, sreg)
  | (err, some reg) =>
    if err < 0 then (err, sreg)
    else if nft_validate_register_load reg len < 0 then (nft_validate_register_load reg len, sreg)
    else (0, reg % 256)

/-- Modelled from the spec: header constant `NFPROTO_UNSPEC`. -/
def NFPROTO_UNSPEC : Nat := 0

/-- The members of `struct nft_expr_type` the registry looks at. -/
structure nft_expr_type where
  name : String := ""
  family : Nat := 0
  owner_live : Bool := true
  deriving DecidableEq, Repr

/-- `nft_register_expr`: a family-agnostic type joins the tail of the list
`nf_tables_expressions`, any other type the head. -/
def nft_register_expr (type : nft_expr_type) (nf_tables_expressions : List nft_expr_type) :
    List nft_expr_type :=
  if type.family = NFPROTO_UNSPEC then nf_tables_expressions ++ [type]
  else type :: nf_tables_expressions

/-- One iteration of the loop of `__nft_expr_type_get`. -/
def expr_type_step (family : Nat) (name : String) (candidate : Option nft_expr_type)
    (type : nft_expr_type) : Option nft_expr_type :=
  if name = type.name then
    if type.family = 0 ∧ candidate.isNone then some type
    else if type.family = family then some type
    else candidate
  else candidate

/-- `__nft_expr_type_get`: `none` is `NULL`. -/
def __nft_expr_type_get (nf_tables_expressions : List nft_expr_type) (family : Nat)
    (name : String) : Option nft_expr_type :=
  nf_tables_expressions.foldl (expr_type_step family name) none

/-! ## C28, C29, C30: rule deletion and element timeouts: definitions -/

/-- Example: the set `20` of table `1` (4-byte keys) has the flag `NFT_SET_TIMEOUT` and
the default timeout of `1000` jiffies; it holds no element. -/
def ex_timeout_state : State :=
  { tables := [1],
    table := fun p => if p = 1 then { use := 1, sets := [20] } else {},
    set := fun p => if p = 20 then
        { table := 1, flags := NFT_SET_TIMEOUT, klen := 4, timeout := 1000 }
      else {},
    brk := 200 }

/-- Example: the regular chain `12` of table `1` holds the rule `120`, whose verdict
expression jumps to chain `12` itself; the use count of the chain is `2`, one for the
rule and one for the jump. -/
def ex_selfjump_state : State :=
  { tables := [1],
    table := fun p => if p = 1 then { use := 1, chains := [12] } else {},
    chain := fun p => if p = 12 then { table := 1, name := "loop", use := 2, rules := [120] }
      else {},
    rule := fun p => if p = 120 then { handle := 1, exprs := [.immediate NFT_JUMP 12] } else {} }

/-- Example: a request for the element `1 2 3 4` with a timeout of `8000` ms and an
expiration of `2000` ms. -/
def ex_elem_attr_expiring : SetElemAttr :=
  { key := some { value := some [1, 2, 3, 4] }, timeout := some 8000, expiration := some 2000 }

/-! ## C27: table updates and abort: definitions -/

/-- `nft_table_pending_update`: the table carries an internal update flag, or the commit
list holds the deletion of a base chain of the table. -/
def nft_table_pending_update (s : State) (ctx : nft_ctx) : Bool :=
  decide ((s.table ctx.table).flags &&& __NFT_TABLE_F_UPDATE ≠ 0) ||
  s.commit_list.any (fun trans =>
    decide (trans.ctx_table = ctx.table ∧ trans.msg_type = .DELCHAIN) &&
    nft_is_base_chain (s.chain trans.ctx_chain))

/-- `nf_tables_table_enable`: the hooks of the base chains of the table that are active in
the next generation are registered in the order of the list; `register` gives the result
of the registration service for a chain.  The first failure is returned (the hooks
registered before it are unregistered again, which the state does not record). -/
def nf_tables_table_enable (s : State) (table : Ptr) (register : Ptr → Int) : Int :=
  match ((s.table table).chains.filter (fun c =>
      nft_is_active_next s.gencursor (s.chain c).genmask && nft_is_base_chain (s.chain c))).find?
      (fun c => decide (nf_tables_register_hook s table c (register c) < 0)) with
  | some c => nf_tables_register_hook s table c (register c)
  | none => 0

/-- What `nf_tables_updtable` gets from outside: the attribute `NFTA_TABLE_FLAGS` (a
`u32`), the outcome of the allocation of the record, and the results of the hook
registration service. -/
structure UpdTableEnv where
  flags : Option Nat := none
  trans_alloc_ok : Bool := true
  register : Ptr → Int := fun _ => 0

/-- `nf_tables_updtable`: the update of the dormant flag of the table `ctx.table`. -/
def nf_tables_updtable (ctx : nft_ctx) (env : UpdTableEnv) (s : State) : Int × State :=
  match env.flags with
  | none => (0, s)
  | some flags =>
    if flags &&& (UINT_MAX ^^^ NFT_TABLE_F_DORMANT) ≠ 0 then (-EINVAL, s)
    else if flags = (s.table ctx.table).flags &&& NFT_TABLE_F_MASK then (0, s)
    else if nft_table_pending_update s ctx then (-EINVAL, s)
    else if !env.trans_alloc_ok then (-ENOMEM, s)
    else if flags &&& NFT_TABLE_F_DORMANT ≠ 0 ∧
        (s.table ctx.table).flags &&& NFT_TABLE_F_DORMANT = 0 then
      let s1 := s.updTable ctx.table (fun t => { t with flags := t.flags ||| NFT_TABLE_F_DORMANT })
      let s2 := if (s1.table ctx.table).flags &&& __NFT_TABLE_F_UPDATE = 0 then
          s1.updTable ctx.table (fun t =>
            { t with flags := t.flags ||| __NFT_TABLE_F_WAS_AWAKEN })
        else s1
      (0, nft_trans_commit_list_add_tail s2
        { msg_type := .NEWTABLE, ctx_table := ctx.table, ctx_chain := ctx.chain,
          table_update := true })
    else if flags &&& NFT_TABLE_F_DORMANT = 0 ∧
        (s.table ctx.table).flags &&& NFT_TABLE_F_DORMANT ≠ 0 then
      let s1 := s.updTable ctx.table (fun t =>
        { t with flags := t.flags &&& (UINT_MAX ^^^ NFT_TABLE_F_DORMANT) })
      if (s1.table ctx.table).flags &&& __NFT_TABLE_F_UPDATE = 0 then
        if nf_tables_table_enable s1 ctx.table env.register < 0 then
          (nf_tables_table_enable s1 ctx.table env.register,
            s1.updTable ctx.table (fun t => { t with flags := t.flags ||| NFT_TABLE_F_DORMANT }))
        else
          (0, nft_trans_commit_list_add_tail
            (s1.updTable ctx.table (fun t =>
              { t with flags := t.flags ||| __NFT_TABLE_F_WAS_DORMANT }))
            { msg_type := .NEWTABLE, ctx_table := ctx.table, ctx_chain := ctx.chain,
              table_update := true })
      else
        (0, nft_trans_commit_list_add_tail s1
          { msg_type := .NEWTABLE, ctx_table := ctx.table, ctx_chain := ctx.chain,
            table_update := true })
    else
      (0, nft_trans_commit_list_add_tail s
        { msg_type := .NEWTABLE, ctx_table := ctx.table, ctx_chain := ctx.chain,
          table_update := true })

/-- Example: the awake table `1` with the base chain `10`, and the dormant table `2`. -/
def ex_table_state : State :=
  { tables := [1, 2],
    table := fun p => if p = 1 then { use := 1, chains := [10] }
      else if p = 2 then { flags := NFT_TABLE_F_DORMANT }
      else {},
    chain := fun p => if p = 10 then { table := 1, flags := NFT_BASE_CHAIN } else {} }

/-! ## C24: flowtable creation: definitions -/

/-- Modelled from the spec: header constant `NF_FLOWTABLE_F_HW`, the hardware offload
flag of a flowtable. -/
def NF_FLOWTABLE_F_HW : Nat := 1

/-- Modelled from the spec: header constant `NF_NETDEV_INGRESS`. -/
def NF_NETDEV_INGRESS : Nat := 0

/-- Modelled from the spec: header constant `NFT_FLOWTABLE_DEVICE_MAX`. -/
def NFT_FLOWTABLE_DEVICE_MAX : Nat := 8

/-- Modelled from the spec: the error `EFBIG` of the kernel's errno table. -/
def EFBIG : Int := 27

/-- One nested attribute of `NFTA_FLOWTABLE_HOOK_DEVS`: whether its type is
`NFTA_DEVICE_NAME`, the device `__dev_get_by_name` finds for it, and whether that device
has the `ndo_flow_offload` operation. -/
structure FlowDevAttr where
  is_device_name : Bool := true
  dev : Option Nat := none
  can_offload : Bool := false
  deriving DecidableEq, Repr

/-- The nested attribute `NFTA_FLOWTABLE_HOOK`: the result of its parse, the hook number,
the priority, the devices, and the outcome of the allocation of the hook operations. -/
structure FlowHookAttr where
  parse : Int := 0
  num : Option Nat := none
  priority : Option Nat := none
  devs : Option (List FlowDevAttr) := none
  ops_alloc_ok : Bool := true
  deriving DecidableEq, Repr

/-- The members of `struct nf_flowtable_type` the engine uses: the family, the outcome of
`try_module_get` on the owner and the result of the `init` callback. -/
structure nf_flowtable_type where
  family : Nat := 0
  owner_live : Bool := true
  init : Int := 0
  deriving DecidableEq, Repr

/-- What `nf_tables_newflowtable` gets from outside the engine: the attributes of the
request, the registered flowtable types, the module loader, the allocations and the
result of `nf_register_net_hook` for each hook. -/
structure NewFlowtableEnv where
  family : Nat := 0
  name : String := ""
  nlmsg_flags : Nat := 0
  flags : Option Nat := none
  hook : FlowHookAttr := {}
  types : List nf_flowtable_type := []
  config_modules : Bool := true
  module_list : List nft_module_request := []
  kmalloc_ok : Bool := true
  flowtable_alloc_ok : Bool := true
  name_ok : Bool := true
  register_hook : Nat → Int := fun _ => 0
  trans_ok : Bool := true

/-- `nft_flowtable_lookup`: the flowtable of the table with the name that is active under
the generation mask. -/
def nft_flowtable_lookup (s : State) (table : Ptr) (name : String) (genmask : Nat) :
    Option Ptr :=
  (s.table table).flowtables.find? (fun f =>
    decide ((s.flowtable f).name = name) && nft_active_genmask (s.flowtable f).genmask genmask)

/-- `nf_tables_parse_devices`: the result and the devices stored in `dev_array[0 .. n)`;
`acc` holds the devices stored so far. -/
def nf_tables_parse_devices : List FlowDevAttr → List (Nat × Bool) → Int × List (Nat × Bool)
  | [], acc => (0, acc)
  | a :: rest, acc =>
    if !a.is_device_name then (-EINVAL, acc)
    else
      match a.dev with
      | none => (-ENOENT, acc)
      | some dev =>
        if (acc ++ [(dev, a.can_offload)]).length = NFT_FLOWTABLE_DEVICE_MAX then
          (-EFBIG, acc ++ [(dev, a.can_offload)])
        else nf_tables_parse_devices rest (acc ++ [(dev, a.can_offload)])

/-- `nf_tables_flowtable_parse_hook` for a flowtable with the flags `flags`: the result
and the devices of the hook operations it stores in the flowtable (`ops_len` is the
length of the list). -/
def nf_tables_flowtable_parse_hook (attr : FlowHookAttr) (flags : Nat) :
    Int × List (Option Nat) :=
  if attr.parse < 0 then (attr.parse, [])
  else
    match attr.num, attr.priority, attr.devs with
    | some hooknum, some _, some devs =>
      if hooknum ≠ NF_NETDEV_INGRESS then (-EINVAL, [])
      else if (nf_tables_parse_devices devs []).1 < 0 then
        ((nf_tables_parse_devices devs []).1, [])
      else if (nf_tables_parse_devices devs []).2.any (fun d =>
          decide (flags &&& NF_FLOWTABLE_F_HW ≠ 0) && !d.2) then (-EOPNOTSUPP, [])
      else if !attr.ops_alloc_ok then (-ENOMEM, [])
      else (0, (nf_tables_parse_devices devs []).2.map (fun d => some d.1))
    | _, _, _ => (-EINVAL, [])

/-- `__nft_flowtable_type_get`: the first registered type of the family. -/
def __nft_flowtable_type_get (types : List nf_flowtable_type) (family : Nat) :
    Option nf_flowtable_type :=
  types.find? (fun type => decide (family = type.family))

/-- `nft_flowtable_type_get`: the type, or the error of `ERR_PTR`. -/
def nft_flowtable_type_get (env : NewFlowtableEnv) : Int × Option nf_flowtable_type :=
  match __nft_flowtable_type_get env.types env.family with
  | some type => if type.owner_live then (0, some type) else (-ENOENT, none)
  | none =>
    if env.config_modules ∧
        (nft_request_module env.module_list ("nf-flowtable-" ++ toString env.family)
          env.kmalloc_ok).1 = -EAGAIN then (-EAGAIN, none)
    else (-ENOENT, none)

/-- The loop of `nf_tables_newflowtable` over the hook operations `ops[i ..]` of the new
flowtable: a device that an active flowtable of the table already uses for the same
protocol family gives `-EBUSY` (every hook operation of a flowtable has the family
`NFPROTO_NETDEV`), a failing `nf_register_net_hook` gives its error.  On an error the
hooks registered before are unregistered again, which the state does not record. -/
def flowtable_hooks_loop (s : State) (table : Ptr) (register_hook : Nat → Int) :
    List (Option Nat) → Nat → Int
  | [], _ => 0
  | none :: rest, i => flowtable_hooks_loop s table register_hook rest (i + 1)
  | some dev :: rest, i =>
    if (s.table table).flowtables.any (fun ft =>
        nft_is_active_next s.gencursor (s.flowtable ft).genmask &&
        (s.flowtable ft).ops_dev.any (fun d => decide (d = some dev))) then -EBUSY
    else if register_hook i < 0 then register_hook i
    else flowtable_hooks_loop s table register_hook rest (i + 1)

/-- `nf_tables_newflowtable` after the lookup of the table `ctx.table` (the attributes
`NFTA_FLOWTABLE_TABLE`, `NFTA_FLOWTABLE_NAME` and `NFTA_FLOWTABLE_HOOK` are present).
The new flowtable is at the address `s.brk`. -/
def nf_tables_newflowtable (ctx : nft_ctx) (env : NewFlowtableEnv) (s : State) : Int × State :=
  match nft_flowtable_lookup s ctx.table env.name (nft_genmask_next s.gencursor) with
  | some _ => if env.nlmsg_flags &&& NLM_F_EXCL ≠ 0 then (-EEXIST, s) else (0, s)
  | none =>
    if !(nft_use_inc (s.table ctx.table).use).1 then (-EMFILE, s)
    else
      let s1 := s.updTable ctx.table (fun t => { t with use := (nft_use_inc t.use).2 })
      if !env.flowtable_alloc_ok then (-ENOMEM, table_use_dec s1 ctx.table)
      else
        let h := nf_tables_alloc_handle s1 ctx.table
        let s2 := { h.2 with
          flowtable := Function.update h.2.flowtable s.brk { table := ctx.table, handle := h.1 },
          brk := s.brk + 1 }
        if !env.name_ok then (-ENOMEM, table_use_dec s2 ctx.table)
        else
          let s3 := s2.updFlowtable s.brk (fun f => { f with name := env.name })
          match nft_flowtable_type_get env with
          | (err, none) => (err, table_use_dec s3 ctx.table)
          | (_, some type) =>
            if type.init < 0 then (type.init, table_use_dec s3 ctx.table)
            else
              let fl : State × Bool := match env.flags with
                | some flags =>
                  (s3.updFlowtable s.brk (fun f => { f with flags := flags }),
                    decide (flags &&& (UINT_MAX ^^^ NF_FLOWTABLE_F_HW) ≠ 0))
                | none => (s3, false)
              let s4 := fl.1
              if fl.2 then (type.init, table_use_dec s4 ctx.table)
              else
                let p := nf_tables_flowtable_parse_hook env.hook (s4.flowtable s.brk).flags
                if p.1 < 0 then (p.1, table_use_dec s4 ctx.table)
                else
                  let s5 := s4.updFlowtable s.brk (fun f => { f with ops_dev := p.2 })
                  let l := flowtable_hooks_loop s5 ctx.table env.register_hook p.2 0
                  if l < 0 then (l, table_use_dec s5 ctx.table)
                  else
                    let r := nft_trans_flowtable_add ctx .NEWFLOWTABLE s.brk env.trans_ok s5
                    if r.1 < 0 then (r.1, table_use_dec r.2 ctx.table)
                    else
                      (0, r.2.updTable ctx.table (fun t =>
                        { t with flowtables := t.flowtables ++ [s.brk] }))

/-- Example: the table `1` without flowtables; one flowtable type of the family `2`. -/
def ex_flow_state : State :=
  { tables := [1], table := fun p => if p = 1 then { use := 3 } else {}, brk := 40 }

/-- Example: a request for the flowtable `ft` with the flags `2` (a bit other than
`NF_FLOWTABLE_F_HW`), a hook on the device `7` and a registered type whose `init`
returns `0`. -/
def ex_flow_env : NewFlowtableEnv :=
  { family := 2, name := "ft", flags := some 2,
    hook := { num := some 0, priority := some 0, devs := some [{ dev := some 7 }] },
    types := [{ family := 2 }] }

/-- The commit list and the flowtable list of the table `t` in `w` are those of `z`, and
the use count of the table is one above. -/
structure FlowFrame (z w : State) (t : Ptr) : Prop where
  commit_list : w.commit_list = z.commit_list
  flowtables : (w.table t).flowtables = (z.table t).flowtables
  use : (w.table t).use = (z.table t).use + 1

/-! ## C22: rule placement: definitions -/

def NFT_RULE_MAXEXPRS : Nat := 128

/-- `nft_set_lookup`: the first set of the table with the name that is active under the
generation mask. -/
def nft_set_lookup (s : State) (table : Ptr) (name : Option String) (genmask : Nat) :
    Option Ptr :=
  match name with
  | none => none
  | some n =>
    (s.table table).sets.find? (fun x =>
      decide ((s.set x).name = n) && nft_active_genmask (s.set x).genmask genmask)

/-- `nft_set_lookup_byid`: the set of the first `NEWSET` record of the commit list with
the id whose set belongs to the table and is active under the generation mask. -/
def nft_set_lookup_byid (s : State) (table : Ptr) (id : Nat) (genmask : Nat) : Option Ptr :=
  (s.commit_list.find? (fun trans =>
    decide (trans.msg_type = .NEWSET ∧ id = trans.set_id ∧ (s.set trans.set).table = table) &&
      nft_active_genmask (s.set trans.set).genmask genmask)).map (fun trans => trans.set)

/-- `nft_set_lookup_global`: by name, then by id when the attribute is there. -/
def nft_set_lookup_global (s : State) (table : Ptr) (name : Option String) (id : Option Nat)
    (genmask : Nat) : Option Ptr :=
  match nft_set_lookup s table name genmask with
  | some x => some x
  | none =>
    match id with
    | none => none
    | some i => nft_set_lookup_byid s table i genmask

/-- The attributes of an expression that its `init` callback hands to the engine: the
verdict of the verdict expression, the name and the id of the set and the flags of the
binding of an expression bound to a set, the objects the name index holds for the name
of an object reference, the name of the flowtable of a flowtable reference. -/
inductive nft_expr_attr where
  | immediate (nla : VerdictAttr)
  | lookup (set_name : Option String) (set_id : Option Nat) (flags : Nat)
      (validate : Option Int)
  | objref (objects : List Ptr)
  | flow_offload (name : String) (validate : Option Int)
  | other (validate : Option Int)
  deriving DecidableEq, Repr

/-- Modelled from the spec: the `init` callback of an expression (the expression modules
are not under src/), by the calls it makes into the engine, with the result, the state
and the expression that is then part of the rule: the verdict expression takes its data
with `nft_verdict_init`; an expression bound to a set finds the set with
`nft_set_lookup_global` and binds it with `nf_tables_bind_set`; a reference to an object
finds it with `nft_obj_lookup` and a reference to a flowtable with
`nft_flowtable_lookup`, and both take a use of it with `nft_use_inc`. -/
def nft_expr_init (ctx : nft_ctx) (s : State) : nft_expr_attr → Int × State × nft_expr
  | .immediate nla =>
    let r := nft_verdict_init s ctx nla
    (r.1, r.2.1,
      match r.2.2.1 with
      | .verdict code chain => .immediate code chain
      | .value _ => .other none)
  | .lookup set_name set_id flags validate =>
    match nft_set_lookup_global s ctx.table set_name set_id (nft_genmask_next s.gencursor) with
    | none => (-ENOENT, s, .other none)
    | some set =>
      let r := nf_tables_bind_set ctx set { flags := flags } s
      (r.1, r.2, .lookup set { chain := ctx.chain, flags := flags } validate)
  | .objref objects =>
    let r := add_elem_objref s (some objects)
    (r.1, r.2.1, .objref (r.2.2.getD 0))
  | .flow_offload name validate =>
    match nft_flowtable_lookup s ctx.table name (nft_genmask_next s.gencursor) with
    | none => (-ENOENT, s, .other none)
    | some flowtable =>
      if !(nft_use_inc (s.flowtable flowtable).use).1 then (-EMFILE, s, .other none)
      else
        (0, s.updFlowtable flowtable (fun f => { f with use := (nft_use_inc f.use).2 }),
          .flow_offload flowtable validate)
  | .other validate => (0, s, .other validate)

/-- One nested attribute of `NFTA_RULE_EXPRESSIONS` and the outcomes of the calls made
for it: whether its type is `NFTA_LIST_ELEM`, the result of `nf_tables_expr_parse`, the
size of the expression, whether its operations have a `validate` callback, the result of
the part of the `init` callback before its calls into the engine, and the attributes the
callback hands to the engine. -/
structure RuleExprAttr where
  is_list_elem : Bool := true
  parse : Int := 0
  size : Nat := 0
  has_validate : Bool := false
  newexpr : Int := 0
  attr : nft_expr_attr := .other none
  deriving DecidableEq, Repr

/-- The attributes of a `NFT_MSG_NEWRULE` request (after the lookups of the table and of
the chain) and the outcomes of the calls `nf_tables_newrule` makes outside the engine. -/
structure NewRuleEnv where
  nlmsg_flags : Nat := 0
  handle : Option Nat := none
  position : Option Nat := none
  position_id : Option Nat := none
  rule_id : Option Nat := none
  exprs : Option (List RuleExprAttr) := none
  info_alloc_ok : Bool := true
  rule_alloc_ok : Bool := true
  trans_ok : Bool := true
  delrule_trans_ok : Bool := true
  flow_rule : Int := 0
  deriving DecidableEq, Repr

/-- `__nft_rule_lookup`: the first rule of the chain with the handle. -/
def __nft_rule_lookup (s : State) (chain : Ptr) (handle : Nat) : Option Ptr :=
  (s.chain chain).rules.find? (fun rule => decide (handle = (s.rule rule).handle))

/-- `nft_rule_lookup_byid`: the rule of the first `NEWRULE` record of the commit list for
the chain with the id. -/
def nft_rule_lookup_byid (s : State) (chain : Ptr) (id : Nat) : Option Ptr :=
  (s.commit_list.find? (fun trans =>
    decide (trans.msg_type = .NEWRULE ∧ trans.ctx_chain = chain ∧ id = trans.rule_id))).map
    (fun trans => trans.rule)

/-- `list_add_rcu(&new->list, head)` on the rules of a chain: the new entry follows
`head`, which is the head of the list (`none`) or a rule of the list. -/
def list_add_rcu (new : Ptr) : Option Ptr → List Ptr → List Ptr
  | none, l => new :: l
  | some _, [] => []
  | some old, x :: xs => if x = old then x :: new :: xs else x :: list_add_rcu new (some old) xs

/-- `list_add_tail_rcu(&new->list, head)` on the rules of a chain: the new entry
precedes `head`, which is the head of the list (`none`) or a rule of the list. -/
def list_add_tail_rcu (new : Ptr) : Option Ptr → List Ptr → List Ptr
  | none, l => l ++ [new]
  | some _, [] => []
  | some old, x :: xs =>
    if x = old then new :: x :: xs else x :: list_add_tail_rcu new (some old) xs

/-- The loop of `nf_tables_newrule` over `NFTA_RULE_EXPRESSIONS`: the result, and `n` and
`size` (`unsigned int`). -/
def newrule_parse_exprs : List RuleExprAttr → Nat → Nat → Int × Nat × Nat
  | [], n, size => (0, n, size)
  | a :: rest, n, size =>
    if !a.is_list_elem then (-EINVAL, n, size)
    else if n = NFT_RULE_MAXEXPRS then (-EINVAL, n, size)
    else if a.parse < 0 then (a.parse, n, size)
    else newrule_parse_exprs rest (n + 1) ((size + a.size) % 2 ^ 32)

/-- The loop of `nf_tables_newrule` over the parsed expressions: `nf_tables_newexpr` for
each, whose `init` callback makes the expression part of the rule, and the update of the
validation state for an expression with a `validate` callback.  A failure ends the loop;
the expression that failed is not part of the rule (`expr->ops = NULL`). -/
def newrule_init_exprs (ctx : nft_ctx) (rule : Ptr) : List RuleExprAttr → State → Int × State
  | [], s => (0, s)
  | a :: rest, s =>
    if a.newexpr < 0 then (a.newexpr, s)
    else
      let i := nft_expr_init ctx s a.attr
      if i.1 < 0 then (i.1, i.2.1)
      else
        let s1 := i.2.1.updRule rule (fun r => { r with exprs := r.exprs ++ [i.2.2] })
        newrule_init_exprs ctx rule rest
          (if a.has_validate then nft_validate_state_update s1 NFT_VALIDATE_NEED else s1)

/-- The part of `nf_tables_newrule` from `nft_use_inc(&chain->use)` on, for the new rule
`rule` with its expressions: the record, the place in the list of the chain, the
validation of the table and the flow rule of an offloaded chain. -/
def newrule_link (ctx : nft_ctx) (env : NewRuleEnv) (old_rule : Option Ptr) (rule : Ptr)
    (s : State) : Int × State :=
  if !(nft_use_inc (s.chain ctx.chain).use).1 then
    (-EMFILE, nft_rule_expr_deactivate s rule .PREPARE_ERROR)
  else
    let s2 := s.updChain ctx.chain (fun c => { c with use := (nft_use_inc c.use).2 })
    match nft_trans_rule_add ctx .NEWRULE rule env.rule_id env.trans_ok s2 with
    | none =>
      (-ENOMEM, nft_rule_expr_deactivate (chain_use_dec s2 ctx.chain) rule .PREPARE_ERROR)
    | some s3 =>
      let linked : Int × State :=
        if env.nlmsg_flags &&& NLM_F_REPLACE ≠ 0 then
          match old_rule with
          | some old =>
            let d := nft_delrule ctx old env.delrule_trans_ok s3
            if d.1 < 0 then
              (d.1, nft_rule_expr_deactivate
                (chain_use_dec (nft_trans_destroy_last d.2) ctx.chain) rule .PREPARE_ERROR)
            else
              (0, d.2.updChain ctx.chain (fun c =>
                { c with rules := list_add_tail_rcu rule (some old) c.rules }))
          | none => (0, s3)
        else if env.nlmsg_flags &&& NLM_F_APPEND ≠ 0 then
          (0, s3.updChain ctx.chain (fun c =>
            { c with rules :=
              match old_rule with
              | some old => list_add_rcu rule (some old) c.rules
              | none => list_add_tail_rcu rule none c.rules }))
        else
          (0, s3.updChain ctx.chain (fun c =>
            { c with rules :=
              match old_rule with
              | some old => list_add_tail_rcu rule (some old) c.rules
              | none => list_add_rcu rule none c.rules }))
      if linked.1 < 0 then linked
      else if linked.2.validate_state = NFT_VALIDATE_DO then
        (nft_table_validate linked.2 ctx.table, linked.2)
      else if (linked.2.chain ctx.chain).flags &&& NFT_CHAIN_HW_OFFLOAD ≠ 0 ∧
          env.flow_rule < 0 then (env.flow_rule, linked.2)
      else (0, linked.2)

/-- The part of `nf_tables_newrule` from `nft_ctx_init` on: `handle` is the handle of the
new rule and `old_rule` the rule to replace or the rule of the position, if any.  The
new rule is at the address `s.brk`. -/
def newrule_build (ctx : nft_ctx) (env : NewRuleEnv) (handle : Nat) (old_rule : Option Ptr)
    (s : State) : Int × State :=
  if env.exprs.isSome ∧ !env.info_alloc_ok then (-ENOMEM, s)
  else
    let p := newrule_parse_exprs (env.exprs.getD []) 0 0
    if p.1 < 0 then (p.1, s)
    else if p.2.2 ≥ 1 <<< 12 then (-EFBIG, s)
    else if !env.rule_alloc_ok then (-ENOMEM, s)
    else
      let s1 := { s with
        rule := Function.update s.rule s.brk
          { handle := handle, genmask := nft_activate_next s.gencursor, exprs := [] },
        brk := s.brk + 1 }
      let e := newrule_init_exprs ctx s.brk (env.exprs.getD []) s1
      if e.1 < 0 then (e.1, nft_rule_expr_deactivate e.2 s.brk .PREPARE_ERROR)
      else newrule_link ctx env old_rule s.brk e.2

/-- `nf_tables_newrule` after the lookups of the table `ctx.table` and of the chain
`ctx.chain`. -/
def nf_tables_newrule (ctx : nft_ctx) (env : NewRuleEnv) (s : State) : Int × State :=
  match env.handle with
  | some handle =>
    match __nft_rule_lookup s ctx.chain handle with
    | none => (-ENOENT, s)
    | some rule =>
      if env.nlmsg_flags &&& NLM_F_EXCL ≠ 0 then (-EEXIST, s)
      else if env.nlmsg_flags &&& NLM_F_REPLACE ≠ 0 then
        newrule_build ctx env handle (some rule) s
      else (-EOPNOTSUPP, s)
  | none =>
    if env.nlmsg_flags &&& NLM_F_CREATE = 0 ∨ env.nlmsg_flags &&& NLM_F_REPLACE ≠ 0 then
      (-EINVAL, s)
    else
      let h := nf_tables_alloc_handle s ctx.table
      match env.position with
      | some pos_handle =>
        match __nft_rule_lookup h.2 ctx.chain pos_handle with
        | none => (-ENOENT, h.2)
        | some old_rule => newrule_build ctx env h.1 (some old_rule) h.2
      | none =>
        match env.position_id with
        | some id =>
          match nft_rule_lookup_byid h.2 ctx.chain id with
          | none => (-ENOENT, h.2)
          | some old_rule => newrule_build ctx env h.1 (some old_rule) h.2
        | none => newrule_build ctx env h.1 none h.2

/-- Example: the chain `10` of table `1` holds the rules `100`, `101` and `102` with the
handles `1`, `2` and `3`; the handle generator of the table stands at `3`. -/
def ex_rule_state : State :=
  { tables := [1],
    table := fun p => if p = 1 then { use := 1, hgenerator := 3, chains := [10] } else {},
    chain := fun p => if p = 10 then { table := 1, use := 3, rules := [100, 101, 102] } else {},
    rule := fun p => if p = 100 then { handle := 1 } else if p = 101 then { handle := 2 }
      else if p = 102 then { handle := 3 } else {},
    brk := 103 }

/-- Example: a request with `NLM_F_CREATE | NLM_F_APPEND` and the position handle `2`. -/
def ex_rule_env : NewRuleEnv :=
  { nlmsg_flags := 3072, position := some 2 }

/-! ## C21: names of anonymous sets: definitions -/

/-- Limit of the length of the name template of an anonymous set. -/
def NFT_SET_MAX_ANONLEN : Nat := 16

/-- Modelled from the spec: header constant `BITS_PER_BYTE`. -/
def BITS_PER_BYTE : Nat := 8

/-- Modelled from the spec: header constant `PAGE_SIZE`, here of a configuration with pages
of 4096 bytes. -/
def PAGE_SIZE : Nat := 4096

/-- The outcomes of the calls `nf_tables_set_alloc_name` makes outside the engine:
`page_ok` is the result of `get_zeroed_page`; `sscanf buf fmt` is the value `sscanf`
stores in `tmp` (`none` when `sscanf` returns `0`); `kasprintf fmt v` is the string
`kasprintf` builds from the format and the `unsigned int` argument `v` (`none` when the
allocation fails). -/
structure AllocNameEnv where
  page_ok : Bool
  sscanf : String → String → Option Int
  kasprintf : String → Nat → Option String

/-- `set_bit(nr, addr)` on a bitmap given by its bits. -/
def set_bit (nr : Nat) (addr : Nat → Bool) : Nat → Bool :=
  fun k => decide (k = nr) || addr k

/-- The search of `find_first_zero_bit` from the bit `k` over the next `len` bits. -/
def find_zero_bit_from (addr : Nat → Bool) : Nat → Nat → Nat
  | k, 0 => k
  | k, len + 1 => if addr k then find_zero_bit_from addr (k + 1) len else k

/-- `find_first_zero_bit(addr, size)`: the first bit below `size` that is clear, `size`
when there is none. -/
def find_first_zero_bit (addr : Nat → Bool) (size : Nat) : Nat :=
  find_zero_bit_from addr 0 size

/-- The loop over the sets of the table in `nf_tables_set_alloc_name` that marks the
numbers in use in the window `[min, min + BITS_PER_BYTE * PAGE_SIZE)`.  The comparison
`tmp < min` is made in `unsigned int`, the comparison with
`min + BITS_PER_BYTE * PAGE_SIZE` in `unsigned long` (64 bits). -/
def alloc_name_scan (env : AllocNameEnv) (s : State) (name : String) (min : Nat) :
    List Ptr → (Nat → Bool) → (Nat → Bool)
  | [], inuse => inuse
  | i :: rest, inuse =>
    if !nft_is_active_next s.gencursor (s.set i).genmask then
      alloc_name_scan env s name min rest inuse
    else
      match env.sscanf (s.set i).name name with
      | none => alloc_name_scan env s name min rest inuse
      | some tmp =>
        if (tmp % 2 ^ 32).toNat < min ∨
            (tmp % 2 ^ 64).toNat ≥ min + BITS_PER_BYTE * PAGE_SIZE then
          alloc_name_scan env s name min rest inuse
        else
          alloc_name_scan env s name min rest
            (set_bit (((tmp % 2 ^ 32).toNat + 2 ^ 32 - min) % 2 ^ 32) inuse)

/-- The passes from the label `cont` of `nf_tables_set_alloc_name`: scan, search of the
first clear bit, and the next window when the page is full.  The result is `(min, n)`;
`none` when the passes allowed by the first argument are used up. -/
def alloc_name_cont (env : AllocNameEnv) (s : State) (name : String) (sets : List Ptr) :
    Nat → Nat → Option (Nat × Nat)
  | 0, _ => none
  | fuel + 1, min =>
    let inuse := alloc_name_scan env s name min sets (fun _ => false)
    let n := find_first_zero_bit inuse (BITS_PER_BYTE * PAGE_SIZE)
    if n ≥ BITS_PER_BYTE * PAGE_SIZE then
      alloc_name_cont env s name sets fuel ((min + BITS_PER_BYTE * PAGE_SIZE) % 2 ^ 32)
    else some (min, n)

/-- The first part of `nf_tables_set_alloc_name`: the checks of the template and the
search of the number; the result is the error and the value `min + n` (an
`unsigned int`) given to `kasprintf`. -/
def alloc_name_number (ctx : nft_ctx) (name : String) (env : AllocNameEnv) (s : State)
    (fuel : Nat) : Option (Int × Nat) :=
  match name.toList.dropWhile (fun c => c != '%') with
  | [] => some (0, 0)
  | _ :: p1 =>
    if p1.head? ≠ some 'd' ∨ '%' ∈ p1.tail then some (-EINVAL, 0)
    else if name.utf8ByteSize ≥ NFT_SET_MAX_ANONLEN then some (-EINVAL, 0)
    else if !env.page_ok then some (-ENOMEM, 0)
    else
      match alloc_name_cont env s name (s.table ctx.table).sets fuel 0 with
      | none => none
      | some mn => some (0, (mn.1 + mn.2) % 2 ^ 32)

/-- `nf_tables_set_alloc_name`.  The name freed on the collision path stays written in the
set, as the pointer does in the code. -/
def nf_tables_set_alloc_name (ctx : nft_ctx) (set : Ptr) (name : String) (env : AllocNameEnv)
    (s : State) (fuel : Nat) : Option (Int × State) :=
  match alloc_name_number ctx name env s fuel with
  | none => none
  | some r =>
    if r.1 < 0 then some (r.1, s)
    else
      match env.kasprintf name r.2 with
      | none => some (-ENOMEM, s)
      | some str =>
        let s1 := s.updSet set (fun x => { x with name := str })
        if (s1.table ctx.table).sets.any (fun i =>
            nft_is_active_next s1.gencursor (s1.set i).genmask &&
              decide ((s1.set set).name = (s1.set i).name)) then
          some (-ENFILE, s1)
        else some (0, s1)

/-- Example of `sscanf` with a format of a literal prefix and `%d`: the digits that
follow the prefix in the buffer, read as a decimal number; no conversion when the prefix
differs or no digit follows. -/
def ex_sscanf (buf fmt : String) : Option Int :=
  let pre := fmt.toList.takeWhile (fun c => c != '%')
  if pre.isPrefixOf buf.toList then
    let digits := (buf.toList.drop pre.length).takeWhile Char.isDigit
    if digits = [] then none
    else some (Int.ofNat (digits.foldl (fun a c => 10 * a + (c.toNat - 48)) 0))
  else none

/-- Example of `kasprintf` with a format of a literal prefix and `%d`. -/
def ex_kasprintf (fmt : String) (v : Nat) : Option String :=
  some (String.mk (fmt.toList.takeWhile (fun c => c != '%')) ++ toString v ++
    String.mk ((fmt.toList.dropWhile (fun c => c != '%')).drop 2))

/-- Example: the table `1` holds the sets `20`, `21` and `22` with the names `__set0`,
`__set1` and `__set3`; the new set is at `23`. -/
def ex_name_state : State :=
  { tables := [1],
    table := fun p => if p = 1 then { use := 3, sets := [20, 21, 22] } else {},
    set := fun p => if p = 20 then { table := 1, name := "__set0" }
      else if p = 21 then { table := 1, name := "__set1" }
      else if p = 22 then { table := 1, name := "__set3" } else {},
    brk := 24 }

/-- Example environment: the page is allocated, `sscanf` and `kasprintf` as above. -/
def ex_name_env : AllocNameEnv :=
  { page_ok := true, sscanf := ex_sscanf, kasprintf := ex_kasprintf }

/-! # Theorems -/

theorem genmask_next_cases (g : Nat) : nft_genmask_next g = 1 ∨ nft_genmask_next g = 2 := by
  unfold nft_genmask_next nft_gencursor_next
  by_cases h : g + 1 = 1 <;> simp [h]

theorem nft_clear_next (g : Nat) : nft_clear g (nft_genmask_next g) = 0 := by
  unfold nft_clear
  rcases genmask_next_cases g with h | h <;> rw [h] <;> decide

theorem nft_clear_zero (g : Nat) : nft_clear g 0 = 0 := by
  unfold nft_clear; simp

theorem GenRel.clear {g gx gy : Nat} (h : GenRel (nft_genmask_next g) gx (nft_genmask_next g))
    (hy : gy = 0 ∨ gy = nft_genmask_next g) : GenRel (nft_genmask_next g) (nft_clear g gx) gy := by
  have hx : nft_clear g gx = 0 := by
    rcases h with h | ⟨h, _⟩
    · rw [h]; exact nft_clear_next g
    · rw [h]; exact nft_clear_zero g
  rw [hx]
  rcases hy with hy | hy
  · left; exact hy.symm
  · right; exact ⟨rfl, hy⟩

theorem UseFrame.refl_use (z : State) : UseFrame z z :=
  ⟨rfl, rfl, rfl, rfl, rfl, rfl, rfl, rfl, fun _ => rfl, fun _ => rfl⟩

theorem UseFrame.trans_use {a b c : State} (h1 : UseFrame a b) (h2 : UseFrame b c) : UseFrame a c :=
  ⟨h2.gencursor.trans h1.gencursor, h2.tables.trans h1.tables,
   h2.commit_list.trans h1.commit_list, h2.table.trans h1.table,
   h2.rule.trans h1.rule, h2.set.trans h1.set, h2.elem.trans h1.elem,
   h2.flowtable.trans h1.flowtable, fun x => (h2.chain x).trans (h1.chain x),
   fun x => (h2.obj x).trans (h1.obj x)⟩

theorem chain_use_dec_spec (z : State) (p : Ptr) (h : (chain_use_dec z p).warned = false) :
    UseFrame z (chain_use_dec z p) ∧ z.warned = false ∧
    (∀ c, (z.chain c).use = ((chain_use_dec z p).chain c).use + (if p = c then 1 else 0)) ∧
    (∀ o, ((chain_use_dec z p).obj o).use = (z.obj o).use) := by
  simp only [chain_use_dec, State.warn, State.updChain, Bool.or_eq_false_iff] at h ⊢
  obtain ⟨hw, hd⟩ := h
  have h0 : (z.chain p).use ≠ 0 := by
    intro h0; simp [nft_use_dec, h0] at hd
  refine ⟨⟨rfl, rfl, rfl, rfl, rfl, rfl, rfl, rfl, ?_, fun _ => rfl⟩, hw, ?_, fun _ => trivial⟩
  · intro c
    by_cases hc : c = p
    · subst hc; simp
    · simp [Function.update_noteq hc]
  · intro c
    by_cases hc : c = p
    · subst hc; simp [nft_use_dec, h0]; omega
    · have : ¬ p = c := fun h => hc h.symm
      simp [Function.update_noteq hc, this]

theorem obj_use_dec_spec (z : State) (p : Ptr) (h : (obj_use_dec z p).warned = false) :
    UseFrame z (obj_use_dec z p) ∧ z.warned = false ∧
    (∀ c, ((obj_use_dec z p).chain c).use = (z.chain c).use) ∧
    (∀ o, (z.obj o).use = ((obj_use_dec z p).obj o).use + (if p = o then 1 else 0)) := by
  simp only [obj_use_dec, State.warn, State.updObj, Bool.or_eq_false_iff] at h ⊢
  obtain ⟨hw, hd⟩ := h
  have h0 : (z.obj p).use ≠ 0 := by
    intro h0; simp [nft_use_dec, h0] at hd
  refine ⟨⟨rfl, rfl, rfl, rfl, rfl, rfl, rfl, rfl, fun _ => rfl, ?_⟩, hw, fun _ => trivial, ?_⟩
  · intro c
    by_cases hc : c = p
    · subst hc; simp
    · simp [Function.update_noteq hc]
  · intro c
    by_cases hc : c = p
    · subst hc; simp [nft_use_dec, h0]; omega
    · have : ¬ p = c := fun h => hc h.symm
      simp [Function.update_noteq hc, this]



theorem data_release_spec (z : State) (d : nft_data) (hw1 : (nft_data_release z d).warned = false) :
    UseFrame z (nft_data_release z d) ∧ z.warned = false ∧
    (∀ c, (z.chain c).use = ((nft_data_release z d).chain c).use + data_chain_refs d c) ∧
    (∀ o, ((nft_data_release z d).obj o).use = (z.obj o).use) := by
  cases d with
  | value b => exact ⟨UseFrame.refl_use z, hw1, fun _ => rfl, fun _ => rfl⟩
  | verdict code ch =>
    by_cases hj : code = NFT_JUMP ∨ code = NFT_GOTO
    · simp only [nft_data_release, hj, if_true] at hw1 ⊢
      have := chain_use_dec_spec z ch hw1
      refine ⟨this.1, this.2.1, ?_, this.2.2.2⟩
      intro c
      have h3 := this.2.2.1 c
      simp only [data_chain_refs, hj, true_and]
      exact h3
    · simp only [nft_data_release, hj, if_false] at hw1 ⊢
      refine ⟨UseFrame.refl_use z, hw1, ?_, fun _ => trivial⟩
      intro c
      simp [data_chain_refs, hj]

theorem deact_elem_spec (z : State) (e : Ptr)
    (h : (nft_setelem_data_deactivate z e).warned = false) :
    UseFrame z (nft_setelem_data_deactivate z e) ∧ z.warned = false ∧
    (∀ c, (z.chain c).use =
      ((nft_setelem_data_deactivate z e).chain c).use + elem_chain_refs (z.elem e) c) ∧
    (∀ o, (z.obj o).use =
      ((nft_setelem_data_deactivate z e).obj o).use + elem_obj_refs (z.elem e) o) := by
  unfold nft_setelem_data_deactivate at h ⊢
  simp only at h ⊢
  cases hd : (z.elem e).data with
  | none =>
    simp only [hd] at h ⊢
    cases ho : (z.elem e).objref with
    | none =>
      simp only [ho] at h ⊢
      exact ⟨UseFrame.refl_use z, h, fun c => by simp [elem_chain_refs, hd],
        fun o => by simp [elem_obj_refs, ho]⟩
    | some p =>
      simp only [ho] at h ⊢
      have h2 := obj_use_dec_spec _ p h
      refine ⟨h2.1, h2.2.1, ?_, ?_⟩
      · intro c; have := h2.2.2.1 c; simp [elem_chain_refs, hd]; omega
      · intro o; have := h2.2.2.2 o; simp only [elem_obj_refs, ho]; exact this
  | some d =>
    simp only [hd] at h ⊢
    cases ho : (z.elem e).objref with
    | none =>
      simp only [ho] at h ⊢
      have h1 := data_release_spec z d h
      refine ⟨h1.1, h1.2.1, ?_, ?_⟩
      · intro c; have := h1.2.2.1 c; simp only [elem_chain_refs, hd]; exact this
      · intro o; have := h1.2.2.2 o; simp [elem_obj_refs, ho]; omega
    | some p =>
      simp only [ho] at h ⊢
      have h2 := obj_use_dec_spec _ p h
      have h1 := data_release_spec z d h2.2.1
      refine ⟨h1.1.trans_use h2.1, h1.2.1, ?_, ?_⟩
      · intro c; have a := h1.2.2.1 c; have b := h2.2.2.1 c
        simp only [elem_chain_refs, hd]; omega
      · intro o; have a := h1.2.2.2 o; have b := h2.2.2.2 o
        simp only [elem_obj_refs, ho]; omega

theorem deact_walk_spec (L : List Ptr) : ∀ (z : State),
    (L.foldl nft_setelem_data_deactivate z).warned = false →
    UseFrame z (L.foldl nft_setelem_data_deactivate z) ∧ z.warned = false ∧
    (∀ c, (z.chain c).use = ((L.foldl nft_setelem_data_deactivate z).chain c).use +
      (L.map (fun e => elem_chain_refs (z.elem e) c)).sum) ∧
    (∀ o, (z.obj o).use = ((L.foldl nft_setelem_data_deactivate z).obj o).use +
      (L.map (fun e => elem_obj_refs (z.elem e) o)).sum) := by
  induction L with
  | nil => intro z h; exact ⟨UseFrame.refl_use z, h, fun _ => by simp, fun _ => by simp⟩
  | cons e L ih =>
    intro z h
    simp only [List.foldl_cons] at h ⊢
    have h2 := ih _ h
    have h1 := deact_elem_spec z e h2.2.1
    refine ⟨h1.1.trans_use h2.1, h1.2.1, ?_, ?_⟩
    · intro c
      have a := h1.2.2.1 c; have b := h2.2.2.1 c
      simp only [List.map_cons, List.sum_cons]
      rw [h1.1.elem] at b
      omega
    · intro o
      have a := h1.2.2.2 o; have b := h2.2.2.2 o
      simp only [List.map_cons, List.sum_cons]
      rw [h1.1.elem] at b
      omega

theorem chain_use_dec_frame (z : State) (p : Ptr) : UseFrame z (chain_use_dec z p) := by
  simp only [chain_use_dec, State.warn, State.updChain]
  refine ⟨rfl, rfl, rfl, rfl, rfl, rfl, rfl, rfl, ?_, fun _ => rfl⟩
  intro c
  by_cases hc : c = p
  · subst hc; simp
  · simp [Function.update_noteq hc]

theorem obj_use_dec_frame (z : State) (p : Ptr) : UseFrame z (obj_use_dec z p) := by
  simp only [obj_use_dec, State.warn, State.updObj]
  refine ⟨rfl, rfl, rfl, rfl, rfl, rfl, rfl, rfl, fun _ => rfl, ?_⟩
  intro c
  by_cases hc : c = p
  · subst hc; simp
  · simp [Function.update_noteq hc]

theorem deact_elem_frame (z : State) (e : Ptr) :
    UseFrame z (nft_setelem_data_deactivate z e) := by
  have hd : ∀ d, UseFrame z (nft_data_release z d) := by
    intro d
    cases d with
    | value b => exact UseFrame.refl_use z
    | verdict code ch =>
      simp only [nft_data_release]
      split
      · exact chain_use_dec_frame z ch
      · exact UseFrame.refl_use z
  unfold nft_setelem_data_deactivate
  simp only
  cases (z.elem e).data with
  | none =>
    cases (z.elem e).objref with
    | none => exact UseFrame.refl_use z
    | some p => exact obj_use_dec_frame z p
  | some d =>
    cases (z.elem e).objref with
    | none => exact hd d
    | some p => exact (hd d).trans_use (obj_use_dec_frame _ p)

theorem deact_walk_frame (L : List Ptr) : ∀ z : State,
    UseFrame z (L.foldl nft_setelem_data_deactivate z) := by
  induction L with
  | nil => intro z; exact UseFrame.refl_use z
  | cons e L ih =>
    intro z
    simp only [List.foldl_cons]
    exact (deact_elem_frame z e).trans_use (ih _)

theorem ExprFrame.refl_expr (z : State) : ExprFrame z z :=
  ⟨rfl, rfl, rfl, rfl, rfl, rfl, fun _ => rfl, fun _ => rfl, fun _ => rfl, fun _ => rfl⟩

theorem ExprFrame.trans_expr {a b c : State} (h1 : ExprFrame a b) (h2 : ExprFrame b c) :
    ExprFrame a c :=
  ⟨h2.gencursor.trans h1.gencursor, h2.tables.trans h1.tables,
   h2.commit_list.trans h1.commit_list, h2.table.trans h1.table,
   h2.rule.trans h1.rule, h2.elem.trans h1.elem,
   fun x => (h2.chain x).trans (h1.chain x), fun x => (h2.obj x).trans (h1.obj x),
   fun x => (h2.set x).trans (h1.set x), fun x => (h2.flowtable x).trans (h1.flowtable x)⟩

theorem UseFrame.expr_frame {z w : State} (h : UseFrame z w) : ExprFrame z w :=
  ⟨h.gencursor, h.tables, h.commit_list, h.table, h.rule, h.elem, h.chain, h.obj,
   fun x => by rw [h.set], fun f => by rw [h.flowtable]⟩

theorem ExprFrame.set_flags_ef {z w : State} (h : ExprFrame z w) (x : Ptr) :
    (w.set x).flags = (z.set x).flags := by
  have := congrArg nft_set.flags (h.set x)
  simpa using this

theorem ExprFrame.set_elems_ef {z w : State} (h : ExprFrame z w) (x : Ptr) :
    (w.set x).elems = (z.set x).elems := by
  have := congrArg nft_set.elems (h.set x)
  simpa using this

theorem expr_refs_congr (z w : State) (hg : w.gencursor = z.gencursor) (he : w.elem = z.elem)
    (hs : ∀ x, (w.set x).flags = (z.set x).flags ∧ (w.set x).elems = (z.set x).elems)
    (e : nft_expr) : expr_refs w e = expr_refs z e := by
  have hm : ∀ x, map_elems w x = map_elems z x := by
    intro x
    unfold map_elems
    rw [(hs x).2, he, hg]
  cases e with
  | lookup set b v => simp only [expr_refs, nft_set_is_anonymous, (hs set).1, hm, he]
  | immediate code chain => rfl
  | objref o => rfl
  | flow_offload f v => rfl
  | other v => rfl

theorem exprs_refs_congr (z w : State) (hg : w.gencursor = z.gencursor) (he : w.elem = z.elem)
    (hs : ∀ x, (w.set x).flags = (z.set x).flags ∧ (w.set x).elems = (z.set x).elems)
    (es : List nft_expr) : exprs_refs w es = exprs_refs z es := by
  induction es with
  | nil => rfl
  | cons e es ih => simp only [exprs_refs, ih, expr_refs_congr z w hg he hs]

theorem ExprFrame.refs_ef {z w : State} (h : ExprFrame z w) (es : List nft_expr) :
    exprs_refs w es = exprs_refs z es :=
  exprs_refs_congr z w h.gencursor h.elem (fun x => ⟨h.set_flags_ef x, h.set_elems_ef x⟩) es

theorem ExprFrame.ref {z w : State} (h : ExprFrame z w) (e : nft_expr) :
    expr_refs w e = expr_refs z e :=
  expr_refs_congr z w h.gencursor h.elem (fun x => ⟨h.set_flags_ef x, h.set_elems_ef x⟩) e

theorem chain_use_inc_frame (z : State) (p : Ptr) : UseFrame z (chain_use_inc_restore z p) := by
  simp only [chain_use_inc_restore, State.warn, State.updChain]
  refine ⟨rfl, rfl, rfl, rfl, rfl, rfl, rfl, rfl, ?_, fun _ => rfl⟩
  intro c
  by_cases hc : c = p
  · subst hc; simp
  · simp [Function.update_noteq hc]

theorem obj_use_inc_frame (z : State) (p : Ptr) : UseFrame z (obj_use_inc_restore z p) := by
  simp only [obj_use_inc_restore, State.warn, State.updObj]
  refine ⟨rfl, rfl, rfl, rfl, rfl, rfl, rfl, rfl, fun _ => rfl, ?_⟩
  intro c
  by_cases hc : c = p
  · subst hc; simp
  · simp [Function.update_noteq hc]

theorem data_hold_frame (z : State) (d : nft_data) : UseFrame z (nft_data_hold z d) := by
  unfold nft_data_hold
  cases d with
  | value b => exact UseFrame.refl_use z
  | verdict code chain =>
    dsimp only
    split
    · exact chain_use_inc_frame z chain
    · exact UseFrame.refl_use z

theorem act_elem_frame (z : State) (e : Ptr) :
    UseFrame z (nft_setelem_data_activate z e) := by
  unfold nft_setelem_data_activate
  dsimp only
  have h1 : UseFrame z (match (z.elem e).data with
      | some d => nft_data_hold z d
      | none => z) := by
    cases (z.elem e).data with
    | none => exact UseFrame.refl_use z
    | some d => exact data_hold_frame z d
  cases (z.elem e).objref with
  | none => exact h1
  | some o => exact h1.trans_use (obj_use_inc_frame _ o)

theorem act_walk_frame (L : List Ptr) : ∀ z : State,
    UseFrame z (L.foldl nft_setelem_data_activate z) := by
  induction L with
  | nil => intro z; exact UseFrame.refl_use z
  | cons e L ih =>
    intro z
    rw [List.foldl_cons]
    exact (act_elem_frame z e).trans_use (ih _)

theorem map_activate_frame (z : State) (set : Ptr) : UseFrame z (nft_map_activate z set) := by
  unfold nft_map_activate set_walk
  exact act_walk_frame _ z

theorem set_use_dec_frame (z : State) (p : Ptr) : ExprFrame z (set_use_dec z p) := by
  simp only [set_use_dec, State.warn, State.updSet]
  refine ⟨rfl, rfl, rfl, rfl, rfl, rfl, fun _ => rfl, fun _ => rfl, ?_, fun _ => rfl⟩
  intro c
  by_cases hc : c = p
  · subst hc; simp
  · simp [Function.update_noteq hc]

theorem set_use_inc_frame (z : State) (p : Ptr) : ExprFrame z (set_use_inc_restore z p) := by
  simp only [set_use_inc_restore, State.warn, State.updSet]
  refine ⟨rfl, rfl, rfl, rfl, rfl, rfl, fun _ => rfl, fun _ => rfl, ?_, fun _ => rfl⟩
  intro c
  by_cases hc : c = p
  · subst hc; simp
  · simp [Function.update_noteq hc]

theorem flowtable_use_dec_frame (z : State) (p : Ptr) :
    ExprFrame z (flowtable_use_dec z p) := by
  simp only [flowtable_use_dec, State.warn, State.updFlowtable]
  refine ⟨rfl, rfl, rfl, rfl, rfl, rfl, fun _ => rfl, fun _ => rfl, fun _ => rfl, ?_⟩
  intro c
  by_cases hc : c = p
  · subst hc; simp
  · simp [Function.update_noteq hc]

theorem flowtable_use_inc_frame (z : State) (p : Ptr) :
    ExprFrame z (flowtable_use_inc_restore z p) := by
  simp only [flowtable_use_inc_restore, State.warn, State.updFlowtable]
  refine ⟨rfl, rfl, rfl, rfl, rfl, rfl, fun _ => rfl, fun _ => rfl, fun _ => rfl, ?_⟩
  intro c
  by_cases hc : c = p
  · subst hc; simp
  · simp [Function.update_noteq hc]

theorem updSet_genmask_frame (z : State) (p : Ptr) (g : Nat) :
    ExprFrame z (z.updSet p (fun x => { x with genmask := g })) := by
  simp only [State.updSet]
  refine ⟨rfl, rfl, rfl, rfl, rfl, rfl, fun _ => rfl, fun _ => rfl, ?_, fun _ => rfl⟩
  intro c
  by_cases hc : c = p
  · subst hc; simp
  · simp [Function.update_noteq hc]

theorem updSet_clear_frame (z : State) (p : Ptr) (g : Nat) :
    ExprFrame z (z.updSet p (fun x => { x with genmask := nft_clear g x.genmask })) := by
  simp only [State.updSet]
  refine ⟨rfl, rfl, rfl, rfl, rfl, rfl, fun _ => rfl, fun _ => rfl, ?_, fun _ => rfl⟩
  intro c
  by_cases hc : c = p
  · subst hc; simp
  · simp [Function.update_noteq hc]

theorem map_deactivate_frame (z : State) (set : Ptr) :
    UseFrame z (nft_map_deactivate z set) := by
  unfold nft_map_deactivate set_walk
  exact deact_walk_frame _ z

theorem activate_set_frame (z : State) (set : Ptr) :
    ExprFrame z (nf_tables_activate_set z set) := by
  unfold nf_tables_activate_set
  refine ExprFrame.trans_expr ?_ (set_use_inc_frame _ set)
  split
  · refine ExprFrame.trans_expr ?_ (updSet_clear_frame _ set _)
    split
    · exact (map_activate_frame z set).expr_frame
    · exact ExprFrame.refl_expr z
  · exact ExprFrame.refl_expr z

theorem expr_act_frame (z : State) (e : nft_expr) : ExprFrame z (nft_expr_activate z e) := by
  cases e with
  | other v => exact ExprFrame.refl_expr z
  | immediate code chain => exact (data_hold_frame z (.verdict code chain)).expr_frame
  | objref o => exact (obj_use_inc_frame z o).expr_frame
  | flow_offload f v => exact flowtable_use_inc_frame z f
  | lookup set b v => exact activate_set_frame z set

theorem exprs_act_frame (es : List nft_expr) : ∀ z : State,
    ExprFrame z (es.foldl nft_expr_activate z) := by
  induction es with
  | nil => intro z; exact ExprFrame.refl_expr z
  | cons e es ih =>
    intro z
    rw [List.foldl_cons]
    exact (expr_act_frame z e).trans_expr (ih _)

theorem data_release_use_frame (z : State) (d : nft_data) : UseFrame z (nft_data_release z d) := by
  cases d with
  | value b => exact UseFrame.refl_use z
  | verdict code ch =>
    simp only [nft_data_release]
    split
    · exact chain_use_dec_frame z ch
    · exact UseFrame.refl_use z

theorem deactivate_set_prepare_frame (z : State) (set : Ptr) (b : nft_set_binding) :
    ExprFrame z (nf_tables_deactivate_set z set b .PREPARE) := by
  simp only [nf_tables_deactivate_set]
  refine ExprFrame.trans_expr ?_ (set_use_dec_frame _ set)
  split
  · refine ExprFrame.trans_expr ?_ (updSet_genmask_frame _ set _)
    split
    · exact (map_deactivate_frame z set).expr_frame
    · exact ExprFrame.refl_expr z
  · exact ExprFrame.refl_expr z

theorem expr_deact_prepare_frame (z : State) (e : nft_expr) :
    ExprFrame z (nft_expr_deactivate .PREPARE z e) := by
  cases e with
  | other v => exact ExprFrame.refl_expr z
  | immediate code chain =>
    simp only [nft_expr_deactivate, reduceCtorEq, if_false]
    exact (data_release_use_frame z _).expr_frame
  | objref o =>
    simp only [nft_expr_deactivate, reduceCtorEq, if_false]
    exact (obj_use_dec_frame z o).expr_frame
  | flow_offload f v =>
    simp only [nft_expr_deactivate, nf_tables_deactivate_flowtable]
    exact flowtable_use_dec_frame z f
  | lookup set b v => exact deactivate_set_prepare_frame z set b

theorem exprs_deact_prepare_frame (es : List nft_expr) : ∀ z : State,
    ExprFrame z (es.foldl (nft_expr_deactivate .PREPARE) z) := by
  induction es with
  | nil => intro z; exact ExprFrame.refl_expr z
  | cons e es ih =>
    intro z
    rw [List.foldl_cons]
    exact (expr_deact_prepare_frame z e).trans_expr (ih _)

/-! ### Dropping references -/

theorem Dropped.refl_drop (z : State) : Dropped z z ExprRefs.zero :=
  ⟨ExprFrame.refl_expr z, fun _ => rfl, fun _ => rfl, fun _ => rfl, fun _ => rfl, fun _ => rfl⟩

theorem Dropped.trans_drop {a b c : State} {r1 r2 : ExprRefs} (h1 : Dropped a b r1)
    (h2 : Dropped b c r2) : Dropped a c (r1.add r2) := by
  refine ⟨h1.frame.trans_expr h2.frame, ?_, ?_, ?_, ?_, ?_⟩
  · intro p; have a1 := h1.chain p; have a2 := h2.chain p; simp only [ExprRefs.add]; omega
  · intro p; have a1 := h1.obj p; have a2 := h2.obj p; simp only [ExprRefs.add]; omega
  · intro p; have a1 := h1.set p; have a2 := h2.set p; simp only [ExprRefs.add]; omega
  · intro p; have a1 := h1.flowtable p; have a2 := h2.flowtable p
    simp only [ExprRefs.add]; omega
  · intro p
    have a1 := h1.genmask p; have a2 := h2.genmask p
    rw [h1.frame.gencursor] at a2
    simp only [ExprRefs.add]
    rw [a2, a1]
    by_cases b1 : r1.anon p = true <;> by_cases b2 : r2.anon p = true <;> simp [b1, b2]

theorem Dropped.mono_drop {z w : State} {r r' : ExprRefs} (h : Dropped z w r)
    (hc : ∀ p, r.chain p = r'.chain p) (ho : ∀ p, r.obj p = r'.obj p)
    (hs : ∀ p, r.set p = r'.set p) (hf : ∀ p, r.flowtable p = r'.flowtable p)
    (ha : ∀ p, r.anon p = r'.anon p) : Dropped z w r' :=
  ⟨h.frame, fun p => by rw [← hc p]; exact h.chain p, fun p => by rw [← ho p]; exact h.obj p,
   fun p => by rw [← hs p]; exact h.set p, fun p => by rw [← hf p]; exact h.flowtable p,
   fun p => by rw [← ha p]; exact h.genmask p⟩

theorem Dropped.of_use_drop {z w : State} (h : UseFrame z w) (rc ro : Ptr → Nat)
    (hc : ∀ c, (z.chain c).use = (w.chain c).use + rc c)
    (ho : ∀ o, (z.obj o).use = (w.obj o).use + ro o) :
    Dropped z w { ExprRefs.zero with chain := rc, obj := ro } :=
  ⟨h.expr_frame, hc, ho, fun x => by rw [h.set]; rfl, fun x => by rw [h.flowtable]; rfl,
   fun x => by rw [h.set]; rfl⟩

theorem set_use_dec_spec (z : State) (p : Ptr) (h : (set_use_dec z p).warned = false) :
    Dropped z (set_use_dec z p)
      { ExprRefs.zero with set := fun x => if p = x then 1 else 0 } ∧ z.warned = false := by
  simp only [set_use_dec, State.warn, State.updSet, Bool.or_eq_false_iff] at h ⊢
  obtain ⟨hw, hd⟩ := h
  have h0 : (z.set p).use ≠ 0 := by
    intro h0; simp [nft_use_dec, h0] at hd
  refine ⟨⟨⟨rfl, rfl, rfl, rfl, rfl, rfl, fun _ => rfl, fun _ => rfl, ?_, fun _ => rfl⟩,
    fun _ => rfl, fun _ => rfl, ?_, fun _ => rfl, ?_⟩, hw⟩
  · intro c
    by_cases hc : c = p
    · subst hc; simp
    · simp [Function.update_noteq hc]
  · intro c
    by_cases hc : c = p
    · subst hc; simp [nft_use_dec, h0, ExprRefs.zero]; omega
    · have : ¬ p = c := fun h => hc h.symm
      simp [Function.update_noteq hc, this, ExprRefs.zero]
  · intro c
    by_cases hc : c = p
    · subst hc; simp [ExprRefs.zero]
    · simp [Function.update_noteq hc, ExprRefs.zero]

theorem flowtable_use_dec_spec (z : State) (p : Ptr)
    (h : (flowtable_use_dec z p).warned = false) :
    Dropped z (flowtable_use_dec z p)
      { ExprRefs.zero with flowtable := fun x => if p = x then 1 else 0 } ∧
      z.warned = false := by
  simp only [flowtable_use_dec, State.warn, State.updFlowtable, Bool.or_eq_false_iff] at h ⊢
  obtain ⟨hw, hd⟩ := h
  have h0 : (z.flowtable p).use ≠ 0 := by
    intro h0; simp [nft_use_dec, h0] at hd
  refine ⟨⟨⟨rfl, rfl, rfl, rfl, rfl, rfl, fun _ => rfl, fun _ => rfl, fun _ => rfl, ?_⟩,
    fun _ => rfl, fun _ => rfl, fun _ => rfl, ?_, fun _ => rfl⟩, hw⟩
  · intro c
    by_cases hc : c = p
    · subst hc; simp
    · simp [Function.update_noteq hc]
  · intro c
    by_cases hc : c = p
    · subst hc; simp [nft_use_dec, h0, ExprRefs.zero]; omega
    · have : ¬ p = c := fun h => hc h.symm
      simp [Function.update_noteq hc, this, ExprRefs.zero]

/-- Writing the generation mask of a set. -/
theorem set_genmask_dropped (z : State) (p : Ptr) :
    Dropped z (z.updSet p (fun x => { x with genmask := nft_deactivate_next z.gencursor }))
      { ExprRefs.zero with anon := fun x => decide (p = x) } := by
  simp only [State.updSet]
  refine ⟨⟨rfl, rfl, rfl, rfl, rfl, rfl, fun _ => rfl, fun _ => rfl, ?_, fun _ => rfl⟩,
    fun _ => rfl, fun _ => rfl, ?_, fun _ => rfl, ?_⟩
  · intro c
    by_cases hc : c = p
    · subst hc; simp
    · simp [Function.update_noteq hc]
  · intro c
    by_cases hc : c = p
    · subst hc; simp [ExprRefs.zero]
    · simp [Function.update_noteq hc, ExprRefs.zero]
  · intro c
    by_cases hc : c = p
    · subst hc; simp [nft_deactivate_next]
    · have : ¬ p = c := fun h => hc h.symm
      simp [Function.update_noteq hc, this]

theorem expr_deact_spec (z : State) (e : nft_expr)
    (h : (nft_expr_deactivate .PREPARE z e).warned = false) :
    Dropped z (nft_expr_deactivate .PREPARE z e) (expr_refs z e) ∧ z.warned = false := by
  cases e with
  | other v => exact ⟨Dropped.refl_drop z, h⟩
  | immediate code chain =>
    simp only [nft_expr_deactivate, reduceCtorEq, if_false] at h ⊢
    have D := data_release_spec z _ h
    refine ⟨(Dropped.of_use_drop D.1 _ (fun _ => 0) D.2.2.1
      (fun o => by rw [D.2.2.2 o]; exact (Nat.add_zero _).symm)).mono_drop ?_ ?_ ?_ ?_ ?_, D.2.1⟩ <;> intro p <;> rfl
  | objref o =>
    simp only [nft_expr_deactivate, reduceCtorEq, if_false] at h ⊢
    have D := obj_use_dec_spec z o h
    refine ⟨(Dropped.of_use_drop D.1 (fun _ => 0) _ (fun c => by rw [D.2.2.1 c]; exact (Nat.add_zero _).symm)
      D.2.2.2).mono_drop ?_ ?_ ?_ ?_ ?_, D.2.1⟩ <;> intro p <;> rfl
  | flow_offload f v =>
    simp only [nft_expr_deactivate, nf_tables_deactivate_flowtable] at h ⊢
    exact flowtable_use_dec_spec z f h
  | lookup set b v =>
    simp only [nft_expr_deactivate, nf_tables_deactivate_set] at h ⊢
    by_cases ha : nft_set_is_anonymous (z.set set) = true
    · simp only [ha, if_true] at h ⊢
      by_cases hm : (z.set set).flags &&& (NFT_SET_MAP ||| NFT_SET_OBJECT) ≠ 0
      · simp only [if_pos hm] at h ⊢
        have S := set_use_dec_spec _ set h
        have hw2 : (nft_map_deactivate z set).warned = false := S.2
        have W := deact_walk_spec (map_elems z set) z hw2
        have D1 := Dropped.of_use_drop W.1 _ _ W.2.2.1 W.2.2.2
        have D2 := set_genmask_dropped (nft_map_deactivate z set) set
        refine ⟨((D1.trans_drop D2).trans_drop S.1).mono_drop ?_ ?_ ?_ ?_ ?_, W.2.1⟩ <;> intro p <;>
          simp [expr_refs, ha, hm, ExprRefs.add, ExprRefs.zero]
      · simp only [if_neg hm] at h ⊢
        have S := set_use_dec_spec _ set h
        have D2 := set_genmask_dropped z set
        refine ⟨(D2.trans_drop S.1).mono_drop ?_ ?_ ?_ ?_ ?_, S.2⟩ <;> intro p <;>
          simp [expr_refs, ha, hm, ExprRefs.add, ExprRefs.zero]
    · simp only [ha, if_false] at h ⊢
      have S := set_use_dec_spec _ set h
      refine ⟨S.1.mono_drop ?_ ?_ ?_ ?_ ?_, S.2⟩ <;> intro p <;>
        simp [expr_refs, ha, ExprRefs.zero]

theorem exprs_deact_spec (es : List nft_expr) : ∀ z : State,
    (es.foldl (nft_expr_deactivate .PREPARE) z).warned = false →
    Dropped z (es.foldl (nft_expr_deactivate .PREPARE) z) (exprs_refs z es) ∧
      z.warned = false := by
  induction es with
  | nil => intro z h; exact ⟨Dropped.refl_drop z, h⟩
  | cons e es ih =>
    intro z h
    simp only [List.foldl_cons] at h ⊢
    have h2 := ih _ h
    have h1 := expr_deact_spec z e h2.2
    have e2 := h1.1.frame.refs_ef es
    rw [e2] at h2
    exact ⟨h1.1.trans_drop h2.1, h1.2⟩

/-! ### Taking references again -/

/-- The references a staged rule deletion dropped: one to the chain of the rule and those
of the expressions. -/
theorem delrule_dropped (es : List nft_expr) (c : Ptr) (y1 : State)
    (hw : (es.foldl (nft_expr_deactivate .PREPARE) (chain_use_dec y1 c)).warned = false) :
    Dropped y1 (es.foldl (nft_expr_deactivate .PREPARE) (chain_use_dec y1 c))
      (ExprRefs.add { ExprRefs.zero with chain := fun p => if c = p then 1 else 0 }
        (exprs_refs y1 es)) ∧ y1.warned = false := by
  have D2 := exprs_deact_spec es (chain_use_dec y1 c) hw
  have C := chain_use_dec_spec y1 c D2.2
  have D1 := Dropped.of_use_drop C.1 (fun p => if c = p then 1 else 0) (fun _ => 0) C.2.2.1
    (fun o => by rw [C.2.2.2 o]; exact (Nat.add_zero _).symm)
  have e2 := D1.frame.refs_ef es
  rw [e2] at D2
  refine ⟨(D1.trans_drop D2.1).mono_drop ?_ ?_ ?_ ?_ ?_, C.2.1⟩ <;> intro p <;> rfl

theorem delrule_active_eq (ctx : nft_ctx) (rule : Ptr) (y : State)
    (hact : nft_is_active_next y.gencursor (y.rule rule).genmask = true) :
    (nft_delrule ctx rule true y).2 =
      (y.rule rule).exprs.foldl (nft_expr_deactivate .PREPARE)
        (chain_use_dec (({ y with commit_list := y.commit_list ++
          [({ msg_type := .DELRULE, ctx_table := ctx.table, ctx_chain := ctx.chain,
              rule := rule } : nft_trans)] } : State).updRule rule
            (fun r => { r with genmask := nft_deactivate_next y.gencursor })) ctx.chain) := by
  simp [nft_delrule, nft_trans_rule_add, nft_trans_commit_list_add_tail,
    nf_tables_delrule_deactivate, hact, nft_rule_expr_deactivate, chain_use_dec, State.warn,
    State.updChain, State.updRule]

theorem chain_use_dec_u32 (s : State) (p : Ptr) (h : s.u32_counters) :
    (chain_use_dec s p).u32_counters := by
  refine ⟨h.1, ?_, h.2.2⟩
  intro t
  simp only [chain_use_dec, State.warn, State.updChain]
  by_cases ht : t = p
  · subst ht
    simp only [Function.update_same, nft_use_dec]
    have := h.2.1 t
    split
    · exact Nat.le_refl _
    · simp only; omega
  · simp only [Function.update_noteq ht]; exact h.2.1 t

theorem UseFrame.obj_genmask {z w : State} (h : UseFrame z w) (c : Ptr) :
    (w.obj c).genmask = (z.obj c).genmask := by
  have := congrArg nft_object.genmask (h.obj c)
  simpa using this

theorem abort_loop_append (a b : List nft_trans) : ∀ x : State,
    abort_loop (a ++ b) x = abort_loop b (abort_loop a x) := by
  induction a with
  | nil => intro x; rfl
  | cons t a ih => intro x; simp only [List.cons_append, abort_loop]; exact ih _

theorem CallbackFrame.refl_cb (z : State) : CallbackFrame z z :=
  ⟨rfl, rfl, rfl, rfl, fun _ => rfl, fun _ => rfl, fun _ => rfl, fun _ => rfl, fun _ => rfl, rfl⟩

theorem CallbackFrame.trans_cb {a b c : State} (h1 : CallbackFrame a b)
    (h2 : CallbackFrame b c) : CallbackFrame a c :=
  ⟨h2.gencursor.trans h1.gencursor, h2.tables.trans h1.tables, h2.rule.trans h1.rule,
   h2.elem.trans h1.elem, fun x => (h2.chain x).trans (h1.chain x),
   fun x => (h2.obj x).trans (h1.obj x), fun x => (h2.flowtable x).trans (h1.flowtable x),
   fun x => (h2.set x).trans (h1.set x), fun x => (h2.table x).trans (h1.table x),
   h2.commit_list.trans h1.commit_list⟩

theorem ExprFrame.callback {z w : State} (h : ExprFrame z w) : CallbackFrame z w := by
  refine ⟨h.gencursor, h.tables, h.rule, h.elem, h.chain, h.obj, h.flowtable, ?_,
    fun t => by rw [h.table], by rw [h.commit_list]⟩
  intro x
  have := h.set x
  cases hw : w.set x; cases hz : z.set x
  rw [hw, hz] at this
  simp only [nft_set.mk.injEq] at this ⊢
  simp_all

theorem updSet_bindings_frame (z : State) (p : Ptr)
    (f : List nft_set_binding → List nft_set_binding) :
    CallbackFrame z (z.updSet p (fun x => { x with bindings := f x.bindings })) := by
  simp only [State.updSet]
  refine ⟨rfl, rfl, rfl, rfl, fun _ => rfl, fun _ => rfl, fun _ => rfl, ?_, fun _ => rfl, rfl⟩
  intro c
  by_cases hc : c = p
  · subst hc; simp
  · simp [Function.update_noteq hc]

theorem updSet_dead_frame (z : State) (p : Ptr) :
    CallbackFrame z (z.updSet p (fun x => { x with dead := true })) := by
  simp only [State.updSet]
  refine ⟨rfl, rfl, rfl, rfl, fun _ => rfl, fun _ => rfl, fun _ => rfl, ?_, fun _ => rfl, rfl⟩
  intro c
  by_cases hc : c = p
  · subst hc; simp
  · simp [Function.update_noteq hc]

theorem updTable_sets_frame (z : State) (p : Ptr) (f : List Ptr → List Ptr) :
    CallbackFrame z (z.updTable p (fun t => { t with sets := f t.sets })) := by
  simp only [State.updTable]
  refine ⟨rfl, rfl, rfl, rfl, fun _ => rfl, fun _ => rfl, fun _ => rfl, fun _ => rfl, ?_, rfl⟩
  intro c
  by_cases hc : c = p
  · subst hc; simp
  · simp [Function.update_noteq hc]

theorem unbind_set_frame (z : State) (set : Ptr) (b : nft_set_binding) (ev : Bool) :
    CallbackFrame z (nf_tables_unbind_set z set b ev) := by
  unfold nf_tables_unbind_set
  have h1 := updSet_bindings_frame z set (fun l => l.erase b)
  dsimp only
  split
  · exact (h1.trans_cb (updTable_sets_frame _ _ (fun l => l.erase set))).trans_cb
      (updSet_dead_frame _ set)
  · exact h1

theorem set_trans_bind_frame (z : State) (set : Ptr) (bind : Bool) :
    CallbackFrame z (__nft_set_trans_bind z set bind) := by
  unfold __nft_set_trans_bind
  split
  · exact CallbackFrame.refl_cb z
  · refine ⟨rfl, rfl, rfl, rfl, fun _ => rfl, fun _ => rfl, fun _ => rfl, fun _ => rfl,
      fun _ => rfl, ?_⟩
    simp only [List.map_map]
    apply List.map_congr_left
    intro r _
    simp only [Function.comp]
    split <;> (try split) <;> rfl

theorem deactivate_set_frame (z : State) (set : Ptr) (b : nft_set_binding)
    (phase : nft_trans_phase) : CallbackFrame z (nf_tables_deactivate_set z set b phase) := by
  cases phase with
  | PREPARE => exact (deactivate_set_prepare_frame z set b).callback
  | PREPARE_ERROR =>
    simp only [nf_tables_deactivate_set]
    refine CallbackFrame.trans_cb ?_ (set_use_dec_frame _ set).callback
    refine (set_trans_bind_frame z set false).trans_cb ?_
    split
    · exact (updSet_genmask_frame _ set _).callback
    · exact updSet_bindings_frame _ set (fun l => l.erase b)
  | ABORT =>
    simp only [nf_tables_deactivate_set]
    refine CallbackFrame.trans_cb ?_ (unbind_set_frame _ set b false)
    refine CallbackFrame.trans_cb ?_ (set_use_dec_frame _ set).callback
    split
    · exact (map_deactivate_frame z set).expr_frame.callback
    · exact CallbackFrame.refl_cb z
  | RELEASE =>
    simp only [nf_tables_deactivate_set]
    refine CallbackFrame.trans_cb ?_ (unbind_set_frame _ set b false)
    refine CallbackFrame.trans_cb ?_ (set_use_dec_frame _ set).callback
    split
    · exact (map_deactivate_frame z set).expr_frame.callback
    · exact CallbackFrame.refl_cb z
  | COMMIT =>
    simp only [nf_tables_deactivate_set]
    exact unbind_set_frame z set b true

theorem expr_deact_frame (phase : nft_trans_phase) (z : State) (e : nft_expr) :
    CallbackFrame z (nft_expr_deactivate phase z e) := by
  cases e with
  | other v => exact CallbackFrame.refl_cb z
  | immediate code chain =>
    simp only [nft_expr_deactivate]
    split
    · exact CallbackFrame.refl_cb z
    · exact (data_release_use_frame z _).expr_frame.callback
  | objref o =>
    simp only [nft_expr_deactivate]
    split
    · exact CallbackFrame.refl_cb z
    · exact (obj_use_dec_frame z o).expr_frame.callback
  | flow_offload f v =>
    simp only [nft_expr_deactivate, nf_tables_deactivate_flowtable]
    cases phase
    · exact (flowtable_use_dec_frame z f).callback
    · exact (flowtable_use_dec_frame z f).callback
    · exact (flowtable_use_dec_frame z f).callback
    · exact CallbackFrame.refl_cb z
    · exact (flowtable_use_dec_frame z f).callback
  | lookup set b v => exact deactivate_set_frame z set b phase

theorem exprs_deact_frame (phase : nft_trans_phase) (es : List nft_expr) : ∀ z : State,
    CallbackFrame z (es.foldl (nft_expr_deactivate phase) z) := by
  induction es with
  | nil => intro z; exact CallbackFrame.refl_cb z
  | cons e es ih =>
    intro z
    rw [List.foldl_cons]
    exact (expr_deact_frame phase z e).trans_cb (ih _)

theorem rule_expr_deactivate_frame (s : State) (rule : Ptr) (phase : nft_trans_phase) :
    CallbackFrame s (nft_rule_expr_deactivate s rule phase) :=
  exprs_deact_frame phase _ s

theorem rule_expr_activate_frame (s : State) (rule : Ptr) :
    ExprFrame s (nft_rule_expr_activate s rule) :=
  exprs_act_frame _ s

theorem CallbackFrame.chain_flags {z w : State} (h : CallbackFrame z w) (c : Ptr) :
    (w.chain c).flags = (z.chain c).flags := by
  have := congrArg nft_chain.flags (h.chain c)
  simpa using this

theorem CallbackFrame.chain_policy {z w : State} (h : CallbackFrame z w) (c : Ptr) :
    (w.chain c).policy = (z.chain c).policy := by
  have := congrArg nft_chain.policy (h.chain c)
  simpa using this

/-! ### The callbacks and the rest of the namespace -/

theorem MetaFrame.refl_meta (z : State) : MetaFrame z z := ⟨rfl, rfl, rfl, rfl, rfl, rfl, rfl⟩

theorem MetaFrame.trans_meta {a b c : State} (h1 : MetaFrame a b) (h2 : MetaFrame b c) :
    MetaFrame a c :=
  ⟨h2.base_seq.trans h1.base_seq, h2.gc_seq.trans h1.gc_seq,
   h2.validate_state.trans h1.validate_state, h2.destroy_list.trans h1.destroy_list,
   h2.rules_mem.trans h1.rules_mem, h2.rcu_free.trans h1.rcu_free, h2.brk.trans h1.brk⟩

theorem fold_meta {α : Type} (f : State → α → State) (hf : ∀ z a, MetaFrame z (f z a))
    (L : List α) : ∀ z : State, MetaFrame z (L.foldl f z) := by
  induction L with
  | nil => intro z; exact MetaFrame.refl_meta z
  | cons a L ih =>
    intro z
    rw [List.foldl_cons]
    exact (hf z a).trans_meta (ih _)

theorem data_release_meta (z : State) (d : nft_data) : MetaFrame z (nft_data_release z d) := by
  unfold nft_data_release
  cases d with
  | value b => exact MetaFrame.refl_meta z
  | verdict code ch => dsimp only; split <;> exact ⟨rfl, rfl, rfl, rfl, rfl, rfl, rfl⟩

theorem data_hold_meta (z : State) (d : nft_data) : MetaFrame z (nft_data_hold z d) := by
  unfold nft_data_hold
  cases d with
  | value b => exact MetaFrame.refl_meta z
  | verdict code ch => dsimp only; split <;> exact ⟨rfl, rfl, rfl, rfl, rfl, rfl, rfl⟩

theorem deact_elem_meta (z : State) (e : Ptr) :
    MetaFrame z (nft_setelem_data_deactivate z e) := by
  unfold nft_setelem_data_deactivate
  dsimp only
  have h1 : MetaFrame z (match (z.elem e).data with
      | some d => nft_data_release z d
      | none => z) := by
    cases (z.elem e).data with
    | none => exact MetaFrame.refl_meta z
    | some d => exact data_release_meta z d
  cases (z.elem e).objref with
  | none => exact h1
  | some o => exact h1.trans_meta ⟨rfl, rfl, rfl, rfl, rfl, rfl, rfl⟩

theorem act_elem_meta (z : State) (e : Ptr) :
    MetaFrame z (nft_setelem_data_activate z e) := by
  unfold nft_setelem_data_activate
  dsimp only
  have h1 : MetaFrame z (match (z.elem e).data with
      | some d => nft_data_hold z d
      | none => z) := by
    cases (z.elem e).data with
    | none => exact MetaFrame.refl_meta z
    | some d => exact data_hold_meta z d
  cases (z.elem e).objref with
  | none => exact h1
  | some o => exact h1.trans_meta ⟨rfl, rfl, rfl, rfl, rfl, rfl, rfl⟩

theorem map_activate_meta (z : State) (set : Ptr) : MetaFrame z (nft_map_activate z set) := by
  unfold nft_map_activate set_walk
  exact fold_meta _ act_elem_meta _ z

theorem map_deactivate_meta (z : State) (set : Ptr) :
    MetaFrame z (nft_map_deactivate z set) := by
  unfold nft_map_deactivate set_walk
  exact fold_meta _ deact_elem_meta _ z

theorem unbind_set_meta (z : State) (set : Ptr) (b : nft_set_binding) (ev : Bool) :
    MetaFrame z (nf_tables_unbind_set z set b ev) := by
  unfold nf_tables_unbind_set
  dsimp only
  split <;> exact ⟨rfl, rfl, rfl, rfl, rfl, rfl, rfl⟩

theorem set_trans_bind_meta (z : State) (set : Ptr) (bind : Bool) :
    MetaFrame z (__nft_set_trans_bind z set bind) := by
  unfold __nft_set_trans_bind
  split <;> exact ⟨rfl, rfl, rfl, rfl, rfl, rfl, rfl⟩

theorem set_use_dec_meta (z : State) (p : Ptr) : MetaFrame z (set_use_dec z p) :=
  ⟨rfl, rfl, rfl, rfl, rfl, rfl, rfl⟩

theorem set_use_inc_meta (z : State) (p : Ptr) : MetaFrame z (set_use_inc_restore z p) :=
  ⟨rfl, rfl, rfl, rfl, rfl, rfl, rfl⟩

theorem updSet_meta (z : State) (p : Ptr) (f : nft_set → nft_set) :
    MetaFrame z (z.updSet p f) :=
  ⟨rfl, rfl, rfl, rfl, rfl, rfl, rfl⟩

theorem deactivate_set_meta (z : State) (set : Ptr) (b : nft_set_binding)
    (phase : nft_trans_phase) : MetaFrame z (nf_tables_deactivate_set z set b phase) := by
  cases phase with
  | PREPARE =>
    simp only [nf_tables_deactivate_set]
    refine MetaFrame.trans_meta ?_ (set_use_dec_meta _ set)
    by_cases ha : nft_set_is_anonymous (z.set set) = true
    · simp only [ha, if_true]
      by_cases hm : (z.set set).flags &&& (NFT_SET_MAP ||| NFT_SET_OBJECT) ≠ 0
      · simp only [if_pos hm]
        exact (map_deactivate_meta z set).trans_meta (updSet_meta _ _ _)
      · simp only [if_neg hm]
        exact updSet_meta _ _ _
    · simp only [ha, Bool.false_eq_true, if_false]
      exact MetaFrame.refl_meta z
  | PREPARE_ERROR =>
    simp only [nf_tables_deactivate_set]
    refine MetaFrame.trans_meta ?_ (set_use_dec_meta _ set)
    refine (set_trans_bind_meta z set false).trans_meta ?_
    split <;> exact ⟨rfl, rfl, rfl, rfl, rfl, rfl, rfl⟩
  | ABORT =>
    simp only [nf_tables_deactivate_set]
    refine MetaFrame.trans_meta ?_ (unbind_set_meta _ set b false)
    refine MetaFrame.trans_meta ?_ (set_use_dec_meta _ set)
    split
    · exact map_deactivate_meta z set
    · exact MetaFrame.refl_meta z
  | RELEASE =>
    simp only [nf_tables_deactivate_set]
    refine MetaFrame.trans_meta ?_ (unbind_set_meta _ set b false)
    refine MetaFrame.trans_meta ?_ (set_use_dec_meta _ set)
    split
    · exact map_deactivate_meta z set
    · exact MetaFrame.refl_meta z
  | COMMIT =>
    simp only [nf_tables_deactivate_set]
    exact unbind_set_meta z set b true

theorem activate_set_meta (z : State) (set : Ptr) :
    MetaFrame z (nf_tables_activate_set z set) := by
  simp only [nf_tables_activate_set]
  refine MetaFrame.trans_meta ?_ (set_use_inc_meta _ set)
  by_cases ha : nft_set_is_anonymous (z.set set) = true
  · simp only [ha, if_true]
    by_cases hm : (z.set set).flags &&& (NFT_SET_MAP ||| NFT_SET_OBJECT) ≠ 0
    · simp only [if_pos hm]
      exact (map_activate_meta z set).trans_meta (updSet_meta _ _ _)
    · simp only [if_neg hm]
      exact updSet_meta _ _ _
  · simp only [ha, Bool.false_eq_true, if_false]
    exact MetaFrame.refl_meta z

theorem expr_deact_meta (phase : nft_trans_phase) (z : State) (e : nft_expr) :
    MetaFrame z (nft_expr_deactivate phase z e) := by
  cases e with
  | other v => exact MetaFrame.refl_meta z
  | immediate code chain =>
    simp only [nft_expr_deactivate]
    split
    · exact MetaFrame.refl_meta z
    · exact data_release_meta z _
  | objref o =>
    simp only [nft_expr_deactivate]
    split <;> exact ⟨rfl, rfl, rfl, rfl, rfl, rfl, rfl⟩
  | flow_offload f v =>
    simp only [nft_expr_deactivate, nf_tables_deactivate_flowtable]
    cases phase <;> exact ⟨rfl, rfl, rfl, rfl, rfl, rfl, rfl⟩
  | lookup set b v => exact deactivate_set_meta z set b phase

theorem expr_act_meta (z : State) (e : nft_expr) : MetaFrame z (nft_expr_activate z e) := by
  cases e with
  | other v => exact MetaFrame.refl_meta z
  | immediate code chain => exact data_hold_meta z (.verdict code chain)
  | objref o => exact ⟨rfl, rfl, rfl, rfl, rfl, rfl, rfl⟩
  | flow_offload f v => exact ⟨rfl, rfl, rfl, rfl, rfl, rfl, rfl⟩
  | lookup set b v => exact activate_set_meta z set

theorem rule_expr_deactivate_meta (s : State) (rule : Ptr) (phase : nft_trans_phase) :
    MetaFrame s (nft_rule_expr_deactivate s rule phase) :=
  fold_meta _ (expr_deact_meta phase) _ s

theorem rule_expr_activate_meta (s : State) (rule : Ptr) :
    MetaFrame s (nft_rule_expr_activate s rule) :=
  fold_meta _ expr_act_meta _ s

theorem CallbackFrame.table_flags {z w : State} (h : CallbackFrame z w) (t : Ptr) :
    (w.table t).flags = (z.table t).flags := by
  have := congrArg nft_table.flags (h.table t)
  simpa using this

theorem CallbackFrame.table_use {z w : State} (h : CallbackFrame z w) (t : Ptr) :
    (w.table t).use = (z.table t).use := by
  have := congrArg nft_table.use (h.table t)
  simpa using this

theorem CallbackFrame.table_chains {z w : State} (h : CallbackFrame z w) (t : Ptr) :
    (w.table t).chains = (z.table t).chains := by
  have := congrArg nft_table.chains (h.table t)
  simpa using this

theorem CallbackFrame.table_objects {z w : State} (h : CallbackFrame z w) (t : Ptr) :
    (w.table t).objects = (z.table t).objects := by
  have := congrArg nft_table.objects (h.table t)
  simpa using this

theorem CallbackFrame.table_flowtables {z w : State} (h : CallbackFrame z w) (t : Ptr) :
    (w.table t).flowtables = (z.table t).flowtables := by
  have := congrArg nft_table.flowtables (h.table t)
  simpa using this

theorem CallbackFrame.table_genmask {z w : State} (h : CallbackFrame z w) (t : Ptr) :
    (w.table t).genmask = (z.table t).genmask := by
  have := congrArg nft_table.genmask (h.table t)
  simpa using this

theorem CallbackFrame.chain_genmask_cb {z w : State} (h : CallbackFrame z w) (c : Ptr) :
    (w.chain c).genmask = (z.chain c).genmask := by
  have := congrArg nft_chain.genmask (h.chain c)
  simpa using this

theorem CallbackFrame.chain_table {z w : State} (h : CallbackFrame z w) (c : Ptr) :
    (w.chain c).table = (z.chain c).table := by
  have := congrArg nft_chain.table (h.chain c)
  simpa using this

theorem CallbackFrame.chain_rules {z w : State} (h : CallbackFrame z w) (c : Ptr) :
    (w.chain c).rules = (z.chain c).rules := by
  have := congrArg nft_chain.rules (h.chain c)
  simpa using this

theorem CallbackFrame.obj_genmask_cb {z w : State} (h : CallbackFrame z w) (c : Ptr) :
    (w.obj c).genmask = (z.obj c).genmask := by
  have := congrArg nft_object.genmask (h.obj c)
  simpa using this

theorem CallbackFrame.obj_table {z w : State} (h : CallbackFrame z w) (c : Ptr) :
    (w.obj c).table = (z.obj c).table := by
  have := congrArg nft_object.table (h.obj c)
  simpa using this

theorem CallbackFrame.flowtable_genmask_cb {z w : State} (h : CallbackFrame z w) (c : Ptr) :
    (w.flowtable c).genmask = (z.flowtable c).genmask := by
  have := congrArg nft_flowtable.genmask (h.flowtable c)
  simpa using this

theorem CallbackFrame.flowtable_table {z w : State} (h : CallbackFrame z w) (c : Ptr) :
    (w.flowtable c).table = (z.flowtable c).table := by
  have := congrArg nft_flowtable.table (h.flowtable c)
  simpa using this

theorem CallbackFrame.set_flags_cb {z w : State} (h : CallbackFrame z w) (x : Ptr) :
    (w.set x).flags = (z.set x).flags := by
  have := congrArg nft_set.flags (h.set x)
  simpa using this

theorem CallbackFrame.set_table {z w : State} (h : CallbackFrame z w) (x : Ptr) :
    (w.set x).table = (z.set x).table := by
  have := congrArg nft_set.table (h.set x)
  simpa using this

theorem CallbackFrame.set_elems_cb {z w : State} (h : CallbackFrame z w) (x : Ptr) :
    (w.set x).elems = (z.set x).elems := by
  have := congrArg nft_set.elems (h.set x)
  simpa using this

theorem CallbackFrame.set_nelems {z w : State} (h : CallbackFrame z w) (x : Ptr) :
    (w.set x).nelems = (z.set x).nelems := by
  have := congrArg nft_set.nelems (h.set x)
  simpa using this

theorem CallbackFrame.set_name {z w : State} (h : CallbackFrame z w) (x : Ptr) :
    (w.set x).name = (z.set x).name := by
  have := congrArg nft_set.name (h.set x)
  simpa using this

/-! ## C1: abort of staged deletions -/

/-- C3: for a chain with a prepared array (`rules_next` non-NULL), `nf_tables_commit_chain`
stores that array in the slot of the next generation bit, leaves the slot of the
current generation pointing to the same array, leaves the contents of every array
unmodified, does not hand the current array to `call_rcu`, and resets `rules_next`
to NULL. -/
theorem commit_chain_publishes_prepared (s : State) (chain next : Ptr)
    (hcur : s.gencursor ≤ 1)
    (hnext : (s.chain chain).rules_next = some next) :
    ((nf_tables_commit_chain s chain).chain chain).rules_gen (nft_gencursor_next s.gencursor) = next ∧
    ((nf_tables_commit_chain s chain).chain chain).rules_gen s.gencursor =
      (s.chain chain).rules_gen s.gencursor ∧
    (nf_tables_commit_chain s chain).rules_mem = s.rules_mem ∧
    (∀ p ∈ (nf_tables_commit_chain s chain).rcu_free,
      p ∈ s.rcu_free ∨ p ≠ (s.chain chain).rules_gen s.gencursor) ∧
    ((nf_tables_commit_chain s chain).chain chain).rules_next = none ∧
    (nf_tables_commit_chain s chain).gencursor = s.gencursor := by
  have hg : s.gencursor = 0 ∨ s.gencursor = 1 := by omega
  rcases hg with hg | hg <;>
  · by_cases he : (s.chain chain).rules_gen_0 = (s.chain chain).rules_gen_1 <;>
    simp [nf_tables_commit_chain, hnext, hg, nft_gencursor_next, nft_chain.rules_gen, he,
      State.updChain, nf_tables_commit_chain_free_rules_old] <;>
    (try exact fun p hp => Or.inl hp) <;>
    (try intro p hp; rcases hp with hp | hp <;> simp [hp]) <;>
    (try (first | exact he | exact fun h => he h.symm | exact Or.inr he | exact Or.inr (fun h => he h.symm)))

theorem commit_chain_publishes_prepared_witness :
    ((nf_tables_commit_chain ex_publish_state 10).chain 10).rules_gen 1 = 2 ∧
    ((nf_tables_commit_chain ex_publish_state 10).chain 10).rules_gen 0 = 1 ∧
    (nf_tables_commit_chain ex_publish_state 10).rules_mem 1 = [some 100, none] :=
  ⟨(commit_chain_publishes_prepared ex_publish_state 10 2 (by decide) rfl).1,
   (commit_chain_publishes_prepared ex_publish_state 10 2 (by decide) rfl).2.1,
   by rw [(commit_chain_publishes_prepared ex_publish_state 10 2 (by decide) rfl).2.2.1]; rfl⟩

/-- C9: for a chain without a prepared array (`rules_next` is NULL) whose two slots point
to different arrays, `nf_tables_commit_chain` makes both slots point to the array of
the current-generation slot; if the two slots are equal it changes nothing. -/
theorem commit_chain_converges (s : State) (chain : Ptr)
    (hcur : s.gencursor ≤ 1)
    (hnext : (s.chain chain).rules_next = none) :
    ((s.chain chain).rules_gen_0 ≠ (s.chain chain).rules_gen_1 →
      ((nf_tables_commit_chain s chain).chain chain).rules_gen_0 =
        (s.chain chain).rules_gen s.gencursor ∧
      ((nf_tables_commit_chain s chain).chain chain).rules_gen_1 =
        (s.chain chain).rules_gen s.gencursor) ∧
    ((s.chain chain).rules_gen_0 = (s.chain chain).rules_gen_1 →
      (nf_tables_commit_chain s chain).chain = s.chain ∧
      (nf_tables_commit_chain s chain).rules_mem = s.rules_mem ∧
      (nf_tables_commit_chain s chain).rcu_free = s.rcu_free ∧
      (nf_tables_commit_chain s chain).gencursor = s.gencursor) := by
  have hg : s.gencursor = 0 ∨ s.gencursor = 1 := by omega
  constructor
  · intro he
    rcases hg with hg | hg <;>
    simp [nf_tables_commit_chain, hnext, hg, nft_gencursor_next, nft_chain.rules_gen, he,
      State.updChain, nf_tables_commit_chain_free_rules_old]
  · intro he
    simp [nf_tables_commit_chain, hnext, he]

theorem commit_chain_converges_witness :
    ((nf_tables_commit_chain ex_converge_state 10).chain 10).rules_gen_0 = 2 ∧
    ((nf_tables_commit_chain ex_converge_state 10).chain 10).rules_gen_1 = 2 :=
  (commit_chain_converges ex_converge_state 10 (by decide) rfl).1 (by decide)

/-! ## C4: preparing the next-generation array -/

theorem count_active_next_eq (s : State) (rs : List Ptr) : ∀ a : Nat,
    a + (rs.filter (fun r => nft_is_active_next s.gencursor (s.rule r).genmask)).length < 2 ^ 32 →
    count_active_next s rs a =
      a + (rs.filter (fun r => nft_is_active_next s.gencursor (s.rule r).genmask)).length := by
  induction rs with
  | nil => intro a _; simp [count_active_next]
  | cons r rs ih =>
    intro a ha
    by_cases h : nft_is_active_next s.gencursor (s.rule r).genmask = true
    · simp only [List.filter_cons_of_pos, h, List.length_cons] at ha ⊢
      simp only [count_active_next, h, if_true]
      have e : (a + 1) % 2 ^ 32 = a + 1 := Nat.mod_eq_of_lt (by omega)
      rw [e, ih (a + 1) (by omega)]
      omega
    · simp only [count_active_next, h, Bool.false_eq_true, if_false,
        List.filter_cons_of_neg, not_false_eq_true] at ha ⊢
      exact ih a ha

theorem fill_rules_next_eq (s : State) (rs : List Ptr) : ∀ (pre rest : List (Option Ptr)),
    (rs.filter (fun r => nft_is_active_next s.gencursor (s.rule r).genmask)).length ≤ rest.length →
    fill_rules_next s rs (pre ++ rest) pre.length =
      (pre ++ (rs.filter (fun r => nft_is_active_next s.gencursor (s.rule r).genmask)).map some ++
        rest.drop (rs.filter (fun r => nft_is_active_next s.gencursor (s.rule r).genmask)).length,
       pre.length +
        (rs.filter (fun r => nft_is_active_next s.gencursor (s.rule r).genmask)).length) := by
  induction rs with
  | nil => intro pre rest _; simp [fill_rules_next]
  | cons r rs ih =>
    intro pre rest hlen
    by_cases h : nft_is_active_next s.gencursor (s.rule r).genmask = true
    · simp only [List.filter_cons_of_pos, h, List.length_cons] at hlen ⊢
      cases rest with
      | nil => simp at hlen
      | cons x rest =>
        simp only [fill_rules_next, h, if_true]
        have e : (pre ++ x :: rest).set pre.length (some r) = (pre ++ [some r]) ++ rest := by
          rw [List.set_append_right _ _ (Nat.le_refl _)]
          simp
        rw [e]
        have := ih (pre ++ [some r]) rest (by simpa using hlen)
        simp only [List.length_append, List.length_singleton] at this
        rw [this]
        simp [Nat.add_assoc, Nat.add_comm 1]
    · simp only [fill_rules_next, h, Bool.false_eq_true, if_false,
        List.filter_cons_of_neg, not_false_eq_true] at hlen ⊢
      exact ih pre rest hlen

theorem drop_set_last {α : Type} (l : List α) (n : Nat) (x : α) (h : l.length = n + 1) :
    (l.drop n).set 0 x = [x] := by
  have hl : (l.drop n).length = 1 := by simp [h]
  match hd : l.drop n, hl with
  | [a], _ => rfl

theorem chain_alloc_rules_cases (alloc : Nat) (m : Kvmalloc) (s : State) :
    nf_tables_chain_alloc_rules alloc m s = (none, s) ∨
    (alloc ≤ INT_MAX ∧ nf_tables_chain_alloc_rules alloc m s =
      (some s.brk,
        { s with
          rules_mem := Function.update s.rules_mem s.brk
            ((List.range ((alloc + 1) % 2 ^ 32)).map m.junk),
          brk := s.brk + 1 })) := by
  unfold nf_tables_chain_alloc_rules
  by_cases h1 : alloc > INT_MAX
  · left; rw [if_pos h1]
  · rw [if_neg h1]
    by_cases h2 : SIZEOF_RULE_PTR > INT_MAX / ((alloc + 1) % 2 ^ 32)
    · left; rw [if_pos h2]
    · rw [if_neg h2]
      cases h3 : m.ok
      · left; simp
      · right
        refine ⟨by omega, ?_⟩
        simp

/-- C4: for a chain that is active in the next generation and has no prepared array, a
successful `nf_tables_commit_chain_prepare` sets `rules_next` to a fresh array whose
entries are exactly the rules of the chain's rule list that are active in the next
generation, in rule-list order and without repetition, followed by one NULL
terminator, whatever the fresh memory held.  The rule list is a linked list (no node
twice) of at most `UINT_MAX` rules. -/
theorem commit_chain_prepare_array (s : State) (chain : Ptr) (m : Kvmalloc)
    (hactive : nft_is_active_next s.gencursor (s.chain chain).genmask = true)
    (hnone : (s.chain chain).rules_next = none)
    (hnodup : (s.chain chain).rules.Nodup)
    (hlen : (s.chain chain).rules.length ≤ UINT_MAX)
    (hok : (nf_tables_commit_chain_prepare chain m s).1 = 0) :
    ((nf_tables_commit_chain_prepare chain m s).2.chain chain).rules_next = some s.brk ∧
    (nf_tables_commit_chain_prepare chain m s).2.rules_mem s.brk =
      (active_next_rules s chain).map some ++ [none] ∧
    (active_next_rules s chain).Nodup ∧
    (∀ r, r ∈ active_next_rules s chain ↔
      r ∈ (s.chain chain).rules ∧ nft_is_active_next s.gencursor (s.rule r).genmask = true) := by
  have hF : (active_next_rules s chain).length ≤ (s.chain chain).rules.length :=
    List.length_filter_le _ _
  have hcount : count_active_next s (s.chain chain).rules 0 = (active_next_rules s chain).length := by
    have := count_active_next_eq s (s.chain chain).rules 0
      (by unfold active_next_rules UINT_MAX at *; omega)
    simpa [active_next_rules] using this
  unfold nf_tables_commit_chain_prepare at hok ⊢
  simp only [hnone, Option.isSome_none, Bool.false_eq_true, hactive, Bool.not_true, or_self,
    if_false, hcount] at hok ⊢
  rcases chain_alloc_rules_cases (active_next_rules s chain).length m s with h | ⟨hle, h⟩
  · rw [h] at hok; simp [ENOMEM] at hok
  rw [h]
  simp only [State.updChain, Function.update_same]
  refine ⟨trivial, ?_, hnodup.filter _, fun r => by simp [active_next_rules]⟩
  -- the contents of the array
  have hmod : ((active_next_rules s chain).length + 1) % 2 ^ 32 =
      (active_next_rules s chain).length + 1 := by
    apply Nat.mod_eq_of_lt
    unfold INT_MAX at hle; omega
  rw [hmod]
  have hfill := fill_rules_next_eq
    { s with
      rules_mem := Function.update s.rules_mem s.brk
        ((List.range ((active_next_rules s chain).length + 1)).map m.junk),
      brk := s.brk + 1,
      chain := Function.update s.chain chain { s.chain chain with rules_next := some s.brk } }
    (s.chain chain).rules []
    ((List.range ((active_next_rules s chain).length + 1)).map m.junk)
    (by simp [active_next_rules])
  simp only [List.nil_append, List.length_nil, Nat.zero_add] at hfill
  rw [hfill]
  simp only [active_next_rules]
  rw [List.set_append_right _ _ (by simp)]
  simp only [List.length_map, Nat.sub_self]
  rw [drop_set_last _ _ _ (by simp [active_next_rules])]

theorem commit_chain_prepare_array_witness :
    ((nf_tables_commit_chain_prepare 10 { junk := fun _ => some 666 } ex_prepare_state).2.chain
      10).rules_next = some 2 ∧
    (nf_tables_commit_chain_prepare 10 { junk := fun _ => some 666 } ex_prepare_state).2.rules_mem 2 =
      [some 100, some 102, none] := by
  have h := commit_chain_prepare_array ex_prepare_state 10 { junk := fun _ => some 666 }
    (by decide) rfl (by decide) (by decide) (by decide)
  exact ⟨h.1, h.2.1⟩

/-! ## C6, C8: commit failures -/

theorem nft_validate_state_update_eq (s : State) (n : Nat) :
    ∃ vs w, nft_validate_state_update s n = { s with validate_state := vs, warned := w } := by
  unfold nft_validate_state_update
  split
  · exact ⟨_, _, rfl⟩
  · split
    · exact ⟨_, _, rfl⟩
    · split
      · exact ⟨_, _, rfl⟩
      · exact ⟨_, _, rfl⟩

theorem nft_rules_validate_congr (s s' : State) (recur recur' : Ptr → Int)
    (hg : s'.gencursor = s.gencursor) (hr : s'.rule = s.rule) (hrec : recur' = recur)
    (rs : List Ptr) : nft_rules_validate s' recur' rs = nft_rules_validate s recur rs := by
  subst hrec
  induction rs with
  | nil => rfl
  | cons r rs ih => simp only [nft_rules_validate, hg, hr, ih]

theorem nft_chain_validate_congr (s s' : State)
    (hg : s'.gencursor = s.gencursor) (hr : s'.rule = s.rule) (hc : s'.chain = s.chain)
    (d : Nat) : ∀ c, nft_chain_validate s' d c = nft_chain_validate s d c := by
  induction d with
  | zero => intro c; rfl
  | succ d ih =>
    intro c
    simp only [nft_chain_validate, hc]
    exact nft_rules_validate_congr s s' _ _ hg hr (funext ih) _

theorem nft_table_validate_congr (s s' : State)
    (hg : s'.gencursor = s.gencursor) (hr : s'.rule = s.rule) (hc : s'.chain = s.chain)
    (ht : s'.table = s.table) (t : Ptr) : nft_table_validate s' t = nft_table_validate s t := by
  unfold nft_table_validate
  rw [ht]
  induction (s.table t).chains with
  | nil => rfl
  | cons c cs ih =>
    simp only [nft_table_validate_chains, hc, nft_chain_validate_congr s s' hg hr hc, ih]

theorem nf_tables_validate_tables_congr (s s' : State)
    (hg : s'.gencursor = s.gencursor) (hr : s'.rule = s.rule) (hc : s'.chain = s.chain)
    (ht : s'.table = s.table) (ts : List Ptr) :
    nf_tables_validate_tables s' ts = nf_tables_validate_tables s ts := by
  induction ts with
  | nil => rfl
  | cons t ts ih =>
    simp only [nf_tables_validate_tables, nft_table_validate_congr s s' hg hr hc ht, ih]

theorem nf_tables_validate_tables_true (s : State) (ts : List Ptr) :
    nf_tables_validate_tables s ts = true ↔ ∃ t ∈ ts, nft_table_validate s t < 0 := by
  induction ts with
  | nil => simp [nf_tables_validate_tables]
  | cons t ts ih =>
    simp only [nf_tables_validate_tables, List.mem_cons, exists_eq_or_imp]
    by_cases h : nft_table_validate s t < 0
    · simp [h]
    · simp [h, ih]

/-- The result of `nf_tables_validate`: `-EAGAIN` when validation is due and some table
fails, `0` otherwise; only the validation state and the warning flag change. -/
theorem nf_tables_validate_spec (s : State) :
    (∃ vs w, (nf_tables_validate s).2 = { s with validate_state := vs, warned := w }) ∧
    ((nf_tables_validate s).1 = -EAGAIN ∨ (nf_tables_validate s).1 = 0) ∧
    ((nf_tables_validate s).1 = -EAGAIN ↔
      ((s.validate_state = NFT_VALIDATE_NEED ∨ s.validate_state = NFT_VALIDATE_DO) ∧
        ∃ t ∈ s.tables, nft_table_validate s t < 0)) := by
  unfold nf_tables_validate
  by_cases h0 : s.validate_state = NFT_VALIDATE_SKIP
  · simp only [h0, if_true]
    refine ⟨⟨_, _, rfl⟩, Or.inr trivial, ?_⟩
    simp [NFT_VALIDATE_SKIP, NFT_VALIDATE_NEED, NFT_VALIDATE_DO, EAGAIN]
  · simp only [h0, if_false]
    by_cases h1 : s.validate_state = NFT_VALIDATE_NEED ∨ s.validate_state = NFT_VALIDATE_DO
    · simp only [h1, if_true]
      obtain ⟨vs, w, hs1⟩ : ∃ vs w, (if s.validate_state = NFT_VALIDATE_NEED then
          nft_validate_state_update s NFT_VALIDATE_DO else s) =
          { s with validate_state := vs, warned := w } := by
        split
        · exact nft_validate_state_update_eq s _
        · exact ⟨_, _, rfl⟩
      rw [hs1]
      have hcongr := nf_tables_validate_tables_congr s
        { s with validate_state := vs, warned := w } rfl rfl rfl rfl s.tables
      simp only at hcongr ⊢
      rw [hcongr]
      cases hv : nf_tables_validate_tables s s.tables
      · simp only [Bool.false_eq_true, if_false]
        refine ⟨?_, Or.inr trivial, ?_⟩
        · obtain ⟨vs', w', h'⟩ := nft_validate_state_update_eq
            { s with validate_state := vs, warned := w } NFT_VALIDATE_SKIP
          exact ⟨vs', w', by rw [h']⟩
        · have := (nf_tables_validate_tables_true s s.tables).not.mp (by simp [hv])
          simp [this, EAGAIN]
      · simp only [if_true]
        refine ⟨⟨vs, w, rfl⟩, Or.inl trivial, ?_⟩
        have := (nf_tables_validate_tables_true s s.tables).mp hv
        simp [this, h1]
    · simp only [h1, if_false]
      refine ⟨⟨_, _, rfl⟩, Or.inr trivial, ?_⟩
      simp [h1, EAGAIN]

theorem commit_returns_original_error_counterexample :
    nft_table_validate ex_invalid_state 1 = -EOPNOTSUPP ∧
    (nf_tables_validate ex_invalid_state).1 = -EAGAIN ∧
    (nf_tables_commit {} ex_invalid_state).1 = -EAGAIN ∧
    (nf_tables_commit {} ex_invalid_state).1 ≠ nft_table_validate ex_invalid_state 1 := by
  decide

/-- C6 (amended): when chain validation fails during `nf_tables_commit` (the commit list
is not empty, no anonymous set is unbound, validation is due and `nft_table_validate`
returns a negative error for some table), `nf_tables_validate` and `nf_tables_commit`
return `-EAGAIN`, whatever the error code of the failing validation was. -/
theorem commit_validation_failure_returns_eagain (env : CommitEnv) (s : State) (t : Ptr)
    (hnonempty : s.commit_list ≠ [])
    (hbound : commit_unbound_anon s = false)
    (hstate : s.validate_state = NFT_VALIDATE_NEED ∨ s.validate_state = NFT_VALIDATE_DO)
    (ht : t ∈ s.tables)
    (hfail : nft_table_validate s t < 0) :
    (nf_tables_validate s).1 = -EAGAIN ∧ (nf_tables_commit env s).1 = -EAGAIN := by
  have hv : (nf_tables_validate s).1 = -EAGAIN :=
    (nf_tables_validate_spec s).2.2.mpr ⟨hstate, t, ht, hfail⟩
  refine ⟨hv, ?_⟩
  unfold nf_tables_commit
  simp only [hnonempty, if_false, hbound, Bool.false_eq_true, hv]
  simp [EAGAIN]

theorem commit_validation_failure_returns_eagain_witness :
    nft_table_validate ex_invalid_state 1 = -EOPNOTSUPP ∧
    (nf_tables_commit {} ex_invalid_state).1 = -EAGAIN :=
  ⟨by decide,
   (commit_validation_failure_returns_eagain {} ex_invalid_state 1 (by decide) (by decide)
      (by decide) (by decide) (by decide)).2⟩

theorem PrepFrame.refl_prep (s : State) : PrepFrame s s :=
  ⟨rfl, rfl, rfl, rfl, rfl, rfl, rfl, rfl, fun _ => rfl⟩

theorem PrepFrame.trans_prep {a b c : State} (h1 : PrepFrame a b) (h2 : PrepFrame b c) :
    PrepFrame a c :=
  ⟨h2.gencursor.trans h1.gencursor, h2.base_seq.trans h1.base_seq, h2.gc_seq.trans h1.gc_seq,
   h2.tables.trans h1.tables, h2.commit_list.trans h1.commit_list, h2.table.trans h1.table,
   h2.rule.trans h1.rule, h2.set.trans h1.set, fun x => (h2.chain x).trans (h1.chain x)⟩

theorem updChain_rules_next_frame (s : State) (chain : Ptr) (v : Option Ptr) :
    PrepFrame s (s.updChain chain (fun c => { c with rules_next := v })) := by
  refine ⟨rfl, rfl, rfl, rfl, rfl, rfl, rfl, rfl, ?_⟩
  intro c
  simp only [State.updChain, Function.update_apply]
  split
  · next h => subst h; rfl
  · rfl

theorem commit_chain_prepare_spec (chain : Ptr) (m : Kvmalloc) (s : State) :
    PrepFrame s (nf_tables_commit_chain_prepare chain m s).2 ∧
    ((nf_tables_commit_chain_prepare chain m s).1 = 0 ∨
      (nf_tables_commit_chain_prepare chain m s).1 = -ENOMEM) := by
  unfold nf_tables_commit_chain_prepare
  split
  · exact ⟨PrepFrame.refl_prep s, Or.inl rfl⟩
  · dsimp only
    rcases chain_alloc_rules_cases (count_active_next s (s.chain chain).rules 0) m s with
      h | ⟨_, h⟩
    · rw [h]; exact ⟨PrepFrame.refl_prep s, Or.inr rfl⟩
    · rw [h]
      refine ⟨?_, Or.inl rfl⟩
      refine ⟨rfl, rfl, rfl, rfl, rfl, rfl, rfl, rfl, ?_⟩
      intro c
      simp only [State.updChain, Function.update_apply]
      split
      · next h => subst h; rfl
      · rfl

theorem prepare_cancel_one_frame (s : State) (t : nft_trans) :
    PrepFrame s (prepare_cancel_one s t) := by
  unfold prepare_cancel_one
  split
  · exact updChain_rules_next_frame s _ none
  · exact PrepFrame.refl_prep s

theorem prepare_cancel_fold (l : List nft_trans) : ∀ s : State,
    PrepFrame s (l.foldl prepare_cancel_one s) ∧
    ∀ c, ((∃ t ∈ l, (t.msg_type = .NEWRULE ∨ t.msg_type = .DELRULE) ∧ t.ctx_chain = c) ∨
        (s.chain c).rules_next = none) →
      ((l.foldl prepare_cancel_one s).chain c).rules_next = none := by
  induction l with
  | nil =>
    intro s
    refine ⟨PrepFrame.refl_prep s, ?_⟩
    intro c h
    rcases h with ⟨t, ht, _⟩ | h
    · simp at ht
    · exact h
  | cons t l ih =>
    intro s
    simp only [List.foldl_cons]
    refine ⟨(prepare_cancel_one_frame s t).trans_prep (ih _).1, ?_⟩
    intro c h
    apply (ih (prepare_cancel_one s t)).2 c
    rcases h with ⟨t', ht', hty, hc⟩ | h
    · rcases List.mem_cons.mp ht' with e | e
      · subst e
        right
        simp [prepare_cancel_one, hty, State.updChain, hc]
      · left; exact ⟨t', e, hty, hc⟩
    · right
      unfold prepare_cancel_one
      split
      · simp only [State.updChain, Function.update_apply]
        split
        · rfl
        · exact h
      · exact h

theorem commit_prepare_loop_spec (alloc : Ptr → Kvmalloc) (l : List nft_trans) : ∀ s : State,
    PrepFrame s (commit_prepare_loop alloc l s).2 ∧
    ((commit_prepare_loop alloc l s).1 = 0 ∨
      ((commit_prepare_loop alloc l s).1 = -ENOMEM ∧
        ∀ t ∈ s.commit_list, (t.msg_type = .NEWRULE ∨ t.msg_type = .DELRULE) →
          (((commit_prepare_loop alloc l s).2).chain t.ctx_chain).rules_next = none)) := by
  induction l with
  | nil => intro s; exact ⟨PrepFrame.refl_prep s, Or.inl rfl⟩
  | cons t l ih =>
    intro s
    unfold commit_prepare_loop
    split
    · have hp := commit_chain_prepare_spec t.ctx_chain (alloc t.ctx_chain) s
      simp only
      split
      · next hlt =>
        have hc := prepare_cancel_fold
          (nf_tables_commit_chain_prepare t.ctx_chain (alloc t.ctx_chain) s).2.commit_list
          (nf_tables_commit_chain_prepare t.ctx_chain (alloc t.ctx_chain) s).2
        refine ⟨hp.1.trans_prep hc.1, Or.inr ⟨?_, ?_⟩⟩
        · rcases hp.2 with h | h
          · rw [h] at hlt; exact absurd hlt (by decide)
          · exact h
        · intro t' ht' hty
          apply hc.2
          left
          rw [hp.1.commit_list]
          exact ⟨t', ht', hty, rfl⟩
      · have h2 := ih (nf_tables_commit_chain_prepare t.ctx_chain (alloc t.ctx_chain) s).2
        refine ⟨hp.1.trans_prep h2.1, ?_⟩
        rcases h2.2 with h | ⟨h, h'⟩
        · exact Or.inl h
        · refine Or.inr ⟨h, ?_⟩
          intro t' ht' hty
          apply h' t' _ hty
          rw [hp.1.commit_list]; exact ht'
    · exact ih s

theorem chain_alloc_rules_chain (alloc : Nat) (m : Kvmalloc) (s : State) :
    (nf_tables_chain_alloc_rules alloc m s).2.chain = s.chain ∧
    (nf_tables_chain_alloc_rules alloc m s).2.table = s.table ∧
    (nf_tables_chain_alloc_rules alloc m s).2.commit_list = s.commit_list := by
  rcases chain_alloc_rules_cases alloc m s with h | ⟨_, h⟩ <;> rw [h] <;> exact ⟨rfl, rfl, rfl⟩

theorem updLastTrans_chain (s : State) (f : nft_trans → nft_trans) :
    (s.updLastTrans f).chain = s.chain ∧ (s.updLastTrans f).table = s.table := by
  unfold State.updLastTrans
  split <;> exact ⟨rfl, rfl⟩

/-- `nf_tables_addchain_init` changes no other chain and keeps the policy and the flags
of the new chain. -/
theorem addchain_init_chain (ctx : nft_ctx) (chain : Ptr) (policy : Int) (env : AddChainEnv)
    (s : State) :
    (∀ c, c ≠ chain → (nf_tables_addchain_init ctx chain policy env s).2.chain c = s.chain c) ∧
    ((nf_tables_addchain_init ctx chain policy env s).2.chain chain).policy =
      (s.chain chain).policy := by
  unfold nf_tables_addchain_init
  dsimp only
  split
  · constructor
    · intro c hc
      simp [nf_tables_alloc_handle, State.updChain, State.updTable, Function.update_noteq hc]
    · simp [nf_tables_alloc_handle, State.updChain, State.updTable]
  · rcases chain_alloc_rules_cases 0 env.rules
      ((nf_tables_alloc_handle s ctx.table).2.updChain chain (fun c =>
        { c with rules := [], handle := (nf_tables_alloc_handle s ctx.table).1,
                 table := ctx.table, name := env.name })) with h | ⟨_, h⟩
    · rw [h]
      constructor
      · intro c hc
        simp [nf_tables_alloc_handle, State.updChain, State.updTable, Function.update_noteq hc]
      · simp [nf_tables_alloc_handle, State.updChain, State.updTable]
    · rw [h]
      dsimp only
      split
      · constructor
        · intro c hc
          simp [nf_tables_alloc_handle, State.updChain, State.updTable, Function.update_noteq hc]
        · simp [nf_tables_alloc_handle, State.updChain, State.updTable]
      · split
        · constructor
          · intro c hc
            simp [nf_tables_alloc_handle, State.updChain, State.updTable,
              Function.update_noteq hc]
          · simp [nf_tables_alloc_handle, State.updChain, State.updTable]
        · split
          · constructor
            · intro c hc
              simp [nf_tables_alloc_handle, State.updChain, State.updTable, table_use_dec,
                State.warn, Function.update_noteq hc]
            · simp [nf_tables_alloc_handle, State.updChain, State.updTable, table_use_dec,
                State.warn]
          · cases hk : env.trans_ok
            · simp only [nft_trans_chain_add, hk, Bool.not_false, if_true]
              constructor
              · intro c hc
                simp [nf_tables_alloc_handle, State.updChain, State.updTable, table_use_dec,
                  State.warn, Function.update_noteq hc]
              · simp [nf_tables_alloc_handle, State.updChain, State.updTable, table_use_dec,
                  State.warn]
            · simp only [nft_trans_chain_add, hk, Bool.not_true, Bool.false_eq_true, if_false,
                if_true]
              constructor
              · intro c hc
                simp only [State.updTable, (updLastTrans_chain _ _).1,
                  nft_trans_commit_list_add_tail, State.updChain, nf_tables_alloc_handle,
                  Function.update_noteq hc]
              · simp only [State.updTable, (updLastTrans_chain _ _).1,
                  nft_trans_commit_list_add_tail, State.updChain, nf_tables_alloc_handle,
                  Function.update_same]

/-- Publishing one chain changes the slots and `rules_next` of that chain only. -/
theorem commit_chain_frame (s : State) (chain : Ptr) :
    (nf_tables_commit_chain s chain).gencursor = s.gencursor ∧
    (nf_tables_commit_chain s chain).tables = s.tables ∧
    (nf_tables_commit_chain s chain).table = s.table ∧
    (nf_tables_commit_chain s chain).commit_list = s.commit_list ∧
    (nf_tables_commit_chain s chain).base_seq = s.base_seq ∧
    (nf_tables_commit_chain s chain).gc_seq = s.gc_seq ∧
    (∀ c, ((nf_tables_commit_chain s chain).chain c).policy = (s.chain c).policy) ∧
    ((nf_tables_commit_chain s chain).chain chain).rules_next = none ∧
    (∀ c, (s.chain c).rules_next = none →
      ((nf_tables_commit_chain s chain).chain c).rules_next = none) := by
  unfold nf_tables_commit_chain
  dsimp only
  cases hn : (s.chain chain).rules_next with
  | none =>
    simp only
    split
    · exact ⟨rfl, rfl, rfl, rfl, rfl, rfl, fun _ => rfl, hn, fun _ h => h⟩
    · split <;>
      · refine ⟨rfl, rfl, rfl, rfl, rfl, rfl, ?_, ?_, ?_⟩
        · intro c
          simp only [nf_tables_commit_chain_free_rules_old, State.updChain, Function.update_apply]
          split
          · next h => subst h; rfl
          · rfl
        · simp [nf_tables_commit_chain_free_rules_old, State.updChain, hn]
        · intro c h
          simp only [nf_tables_commit_chain_free_rules_old, State.updChain, Function.update_apply]
          split
          · next h' => subst h'; exact hn
          · exact h
  | some next =>
    simp only
    have key : ∀ (b : Bool) (s2 : State),
        s2 = ((if b = true then s.updChain chain (fun c => { c with rules_gen_1 := next })
          else s.updChain chain (fun c => { c with rules_gen_0 := next })).updChain chain
            (fun c => { c with rules_next := none })) →
        s2.gencursor = s.gencursor ∧ s2.tables = s.tables ∧ s2.table = s.table ∧
        s2.commit_list = s.commit_list ∧ s2.base_seq = s.base_seq ∧ s2.gc_seq = s.gc_seq ∧
        (∀ c, (s2.chain c).policy = (s.chain c).policy) ∧
        (s2.chain chain).rules_next = none ∧
        (∀ c, (s.chain c).rules_next = none → (s2.chain c).rules_next = none) := by
      intro b s2 hs2
      subst hs2
      cases b <;>
      · refine ⟨rfl, rfl, rfl, rfl, rfl, rfl, ?_, ?_, ?_⟩
        · intro c
          simp only [State.updChain, Function.update_apply, Bool.false_eq_true, if_false, if_true]
          split
          · next h => subst h; simp
          · rfl
        · simp [State.updChain]
        · intro c h
          simp only [State.updChain, Function.update_apply, Bool.false_eq_true, if_false, if_true]
          split
          · rfl
          · exact h
    cases hb : (nft_gencursor_next s.gencursor != 0)
    · have k := key false _ rfl
      simp only [Bool.false_eq_true, if_false] at k ⊢
      split
      · exact k
      · unfold nf_tables_commit_chain_free_rules_old; exact k
    · have k := key true _ rfl
      simp only [if_true] at k ⊢
      split
      · exact k
      · unfold nf_tables_commit_chain_free_rules_old; exact k

/-- Publishing a list of chains. -/
theorem commit_chain_fold (cs : List Ptr) : ∀ s : State,
    (cs.foldl nf_tables_commit_chain s).gencursor = s.gencursor ∧
    (cs.foldl nf_tables_commit_chain s).tables = s.tables ∧
    (cs.foldl nf_tables_commit_chain s).table = s.table ∧
    (cs.foldl nf_tables_commit_chain s).commit_list = s.commit_list ∧
    (cs.foldl nf_tables_commit_chain s).base_seq = s.base_seq ∧
    (cs.foldl nf_tables_commit_chain s).gc_seq = s.gc_seq ∧
    (∀ c, ((cs.foldl nf_tables_commit_chain s).chain c).policy = (s.chain c).policy) ∧
    (∀ c, (c ∈ cs ∨ (s.chain c).rules_next = none) →
      ((cs.foldl nf_tables_commit_chain s).chain c).rules_next = none) := by
  induction cs with
  | nil =>
    intro s
    refine ⟨rfl, rfl, rfl, rfl, rfl, rfl, fun _ => rfl, ?_⟩
    intro c h
    rcases h with h | h
    · simp at h
    · exact h
  | cons c0 cs ih =>
    intro s
    simp only [List.foldl_cons]
    obtain ⟨a1, a2, a3, a4, a5, a6, a7, a8, a9⟩ := commit_chain_frame s c0
    obtain ⟨b1, b2, b3, b4, b5, b6, b7, b8⟩ := ih (nf_tables_commit_chain s c0)
    refine ⟨b1.trans a1, b2.trans a2, b3.trans a3, b4.trans a4, b5.trans a5, b6.trans a6,
      fun c => (b7 c).trans (a7 c), ?_⟩
    intro c h
    apply b8
    rcases h with h | h
    · rcases List.mem_cons.mp h with e | e
      · right; rw [e]; exact a8
      · left; exact e
    · right; exact a9 c h

/-- Step 2 of the commit publishes the array of every chain of every table. -/
theorem commit_publish_chains_spec (s : State) :
    (commit_publish_chains s).gencursor = s.gencursor ∧
    (commit_publish_chains s).tables = s.tables ∧
    (commit_publish_chains s).table = s.table ∧
    (commit_publish_chains s).commit_list = s.commit_list ∧
    (commit_publish_chains s).base_seq = s.base_seq ∧
    (commit_publish_chains s).gc_seq = s.gc_seq ∧
    (∀ c, ((commit_publish_chains s).chain c).policy = (s.chain c).policy) ∧
    (∀ t ∈ s.tables, ∀ c ∈ (s.table t).chains,
      ((commit_publish_chains s).chain c).rules_next = none) := by
  unfold commit_publish_chains
  have gen : ∀ (ts : List Ptr) (s0 : State),
      (ts.foldl (fun s1 t => (s1.table t).chains.foldl nf_tables_commit_chain s1) s0).gencursor
        = s0.gencursor ∧
      (ts.foldl (fun s1 t => (s1.table t).chains.foldl nf_tables_commit_chain s1) s0).tables
        = s0.tables ∧
      (ts.foldl (fun s1 t => (s1.table t).chains.foldl nf_tables_commit_chain s1) s0).table
        = s0.table ∧
      (ts.foldl (fun s1 t => (s1.table t).chains.foldl nf_tables_commit_chain s1) s0).commit_list
        = s0.commit_list ∧
      (ts.foldl (fun s1 t => (s1.table t).chains.foldl nf_tables_commit_chain s1) s0).base_seq
        = s0.base_seq ∧
      (ts.foldl (fun s1 t => (s1.table t).chains.foldl nf_tables_commit_chain s1) s0).gc_seq
        = s0.gc_seq ∧
      (∀ c, ((ts.foldl (fun s1 t => (s1.table t).chains.foldl nf_tables_commit_chain s1)
        s0).chain c).policy = (s0.chain c).policy) ∧
      (∀ c, ((∃ t ∈ ts, c ∈ (s0.table t).chains) ∨ (s0.chain c).rules_next = none) →
        ((ts.foldl (fun s1 t => (s1.table t).chains.foldl nf_tables_commit_chain s1)
          s0).chain c).rules_next = none) := by
    intro ts
    induction ts with
    | nil =>
      intro s0
      refine ⟨rfl, rfl, rfl, rfl, rfl, rfl, fun _ => rfl, ?_⟩
      intro c h
      rcases h with ⟨t, ht, _⟩ | h
      · simp at ht
      · exact h
    | cons t ts ih =>
      intro s0
      simp only [List.foldl_cons]
      obtain ⟨a1, a2, a3, a4, a5, a6, a7, a8⟩ := commit_chain_fold (s0.table t).chains s0
      obtain ⟨b1, b2, b3, b4, b5, b6, b7, b8⟩ :=
        ih ((s0.table t).chains.foldl nf_tables_commit_chain s0)
      refine ⟨b1.trans a1, b2.trans a2, b3.trans a3, b4.trans a4, b5.trans a5, b6.trans a6,
        fun c => (b7 c).trans (a7 c), ?_⟩
      intro c h
      apply b8
      rcases h with ⟨t', ht', hc⟩ | h
      · rcases List.mem_cons.mp ht' with e | e
        · right; subst e; exact a8 c (Or.inl hc)
        · left; rw [a3]; exact ⟨t', e, hc⟩
      · right; exact a8 c (Or.inr h)
  obtain ⟨a1, a2, a3, a4, a5, a6, a7, a8⟩ := gen s.tables s
  exact ⟨a1, a2, a3, a4, a5, a6, a7, fun t ht c hc => a8 c (Or.inl ⟨t, ht, hc⟩)⟩

theorem addchain_policy (ctx : nft_ctx) (policy : Int) (flags : Nat) (env : AddChainEnv)
    (s : State) :
    (∀ c, c ≠ s.brk →
      ((nf_tables_addchain ctx policy flags env s).2.chain c).policy = (s.chain c).policy) ∧
    ((nf_tables_addchain ctx policy flags env s).1 = 0 → env.hook = true →
      ((nf_tables_addchain ctx policy flags env s).2.chain s.brk).policy = NF_ACCEPT) := by
  unfold nf_tables_addchain
  cases hh : env.hook
  · simp only [Bool.false_eq_true, if_false]
    split
    · exact ⟨fun _ _ => rfl, fun _ h => by simp at h⟩
    · refine ⟨?_, fun _ h => by simp at h⟩
      intro c hc
      rw [(addchain_init_chain ctx s.brk policy env _).1 c hc]
      simp [Function.update_noteq hc]
  · simp only [if_true]
    split
    · exact ⟨fun _ _ => rfl, fun h _ => by simp [EINVAL] at h⟩
    · split
      · next hlt => exact ⟨fun _ _ => rfl, fun h _ => by simp only at h; omega⟩
      · split
        · exact ⟨fun _ _ => rfl, fun h _ => by simp [ENOMEM] at h⟩
        · split
          · next hc =>
            refine ⟨fun _ _ => rfl, fun h _ => ?_⟩
            exfalso
            cases he : env.counters with
            | none => simp [he] at hc
            | some e => simp [he] at hc h; omega
          · split
            · refine ⟨?_, fun h _ => by simp [EOPNOTSUPP] at h⟩
              intro c hc
              simp [Function.update_noteq hc]
            · constructor
              · intro c hc
                rw [(addchain_init_chain ctx s.brk policy env _).1 c hc]
                simp [Function.update_noteq hc]
              · intro _ _
                rw [(addchain_init_chain ctx s.brk policy env _).2]
                simp

theorem ite_pred {α : Type} (P : α → Prop) (c : Prop) [Decidable c] (a b : α)
    (ha : P a) (hb : P b) : P (if c then a else b) := by
  split <;> assumption

theorem updchain_chain (ctx : nft_ctx) (genmask : Nat) (policy : Int) (flags : Nat)
    (env : UpdChainEnv) (s : State) :
    (nf_tables_updchain ctx genmask policy flags env s).2.chain = s.chain := by
  unfold nf_tables_updchain
  apply ite_pred (fun r : Int × State => r.2.chain = s.chain) _ _ _ rfl
  apply ite_pred (fun r : Int × State => r.2.chain = s.chain) _ _ _ rfl
  apply ite_pred (fun r : Int × State => r.2.chain = s.chain) _ _ _ rfl
  apply ite_pred (fun r : Int × State => r.2.chain = s.chain) _ _ _ rfl
  apply ite_pred (fun r : Int × State => r.2.chain = s.chain) _ _ _ rfl
  apply ite_pred (fun r : Int × State => r.2.chain = s.chain) _ _ _ rfl
  apply ite_pred (fun r : Int × State => r.2.chain = s.chain) _ _ _ rfl
  apply ite_pred (fun r : Int × State => r.2.chain = s.chain) _ _ _ rfl
  cases env.rename with
  | none => rfl
  | some n =>
    apply ite_pred (fun r : Int × State => r.2.chain = s.chain) _ _ _ rfl
    apply ite_pred (fun r : Int × State => r.2.chain = s.chain) _ _ _ rfl
    rfl

/-- The commit up to the flip of the generation cursor: policies are untouched, every
array is published. -/
theorem commit_publish_spec (s : State) :
    (∀ c, ((commit_publish s).2.chain c).policy = (s.chain c).policy) ∧
    (commit_publish s).2.gencursor = nft_gencursor_next s.gencursor ∧
    (∀ t ∈ (commit_publish s).2.tables, ∀ c ∈ ((commit_publish s).2.table t).chains,
      (((commit_publish s).2).chain c).rules_next = none) := by
  obtain ⟨a1, a2, a3, a4, a5, a6, a7, a8⟩ := commit_publish_chains_spec s
  unfold commit_publish nft_gc_seq_begin
  dsimp only
  refine ⟨a7, by rw [a1], ?_⟩
  rw [a2, a3]
  exact a8

theorem commit_policy_deferred (env : CommitEnv) (s : State) :
    ((nf_tables_commit env s).1 < 0 →
      ∀ c, ((nf_tables_commit env s).2.chain c).policy = (s.chain c).policy) ∧
    ((nf_tables_commit env s).1 = 0 → s.commit_list ≠ [] →
      ∃ mid gc, (∀ c, (mid.chain c).policy = (s.chain c).policy) ∧
        mid.gencursor = nft_gencursor_next s.gencursor ∧
        (∀ t ∈ mid.tables, ∀ c ∈ (mid.table t).chains, (mid.chain c).rules_next = none) ∧
        (nf_tables_commit env s).2 =
          nf_tables_commit_release (nft_gc_seq_end
            { (commit_loop mid.commit_list mid).1 with
              commit_list := (commit_loop mid.commit_list mid).2 } gc)) := by
  obtain ⟨⟨vs, w, hv2⟩, _, _⟩ := nf_tables_validate_spec s
  have hvp : ∀ c, ((nf_tables_validate s).2.chain c).policy = (s.chain c).policy := by
    intro c; rw [hv2]
  have hl := commit_prepare_loop_spec env.alloc (nf_tables_validate s).2.commit_list
    (nf_tables_validate s).2
  have hpp : ∀ c, ((commit_prepare_loop env.alloc (nf_tables_validate s).2.commit_list
      (nf_tables_validate s).2).2.chain c).policy = (s.chain c).policy := by
    intro c
    have := congrArg nft_chain.policy (hl.1.chain c)
    simp only at this
    rw [this, hvp]
  unfold nf_tables_commit
  by_cases h0 : s.commit_list = []
  · simp only [h0, if_true]
    simp
  · simp only [h0, if_false]
    by_cases h1 : commit_unbound_anon s = true
    · simp only [h1, if_true]
      simp [EINVAL]
    · simp only [h1, if_false]
      by_cases h2 : (nf_tables_validate s).1 < 0
      · simp only [h2, if_true]
        exact ⟨fun _ => hvp, fun h _ => by simp [EAGAIN] at h⟩
      · simp only [h2, if_false]
        by_cases h3 : env.offload < 0
        · simp only [h3, if_true]
          exact ⟨fun _ => hvp, fun h _ => absurd h (ne_of_lt h3)⟩
        · simp only [h3, if_false]
          by_cases h4 : (commit_prepare_loop env.alloc (nf_tables_validate s).2.commit_list
              (nf_tables_validate s).2).1 < 0
          · simp only [h4, if_true]
            exact ⟨fun _ => hpp, fun h _ => absurd h (ne_of_lt h4)⟩
          · simp only [h4, if_false]
            refine ⟨fun h => by simp at h, fun _ _ => ?_⟩
            obtain ⟨b1, b2, b3⟩ := commit_publish_spec (commit_prepare_loop env.alloc
              (nf_tables_validate s).2.commit_list (nf_tables_validate s).2).2
            refine ⟨_, _, ?_, ?_, b3, rfl⟩
            · intro c; rw [b1 c, hpp c]
            · rw [b2, hl.1.gencursor, hv2]

/-- The callbacks of the expressions of a rule leave the flags and the policy of every
chain. -/
theorem rule_expr_deactivate_chain_static (s : State) (rule : Ptr) (phase : nft_trans_phase)
    (c : Ptr) :
    ((nft_rule_expr_deactivate s rule phase).chain c).flags = (s.chain c).flags ∧
    ((nft_rule_expr_deactivate s rule phase).chain c).policy = (s.chain c).policy := by
  have F := rule_expr_deactivate_frame s rule phase
  exact ⟨F.chain_flags c, F.chain_policy c⟩

theorem updChain_static (s : State) (p c : Ptr) (f : nft_chain → nft_chain)
    (hf : ∀ a, (f a).flags = a.flags ∧ (f a).policy = a.policy) :
    ((s.updChain p f).chain c).flags = (s.chain c).flags ∧
    ((s.updChain p f).chain c).policy = (s.chain c).policy := by
  unfold State.updChain
  by_cases h : c = p
  · subst h
    simp only [Function.update_same]
    exact hf _
  · simp only [Function.update_noteq h]
    exact ⟨by trivial, by trivial⟩

theorem updChain_chain_ne (s : State) (p c : Ptr) (f : nft_chain → nft_chain) (h : c ≠ p) :
    (s.updChain p f).chain c = s.chain c := by
  unfold State.updChain
  simp only [Function.update_noteq h]

theorem updChain_chain_same (s : State) (p : Ptr) (f : nft_chain → nft_chain) :
    (s.updChain p f).chain p = f (s.chain p) := by
  unfold State.updChain
  simp only [Function.update_same]

theorem chain_commit_update_core (s s1 : State) (t : nft_trans) (c : Ptr)
    (h1 : ∀ d, (s1.chain d).flags = (s.chain d).flags ∧
      (s1.chain d).policy = (s.chain d).policy) :
    (((if (!nft_is_base_chain (s1.chain t.ctx_chain)) = true then s1
      else if t.chain_policy = NF_DROP ∨ t.chain_policy = NF_ACCEPT then
        s1.updChain t.ctx_chain (fun c => { c with policy := t.chain_policy })
      else s1).chain c).flags = (s.chain c).flags) ∧
    (t.ctx_chain ≠ c →
      ((if (!nft_is_base_chain (s1.chain t.ctx_chain)) = true then s1
      else if t.chain_policy = NF_DROP ∨ t.chain_policy = NF_ACCEPT then
        s1.updChain t.ctx_chain (fun c => { c with policy := t.chain_policy })
      else s1).chain c).policy = (s.chain c).policy) ∧
    (nft_is_base_chain (s.chain t.ctx_chain) = true →
      (t.chain_policy = NF_DROP ∨ t.chain_policy = NF_ACCEPT) →
      ((if (!nft_is_base_chain (s1.chain t.ctx_chain)) = true then s1
      else if t.chain_policy = NF_DROP ∨ t.chain_policy = NF_ACCEPT then
        s1.updChain t.ctx_chain (fun c => { c with policy := t.chain_policy })
      else s1).chain t.ctx_chain).policy = t.chain_policy) := by
  have hb : nft_is_base_chain (s1.chain t.ctx_chain) = nft_is_base_chain (s.chain t.ctx_chain) := by
    unfold nft_is_base_chain
    rw [(h1 t.ctx_chain).1]
  rw [hb]
  by_cases hbase : nft_is_base_chain (s.chain t.ctx_chain) = true
  · have hn : ¬ ((!nft_is_base_chain (s.chain t.ctx_chain)) = true) := by simp [hbase]
    rw [if_neg hn]
    by_cases hp : t.chain_policy = NF_DROP ∨ t.chain_policy = NF_ACCEPT
    · rw [if_pos hp]
      refine ⟨?_, fun hne => ?_, fun _ _ => ?_⟩
      · by_cases hc : c = t.ctx_chain
        · subst hc
          rw [updChain_chain_same]
          exact (h1 _).1
        · rw [updChain_chain_ne _ _ _ _ hc]
          exact (h1 c).1
      · rw [updChain_chain_ne _ _ _ _ (Ne.symm hne)]
        exact (h1 c).2
      · rw [updChain_chain_same]
    · rw [if_neg hp]
      exact ⟨(h1 c).1, fun _ => (h1 c).2, fun _ h => absurd h hp⟩
  · have hn : (!nft_is_base_chain (s.chain t.ctx_chain)) = true := by simpa using hbase
    rw [if_pos hn]
    exact ⟨(h1 c).1, fun _ => (h1 c).2, fun h => absurd h hbase⟩

/-- The update of a chain at commit keeps the flags of every chain and the policy of
every other chain; the policy of a base chain becomes the drop or accept policy of the
record. -/
theorem chain_commit_update_spec (s : State) (t : nft_trans) (c : Ptr) :
    ((nft_chain_commit_update s t).chain c).flags = (s.chain c).flags ∧
    (t.ctx_chain ≠ c → ((nft_chain_commit_update s t).chain c).policy = (s.chain c).policy) ∧
    (nft_is_base_chain (s.chain t.ctx_chain) = true →
      (t.chain_policy = NF_DROP ∨ t.chain_policy = NF_ACCEPT) →
      ((nft_chain_commit_update s t).chain t.ctx_chain).policy = t.chain_policy) := by
  unfold nft_chain_commit_update
  cases t.chain_name with
  | none => exact chain_commit_update_core s s t c (fun _ => ⟨rfl, rfl⟩)
  | some n =>
    exact chain_commit_update_core s _ t c
      (fun d => updChain_static s _ d _ (fun _ => ⟨rfl, rfl⟩))

/-- The drop policy of the record of a new chain at commit: the flags of every chain and
the policy of every other chain stay; the policy of a base chain with a record that asks
for drop becomes drop. -/
theorem chain_commit_drop_policy_spec (s : State) (t : nft_trans) (c : Ptr) :
    ((nft_chain_commit_drop_policy s t).chain c).flags = (s.chain c).flags ∧
    (t.ctx_chain ≠ c → ((nft_chain_commit_drop_policy s t).chain c).policy = (s.chain c).policy) ∧
    (nft_is_base_chain (s.chain t.ctx_chain) = true → t.chain_policy = NF_DROP →
      ((nft_chain_commit_drop_policy s t).chain t.ctx_chain).policy = NF_DROP) := by
  unfold nft_chain_commit_drop_policy
  by_cases hp : t.chain_policy ≠ NF_DROP
  · rw [if_pos hp]
    exact ⟨rfl, fun _ => rfl, fun _ h => absurd h hp⟩
  · rw [if_neg hp]
    by_cases hbase : nft_is_base_chain (s.chain t.ctx_chain) = true
    · have hn : ¬ ((!nft_is_base_chain (s.chain t.ctx_chain)) = true) := by simp [hbase]
      rw [if_neg hn]
      refine ⟨?_, fun hne => ?_, fun _ _ => ?_⟩
      · by_cases hc : c = t.ctx_chain
        · subst hc
          rw [updChain_chain_same]
        · rw [updChain_chain_ne _ _ _ _ hc]
      · rw [updChain_chain_ne _ _ _ _ (Ne.symm hne)]
      · rw [updChain_chain_same]
    · have hn : (!nft_is_base_chain (s.chain t.ctx_chain)) = true := by simpa using hbase
      rw [if_pos hn]
      exact ⟨rfl, fun _ => rfl, fun h => absurd h hbase⟩

/-- One step of the record loop of the commit keeps the flags of every chain, and the
policy of every chain that is not the chain of a `NEWCHAIN` record. -/
theorem commit_one_chain_static (s : State) (t : nft_trans) (c : Ptr) :
    ((commit_one s t).1.chain c).flags = (s.chain c).flags ∧
    (¬ (t.msg_type = .NEWCHAIN ∧ t.ctx_chain = c) →
      ((commit_one s t).1.chain c).policy = (s.chain c).policy) := by
  unfold commit_one
  cases ht : t.msg_type with
  | NEWTABLE =>
    dsimp only
    split
    · split
      · exact ⟨rfl, fun _ => rfl⟩
      · split <;> exact ⟨rfl, fun _ => rfl⟩
    · exact ⟨rfl, fun _ => rfl⟩
  | DELTABLE => exact ⟨rfl, fun _ => rfl⟩
  | NEWCHAIN =>
    dsimp only
    split
    · obtain ⟨a, b, _⟩ := chain_commit_update_spec s t c
      exact ⟨a, fun h => b (fun e => h ⟨rfl, e⟩)⟩
    · obtain ⟨a, b, _⟩ := chain_commit_drop_policy_spec s t c
      have e := updChain_static (nft_chain_commit_drop_policy s t) t.ctx_chain c
      dsimp only
      constructor
      · refine Eq.trans ?_ a
        refine (e _ ?_).1
        exact fun _ => ⟨rfl, rfl⟩
      · intro h
        refine Eq.trans ?_ (b (fun e => h ⟨rfl, e⟩))
        refine (e _ ?_).2
        exact fun _ => ⟨rfl, rfl⟩
  | DELCHAIN => exact ⟨rfl, fun _ => rfl⟩
  | NEWRULE => exact ⟨rfl, fun _ => rfl⟩
  | DELRULE =>
    dsimp only
    obtain ⟨a, b⟩ := rule_expr_deactivate_chain_static
      (s.updChain t.ctx_chain (fun c => { c with rules := c.rules.erase t.rule })) t.rule .COMMIT c
    obtain ⟨a2, b2⟩ := updChain_static s t.ctx_chain c
      (fun c => { c with rules := c.rules.erase t.rule }) (fun _ => ⟨rfl, rfl⟩)
    exact ⟨a.trans a2, fun _ => b.trans b2⟩
  | NEWSET =>
    dsimp only
    split <;> exact ⟨rfl, fun _ => rfl⟩
  | DELSET => exact ⟨rfl, fun _ => rfl⟩
  | NEWSETELEM => exact ⟨rfl, fun _ => rfl⟩
  | DELSETELEM => exact ⟨rfl, fun _ => rfl⟩
  | NEWOBJ =>
    dsimp only
    split <;> exact ⟨rfl, fun _ => rfl⟩
  | DELOBJ => exact ⟨rfl, fun _ => rfl⟩
  | NEWFLOWTABLE => exact ⟨rfl, fun _ => rfl⟩
  | DELFLOWTABLE => exact ⟨rfl, fun _ => rfl⟩

/-- A `NEWCHAIN` record with the drop policy for a base chain makes the policy of the
chain drop when it is committed, for a new chain (`nft_chain_commit_drop_policy`) and for
an update (`nft_chain_commit_update`). -/
theorem commit_one_newchain_drop (s : State) (t : nft_trans)
    (ht : t.msg_type = .NEWCHAIN) (hbase : nft_is_base_chain (s.chain t.ctx_chain) = true)
    (hp : t.chain_policy = NF_DROP) :
    ((commit_one s t).1.chain t.ctx_chain).policy = NF_DROP := by
  unfold commit_one
  rw [ht]
  dsimp only
  split
  · rw [(chain_commit_update_spec s t t.ctx_chain).2.2 hbase (Or.inl hp), hp]
  · dsimp only
    have e := updChain_static (nft_chain_commit_drop_policy s t) t.ctx_chain t.ctx_chain
    refine Eq.trans ?_ ((chain_commit_drop_policy_spec s t t.ctx_chain).2.2 hbase hp)
    refine (e _ ?_).2
    exact fun _ => ⟨rfl, rfl⟩

/-- The record loop of the commit keeps the flags of every chain, and the policy of a
chain for which the list holds no `NEWCHAIN` record. -/
theorem commit_loop_chain_static (L : List nft_trans) (c : Ptr) : ∀ s : State,
    ((commit_loop L s).1.chain c).flags = (s.chain c).flags ∧
    ((∀ r ∈ L, ¬ (r.msg_type = .NEWCHAIN ∧ r.ctx_chain = c)) →
      ((commit_loop L s).1.chain c).policy = (s.chain c).policy) := by
  induction L with
  | nil => exact fun s => ⟨rfl, fun _ => rfl⟩
  | cons t ts ih =>
    intro s
    rw [commit_loop]
    dsimp only
    obtain ⟨a1, a2⟩ := ih (commit_one s t).1
    obtain ⟨b1, b2⟩ := commit_one_chain_static s t c
    refine ⟨a1.trans b1, fun h => ?_⟩
    rw [a2 (fun r hr => h r (List.mem_cons_of_mem _ hr)), b2 (h t (List.mem_cons_self _ _))]

/-- The record loop of the commit applies a staged drop policy: after the loop the policy
of a base chain is drop when the list holds a `NEWCHAIN` record with the drop policy for
the chain and no later `NEWCHAIN` record for it. -/
theorem commit_loop_applies_drop (pre post : List nft_trans) (t : nft_trans) (c : Ptr)
    (ht : t.msg_type = .NEWCHAIN) (hc : t.ctx_chain = c) (hp : t.chain_policy = NF_DROP)
    (hpost : ∀ r ∈ post, ¬ (r.msg_type = .NEWCHAIN ∧ r.ctx_chain = c)) : ∀ s : State,
    nft_is_base_chain (s.chain c) = true →
    ((commit_loop (pre ++ t :: post) s).1.chain c).policy = NF_DROP := by
  induction pre with
  | nil =>
    intro s hbase
    rw [List.nil_append, commit_loop]
    dsimp only
    rw [(commit_loop_chain_static post c (commit_one s t).1).2 hpost, ← hc]
    exact commit_one_newchain_drop s t ht (hc ▸ hbase) hp
  | cons r rs ih =>
    intro s hbase
    rw [List.cons_append, commit_loop]
    dsimp only
    apply ih
    unfold nft_is_base_chain at hbase ⊢
    rw [(commit_one_chain_static s r c).1]
    exact hbase

theorem commit_chain_flags (s : State) (chain c : Ptr) :
    ((nf_tables_commit_chain s chain).chain c).flags = (s.chain c).flags := by
  unfold nf_tables_commit_chain
  dsimp only
  cases (s.chain chain).rules_next with
  | none =>
    dsimp only
    split
    · rfl
    · split <;>
      · simp only [nf_tables_commit_chain_free_rules_old, State.updChain, Function.update_apply]
        split
        · next h => subst h; rfl
        · rfl
  | some next =>
    dsimp only
    cases (nft_gencursor_next s.gencursor != 0) <;>
    · simp only [Bool.false_eq_true, if_false, if_true]
      split
      · simp only [State.updChain, Function.update_apply]
        split
        · next h => subst h; simp
        · rfl
      · simp only [nf_tables_commit_chain_free_rules_old, State.updChain, Function.update_apply]
        split
        · next h => subst h; simp
        · rfl

theorem commit_publish_chains_flags (s : State) (c : Ptr) :
    ((commit_publish_chains s).chain c).flags = (s.chain c).flags := by
  unfold commit_publish_chains
  have inner : ∀ (cs : List Ptr) (w : State),
      ((cs.foldl nf_tables_commit_chain w).chain c).flags = (w.chain c).flags := by
    intro cs
    induction cs with
    | nil => exact fun _ => rfl
    | cons x xs ih =>
      intro w
      rw [List.foldl_cons, ih, commit_chain_flags]
  have outer : ∀ (ts : List Ptr) (w : State),
      ((ts.foldl (fun s1 t => (s1.table t).chains.foldl nf_tables_commit_chain s1) w).chain
        c).flags = (w.chain c).flags := by
    intro ts
    induction ts with
    | nil => exact fun _ => rfl
    | cons x xs ih =>
      intro w
      rw [List.foldl_cons, ih, inner]
  exact outer _ _

/-- A commit that succeeds on a non-empty batch runs the record loop over the batch, on a
state `mid` in which every chain has the flags and the policy from before the commit, the
generation cursor is flipped and every prepared array is published; the state it returns
has the chains the record loop leaves. -/
theorem commit_success_mid (env : CommitEnv) (s : State)
    (hok : (nf_tables_commit env s).1 = 0) (hne : s.commit_list ≠ []) :
    ∃ mid, mid.commit_list = s.commit_list ∧
      (∀ c, (mid.chain c).policy = (s.chain c).policy ∧ (mid.chain c).flags = (s.chain c).flags) ∧
      mid.gencursor = nft_gencursor_next s.gencursor ∧
      (∀ t ∈ mid.tables, ∀ c ∈ (mid.table t).chains, (mid.chain c).rules_next = none) ∧
      (nf_tables_commit env s).2.chain = (commit_loop mid.commit_list mid).1.chain := by
  obtain ⟨⟨vs, w, hv2⟩, _, _⟩ := nf_tables_validate_spec s
  have hl := commit_prepare_loop_spec env.alloc (nf_tables_validate s).2.commit_list
    (nf_tables_validate s).2
  have hpp : ∀ c, ((commit_prepare_loop env.alloc (nf_tables_validate s).2.commit_list
      (nf_tables_validate s).2).2.chain c).policy = (s.chain c).policy ∧
      ((commit_prepare_loop env.alloc (nf_tables_validate s).2.commit_list
      (nf_tables_validate s).2).2.chain c).flags = (s.chain c).flags := by
    intro c
    have h1 := congrArg nft_chain.policy (hl.1.chain c)
    have h2 := congrArg nft_chain.flags (hl.1.chain c)
    simp only at h1 h2
    rw [h1, h2, hv2]
    exact ⟨rfl, rfl⟩
  have hcl : (commit_prepare_loop env.alloc (nf_tables_validate s).2.commit_list
      (nf_tables_validate s).2).2.commit_list = s.commit_list := by
    rw [hl.1.commit_list, hv2]
  have hrel : ∀ x : State, (nf_tables_commit_release x).chain = x.chain := by
    intro x
    unfold nf_tables_commit_release
    split <;> rfl
  unfold nf_tables_commit at hok ⊢
  rw [if_neg hne] at hok ⊢
  by_cases h1 : commit_unbound_anon s = true
  · rw [if_pos h1] at hok
    simp [EINVAL] at hok
  rw [if_neg h1] at hok ⊢
  dsimp only at hok ⊢
  by_cases h2 : (nf_tables_validate s).1 < 0
  · rw [if_pos h2] at hok
    simp [EAGAIN] at hok
  rw [if_neg h2] at hok ⊢
  by_cases h3 : env.offload < 0
  · rw [if_pos h3] at hok
    dsimp only at hok
    omega
  rw [if_neg h3] at hok ⊢
  by_cases h4 : (commit_prepare_loop env.alloc (nf_tables_validate s).2.commit_list
      (nf_tables_validate s).2).1 < 0
  · rw [if_pos h4] at hok
    dsimp only at hok
    omega
  rw [if_neg h4]
  obtain ⟨b1, b2, b3⟩ := commit_publish_spec (commit_prepare_loop env.alloc
    (nf_tables_validate s).2.commit_list (nf_tables_validate s).2).2
  obtain ⟨a1, a2, a3, a4, a5, a6, a7, a8⟩ := commit_publish_chains_spec
    (commit_prepare_loop env.alloc (nf_tables_validate s).2.commit_list
      (nf_tables_validate s).2).2
  refine ⟨(commit_publish (commit_prepare_loop env.alloc
    (nf_tables_validate s).2.commit_list (nf_tables_validate s).2).2).2, ?_, ?_, ?_, b3, ?_⟩
  · refine Eq.trans ?_ hcl
    unfold commit_publish nft_gc_seq_begin
    exact a4
  · intro c
    refine ⟨(b1 c).trans (hpp c).1, ?_⟩
    refine Eq.trans ?_ (hpp c).2
    unfold commit_publish nft_gc_seq_begin
    exact commit_publish_chains_flags _ c
  · rw [b2, hl.1.gencursor, hv2]
  · dsimp only
    rw [hrel]
    rfl

/-- A call of `nf_tables_addchain_init` that returns `0` appends one `NEWCHAIN` record for
the new chain, which carries the requested policy when the chain is a base chain, and
keeps the flags of the chain. -/
theorem addchain_init_record (ctx : nft_ctx) (chain : Ptr) (policy : Int) (env : AddChainEnv)
    (s : State) (hok : (nf_tables_addchain_init ctx chain policy env s).1 = 0) :
    (nf_tables_addchain_init ctx chain policy env s).2.commit_list = s.commit_list ++
      [{ msg_type := .NEWCHAIN, ctx_table := ctx.table, ctx_chain := chain,
         chain_policy := if nft_is_base_chain (s.chain chain) then policy
           else NFT_CHAIN_POLICY_UNSET }] ∧
    ((nf_tables_addchain_init ctx chain policy env s).2.chain chain).flags =
      (s.chain chain).flags := by
  unfold nf_tables_addchain_init at hok ⊢
  dsimp only at hok ⊢
  by_cases h1 : (!env.name_ok) = true
  · rw [if_pos h1] at hok; simp [ENOMEM] at hok
  rw [if_neg h1] at hok ⊢
  rcases chain_alloc_rules_cases 0 env.rules
      ((nf_tables_alloc_handle s ctx.table).2.updChain chain (fun c =>
        { c with rules := [], handle := (nf_tables_alloc_handle s ctx.table).1,
                 table := ctx.table, name := env.name })) with h | ⟨_, h⟩
  · rw [h] at hok; simp [ENOMEM] at hok
  rw [h] at hok ⊢
  dsimp only at hok ⊢
  split at hok
  · next hlt => omega
  rename_i h2
  rw [if_neg h2]
  split at hok
  · simp [EMFILE] at hok
  rename_i h3
  rw [if_neg h3]
  split at hok
  · next h4 => exact absurd hok h4
  rename_i h4
  rw [if_neg h4]
  cases hk : env.trans_ok
  · simp [nft_trans_chain_add, hk, ENOMEM] at hok
  · simp only [nft_trans_chain_add, hk, Bool.not_true, Bool.false_eq_true, if_false, if_true,
      nft_trans_commit_list_add_tail, State.updLastTrans, State.updTable, State.updChain,
      nf_tables_alloc_handle, List.getLast?_append, List.getLast?_singleton,
      List.dropLast_concat, Function.update_same,
      nft_is_base_chain]
    simp

theorem base_chain_flag (flags : Nat) : (NFT_BASE_CHAIN ||| flags) &&& NFT_BASE_CHAIN ≠ 0 := by
  unfold NFT_BASE_CHAIN
  intro h
  have := congrArg (fun n => Nat.testBit n 0) h
  simp at this

theorem ite_ok {c : Prop} [Decidable c] {a b : Int × State}
    (h : (if c then a else b).1 = 0) (ha : c → a.1 ≠ 0) : ¬ c ∧ b.1 = 0 := by
  by_cases hc : c
  · rw [if_pos hc] at h
    exact absurd h (ha hc)
  · rw [if_neg hc] at h
    exact ⟨hc, h⟩

/-- A call of `nf_tables_addchain` for a base chain that returns `0` appends one
`NEWCHAIN` record for the new chain that carries the requested policy; the new chain is a
base chain. -/
theorem addchain_record (ctx : nft_ctx) (policy : Int) (flags : Nat) (env : AddChainEnv)
    (s : State) (hok : (nf_tables_addchain ctx policy flags env s).1 = 0)
    (hhook : env.hook = true) :
    (nf_tables_addchain ctx policy flags env s).2.commit_list = s.commit_list ++
      [{ msg_type := .NEWCHAIN, ctx_table := ctx.table, ctx_chain := s.brk,
         chain_policy := policy }] ∧
    nft_is_base_chain ((nf_tables_addchain ctx policy flags env s).2.chain s.brk) = true := by
  unfold nf_tables_addchain at hok ⊢
  rw [if_pos hhook] at hok ⊢
  split at hok
  · simp [EINVAL] at hok
  rename_i h1
  rw [if_neg h1]
  split at hok
  · next hlt => omega
  rename_i h2
  rw [if_neg h2]
  split at hok
  · simp [ENOMEM] at hok
  rename_i h3
  rw [if_neg h3]
  split at hok
  · next hc =>
    exfalso
    cases he : env.counters with
    | none => simp [he] at hc
    | some e => simp [he] at hc hok; omega
  rename_i h4
  rw [if_neg h4]
  dsimp only at hok ⊢
  split at hok
  · simp [EOPNOTSUPP] at hok
  rename_i h5
  rw [if_neg h5]
  obtain ⟨a, b⟩ := addchain_init_record ctx s.brk policy env _ hok
  have hb : nft_is_base_chain (Function.update s.chain s.brk
      { flags := NFT_BASE_CHAIN ||| flags, policy := NF_ACCEPT } s.brk) = true := by
    simp only [Function.update_same, nft_is_base_chain]
    simpa using base_chain_flag flags
  constructor
  · rw [a]
    dsimp only
    rw [if_pos hb]
  · unfold nft_is_base_chain at hb ⊢
    rw [b]
    exact hb

/-- A call of `nf_tables_updchain` that returns `0` changes no chain and appends one
`NEWCHAIN` record marked as an update of the chain, which carries the policy of the
request when it has one and `-1` otherwise. -/
theorem updchain_record (ctx : nft_ctx) (genmask : Nat) (policy : Int) (flags : Nat)
    (env : UpdChainEnv) (s : State)
    (hok : (nf_tables_updchain ctx genmask policy flags env s).1 = 0) :
    ∃ rec : nft_trans,
      (nf_tables_updchain ctx genmask policy flags env s).2.commit_list =
        s.commit_list ++ [rec] ∧
      rec.msg_type = .NEWCHAIN ∧ rec.ctx_chain = ctx.chain ∧ rec.chain_update = true ∧
      rec.chain_policy = (if env.has_policy then policy else -1) := by
  unfold nf_tables_updchain at hok ⊢
  obtain ⟨h1, hok⟩ := ite_ok hok (fun _ => by simp [EOPNOTSUPP])
  rw [if_neg h1]
  obtain ⟨h2, hok⟩ := ite_ok hok (fun _ => by simp [EBUSY])
  rw [if_neg h2]
  obtain ⟨h3, hok⟩ := ite_ok hok (fun h => by have := h.2; dsimp only; omega)
  rw [if_neg h3]
  obtain ⟨h4, hok⟩ := ite_ok hok (fun _ => by simp [EBUSY])
  rw [if_neg h4]
  obtain ⟨h5, hok⟩ := ite_ok hok (fun _ => by simp [EEXIST])
  rw [if_neg h5]
  obtain ⟨h6, hok⟩ := ite_ok hok (fun _ => by simp [EOPNOTSUPP])
  rw [if_neg h6]
  obtain ⟨h7, hok⟩ := ite_ok hok (fun hc => by
    cases he : env.counters with
    | none => simp [he] at hc
    | some e =>
      simp only [he, decide_eq_true_eq] at hc
      simp only [Option.getD_some]
      omega)
  rw [if_neg h7]
  obtain ⟨h8, hok⟩ := ite_ok hok (fun _ => by simp [ENOMEM])
  rw [if_neg h8]
  dsimp only at hok ⊢
  cases hr : env.rename with
  | none =>
    exact ⟨_, rfl, rfl, rfl, rfl, rfl⟩
  | some n =>
    rw [hr] at hok
    dsimp only at hok ⊢
    obtain ⟨h9, hok⟩ := ite_ok hok (fun _ => by simp [ENOMEM])
    rw [if_neg h9]
    obtain ⟨h10, hok⟩ := ite_ok hok (fun _ => by simp [EEXIST])
    rw [if_neg h10]
    exact ⟨_, rfl, rfl, rfl, rfl, rfl⟩

/-- C5: a staged drop policy does not take effect before publication, and it takes
effect in the record loop of the commit.
`nf_tables_addchain` leaves every existing chain's policy as it is and a new base
chain's policy at accept, whatever policy is requested, and puts the requested policy
into the `NEWCHAIN` record it appends; `nf_tables_updchain` modifies no chain and puts
the policy of the request into the `NEWCHAIN` record it appends, marked as an update.
`nf_tables_commit` leaves every policy untouched when it fails.  When it succeeds on a
non-empty batch it runs the record loop on a state `mid` in which all policies (and
flags) are still the pre-commit ones, the generation cursor is flipped and every chain's
prepared array is published (`rules_next` is NULL); the chains it returns are those the
record loop leaves, and the policy of a base chain is then drop when the batch holds a
`NEWCHAIN` record with the drop policy for it (of a new chain or of an update) and no
later `NEWCHAIN` record for the chain. -/
theorem drop_policy_deferred_until_published :
    (∀ (ctx : nft_ctx) (policy : Int) (flags : Nat) (env : AddChainEnv) (s : State),
      (∀ c, c ≠ s.brk →
        ((nf_tables_addchain ctx policy flags env s).2.chain c).policy = (s.chain c).policy) ∧
      ((nf_tables_addchain ctx policy flags env s).1 = 0 → env.hook = true →
        ((nf_tables_addchain ctx policy flags env s).2.chain s.brk).policy = NF_ACCEPT ∧
        nft_is_base_chain ((nf_tables_addchain ctx policy flags env s).2.chain s.brk) = true ∧
        (nf_tables_addchain ctx policy flags env s).2.commit_list = s.commit_list ++
          [{ msg_type := .NEWCHAIN, ctx_table := ctx.table, ctx_chain := s.brk,
             chain_policy := policy }])) ∧
    (∀ (ctx : nft_ctx) (genmask : Nat) (policy : Int) (flags : Nat) (env : UpdChainEnv)
      (s : State),
      (nf_tables_updchain ctx genmask policy flags env s).2.chain = s.chain ∧
      ((nf_tables_updchain ctx genmask policy flags env s).1 = 0 →
        ∃ rec : nft_trans,
          (nf_tables_updchain ctx genmask policy flags env s).2.commit_list =
            s.commit_list ++ [rec] ∧
          rec.msg_type = .NEWCHAIN ∧ rec.ctx_chain = ctx.chain ∧ rec.chain_update = true ∧
          rec.chain_policy = (if env.has_policy then policy else -1))) ∧
    (∀ (env : CommitEnv) (s : State),
      ((nf_tables_commit env s).1 < 0 →
        ∀ c, ((nf_tables_commit env s).2.chain c).policy = (s.chain c).policy) ∧
      ((nf_tables_commit env s).1 = 0 → s.commit_list ≠ [] →
        ∃ mid, mid.commit_list = s.commit_list ∧
          (∀ c, (mid.chain c).policy = (s.chain c).policy ∧
            (mid.chain c).flags = (s.chain c).flags) ∧
          mid.gencursor = nft_gencursor_next s.gencursor ∧
          (∀ t ∈ mid.tables, ∀ c ∈ (mid.table t).chains, (mid.chain c).rules_next = none) ∧
          (nf_tables_commit env s).2.chain = (commit_loop mid.commit_list mid).1.chain ∧
          ∀ (pre post : List nft_trans) (t : nft_trans),
            s.commit_list = pre ++ t :: post → t.msg_type = .NEWCHAIN →
            t.chain_policy = NF_DROP → nft_is_base_chain (s.chain t.ctx_chain) = true →
            (∀ r ∈ post, ¬ (r.msg_type = .NEWCHAIN ∧ r.ctx_chain = t.ctx_chain)) →
            ((nf_tables_commit env s).2.chain t.ctx_chain).policy = NF_DROP)) := by
  refine ⟨fun ctx policy flags env s => ⟨(addchain_policy ctx policy flags env s).1,
      fun hok hh => ?_⟩,
    fun ctx genmask policy flags env s => ⟨updchain_chain ctx genmask policy flags env s,
      updchain_record ctx genmask policy flags env s⟩,
    fun env s => ⟨(commit_policy_deferred env s).1, fun hok hne => ?_⟩⟩
  · obtain ⟨a, b⟩ := addchain_record ctx policy flags env s hok hh
    exact ⟨(addchain_policy ctx policy flags env s).2 hok hh, b, a⟩
  · obtain ⟨mid, m1, m2, m3, m4, m5⟩ := commit_success_mid env s hok hne
    refine ⟨mid, m1, m2, m3, m4, m5, fun pre post t hl ht hp hbase hpost => ?_⟩
    rw [m5, m1, hl]
    apply commit_loop_applies_drop pre post t t.ctx_chain ht rfl hp hpost mid
    unfold nft_is_base_chain at hbase ⊢
    rw [(m2 t.ctx_chain).2]
    exact hbase

theorem drop_policy_deferred_until_published_witness :
    (nf_tables_addchain { table := 1 } NF_DROP 0 ex_policy_env ex_policy_state).1 = 0 ∧
    ex_policy_env.hook = true ∧
    ((nf_tables_addchain { table := 1 } NF_DROP 0 ex_policy_env ex_policy_state).2.chain
      ex_policy_state.brk).policy = NF_ACCEPT ∧
    (nf_tables_commit {}
      (nf_tables_addchain { table := 1 } NF_DROP 0 ex_policy_env ex_policy_state).2).1 = 0 ∧
    ((nf_tables_commit {}
      (nf_tables_addchain { table := 1 } NF_DROP 0 ex_policy_env ex_policy_state).2).2.chain
        10).policy = NF_DROP ∧
    (ex_commit_state.chain 10).policy = NF_ACCEPT ∧
    (nf_tables_updchain { table := 1, chain := 10 } 0 NF_DROP NFT_BASE_CHAIN
      { has_policy := true } ex_commit_state).1 = 0 ∧
    ((nf_tables_updchain { table := 1, chain := 10 } 0 NF_DROP NFT_BASE_CHAIN
      { has_policy := true } ex_commit_state).2.chain 10).policy = NF_ACCEPT ∧
    ((nf_tables_commit {}
      (nf_tables_updchain { table := 1, chain := 10 } 0 NF_DROP NFT_BASE_CHAIN
        { has_policy := true } ex_commit_state).2).2.chain 10).policy = NF_DROP :=
  ⟨by decide, rfl,
   ((drop_policy_deferred_until_published.1 { table := 1 } NF_DROP 0 ex_policy_env
      ex_policy_state).2 (by decide) rfl).1,
   by decide, by decide, by decide, by decide, by decide, by decide⟩

/-! ## C10: adding a set element -/

theorem updChain_use_frame (z : State) (p : Ptr) (f : Nat → Nat) :
    UseFrame z (z.updChain p (fun c => { c with use := f c.use })) := by
  simp only [State.updChain]
  refine ⟨rfl, rfl, rfl, rfl, rfl, rfl, rfl, rfl, ?_, fun _ => rfl⟩
  intro c
  by_cases hc : c = p
  · subst hc; simp
  · simp [Function.update_noteq hc]

theorem updObj_use_frame (z : State) (p : Ptr) (f : Nat → Nat) :
    UseFrame z (z.updObj p (fun c => { c with use := f c.use })) := by
  simp only [State.updObj]
  refine ⟨rfl, rfl, rfl, rfl, rfl, rfl, rfl, rfl, fun _ => rfl, ?_⟩
  intro c
  by_cases hc : c = p
  · subst hc; simp
  · simp [Function.update_noteq hc]

theorem warn_frame (z : State) (w : Bool) : UseFrame z (z.warn w) :=
  ⟨rfl, rfl, rfl, rfl, rfl, rfl, rfl, rfl, fun _ => rfl, fun _ => rfl⟩

theorem validate_state_update_frame (z : State) (v : Nat) :
    UseFrame z (nft_validate_state_update z v) := by
  unfold nft_validate_state_update
  split
  · exact ⟨rfl, rfl, rfl, rfl, rfl, rfl, rfl, rfl, fun _ => rfl, fun _ => rfl⟩
  · split
    · exact ⟨rfl, rfl, rfl, rfl, rfl, rfl, rfl, rfl, fun _ => rfl, fun _ => rfl⟩
    · split
      · exact UseFrame.refl_use z
      · exact ⟨rfl, rfl, rfl, rfl, rfl, rfl, rfl, rfl, fun _ => rfl, fun _ => rfl⟩

theorem data_release_frame (z : State) (d : nft_data) : UseFrame z (nft_data_release z d) := by
  unfold nft_data_release
  cases d with
  | value b => exact UseFrame.refl_use z
  | verdict code chain =>
    dsimp only
    split
    · exact chain_use_dec_frame z chain
    · exact UseFrame.refl_use z

theorem data_release_type_frame (z : State) (d : nft_data) (t : Nat) :
    UseFrame z (nft_data_release_type z d t) := by
  unfold nft_data_release_type
  split
  · exact UseFrame.refl_use z
  · split
    · exact data_release_frame z d
    · exact warn_frame z true

theorem verdict_init_frame (z : State) (ctx : nft_ctx) (nla : VerdictAttr) :
    UseFrame z (nft_verdict_init z ctx nla).2.1 := by
  unfold nft_verdict_init
  split
  · exact UseFrame.refl_use z
  · split
    · exact UseFrame.refl_use z
    · split
      · exact UseFrame.refl_use z
      · split
        · split
          · exact UseFrame.refl_use z
          · split
            · exact UseFrame.refl_use z
            · split
              · exact UseFrame.refl_use z
              · split
                · exact UseFrame.refl_use z
                · exact updChain_use_frame z _ (fun u => (nft_use_inc u).2)
        · exact UseFrame.refl_use z

theorem data_init_frame (z : State) (ctx : nft_ctx) (size : Nat) (nla : DataAttr) :
    UseFrame z (nft_data_init z ctx size nla).2.1 := by
  unfold nft_data_init
  split
  · exact UseFrame.refl_use z
  · split
    · exact UseFrame.refl_use z
    · split
      · exact verdict_init_frame z ctx _
      · exact UseFrame.refl_use z

theorem parse_key_frame (z : State) (ctx : nft_ctx) (set : Ptr) (nla : DataAttr) :
    UseFrame z (nft_setelem_parse_key z ctx set nla).2.1 := by
  unfold nft_setelem_parse_key
  dsimp only
  split
  · exact data_init_frame z ctx _ nla
  · split
    · exact (data_init_frame z ctx _ nla).trans_use (data_release_type_frame _ _ _)
    · exact data_init_frame z ctx _ nla

theorem parse_data_frame (z : State) (ctx : nft_ctx) (set : Ptr) (nla : DataAttr) :
    UseFrame z (nft_setelem_parse_data z ctx set nla).2.1 := by
  unfold nft_setelem_parse_data
  dsimp only
  by_cases h1 : (nft_data_init z ctx NFT_DATA_VALUE_MAXLEN nla).1 < 0
  · rw [if_pos h1]; exact data_init_frame z ctx _ nla
  · rw [if_neg h1]
    by_cases h2 : (if (z.set set).dtype = NFT_DATA_VERDICT then NFT_DATA_VERDICT
        else NFT_DATA_VALUE) ≠ (nft_data_init z ctx NFT_DATA_VALUE_MAXLEN nla).2.2.2.type ∨
        (z.set set).dlen ≠ (nft_data_init z ctx NFT_DATA_VALUE_MAXLEN nla).2.2.2.len
    · rw [if_pos h2]
      exact (data_init_frame z ctx _ nla).trans_use (data_release_type_frame _ _ _)
    · rw [if_neg h2]; exact data_init_frame z ctx _ nla

theorem bindings_frame (ctx : nft_ctx) (dreg : Nat) (data : nft_data) (desc : nft_data_desc)
    (l : List nft_set_binding) : ∀ z : State,
    UseFrame z (add_elem_bindings ctx dreg data desc l z).2 := by
  induction l with
  | nil => intro z; exact UseFrame.refl_use z
  | cons b rest ih =>
    intro z
    unfold add_elem_bindings
    split
    · exact ih z
    · split
      · exact UseFrame.refl_use z
      · split
        · exact (validate_state_update_frame z _).trans_use (ih _)
        · exact ih z

theorem objref_frame (z : State) (attr : Option (List Ptr)) :
    UseFrame z (add_elem_objref z attr).2.1 := by
  unfold add_elem_objref
  split
  · exact UseFrame.refl_use z
  · split
    · exact UseFrame.refl_use z
    · split
      · exact UseFrame.refl_use z
      · exact updObj_use_frame z _ (fun u => (nft_use_inc u).2)

theorem add_elem_data_frame (z : State) (ctx : nft_ctx) (set : Ptr) (attr : Option DataAttr) :
    UseFrame z (add_elem_data z ctx set attr).2.1 := by
  unfold add_elem_data
  split
  · exact UseFrame.refl_use z
  · dsimp only
    split
    · exact parse_data_frame z ctx set _
    · exact (parse_data_frame z ctx set _).trans_use (bindings_frame _ _ _ _ _ _)

theorem err2_frame (z : State) (obj : Option Ptr) : UseFrame z (add_elem_err2 z obj) := by
  unfold add_elem_err2
  split
  · exact obj_use_dec_frame z _
  · exact UseFrame.refl_use z

theorem err3_frame (z : State) (data : Option (nft_data × nft_data_desc)) (obj : Option Ptr) :
    UseFrame z (add_elem_err3 z data obj) := by
  unfold add_elem_err3
  cases data with
  | none => exact err2_frame z obj
  | some d => exact (data_release_type_frame z d.1 d.2.type).trans_use (err2_frame _ obj)

theorem UseFrame.addElem {z w : State} (h : UseFrame z w) (p : Ptr) : AddElemFrame z w p :=
  ⟨h.gencursor, h.commit_list, h.set, fun e _ => by rw [h.elem]⟩

theorem AddElemFrame.use {z w v : State} {p : Ptr} (h : AddElemFrame z w p) (h2 : UseFrame w v) :
    AddElemFrame z v p :=
  ⟨h2.gencursor.trans h.gencursor, h2.commit_list.trans h.commit_list, h2.set.trans h.set,
   fun e he => by rw [h2.elem]; exact h.elem e he⟩

theorem set_elem_init_frame (z : State) (set : Ptr) (key : nft_data) (data : Option nft_data)
    (obj : Option Ptr) (flags timeout expiration : Nat) (userdata : Option (List Nat))
    (env : AddElemEnv) (p : Ptr)
    (h : (nft_set_elem_init z set key data obj flags timeout expiration userdata env).1 = some p) :
    AddElemFrame z
      (nft_set_elem_init z set key data obj flags timeout expiration userdata env).2 p := by
  unfold nft_set_elem_init at h ⊢
  by_cases ha : (!env.elem_alloc_ok) = true
  · rw [if_pos ha] at h; simp at h
  · rw [if_neg ha] at h ⊢
    simp only [Option.some.injEq] at h
    subst h
    exact ⟨rfl, rfl, rfl, fun e he => Function.update_noteq he _ _⟩

theorem set_elem_init_none (z : State) (set : Ptr) (key : nft_data) (data : Option nft_data)
    (obj : Option Ptr) (flags timeout expiration : Nat) (userdata : Option (List Nat))
    (env : AddElemEnv)
    (h : (nft_set_elem_init z set key data obj flags timeout expiration userdata env).1 = none) :
    (nft_set_elem_init z set key data obj flags timeout expiration userdata env).2 = z := by
  unfold nft_set_elem_init at h ⊢
  by_cases ha : (!env.elem_alloc_ok) = true
  · rw [if_pos ha]
  · rw [if_neg ha] at h; simp at h

theorem add_set_elem_init_frame (ctx : nft_ctx) (set : Ptr) (nla : SetElemAttr)
    (env : AddElemEnv) (s : State) :
    AddElemFrame s (nft_add_set_elem_init ctx set nla env s).s
      (nft_add_set_elem_init ctx set nla env s).elem := by
  unfold nft_add_set_elem_init
  by_cases h1 : nla.parse < 0
  · rw [if_pos h1]; exact (UseFrame.refl_use s).addElem _
  rw [if_neg h1]
  cases hk : nla.key with
  | none => exact (UseFrame.refl_use s).addElem _
  | some keyattr =>
    dsimp only
    by_cases h2 : (nft_setelem_parse_flags (s.set set) nla.flags).1 < 0
    · rw [if_pos h2]; exact (UseFrame.refl_use s).addElem _
    rw [if_neg h2]
    by_cases h3 : add_elem_attr_check (s.set set) nla
        (nft_setelem_parse_flags (s.set set) nla.flags).2 ≠ 0
    · rw [if_pos h3]; exact (UseFrame.refl_use s).addElem _
    rw [if_neg h3]
    by_cases h4 : (add_elem_timeouts (s.set set) nla).1 ≠ 0
    · rw [if_pos h4]; exact (UseFrame.refl_use s).addElem _
    rw [if_neg h4]
    have fk := parse_key_frame s ctx set keyattr
    by_cases h5 : (nft_setelem_parse_key s ctx set keyattr).1 < 0
    · rw [if_pos h5]; exact fk.addElem _
    rw [if_neg h5]
    have fo := fk.trans_use (objref_frame (nft_setelem_parse_key s ctx set keyattr).2.1 nla.objref)
    by_cases h6 : (add_elem_objref (nft_setelem_parse_key s ctx set keyattr).2.1 nla.objref).1 < 0
    · rw [if_pos h6]; exact (fo.trans_use (err2_frame _ _)).addElem _
    rw [if_neg h6]
    have fd := fo.trans_use (add_elem_data_frame
      (add_elem_objref (nft_setelem_parse_key s ctx set keyattr).2.1 nla.objref).2.1 ctx set nla.data)
    by_cases h7 : (add_elem_data
      (add_elem_objref (nft_setelem_parse_key s ctx set keyattr).2.1 nla.objref).2.1 ctx set
        nla.data).1 < 0
    · rw [if_pos h7]
      dsimp only
      split
      · exact (fd.trans_use (err3_frame _ _ _)).addElem _
      · exact (fd.trans_use (err2_frame _ _)).addElem _
    rw [if_neg h7]
    split
    · rename_i hn
      dsimp only
      rw [set_elem_init_none _ _ _ _ _ _ _ _ _ _ hn]
      exact (fd.trans_use (err3_frame _ _ _)).addElem _
    · rename_i elem he
      have fe := set_elem_init_frame _ _ _ _ _ _ _ _ _ _ elem he
      have fa : AddElemFrame s _ elem :=
        ⟨fe.gencursor.trans fd.gencursor, fe.commit_list.trans fd.commit_list,
         fe.set.trans fd.set, fun e h => (fe.elem e h).trans (by rw [fd.elem])⟩
      split
      · exact fa.use (err3_frame _ _ _)
      · dsimp only
        refine ⟨fa.gencursor, fa.commit_list, fa.set, fun e h => ?_⟩
        simp only [State.updElem, Function.update_noteq h]
        exact fa.elem e h

theorem find_unique {α : Type} (p : α → Bool) (l : List α) (x : α) (hx : x ∈ l)
    (hp : p x = true) (hu : ∀ y ∈ l, p y = true → y = x) : l.find? p = some x := by
  induction l with
  | nil => cases hx
  | cons a t ih =>
    by_cases ha : p a = true
    · have := hu a (List.mem_cons_self a t) ha
      subst this
      simp [List.find?, ha]
    · have hne : x ≠ a := fun h => ha (h ▸ hp)
      have hxt : x ∈ t := by
        rcases List.mem_cons.mp hx with h | h
        · exact absurd h hne
        · exact h
      simp only [List.find?, Bool.not_eq_true] at ha ⊢
      rw [ha]
      exact ih hxt (fun y hy => hu y (List.mem_cons_of_mem a hy))

theorem nft_data_differ_self (d : nft_data) (len : Nat) : nft_data_differ d d len = false := by
  cases d <;> simp [nft_data_differ]

theorem add_elem_exists_same (a b : nft_set_ext) (dlen nlmsg_flags : Nat)
    (hd : a.data = b.data) (ho : a.objref = b.objref) :
    add_elem_exists a b dlen nlmsg_flags =
      (if nlmsg_flags &&& NLM_F_EXCL = 0 then 0 else -EEXIST) := by
  unfold add_elem_exists
  rw [hd, ho]
  cases b.data <;> cases b.objref <;> simp [nft_data_differ_self]

/-- C10: adding an element whose key is already held by an element of the set that is
active in the next generation, with the same data and the same object reference (in
particular an element identical in all fields), when the request passes the checks
before the backend's `insert` (`nft_add_set_elem_init` succeeds), the new element's
memory is fresh and keys are unique among the active elements: without `NLM_F_EXCL`
`nft_add_set_elem` returns `0`, with `NLM_F_EXCL` it returns `-EEXIST`; in both cases no
record is appended to the commit list, and the set's element count and container are
unchanged. -/
theorem add_set_elem_duplicate_idempotent (ctx : nft_ctx) (set : Ptr) (nla : SetElemAttr)
    (nlmsg_flags : Nat) (env : AddElemEnv) (s : State) (e2 : Ptr)
    (hinit : (nft_add_set_elem_init ctx set nla env s).err = 0)
    (hfresh : (nft_add_set_elem_init ctx set nla env s).elem ∉ (s.set set).elems)
    (hmem : e2 ∈ (s.set set).elems)
    (hact : nft_active_genmask (s.elem e2).genmask (nft_genmask_next s.gencursor) = true)
    (hkey : (s.elem e2).key = ((nft_add_set_elem_init ctx set nla env s).s.elem
      (nft_add_set_elem_init ctx set nla env s).elem).key)
    (hdata : (s.elem e2).data = ((nft_add_set_elem_init ctx set nla env s).s.elem
      (nft_add_set_elem_init ctx set nla env s).elem).data)
    (hobj : (s.elem e2).objref = ((nft_add_set_elem_init ctx set nla env s).s.elem
      (nft_add_set_elem_init ctx set nla env s).elem).objref)
    (huniq : ∀ e ∈ (s.set set).elems,
      nft_active_genmask (s.elem e).genmask (nft_genmask_next s.gencursor) = true →
      (s.elem e).key = (s.elem e2).key → e = e2) :
    (nlmsg_flags &&& NLM_F_EXCL = 0 → (nft_add_set_elem ctx set nla nlmsg_flags env s).1 = 0) ∧
    (nlmsg_flags &&& NLM_F_EXCL ≠ 0 →
      (nft_add_set_elem ctx set nla nlmsg_flags env s).1 = -EEXIST) ∧
    (nft_add_set_elem ctx set nla nlmsg_flags env s).2.commit_list = s.commit_list ∧
    ((nft_add_set_elem ctx set nla nlmsg_flags env s).2.set set).nelems = (s.set set).nelems ∧
    ((nft_add_set_elem ctx set nla nlmsg_flags env s).2.set set).elems = (s.set set).elems := by
  have F := add_set_elem_init_frame ctx set nla env s
  have hne : ∀ e ∈ (s.set set).elems, e ≠ (nft_add_set_elem_init ctx set nla env s).elem :=
    fun e he h => hfresh (h ▸ he)
  have hins : set_ops_insert (nft_add_set_elem_init ctx set nla env s).s set
      (nft_add_set_elem_init ctx set nla env s).elem =
      (some e2, (nft_add_set_elem_init ctx set nla env s).s) := by
    unfold set_ops_insert
    rw [F.set, F.gencursor]
    rw [find_unique _ (s.set set).elems e2 hmem]
    · rw [F.elem e2 (hne e2 hmem)]
      simp [hkey, hact]
    · intro y hy hp
      rw [F.elem y (hne y hy)] at hp
      simp only [decide_eq_true_eq] at hp
      exact huniq y hy hp.2 (hp.1.trans hkey.symm)
  have herr := add_elem_exists_same
    ((nft_add_set_elem_init ctx set nla env s).s.elem (nft_add_set_elem_init ctx set nla env s).elem)
    ((nft_add_set_elem_init ctx set nla env s).s.elem e2)
    (((nft_add_set_elem_init ctx set nla env s).s.set set).dlen) nlmsg_flags
    (by rw [F.elem e2 (hne e2 hmem)]; exact hdata.symm)
    (by rw [F.elem e2 (hne e2 hmem)]; exact hobj.symm)
  have hE := err3_frame (nft_add_set_elem_init ctx set nla env s).s
    (nft_add_set_elem_init ctx set nla env s).data (nft_add_set_elem_init ctx set nla env s).obj
  unfold nft_add_set_elem
  dsimp only
  rw [if_neg (by omega), hins]
  dsimp only
  rw [herr]
  refine ⟨fun h => by rw [if_pos h], fun h => by rw [if_neg h], ?_, ?_, ?_⟩
  · rw [hE.commit_list, F.commit_list]
  · rw [hE.set, F.set]
  · rw [hE.set, F.set]

theorem add_set_elem_duplicate_idempotent_witness :
    (nft_add_set_elem { table := 1 } 20 ex_elem_attr 0 {} ex_elem_state).1 = 0 ∧
    (nft_add_set_elem { table := 1 } 20 ex_elem_attr NLM_F_EXCL {} ex_elem_state).1 = -EEXIST ∧
    (nft_add_set_elem { table := 1 } 20 ex_elem_attr 0 {} ex_elem_state).2.commit_list = [] ∧
    ((nft_add_set_elem { table := 1 } 20 ex_elem_attr 0 {} ex_elem_state).2.set 20).nelems = 1 :=
  ⟨(add_set_elem_duplicate_idempotent { table := 1 } 20 ex_elem_attr 0 {} ex_elem_state 200
      (by decide) (by decide) (by decide) (by decide) (by decide) (by decide) (by decide)
      (by decide)).1 (by decide),
   by decide, by decide, by decide⟩

/-! ## C2: the use count of a table -/

theorem ArrayFrame.refl_arr (s : State) : ArrayFrame s s :=
  ⟨rfl, rfl, rfl, rfl, rfl, rfl, fun _ => ⟨rfl, rfl⟩⟩

theorem ArrayFrame.trans_arr {a b c : State} (h1 : ArrayFrame a b) (h2 : ArrayFrame b c) :
    ArrayFrame a c :=
  ⟨h2.tables.trans h1.tables, h2.commit_list.trans h1.commit_list, h2.table.trans h1.table,
   h2.set.trans h1.set, h2.obj.trans h1.obj, h2.flowtable.trans h1.flowtable,
   fun x => ⟨(h2.chain x).1.trans (h1.chain x).1, (h2.chain x).2.trans (h1.chain x).2⟩⟩

theorem updChain_array_frame (s : State) (p : Ptr) (f : nft_chain → nft_chain)
    (hf : (f (s.chain p)).genmask = (s.chain p).genmask ∧
      (f (s.chain p)).table = (s.chain p).table) : ArrayFrame s (s.updChain p f) := by
  refine ⟨rfl, rfl, rfl, rfl, rfl, rfl, ?_⟩
  intro c
  simp only [State.updChain]
  by_cases h : c = p
  · subst h; rw [Function.update_same]; exact hf
  · rw [Function.update_noteq h]; exact ⟨rfl, rfl⟩

theorem commit_chain_prepare_array_frame (chain : Ptr) (m : Kvmalloc) (s : State) :
    ArrayFrame s (nf_tables_commit_chain_prepare chain m s).2 := by
  unfold nf_tables_commit_chain_prepare
  split
  · exact ArrayFrame.refl_arr s
  · dsimp only
    rcases chain_alloc_rules_cases (count_active_next s (s.chain chain).rules 0) m s with h | ⟨_, h⟩
    · rw [h]; exact ArrayFrame.refl_arr s
    · rw [h]
      dsimp only
      refine ⟨rfl, rfl, rfl, rfl, rfl, rfl, ?_⟩
      intro c
      simp only [State.updChain]
      by_cases hc : c = chain
      · subst hc; rw [Function.update_same]; exact ⟨rfl, rfl⟩
      · rw [Function.update_noteq hc]; exact ⟨rfl, rfl⟩

theorem prepare_cancel_array_frame (l : List nft_trans) : ∀ s : State,
    ArrayFrame s (l.foldl prepare_cancel_one s) := by
  induction l with
  | nil => intro s; exact ArrayFrame.refl_arr s
  | cons t l ih =>
    intro s
    rw [List.foldl_cons]
    refine ArrayFrame.trans_arr ?_ (ih _)
    unfold prepare_cancel_one
    split
    · exact updChain_array_frame s _ _ ⟨rfl, rfl⟩
    · exact ArrayFrame.refl_arr s

theorem commit_prepare_loop_array_frame (alloc : Ptr → Kvmalloc) (l : List nft_trans) :
    ∀ s : State, ArrayFrame s (commit_prepare_loop alloc l s).2 := by
  induction l with
  | nil => intro s; exact ArrayFrame.refl_arr s
  | cons t l ih =>
    intro s
    unfold commit_prepare_loop
    split
    · dsimp only
      split
      · exact (commit_chain_prepare_array_frame _ _ s).trans_arr (prepare_cancel_array_frame _ _)
      · exact (commit_chain_prepare_array_frame _ _ s).trans_arr (ih _)
    · exact ih s

theorem commit_chain_array_frame (s : State) (chain : Ptr) :
    ArrayFrame s (nf_tables_commit_chain s chain) := by
  unfold nf_tables_commit_chain nf_tables_commit_chain_free_rules_old
  dsimp only
  cases (s.chain chain).rules_next <;> dsimp only <;>
    cases (nft_gencursor_next s.gencursor != 0) <;>
    by_cases h01 : (s.chain chain).rules_gen_0 = (s.chain chain).rules_gen_1 <;>
    simp only [h01, if_true, if_false, Bool.false_eq_true] <;>
    refine ⟨rfl, rfl, rfl, rfl, rfl, rfl, fun c => ?_⟩ <;>
    by_cases hc : c = chain <;> simp [State.updChain, hc]

theorem commit_chain_fold_array_frame (cs : List Ptr) : ∀ s : State,
    ArrayFrame s (cs.foldl nf_tables_commit_chain s) := by
  induction cs with
  | nil => intro s; exact ArrayFrame.refl_arr s
  | cons c cs ih =>
    intro s
    rw [List.foldl_cons]
    exact (commit_chain_array_frame s c).trans_arr (ih _)

theorem commit_publish_chains_array_frame (s : State) :
    ArrayFrame s (commit_publish_chains s) := by
  unfold commit_publish_chains
  have gen : ∀ (ts : List Ptr) (s0 : State),
      ArrayFrame s0
        (ts.foldl (fun s1 t => (s1.table t).chains.foldl nf_tables_commit_chain s1) s0) := by
    intro ts
    induction ts with
    | nil => intro s0; exact ArrayFrame.refl_arr s0
    | cons t ts ih =>
      intro s0
      rw [List.foldl_cons]
      exact (commit_chain_fold_array_frame _ s0).trans_arr (ih _)
  exact gen _ s

theorem commit_publish_array_frame (s : State) :
    ArrayFrame s (commit_publish s).2 ∧
    (commit_publish s).2.gencursor = nft_gencursor_next s.gencursor := by
  obtain ⟨b1, b2, b3⟩ := commit_publish_spec s
  refine ⟨?_, b2⟩
  have h := commit_publish_chains_array_frame s
  unfold commit_publish nft_gc_seq_begin
  dsimp only
  exact ⟨h.tables, h.commit_list, h.table, h.set, h.obj, h.flowtable, h.chain⟩

theorem gencursor_next_le (c : Nat) : nft_gencursor_next c ≤ 1 := by
  unfold nft_gencursor_next
  split <;> omega

theorem validate_array_frame (s : State) :
    ArrayFrame s (nf_tables_validate s).2 ∧ (nf_tables_validate s).2.gencursor = s.gencursor := by
  obtain ⟨⟨vs, w, hv2⟩, _, _⟩ := nf_tables_validate_spec s
  rw [hv2]
  exact ⟨⟨rfl, rfl, rfl, rfl, rfl, rfl, fun _ => ⟨rfl, rfl⟩⟩, rfl⟩

theorem set_elem_destroy_frame (z : State) (e : Ptr) : UseFrame z (nft_set_elem_destroy z e) := by
  unfold nft_set_elem_destroy
  have h1 : UseFrame z (match (z.elem e).data with
      | some d => nft_data_release z d
      | none => z) := by
    cases (z.elem e).data with
    | none => exact UseFrame.refl_use z
    | some d => exact data_release_frame z d
  cases (z.elem e).objref with
  | none => exact h1
  | some o => exact h1.trans_use (obj_use_dec_frame _ o)

theorem abort_release_frame (z : State) (t : nft_trans) :
    UseFrame z (nf_tables_abort_release z t) := by
  unfold nf_tables_abort_release
  cases t.msg_type <;> simp only
  all_goals first
    | exact UseFrame.refl_use z
    | exact warn_frame _ _
    | exact set_elem_destroy_frame z _
    | (unfold nf_tables_chain_destroy; split <;> exact warn_frame _ _)

theorem abort_release_loop_frame (L : List nft_trans) : ∀ z : State,
    UseFrame z (L.foldl nf_tables_abort_release z) := by
  induction L with
  | nil => intro z; exact UseFrame.refl_use z
  | cons t ts ih =>
    intro z
    exact (abort_release_frame z t).trans_use (ih _)

/-! ## C11: conflicting set elements -/

theorem add_set_elem_exists_result (ctx : nft_ctx) (set : Ptr) (nla : SetElemAttr)
    (nlmsg_flags : Nat) (env : AddElemEnv) (s : State) (e2 : Ptr)
    (hinit : (nft_add_set_elem_init ctx set nla env s).err = 0)
    (hfresh : (nft_add_set_elem_init ctx set nla env s).elem ∉ (s.set set).elems)
    (hmem : e2 ∈ (s.set set).elems)
    (hact : nft_active_genmask (s.elem e2).genmask (nft_genmask_next s.gencursor) = true)
    (hkey : (s.elem e2).key = ((nft_add_set_elem_init ctx set nla env s).s.elem
      (nft_add_set_elem_init ctx set nla env s).elem).key)
    (huniq : ∀ e ∈ (s.set set).elems,
      nft_active_genmask (s.elem e).genmask (nft_genmask_next s.gencursor) = true →
      (s.elem e).key = (s.elem e2).key → e = e2) :
    (nft_add_set_elem ctx set nla nlmsg_flags env s).1 =
      add_elem_exists ((nft_add_set_elem_init ctx set nla env s).s.elem
        (nft_add_set_elem_init ctx set nla env s).elem) (s.elem e2) (s.set set).dlen
        nlmsg_flags := by
  have F := add_set_elem_init_frame ctx set nla env s
  have hne : ∀ e ∈ (s.set set).elems, e ≠ (nft_add_set_elem_init ctx set nla env s).elem :=
    fun e he h => hfresh (h ▸ he)
  have hins : set_ops_insert (nft_add_set_elem_init ctx set nla env s).s set
      (nft_add_set_elem_init ctx set nla env s).elem =
      (some e2, (nft_add_set_elem_init ctx set nla env s).s) := by
    unfold set_ops_insert
    rw [F.set, F.gencursor]
    rw [find_unique _ (s.set set).elems e2 hmem]
    · rw [F.elem e2 (hne e2 hmem)]
      simp [hkey, hact]
    · intro y hy hp
      rw [F.elem y (hne y hy)] at hp
      simp only [decide_eq_true_eq] at hp
      exact huniq y hy hp.2 (hp.1.trans hkey.symm)
  unfold nft_add_set_elem
  dsimp only
  rw [if_neg (by omega), hins]
  dsimp only
  rw [F.elem e2 (hne e2 hmem), F.set]

theorem add_elem_exists_busy_iff (a b : nft_set_ext) (dlen nlmsg_flags : Nat) :
    add_elem_exists a b dlen nlmsg_flags = -EBUSY ↔
      (a.data.isSome ≠ b.data.isSome ∨ a.objref ≠ b.objref ∨
        ∃ x y, a.data = some x ∧ b.data = some y ∧ nft_data_differ x y dlen = true) := by
  unfold add_elem_exists
  have h1 : (0 : Int) ≠ -EBUSY := by decide
  have h2 : -EEXIST ≠ -EBUSY := by decide
  cases ha : a.data <;> cases hb : b.data <;> cases hc : a.objref <;> cases hd : b.objref <;>
    simp [h1, h2] <;> (try split) <;> simp_all <;>
    (rename_i x y _ _ _; cases nft_data_differ x y dlen <;> simp)

theorem add_set_elem_conflict_busy_counterexample :
    (nft_add_set_elem_init { table := 1 } 20 ex_elem_attr_udata {} ex_elem_state).err = 0 ∧
    ((nft_add_set_elem_init { table := 1 } 20 ex_elem_attr_udata {} ex_elem_state).s.elem
      (nft_add_set_elem_init { table := 1 } 20 ex_elem_attr_udata {} ex_elem_state).elem).key =
      (ex_elem_state.elem 200).key ∧
    ((nft_add_set_elem_init { table := 1 } 20 ex_elem_attr_udata {} ex_elem_state).s.elem
      (nft_add_set_elem_init { table := 1 } 20 ex_elem_attr_udata {} ex_elem_state).elem).userdata =
      some [7] ∧
    (ex_elem_state.elem 200).userdata = none ∧
    (nft_add_set_elem { table := 1 } 20 ex_elem_attr_udata 0 {} ex_elem_state).1 = 0 ∧
    (nft_add_set_elem { table := 1 } 20 ex_elem_attr_udata NLM_F_EXCL {} ex_elem_state).1 =
      -EEXIST := by
  decide

/-- C11 (amended): adding an element whose key is already held by an element of the
set that is active in the next generation (the request passes the checks before the
backend's `insert`, the new element's memory is fresh, keys are unique among the
active elements): `nft_add_set_elem` returns `-EBUSY`, with or without `NLM_F_EXCL`,
exactly when the mapped data or the object reference of the new element differs from
the existing element's (one has the extension and the other has not, the first `dlen`
bytes of the data differ, or the objects differ).  When both are equal the result is
not `-EBUSY`, whatever the flags, timeout, expiration and user data of the two
elements are. -/
theorem add_set_elem_conflict_busy (ctx : nft_ctx) (set : Ptr) (nla : SetElemAttr)
    (nlmsg_flags : Nat) (env : AddElemEnv) (s : State) (e2 : Ptr)
    (hinit : (nft_add_set_elem_init ctx set nla env s).err = 0)
    (hfresh : (nft_add_set_elem_init ctx set nla env s).elem ∉ (s.set set).elems)
    (hmem : e2 ∈ (s.set set).elems)
    (hact : nft_active_genmask (s.elem e2).genmask (nft_genmask_next s.gencursor) = true)
    (hkey : (s.elem e2).key = ((nft_add_set_elem_init ctx set nla env s).s.elem
      (nft_add_set_elem_init ctx set nla env s).elem).key)
    (huniq : ∀ e ∈ (s.set set).elems,
      nft_active_genmask (s.elem e).genmask (nft_genmask_next s.gencursor) = true →
      (s.elem e).key = (s.elem e2).key → e = e2) :
    ((nft_add_set_elem ctx set nla nlmsg_flags env s).1 = -EBUSY ↔
      (((nft_add_set_elem_init ctx set nla env s).s.elem
          (nft_add_set_elem_init ctx set nla env s).elem).data.isSome ≠
          (s.elem e2).data.isSome ∨
        ((nft_add_set_elem_init ctx set nla env s).s.elem
          (nft_add_set_elem_init ctx set nla env s).elem).objref ≠ (s.elem e2).objref ∨
        ∃ x y, ((nft_add_set_elem_init ctx set nla env s).s.elem
            (nft_add_set_elem_init ctx set nla env s).elem).data = some x ∧
          (s.elem e2).data = some y ∧ nft_data_differ x y (s.set set).dlen = true)) ∧
    (((nft_add_set_elem_init ctx set nla env s).s.elem
        (nft_add_set_elem_init ctx set nla env s).elem).data = (s.elem e2).data →
      ((nft_add_set_elem_init ctx set nla env s).s.elem
        (nft_add_set_elem_init ctx set nla env s).elem).objref = (s.elem e2).objref →
      (nft_add_set_elem ctx set nla nlmsg_flags env s).1 =
        (if nlmsg_flags &&& NLM_F_EXCL = 0 then 0 else -EEXIST)) := by
  have h := add_set_elem_exists_result ctx set nla nlmsg_flags env s e2 hinit hfresh hmem hact
    hkey huniq
  rw [h]
  exact ⟨add_elem_exists_busy_iff _ _ _ _, fun hd ho => add_elem_exists_same _ _ _ _ hd ho⟩

theorem add_set_elem_conflict_busy_witness :
    (nft_add_set_elem { table := 1 } 20 ex_elem_attr_other 0 {} ex_elem_state).1 = -EBUSY ∧
    (nft_add_set_elem { table := 1 } 20 ex_elem_attr_other NLM_F_EXCL {} ex_elem_state).1 =
      -EBUSY :=
  ⟨(add_set_elem_conflict_busy { table := 1 } 20 ex_elem_attr_other 0 {} ex_elem_state 200
      (by decide) (by decide) (by decide) (by decide) (by decide) (by decide)).1.mpr
      (Or.inr (Or.inr ⟨.value [8, 8, 8, 8], .value [9, 9, 9, 9], by decide, by decide,
        by decide⟩)),
   (add_set_elem_conflict_busy { table := 1 } 20 ex_elem_attr_other NLM_F_EXCL {} ex_elem_state
      200 (by decide) (by decide) (by decide) (by decide) (by decide) (by decide)).1.mpr
      (Or.inr (Or.inr ⟨.value [8, 8, 8, 8], .value [9, 9, 9, 9], by decide, by decide,
        by decide⟩))⟩

/-! ## C16: unbound anonymous sets at commit -/

/-- C16: when the binding list holds a `NEWSET` record of an anonymous set whose bound
flag is false, `nf_tables_commit` returns `-EINVAL` and leaves the whole state as it
was: in particular `base_seq`, the generation cursor, `gc_seq`, the generation slots of
every chain and the commit list. -/
theorem commit_unbound_anonymous_set_einval (env : CommitEnv) (s : State) (trans : nft_trans)
    (hmem : trans ∈ s.binding_list) (hty : trans.msg_type = .NEWSET)
    (hanon : nft_set_is_anonymous (s.set trans.set) = true)
    (hbound : trans.set_bound = false) :
    (nf_tables_commit env s).1 = -EINVAL ∧
    (nf_tables_commit env s).2 = s ∧
    (nf_tables_commit env s).2.base_seq = s.base_seq ∧
    (nf_tables_commit env s).2.gencursor = s.gencursor ∧
    (nf_tables_commit env s).2.gc_seq = s.gc_seq ∧
    (∀ c, ((nf_tables_commit env s).2.chain c).rules_gen_0 = (s.chain c).rules_gen_0 ∧
      ((nf_tables_commit env s).2.chain c).rules_gen_1 = (s.chain c).rules_gen_1 ∧
      ((nf_tables_commit env s).2.chain c).rules_next = (s.chain c).rules_next) ∧
    (nf_tables_commit env s).2.commit_list = s.commit_list := by
  have hne : s.commit_list ≠ [] := by
    intro h
    simp [State.binding_list, h] at hmem
  have hany : commit_unbound_anon s = true := by
    unfold commit_unbound_anon
    rw [List.any_eq_true]
    exact ⟨trans, hmem, by simp [hty, hanon, hbound]⟩
  have e : nf_tables_commit env s = (-EINVAL, s) := by
    unfold nf_tables_commit
    rw [if_neg hne, if_pos hany]
  rw [e]
  exact ⟨rfl, rfl, rfl, rfl, rfl, fun _ => ⟨rfl, rfl, rfl⟩, rfl⟩

theorem commit_unbound_anonymous_set_einval_witness :
    ex_unbound_state.commit_list.length = 1 ∧
    (nf_tables_commit {} ex_unbound_state).1 = -EINVAL ∧
    (nf_tables_commit {} ex_unbound_state).2.base_seq = 1 :=
  ⟨by decide,
   (commit_unbound_anonymous_set_einval {} ex_unbound_state
      { msg_type := .NEWSET, ctx_table := 1, set := 20, set_id := 1, on_binding_list := true }
      (by decide) rfl (by decide) rfl).1,
   (commit_unbound_anonymous_set_einval {} ex_unbound_state
      { msg_type := .NEWSET, ctx_table := 1, set := 20, set_id := 1, on_binding_list := true }
      (by decide) rfl (by decide) rfl).2.2.1⟩

/-! ## C17: batches of the garbage collector -/

theorem range_getD_take (priv : List Ptr) (n : Nat) (h : n ≤ priv.length) :
    (List.range n).map (fun i => priv.getD i 0) = priv.take n := by
  apply List.ext_getElem
  · simp [h]
  · intro i h1 h2
    simp only [List.length_map, List.length_range] at h1
    simp [List.getD_eq_getElem?_getD, List.getElem?_eq_getElem (lt_of_lt_of_le h1 h)]

theorem gc_remove_eq_take (s : State) (trans : nft_trans_gc)
    (h : trans.count ≤ trans.priv.length) :
    nft_trans_gc_setelem_remove s trans =
      (trans.priv.take trans.count).foldl (fun s1 e =>
        set_ops_remove (nft_setelem_data_deactivate s1 e) trans.set e) s := by
  unfold nft_trans_gc_setelem_remove
  rw [← range_getD_take trans.priv trans.count h, List.foldl_map]

theorem data_release_set_update (z : State) (f : Ptr → nft_set) (d : nft_data) :
    nft_data_release { z with set := f } d = { nft_data_release z d with set := f } := by
  unfold nft_data_release
  cases d with
  | value b => rfl
  | verdict code ch => dsimp only; split <;> rfl

theorem deact_elem_set_update (z : State) (f : Ptr → nft_set) (e : Ptr) :
    nft_setelem_data_deactivate { z with set := f } e =
      { nft_setelem_data_deactivate z e with set := f } := by
  unfold nft_setelem_data_deactivate
  dsimp only
  cases hd : (z.elem e).data with
  | none => cases (z.elem e).objref <;> rfl
  | some d =>
    dsimp only
    rw [data_release_set_update]
    cases (z.elem e).objref <;> rfl

theorem deact_remove_comm (z : State) (set e e2 : Ptr) :
    nft_setelem_data_deactivate (set_ops_remove z set e2) e =
      set_ops_remove (nft_setelem_data_deactivate z e) set e2 := by
  unfold set_ops_remove State.updSet
  rw [deact_elem_set_update, (deact_elem_frame z e).set]

theorem deact_walk_remove_comm (set e2 : Ptr) (L : List Ptr) : ∀ z : State,
    L.foldl nft_setelem_data_deactivate (set_ops_remove z set e2) =
      set_ops_remove (L.foldl nft_setelem_data_deactivate z) set e2 := by
  induction L with
  | nil => intro z; rfl
  | cons e L ih =>
    intro z
    rw [List.foldl_cons, List.foldl_cons, deact_remove_comm, ih]

theorem gc_fold_split (set : Ptr) (L : List Ptr) : ∀ z : State,
    L.foldl (fun s1 e => set_ops_remove (nft_setelem_data_deactivate s1 e) set e) z =
      L.foldl (fun s1 e => set_ops_remove s1 set e) (L.foldl nft_setelem_data_deactivate z) := by
  induction L with
  | nil => intro z; rfl
  | cons e L ih =>
    intro z
    rw [List.foldl_cons, List.foldl_cons, List.foldl_cons, ih, deact_walk_remove_comm]

theorem remove_walk_spec (set : Ptr) (L : List Ptr) : ∀ z : State,
    L.foldl (fun s1 e => set_ops_remove s1 set e) z =
      z.updSet set (fun x => { x with elems := x.elems.diff L }) := by
  induction L with
  | nil =>
    intro z
    simp only [List.foldl_nil, List.diff_nil, State.updSet]
    have : Function.update z.set set (z.set set) = z.set := Function.update_eq_self _ _
    rw [this]
  | cons e L ih =>
    intro z
    rw [List.foldl_cons, ih]
    simp [set_ops_remove, State.updSet]

/-- C17: `nft_trans_gc_work_done` returns false exactly when the namespace `gc_seq`
differs from the value captured in the batch or the set of the batch is dead, and then
the state is unchanged (no element is deactivated or removed).  Otherwise it returns
true and the first `count` elements of the batch are each deactivated once
(`nft_setelem_data_deactivate`: the chain and object references of each are dropped
once) and each removed once from the container of the set: the container loses one
occurrence of each of them and keeps every other element. -/
theorem gc_work_done_checks_seq_and_dead (s : State) (trans : nft_trans_gc)
    (hcount : trans.count ≤ trans.priv.length) :
    ((nft_trans_gc_work_done s trans).1 = false ↔
      (s.gc_seq ≠ trans.seq ∨ (s.set trans.set).dead = true)) ∧
    ((nft_trans_gc_work_done s trans).1 = false → (nft_trans_gc_work_done s trans).2 = s) ∧
    ((nft_trans_gc_work_done s trans).1 = true →
      (nft_trans_gc_work_done s trans).2 =
        ((trans.priv.take trans.count).foldl nft_setelem_data_deactivate s).updSet trans.set
          (fun x => { x with elems := x.elems.diff (trans.priv.take trans.count) }) ∧
      ((nft_trans_gc_work_done s trans).2.set trans.set).elems =
        (s.set trans.set).elems.diff (trans.priv.take trans.count) ∧
      ((s.set trans.set).elems.Nodup → ∀ e ∈ trans.priv.take trans.count,
        e ∉ ((nft_trans_gc_work_done s trans).2.set trans.set).elems) ∧
      (∀ e ∈ (s.set trans.set).elems, e ∉ trans.priv.take trans.count →
        e ∈ ((nft_trans_gc_work_done s trans).2.set trans.set).elems) ∧
      ((nft_trans_gc_work_done s trans).2.warned = false →
        (∀ c, (s.chain c).use = ((nft_trans_gc_work_done s trans).2.chain c).use +
          ((trans.priv.take trans.count).map (fun e => elem_chain_refs (s.elem e) c)).sum) ∧
        (∀ o, (s.obj o).use = ((nft_trans_gc_work_done s trans).2.obj o).use +
          ((trans.priv.take trans.count).map (fun e => elem_obj_refs (s.elem e) o)).sum))) := by
  unfold nft_trans_gc_work_done
  by_cases h : s.gc_seq ≠ trans.seq ∨ (s.set trans.set).dead = true
  · rw [if_pos h]
    exact ⟨⟨fun _ => h, fun _ => rfl⟩, fun _ => rfl, fun h1 => by simp at h1⟩
  · rw [if_neg h]
    refine ⟨⟨fun h1 => by simp at h1, fun h1 => absurd h1 h⟩, fun h1 => by simp at h1,
      fun _ => ?_⟩
    have e : nft_trans_gc_setelem_remove s trans =
        ((trans.priv.take trans.count).foldl nft_setelem_data_deactivate s).updSet trans.set
          (fun x => { x with elems := x.elems.diff (trans.priv.take trans.count) }) := by
      rw [gc_remove_eq_take s trans hcount, gc_fold_split, remove_walk_spec]
    have hf := deact_walk_frame (trans.priv.take trans.count) s
    have hel : ((nft_trans_gc_setelem_remove s trans).set trans.set).elems =
        (s.set trans.set).elems.diff (trans.priv.take trans.count) := by
      rw [e]
      simp [State.updSet, hf.set]
    dsimp only
    refine ⟨e, hel, ?_, ?_, ?_⟩
    · intro hn x hx
      rw [hel, hn.diff_eq_filter]
      simp [hx]
    · intro x hx hnx
      rw [hel]
      exact List.mem_diff_of_mem hx hnx
    · intro hw
      rw [e] at hw ⊢
      have hw2 : ((trans.priv.take trans.count).foldl nft_setelem_data_deactivate s).warned =
          false := hw
      have hsp := deact_walk_spec (trans.priv.take trans.count) s hw2
      exact ⟨hsp.2.2.1, hsp.2.2.2⟩

theorem gc_work_done_checks_seq_and_dead_witness :
    (nft_trans_gc_work_done ex_gc_state
      { set := 20, seq := 4, count := 2, priv := [200, 201, 0, 0] }).1 = true ∧
    ((nft_trans_gc_work_done ex_gc_state
      { set := 20, seq := 4, count := 2, priv := [200, 201, 0, 0] }).2.set 20).elems = [202] ∧
    ((nft_trans_gc_work_done ex_gc_state
      { set := 20, seq := 4, count := 2, priv := [200, 201, 0, 0] }).2.obj 30).use = 0 ∧
    (nft_trans_gc_work_done ex_gc_state
      { set := 20, seq := 2, count := 2, priv := [200, 201, 0, 0] }).1 = false ∧
    ((nft_trans_gc_work_done ex_gc_state
      { set := 20, seq := 2, count := 2, priv := [200, 201, 0, 0] }).2.set 20).elems =
      [200, 201, 202] :=
  ⟨by decide,
   ((gc_work_done_checks_seq_and_dead ex_gc_state
      { set := 20, seq := 4, count := 2, priv := [200, 201, 0, 0] } (by decide)).2.2
      (by decide)).2.1.trans (by decide),
   by decide, by decide, by decide⟩

/-! ## C18, C19: the generation counters -/

theorem SeqFrame.refl_seq (z : State) : SeqFrame z z := ⟨rfl, rfl⟩

theorem SeqFrame.trans_seq {a b c : State} (h1 : SeqFrame a b) (h2 : SeqFrame b c) :
    SeqFrame a c :=
  ⟨h2.base_seq.trans h1.base_seq, h2.gc_seq.trans h1.gc_seq⟩

theorem data_release_seq (z : State) (d : nft_data) : SeqFrame z (nft_data_release z d) := by
  unfold nft_data_release
  cases d with
  | value b => exact ⟨rfl, rfl⟩
  | verdict code ch => dsimp only; split <;> exact ⟨rfl, rfl⟩

theorem data_hold_seq (z : State) (d : nft_data) : SeqFrame z (nft_data_hold z d) := by
  unfold nft_data_hold
  cases d with
  | value b => exact ⟨rfl, rfl⟩
  | verdict code ch => dsimp only; split <;> exact ⟨rfl, rfl⟩

theorem deact_elem_seq (z : State) (e : Ptr) :
    SeqFrame z (nft_setelem_data_deactivate z e) := by
  unfold nft_setelem_data_deactivate
  dsimp only
  have h1 : SeqFrame z (match (z.elem e).data with
      | some d => nft_data_release z d
      | none => z) := by
    cases (z.elem e).data with
    | none => exact ⟨rfl, rfl⟩
    | some d => exact data_release_seq z d
  cases (z.elem e).objref with
  | none => exact h1
  | some o => exact h1.trans_seq ⟨rfl, rfl⟩

theorem act_elem_seq (z : State) (e : Ptr) :
    SeqFrame z (nft_setelem_data_activate z e) := by
  unfold nft_setelem_data_activate
  dsimp only
  have h1 : SeqFrame z (match (z.elem e).data with
      | some d => nft_data_hold z d
      | none => z) := by
    cases (z.elem e).data with
    | none => exact ⟨rfl, rfl⟩
    | some d => exact data_hold_seq z d
  cases (z.elem e).objref with
  | none => exact h1
  | some o => exact h1.trans_seq ⟨rfl, rfl⟩

theorem fold_seq {α : Type} (f : State → α → State) (hf : ∀ z a, SeqFrame z (f z a))
    (L : List α) : ∀ z : State, SeqFrame z (L.foldl f z) := by
  induction L with
  | nil => intro z; exact ⟨rfl, rfl⟩
  | cons a L ih =>
    intro z
    rw [List.foldl_cons]
    exact (hf z a).trans_seq (ih _)

theorem map_activate_seq (z : State) (set : Ptr) : SeqFrame z (nft_map_activate z set) := by
  unfold nft_map_activate set_walk
  exact fold_seq _ act_elem_seq _ z

theorem MetaFrame.seq {z w : State} (h : MetaFrame z w) : SeqFrame z w :=
  ⟨h.base_seq, h.gc_seq⟩

theorem commit_one_seq (s : State) (r : nft_trans) : SeqFrame s (commit_one s r).1 := by
  unfold commit_one
  cases r.msg_type <;>
    dsimp only [nft_chain_commit_update, nft_chain_commit_drop_policy, nf_tables_table_disable,
      table_use_dec, set_elem_change_active, set_ops_remove,
      State.updTable, State.updChain, State.updSet, State.updRule, State.updObj, State.updElem,
      State.updFlowtable, State.warn] <;>
    repeat (first
      | exact ⟨rfl, rfl⟩
      | (exact ⟨(rule_expr_deactivate_meta _ _ _).base_seq,
          (rule_expr_deactivate_meta _ _ _).gc_seq⟩)
      | split)

theorem commit_loop_seq (L : List nft_trans) : ∀ s : State, SeqFrame s (commit_loop L s).1 := by
  induction L with
  | nil => intro s; exact ⟨rfl, rfl⟩
  | cons t ts ih =>
    intro s
    unfold commit_loop
    exact (commit_one_seq s t).trans_seq (ih _)

theorem abort_one_seq (s : State) (r : nft_trans) : SeqFrame s (abort_one s r).1 := by
  unfold abort_one
  cases r.msg_type <;>
    dsimp only [nf_tables_table_disable, table_use_dec, table_use_inc_restore, chain_use_dec,
      chain_use_inc_restore, set_elem_change_active, set_ops_remove,
      State.updTable, State.updChain, State.updSet, State.updRule, State.updObj, State.updElem,
      State.updFlowtable, State.warn] <;>
    repeat (first
      | exact ⟨rfl, rfl⟩
      | (exact ⟨(rule_expr_deactivate_meta _ _ _).base_seq,
          (rule_expr_deactivate_meta _ _ _).gc_seq⟩)
      | (exact ⟨(rule_expr_activate_meta _ _).base_seq,
          (rule_expr_activate_meta _ _).gc_seq⟩)
      | (exact ⟨(map_activate_seq _ _).base_seq, (map_activate_seq _ _).gc_seq⟩)
      | (exact ⟨(act_elem_seq _ _).base_seq, (act_elem_seq _ _).gc_seq⟩)
      | split)

theorem abort_loop_seq (L : List nft_trans) : ∀ s : State, SeqFrame s (abort_loop L s) := by
  induction L with
  | nil => intro s; exact ⟨rfl, rfl⟩
  | cons t ts ih =>
    intro s
    unfold abort_loop
    exact (abort_one_seq s t).trans_seq (ih _)

theorem abort_release_seq (z : State) (t : nft_trans) :
    SeqFrame z (nf_tables_abort_release z t) := by
  unfold nf_tables_abort_release
  cases t.msg_type <;> dsimp only [State.warn]
  all_goals first
    | exact ⟨rfl, rfl⟩
    | exact deact_elem_seq z _
    | (unfold nf_tables_chain_destroy State.warn; split <;> exact ⟨rfl, rfl⟩)

theorem validate_seq (s : State) : SeqFrame s (nf_tables_validate s).2 := by
  obtain ⟨⟨vs, w, hv2⟩, _, _⟩ := nf_tables_validate_spec s
  rw [hv2]
  exact ⟨rfl, rfl⟩

theorem commit_release_seq (s : State) : SeqFrame s (nf_tables_commit_release s) := by
  unfold nf_tables_commit_release
  split <;> exact ⟨rfl, rfl⟩

/-- The counters after `nf_tables_commit`: a completed commit of a non-empty batch bumps
both, every other outcome leaves them. -/
theorem commit_seq (env : CommitEnv) (s : State) :
    ((nf_tables_commit env s).1 = 0 → s.commit_list ≠ [] →
      (nf_tables_commit env s).2.base_seq = base_seq_bump s.base_seq ∧
      (nf_tables_commit env s).2.gc_seq = (s.gc_seq + 2) % 2 ^ 32) ∧
    (((nf_tables_commit env s).1 ≠ 0 ∨ s.commit_list = []) →
      SeqFrame s (nf_tables_commit env s).2) := by
  have hv := validate_seq s
  have hp := (commit_prepare_loop_spec env.alloc (nf_tables_validate s).2.commit_list
    (nf_tables_validate s).2).1
  obtain ⟨_, _, _, _, c5, c6, _, _⟩ := commit_publish_chains_spec
    (commit_prepare_loop env.alloc (nf_tables_validate s).2.commit_list (nf_tables_validate s).2).2
  unfold nf_tables_commit
  by_cases h0 : s.commit_list = []
  · rw [if_pos h0]
    exact ⟨fun _ h => absurd h0 h, fun _ => ⟨rfl, rfl⟩⟩
  rw [if_neg h0]
  by_cases h1 : commit_unbound_anon s = true
  · rw [if_pos h1]
    exact ⟨fun h => by simp [EINVAL] at h, fun _ => ⟨rfl, rfl⟩⟩
  rw [if_neg h1]
  dsimp only
  by_cases h2 : (nf_tables_validate s).1 < 0
  · rw [if_pos h2]
    exact ⟨fun h => by simp [EAGAIN] at h, fun _ => hv⟩
  rw [if_neg h2]
  by_cases h3 : env.offload < 0
  · rw [if_pos h3]
    exact ⟨fun h => absurd h (ne_of_lt h3), fun _ => hv⟩
  rw [if_neg h3]
  by_cases h4 : (commit_prepare_loop env.alloc (nf_tables_validate s).2.commit_list
      (nf_tables_validate s).2).1 < 0
  · rw [if_pos h4]
    exact ⟨fun h => absurd h (ne_of_lt h4), fun _ => hv.trans_seq ⟨hp.base_seq, hp.gc_seq⟩⟩
  rw [if_neg h4]
  refine ⟨fun _ _ => ?_, fun h => ?_⟩
  · have hr := commit_release_seq (nft_gc_seq_end
      { (commit_loop (commit_publish (commit_prepare_loop env.alloc
          (nf_tables_validate s).2.commit_list (nf_tables_validate s).2).2).2.commit_list
          (commit_publish (commit_prepare_loop env.alloc
          (nf_tables_validate s).2.commit_list (nf_tables_validate s).2).2).2).1 with
        commit_list := (commit_loop (commit_publish (commit_prepare_loop env.alloc
          (nf_tables_validate s).2.commit_list (nf_tables_validate s).2).2).2.commit_list
          (commit_publish (commit_prepare_loop env.alloc
          (nf_tables_validate s).2.commit_list (nf_tables_validate s).2).2).2).2 }
      (commit_publish (commit_prepare_loop env.alloc
          (nf_tables_validate s).2.commit_list (nf_tables_validate s).2).2).1)
    have hl := commit_loop_seq (commit_publish (commit_prepare_loop env.alloc
          (nf_tables_validate s).2.commit_list (nf_tables_validate s).2).2).2.commit_list
          (commit_publish (commit_prepare_loop env.alloc
          (nf_tables_validate s).2.commit_list (nf_tables_validate s).2).2).2
    dsimp only
    rw [hr.base_seq, hr.gc_seq]
    unfold nft_gc_seq_end
    dsimp only
    rw [hl.base_seq]
    unfold commit_publish nft_gc_seq_begin
    dsimp only
    rw [c5, c6, hp.base_seq, hp.gc_seq, hv.base_seq, hv.gc_seq]
    exact ⟨rfl, by omega⟩
  · rcases h with h | h
    · exact absurd rfl h
    · exact absurd h h0

theorem abort_seq (av : Bool) (s : State) :
    (nf_tables_abort av s).2.base_seq = s.base_seq ∧
    (nf_tables_abort av s).2.gc_seq = (s.gc_seq + 2) % 2 ^ 32 := by
  unfold nf_tables_abort __nf_tables_abort nft_gc_seq_end nft_gc_seq_begin
  dsimp only
  refine ⟨?_, by omega⟩
  have key : ∀ (L : List nft_trans) (z : State), ((abort_left L z).foldl nf_tables_abort_release
      (abort_loop L z)).base_seq = z.base_seq := fun L z =>
    ((abort_loop_seq _ z).trans_seq (fold_seq _ abort_release_seq _ _)).base_seq
  cases av
  · simp only [Bool.false_eq_true, if_false]
    exact key _ _
  · simp only [if_true]
    exact (key _ _).trans (validate_seq _).base_seq

theorem base_seq_bump_ne_zero (b : Nat) : base_seq_bump b ≠ 0 ∧ base_seq_bump b < 2 ^ 32 := by
  unfold base_seq_bump
  split
  · exact ⟨by decide, by decide⟩
  · rename_i h
    exact ⟨h, Nat.mod_lt _ (by decide)⟩

theorem reachable_seq (s : State) (h : Reachable s) :
    s.gc_seq % 2 = 0 ∧ s.gc_seq < 2 ^ 32 ∧ s.base_seq ≠ 0 ∧ s.base_seq < 2 ^ 32 := by
  induction h with
  | init => exact ⟨by decide, by decide, by decide, by decide⟩
  | commit env s _ ih =>
    obtain ⟨h1, h2⟩ := commit_seq env s
    by_cases hc : (nf_tables_commit env s).1 = 0 ∧ s.commit_list ≠ []
    · obtain ⟨e1, e2⟩ := h1 hc.1 hc.2
      rw [e1, e2]
      exact ⟨by omega, by omega, (base_seq_bump_ne_zero _).1, (base_seq_bump_ne_zero _).2⟩
    · have hf := h2 (by
        by_cases h0 : (nf_tables_commit env s).1 = 0
        · exact Or.inr (by_contra fun hne => hc ⟨h0, hne⟩)
        · exact Or.inl h0)
      rw [hf.base_seq, hf.gc_seq]
      exact ih
  | abort av s _ ih =>
    obtain ⟨e1, e2⟩ := abort_seq av s
    rw [e1, e2]
    exact ⟨by omega, by omega, ih.2.2.1, ih.2.2.2⟩
  | other s s' _ hb hg ih =>
    rw [hb, hg]
    exact ih

/-- C18: `gc_seq` starts at `0`; it is even in every state between two operations, and
`nft_gc_seq_begin` makes an even counter odd (returning the new value) until
`nft_gc_seq_end` with that value makes it even again, two above the old value modulo
`2^32`; the record loops of commit and abort, which run in between, do not write it.  A
completed `nf_tables_commit` of a non-empty batch and every `nf_tables_abort` add `2`
modulo `2^32`, every other outcome of a commit leaves the counter.  Hence
`nft_trans_gc_work_done` rejects, in the state such a commit or abort leaves, a batch
that captured the counter before it, and leaves that state unchanged. -/
theorem gc_seq_parity_and_stale_batch :
    nf_tables_init_net.gc_seq = 0 ∧
    (∀ s, Reachable s → s.gc_seq % 2 = 0 ∧ s.gc_seq < 2 ^ 32) ∧
    (∀ s : State, s.gc_seq % 2 = 0 →
      (nft_gc_seq_begin s).2.gc_seq % 2 = 1 ∧
      (nft_gc_seq_begin s).1 = (nft_gc_seq_begin s).2.gc_seq ∧
      ∀ z : State, (nft_gc_seq_end z (nft_gc_seq_begin s).1).gc_seq % 2 = 0 ∧
        (nft_gc_seq_end z (nft_gc_seq_begin s).1).gc_seq = (s.gc_seq + 2) % 2 ^ 32) ∧
    (∀ (L : List nft_trans) (z : State),
      (commit_loop L z).1.gc_seq = z.gc_seq ∧ (abort_loop L z).gc_seq = z.gc_seq) ∧
    (∀ (env : CommitEnv) (s : State),
      ((nf_tables_commit env s).1 = 0 → s.commit_list ≠ [] →
        (nf_tables_commit env s).2.gc_seq = (s.gc_seq + 2) % 2 ^ 32) ∧
      (((nf_tables_commit env s).1 ≠ 0 ∨ s.commit_list = []) →
        (nf_tables_commit env s).2.gc_seq = s.gc_seq)) ∧
    (∀ (action_validate : Bool) (s : State),
      (nf_tables_abort action_validate s).2.gc_seq = (s.gc_seq + 2) % 2 ^ 32) ∧
    (∀ (env : CommitEnv) (s : State) (trans : nft_trans_gc),
      s.gc_seq < 2 ^ 32 → trans.seq = s.gc_seq →
      (nf_tables_commit env s).1 = 0 → s.commit_list ≠ [] →
      nft_trans_gc_work_done (nf_tables_commit env s).2 trans =
        (false, (nf_tables_commit env s).2)) ∧
    (∀ (action_validate : Bool) (s : State) (trans : nft_trans_gc),
      s.gc_seq < 2 ^ 32 → trans.seq = s.gc_seq →
      nft_trans_gc_work_done (nf_tables_abort action_validate s).2 trans =
        (false, (nf_tables_abort action_validate s).2)) := by
  refine ⟨rfl, fun s h => ⟨(reachable_seq s h).1, (reachable_seq s h).2.1⟩, ?_, ?_, ?_, ?_, ?_, ?_⟩
  · intro s h
    unfold nft_gc_seq_begin nft_gc_seq_end
    dsimp only
    refine ⟨by omega, rfl, fun z => ⟨by omega, by omega⟩⟩
  · exact fun L z => ⟨(commit_loop_seq L z).gc_seq, (abort_loop_seq L z).gc_seq⟩
  · exact fun env s => ⟨fun h1 h2 => ((commit_seq env s).1 h1 h2).2,
      fun h => ((commit_seq env s).2 h).gc_seq⟩
  · exact fun av s => (abort_seq av s).2
  · intro env s trans hlt hseq h1 h2
    unfold nft_trans_gc_work_done
    rw [if_pos]
    left
    rw [((commit_seq env s).1 h1 h2).2, hseq]
    omega
  · intro av s trans hlt hseq
    unfold nft_trans_gc_work_done
    rw [if_pos]
    left
    rw [(abort_seq av s).2, hseq]
    omega

theorem gc_seq_parity_and_stale_batch_witness :
    ex_gc_state.gc_seq = 4 ∧
    (nf_tables_abort false ex_gc_state).2.gc_seq = 6 ∧
    (nft_trans_gc_work_done ex_gc_state { set := 20, seq := 4, count := 1, priv := [200] }).1 =
      true ∧
    nft_trans_gc_work_done (nf_tables_abort false ex_gc_state).2
      { set := 20, seq := 4, count := 1, priv := [200] } =
      (false, (nf_tables_abort false ex_gc_state).2) ∧
    (nf_tables_commit {} ex_wrap_state).2.gc_seq = 0 :=
  ⟨rfl,
   (gc_seq_parity_and_stale_batch.2.2.2.2.2.1 false ex_gc_state).trans (by decide),
   by decide,
   gc_seq_parity_and_stale_batch.2.2.2.2.2.2.2 false ex_gc_state
     { set := 20, seq := 4, count := 1, priv := [200] } (by decide) rfl,
   ((gc_seq_parity_and_stale_batch.2.2.2.2.1 {} ex_wrap_state).1 (by decide) (by decide)).trans
     (by decide)⟩

/-- C19: `base_seq` is `1` in a new namespace; a completed `nf_tables_commit` of a
non-empty batch sets it to the old value plus one modulo `2^32`, or to `1` when that is
`0`; every other outcome of a commit and every abort leave it.  So `base_seq` is not
`0` in any reachable state, and `nf_tables_valid_genid`, which accepts the generation id
`0` whatever `base_seq` is, accepts a non-zero id only when it equals `base_seq`. -/
theorem base_seq_never_zero :
    nf_tables_init_net.base_seq = 1 ∧
    (∀ (env : CommitEnv) (s : State),
      ((nf_tables_commit env s).1 = 0 → s.commit_list ≠ [] →
        (nf_tables_commit env s).2.base_seq =
          (if (s.base_seq + 1) % 2 ^ 32 = 0 then 1 else (s.base_seq + 1) % 2 ^ 32)) ∧
      (((nf_tables_commit env s).1 ≠ 0 ∨ s.commit_list = []) →
        (nf_tables_commit env s).2.base_seq = s.base_seq)) ∧
    (∀ (action_validate : Bool) (s : State),
      (nf_tables_abort action_validate s).2.base_seq = s.base_seq) ∧
    (∀ s, Reachable s → s.base_seq ≠ 0 ∧ s.base_seq < 2 ^ 32) ∧
    (∀ s : State, nf_tables_valid_genid s 0 = true) ∧
    (∀ (s : State) (genid : Nat), Reachable s →
      (nf_tables_valid_genid s genid = true ↔ genid = 0 ∨ genid = s.base_seq) ∧
      (genid = s.base_seq → genid ≠ 0)) := by
  refine ⟨rfl, ?_, fun av s => (abort_seq av s).1,
    fun s h => ⟨(reachable_seq s h).2.2.1, (reachable_seq s h).2.2.2⟩, fun s => rfl, ?_⟩
  · exact fun env s => ⟨fun h1 h2 => ((commit_seq env s).1 h1 h2).1,
      fun h => ((commit_seq env s).2 h).base_seq⟩
  · intro s genid h
    refine ⟨?_, fun e => e ▸ (reachable_seq s h).2.2.1⟩
    unfold nf_tables_valid_genid
    simp only [Bool.or_eq_true, beq_iff_eq]
    exact ⟨fun h1 => h1.imp id Eq.symm, fun h1 => h1.imp id Eq.symm⟩

theorem base_seq_never_zero_witness :
    (nf_tables_commit {} ex_commit_state).2.base_seq = 2 ∧
    ex_wrap_state.base_seq = 2 ^ 32 - 1 ∧
    (nf_tables_commit {} ex_wrap_state).2.base_seq = 1 ∧
    (nf_tables_commit {} ex_commit_state).2.base_seq ≠ 0 :=
  ⟨((base_seq_never_zero.2.1 {} ex_commit_state).1 (by decide) (by decide)).trans (by decide),
   by decide,
   ((base_seq_never_zero.2.1 {} ex_wrap_state).1 (by decide) (by decide)).trans (by decide),
   (base_seq_never_zero.2.2.2.1 _ (Reachable.commit {} ex_commit_state
      (Reachable.other nf_tables_init_net ex_commit_state Reachable.init rfl rfl))).1⟩

/-! ## C20: bounded depth of chain validation -/

theorem nft_rule_validate_fuel_eq (recurO : Ptr → Option Int) (recur : Ptr → Int)
    (h : ∀ c, recurO c = some (recur c)) (es : List nft_expr) :
    nft_rule_validate_fuel recurO es = some (nft_rule_validate recur es) := by
  induction es with
  | nil => rfl
  | cons e es ih =>
    unfold nft_rule_validate_fuel nft_rule_validate
    cases e with
    | immediate code chain =>
      by_cases hj : code = NFT_JUMP ∨ code = NFT_GOTO
      · simp only [nft_expr_validate_fuel, nft_expr_validate, h, Option.map_some', if_pos hj]
        by_cases hx : (if recur chain < 0 then recur chain else 0) < 0
        · rw [if_pos hx, if_pos hx]
        · rw [if_neg hx, if_neg hx]; exact ih
      · simp only [nft_expr_validate_fuel, nft_expr_validate, if_neg hj]
        rw [if_neg (by decide), if_neg (by decide)]
        exact ih
    | other v =>
      simp only [nft_expr_validate_fuel, nft_expr_validate]
      cases v with
      | none => exact ih
      | some err =>
        simp only []
        by_cases hx : err < 0
        · rw [if_pos hx, if_pos hx]
        · rw [if_neg hx, if_neg hx]; exact ih
    | lookup set b v =>
      simp only [nft_expr_validate_fuel, nft_expr_validate]
      cases v with
      | none => exact ih
      | some err =>
        simp only []
        by_cases hx : err < 0
        · rw [if_pos hx, if_pos hx]
        · rw [if_neg hx, if_neg hx]; exact ih
    | flow_offload f v =>
      simp only [nft_expr_validate_fuel, nft_expr_validate]
      cases v with
      | none => exact ih
      | some err =>
        simp only []
        by_cases hx : err < 0
        · rw [if_pos hx, if_pos hx]
        · rw [if_neg hx, if_neg hx]; exact ih
    | objref o =>
      simp only [nft_expr_validate_fuel, nft_expr_validate]
      exact ih

theorem nft_rules_validate_fuel_eq (s : State) (recurO : Ptr → Option Int) (recur : Ptr → Int)
    (h : ∀ c, recurO c = some (recur c)) (rs : List Ptr) :
    nft_rules_validate_fuel s recurO rs = some (nft_rules_validate s recur rs) := by
  induction rs with
  | nil => rfl
  | cons r rs ih =>
    unfold nft_rules_validate_fuel nft_rules_validate
    split
    · exact ih
    · rw [nft_rule_validate_fuel_eq recurO recur h]
      simp only []
      by_cases hx : nft_rule_validate recur (s.rule r).exprs < 0
      · rw [if_pos hx, if_pos hx]
      · rw [if_neg hx, if_neg hx]; exact ih

theorem chain_validate_level_eq (s : State) : ∀ (depth fuel level : Nat) (chain : Ptr),
    level + depth = NFT_JUMP_STACK_SIZE → depth < fuel →
    nft_chain_validate_level s fuel level chain = some (nft_chain_validate s depth chain) := by
  intro depth
  induction depth with
  | zero =>
    intro fuel level chain hl hf
    obtain ⟨f, rfl⟩ : ∃ f, fuel = f + 1 := ⟨fuel - 1, by omega⟩
    unfold nft_chain_validate_level nft_chain_validate
    rw [if_pos (by omega)]
  | succ d ih =>
    intro fuel level chain hl hf
    obtain ⟨f, rfl⟩ : ∃ f, fuel = f + 1 := ⟨fuel - 1, by omega⟩
    unfold nft_chain_validate_level nft_chain_validate
    rw [if_neg (by omega)]
    exact nft_rules_validate_fuel_eq s _ _
      (fun c => ih f (level + 1) c (by omega) (by omega)) _

/-- C20: at call level `NFT_JUMP_STACK_SIZE` `nft_chain_validate` returns `-EMLINK`
whatever the chain and its rules are; and with callbacks that recurse into the target
of a jump or goto one level deeper, the walk from a level `level ≤ NFT_JUMP_STACK_SIZE`
finishes with a result within `NFT_JUMP_STACK_SIZE - level + 1` nested calls, on every
state, also when the chains jump to each other in a cycle.  The result is that of
`nft_chain_validate` with the remaining depth. -/
theorem chain_validate_depth_bounded (s : State) (chain : Ptr) :
    (∀ fuel, nft_chain_validate_level s (fuel + 1) NFT_JUMP_STACK_SIZE chain = some (-EMLINK)) ∧
    nft_chain_validate s 0 chain = -EMLINK ∧
    (∀ level fuel, level ≤ NFT_JUMP_STACK_SIZE → NFT_JUMP_STACK_SIZE - level < fuel →
      nft_chain_validate_level s fuel level chain =
        some (nft_chain_validate s (NFT_JUMP_STACK_SIZE - level) chain)) ∧
    (∀ level, level ≤ NFT_JUMP_STACK_SIZE →
      ∃ err, nft_chain_validate_level s (NFT_JUMP_STACK_SIZE - level + 1) level chain =
        some err) := by
  refine ⟨fun fuel => ?_, rfl, fun level fuel hl hf => ?_, fun level hl =>
    ⟨nft_chain_validate s (NFT_JUMP_STACK_SIZE - level) chain, ?_⟩⟩
  · unfold nft_chain_validate_level
    rw [if_pos rfl]
  · exact chain_validate_level_eq s _ fuel level chain (by omega) hf
  · exact chain_validate_level_eq s _ _ level chain (by omega) (by omega)

theorem chain_validate_depth_bounded_witness :
    nft_chain_validate_level ex_cycle_state 3 14 10 = some (-EMLINK) ∧
    nft_chain_validate_level ex_cycle_state 2 14 10 = none ∧
    (∃ err, nft_chain_validate_level ex_cycle_state (NFT_JUMP_STACK_SIZE - 0 + 1) 0 10 =
      some err) :=
  ⟨((chain_validate_depth_bounded ex_cycle_state 10).2.2.1 14 3 (by decide) (by decide)).trans
      (by decide),
   by decide,
   (chain_validate_depth_bounded ex_cycle_state 10).2.2.2 0 (by decide)⟩

/-! ## C14, C15: selection of the set backend -/

theorem select_inv_mono (flags : Nat) (desc : nft_set_desc) (policy : Nat)
    (P : List nft_set_type) (acc : Option nft_set_type × nft_set_estimate) (x : nft_set_type)
    (h : select_inv flags desc policy P acc)
    (hx : x.owner_live = true → nft_set_ops_candidate x flags = true →
      ∀ e, x.estimate desc flags = some e →
        estimate_le desc policy acc.2 e ∧
        (policy = NFT_SET_POL_MEMORY → desc.size ≠ 0 → acc.1.isSome = true)) :
    select_inv flags desc policy (P ++ [x]) acc := by
  refine ⟨fun t ht => ⟨List.mem_append_left _ (h.1 t ht).1, (h.1 t ht).2⟩, ?_⟩
  intro c hc
  rcases List.mem_append.mp hc with hc | hc
  · exact h.2 c hc
  · rw [List.mem_singleton.mp hc]
    exact hx

theorem select_step_inv (flags : Nat) (desc : nft_set_desc) (policy : Nat)
    (P : List nft_set_type) (acc : Option nft_set_type × nft_set_estimate) (x : nft_set_type)
    (h : select_inv flags desc policy P acc) :
    select_inv flags desc policy (P ++ [x]) (select_step flags desc policy acc x) := by
  unfold select_step
  by_cases hc : nft_set_ops_candidate x flags = true
  swap
  · rw [if_pos (by simpa using hc)]
    exact select_inv_mono _ _ _ _ _ _ h (fun _ h2 => absurd h2 hc)
  rw [if_neg (by simpa using hc)]
  cases he : x.estimate desc flags with
  | none =>
    dsimp only
    exact select_inv_mono _ _ _ _ _ _ h (fun _ _ e h2 => by rw [he] at h2; cases h2)
  | some est =>
    dsimp only
    by_cases hb : select_better desc policy acc est = true
    swap
    · rw [if_pos (by simpa using hb)]
      refine select_inv_mono _ _ _ _ _ _ h (fun _ _ e h2 => ?_)
      rw [he] at h2
      cases h2
      have hb2 : select_better desc policy acc est = false := by simpa using hb
      unfold select_better at hb2
      unfold estimate_le
      by_cases hp : policy = NFT_SET_POL_PERFORMANCE
      · rw [if_pos hp] at hb2
        simp only [Bool.or_eq_false_iff, Bool.and_eq_false_iff, decide_eq_false_iff_not,
          beq_eq_false_iff_ne, ne_eq] at hb2
        refine ⟨⟨fun _ => by omega, fun h2 => ?_, fun h2 => ?_⟩, fun h2 => ?_⟩ <;>
          (rw [hp] at h2; exact absurd h2 (by decide))
      · rw [if_neg hp] at hb2
        by_cases hm : policy = NFT_SET_POL_MEMORY
        · rw [if_pos hm] at hb2
          by_cases hs : desc.size = 0
          · rw [if_pos hs] at hb2
            simp only [Bool.or_eq_false_iff, Bool.and_eq_false_iff, decide_eq_false_iff_not,
              beq_eq_false_iff_ne, ne_eq] at hb2
            exact ⟨⟨fun h2 => absurd h2 hp, fun _ _ => by omega, fun _ h2 => absurd hs h2⟩,
              fun _ h2 => absurd hs h2⟩
          · rw [if_neg hs] at hb2
            simp only [Bool.or_eq_false_iff, decide_eq_false_iff_not] at hb2
            refine ⟨⟨fun h2 => absurd h2 hp, fun _ h2 => absurd h2 hs, fun _ _ => by omega⟩,
              fun _ _ => ?_⟩
            cases hacc : acc.1 with
            | none => rw [hacc] at hb2; simp at hb2
            | some _ => rfl
        · rw [if_neg hm] at hb2
          cases hb2
    rw [if_neg (by simpa using hb)]
    by_cases hl : x.owner_live = true
    swap
    · rw [if_pos (by simpa using hl)]
      exact select_inv_mono _ _ _ _ _ _ h (fun h2 => absurd h2 hl)
    rw [if_neg (by simpa using hl)]
    refine ⟨fun t ht => ?_, ?_⟩
    · cases ht
      exact ⟨List.mem_append_right _ (List.mem_singleton.mpr rfl), hc, he⟩
    · intro c hcm hcl hcc e hce
      refine ⟨?_, fun _ _ => rfl⟩
      rcases List.mem_append.mp hcm with hcm | hcm
      swap
      · rw [List.mem_singleton.mp hcm, he] at hce
        cases hce
        exact ⟨fun _ => Or.inr ⟨rfl, le_refl _⟩, fun _ _ => Or.inr ⟨rfl, le_refl _⟩,
          fun _ _ => le_refl _⟩
      obtain ⟨hle, hsome⟩ := h.2 c hcm hcl hcc e hce
      unfold select_better at hb
      unfold estimate_le at hle ⊢
      dsimp only
      by_cases hp : policy = NFT_SET_POL_PERFORMANCE
      · rw [if_pos hp] at hb
        simp only [Bool.or_eq_true, Bool.and_eq_true, decide_eq_true_eq, beq_iff_eq] at hb
        have := hle.1 hp
        refine ⟨fun _ => by omega, fun h2 => ?_, fun h2 => ?_⟩ <;>
          (rw [hp] at h2; exact absurd h2 (by decide))
      · rw [if_neg hp] at hb
        by_cases hm : policy = NFT_SET_POL_MEMORY
        · rw [if_pos hm] at hb
          by_cases hs : desc.size = 0
          · rw [if_pos hs] at hb
            simp only [Bool.or_eq_true, Bool.and_eq_true, decide_eq_true_eq, beq_iff_eq] at hb
            have := hle.2.1 hm hs
            exact ⟨fun h2 => absurd h2 hp, fun _ _ => by omega, fun _ h2 => absurd hs h2⟩
          · rw [if_neg hs] at hb
            simp only [Bool.or_eq_true, decide_eq_true_eq] at hb
            have h3 := hle.2.2 hm hs
            have h4 := hsome hm hs
            refine ⟨fun h2 => absurd h2 hp, fun _ h2 => absurd h2 hs, fun _ _ => ?_⟩
            rcases hb with hb | hb
            · omega
            · rw [Option.isNone_iff_eq_none] at hb
              rw [hb] at h4
              cases h4
        · exact ⟨fun h2 => absurd h2 hp, fun h2 => absurd h2 hm, fun h2 => absurd h2 hm⟩

theorem select_fold_inv (flags : Nat) (desc : nft_set_desc) (policy : Nat)
    (L : List nft_set_type) : ∀ (P : List nft_set_type)
    (acc : Option nft_set_type × nft_set_estimate),
    select_inv flags desc policy P acc →
    select_inv flags desc policy (P ++ L) (L.foldl (select_step flags desc policy) acc) := by
  induction L with
  | nil => intro P acc h; simpa using h
  | cons x L ih =>
    intro P acc h
    have := ih (P ++ [x]) _ (select_step_inv flags desc policy P acc x h)
    simpa using this

theorem select_init_inv (flags : Nat) (desc : nft_set_desc) (policy : Nat) :
    select_inv flags desc policy [] select_init :=
  ⟨fun t ht => by simp [select_init] at ht, fun c hc => by cases hc⟩

/-- The outcomes of `nft_select_set_ops`. -/
theorem select_set_ops_cases (env : SelectEnv) (types : List nft_set_type)
    (flags_attr : Option Nat) (desc : nft_set_desc) (policy : Nat) :
    ((nft_select_set_ops env types flags_attr desc policy).1 = -EAGAIN ∧
      (nft_select_set_ops env types flags_attr desc policy).2.1 = none ∧
      env.config_modules = true ∧ types = [] ∧
      (nft_request_module env.module_list "nft-set" env.kmalloc_ok).1 = -EAGAIN) ∨
    ((nft_select_set_ops env types flags_attr desc policy).1 = -EOPNOTSUPP ∧
      (nft_select_set_ops env types flags_attr desc policy).2.1 = none ∧
      (types.foldl (select_step (flags_attr.getD 0) desc policy) select_init).1 = none) ∨
    ((nft_select_set_ops env types flags_attr desc policy).1 = 0 ∧
      (nft_select_set_ops env types flags_attr desc policy).2.1 =
        (types.foldl (select_step (flags_attr.getD 0) desc policy) select_init).1 ∧
      (types.foldl (select_step (flags_attr.getD 0) desc policy) select_init).1 ≠ none) := by
  unfold nft_select_set_ops
  dsimp only
  by_cases hq : (if (env.config_modules && types.isEmpty) = true then
      nft_request_module env.module_list "nft-set" env.kmalloc_ok
    else (0, env.module_list)).1 = -EAGAIN
  · rw [if_pos hq]
    left
    by_cases hc : (env.config_modules && types.isEmpty) = true
    · rw [if_pos hc] at hq
      simp only [Bool.and_eq_true, List.isEmpty_iff] at hc
      exact ⟨rfl, rfl, hc.1, hc.2, hq⟩
    · rw [if_neg hc] at hq
      simp [EAGAIN] at hq
  · rw [if_neg hq]
    right
    cases hf : (types.foldl (select_step (flags_attr.getD 0) desc policy) select_init).1 with
    | none => left; exact ⟨rfl, rfl, rfl⟩
    | some b => right; exact ⟨rfl, rfl, by simp⟩

theorem and_feature_of_candidate (a b F f : Nat) (h : a &&& b = a &&& F) (hf : F &&& f = f)
    (ha : a &&& f = f) : b &&& f = f :=
  calc b &&& f = b &&& (a &&& f) := by rw [ha]
    _ = (a &&& b) &&& f := by rw [← Nat.and_assoc, Nat.and_comm b a]
    _ = (a &&& F) &&& f := by rw [h]
    _ = a &&& (F &&& f) := Nat.and_assoc _ _ _
    _ = a &&& f := by rw [hf]
    _ = f := ha

/-- C14: the backend `nft_select_set_ops` returns is a registered type that passes
`nft_set_ops_candidate` and whose estimate is minimal, in the order of the policy, among
the estimates of all candidates (registered types that pass `nft_set_ops_candidate` and
whose `estimate` callback succeeds) whose module reference can be taken: lexicographic
on lookup cost and memory cost for the performance policy, lexicographic on memory cost
and lookup cost for the memory policy without a size, the total size for the memory
policy with a size. -/
theorem select_set_ops_minimal_estimate (env : SelectEnv) (types : List nft_set_type)
    (flags_attr : Option Nat) (desc : nft_set_desc) (policy : Nat) (t : nft_set_type)
    (hres : (nft_select_set_ops env types flags_attr desc policy).2.1 = some t) :
    (nft_select_set_ops env types flags_attr desc policy).1 = 0 ∧ t ∈ types ∧
    nft_set_ops_candidate t (flags_attr.getD 0) = true ∧
    ∃ est, t.estimate desc (flags_attr.getD 0) = some est ∧
      ∀ c ∈ types, c.owner_live = true → nft_set_ops_candidate c (flags_attr.getD 0) = true →
        ∀ e, c.estimate desc (flags_attr.getD 0) = some e →
          (policy = NFT_SET_POL_PERFORMANCE →
            est.lookup < e.lookup ∨ (est.lookup = e.lookup ∧ est.space ≤ e.space)) ∧
          (policy = NFT_SET_POL_MEMORY → desc.size = 0 →
            est.space < e.space ∨ (est.space = e.space ∧ est.lookup ≤ e.lookup)) ∧
          (policy = NFT_SET_POL_MEMORY → desc.size ≠ 0 → est.size ≤ e.size) := by
  have hinv := select_fold_inv (flags_attr.getD 0) desc policy types [] select_init
    (select_init_inv _ _ _)
  rw [List.nil_append] at hinv
  rcases select_set_ops_cases env types flags_attr desc policy with h | h | h
  · rw [h.2.1] at hres; cases hres
  · rw [h.2.1] at hres; cases hres
  · rw [h.2.1] at hres
    obtain ⟨h1, h2, h3⟩ := hinv.1 t hres
    exact ⟨h.1, h1, h2, _, h3, fun c hc hl hcc e he => (hinv.2 c hc hl hcc e he).1⟩

theorem select_set_ops_minimal_estimate_witness :
    (nft_select_set_ops {} ex_set_types (some NFT_SET_MAP) {} NFT_SET_POL_PERFORMANCE).1 = 0 ∧
    ((nft_select_set_ops {} ex_set_types (some NFT_SET_MAP) {}
      NFT_SET_POL_PERFORMANCE).2.1.map (fun t => t.name)) = some "hash" ∧
    ((nft_select_set_ops {} ex_set_types (some NFT_SET_MAP) { size := 5 }
      NFT_SET_POL_MEMORY).2.1.map (fun t => t.name)) = some "rbtree" ∧
    ((nft_select_set_ops {} ex_set_types none {}
      NFT_SET_POL_MEMORY).2.1.map (fun t => t.name)) = some "bitmap" :=
  ⟨(select_set_ops_minimal_estimate {} ex_set_types (some NFT_SET_MAP) {}
      NFT_SET_POL_PERFORMANCE
      { name := "hash", features := NFT_SET_MAP ||| NFT_SET_OBJECT ||| NFT_SET_TIMEOUT,
        estimate := fun d _ => some { size := 200 * d.size, lookup := 0, space := 2 } } rfl).1,
   rfl, rfl, rfl⟩

theorem select_set_ops_unsupported_counterexample :
    (∀ t ∈ ([] : List nft_set_type),
      NFT_SET_MAP &&& t.features ≠ NFT_SET_MAP &&& NFT_SET_FEATURES) ∧
    (nft_select_set_ops {} [] (some NFT_SET_MAP) {} NFT_SET_POL_PERFORMANCE).1 = -EAGAIN ∧
    (nft_select_set_ops {} [] (some NFT_SET_MAP) {} NFT_SET_POL_PERFORMANCE).1 ≠ -EOPNOTSUPP :=
  ⟨fun t ht => (by cases ht), by decide, by decide⟩

/-- C15 (amended): a backend that `nft_select_set_ops` returns is a registered type
whose feature mask contains every feature flag requested for the set (interval, map,
timeout, object, eval).  When no registered type has such a feature mask, no backend is
returned, and the error is `-EOPNOTSUPP`, except that with no type registered at all, in
a kernel with module support, the error is `-EAGAIN` when the request to load `nft-set`
returns `-EAGAIN`. -/
theorem select_set_ops_feature_mask (env : SelectEnv) (types : List nft_set_type)
    (flags_attr : Option Nat) (desc : nft_set_desc) (policy : Nat) :
    (∀ t, (nft_select_set_ops env types flags_attr desc policy).2.1 = some t →
      t ∈ types ∧
      flags_attr.getD 0 &&& t.features = flags_attr.getD 0 &&& NFT_SET_FEATURES ∧
      ∀ f ∈ [NFT_SET_INTERVAL, NFT_SET_MAP, NFT_SET_TIMEOUT, NFT_SET_OBJECT, NFT_SET_EVAL],
        flags_attr.getD 0 &&& f = f → t.features &&& f = f) ∧
    ((∀ t ∈ types, flags_attr.getD 0 &&& t.features ≠ flags_attr.getD 0 &&& NFT_SET_FEATURES) →
      (nft_select_set_ops env types flags_attr desc policy).2.1 = none ∧
      ((nft_select_set_ops env types flags_attr desc policy).1 = -EOPNOTSUPP ∨
        ((nft_select_set_ops env types flags_attr desc policy).1 = -EAGAIN ∧
          env.config_modules = true ∧ types = [] ∧
          (nft_request_module env.module_list "nft-set" env.kmalloc_ok).1 = -EAGAIN)) ∧
      (types ≠ [] → (nft_select_set_ops env types flags_attr desc policy).1 = -EOPNOTSUPP) ∧
      (env.config_modules = false →
        (nft_select_set_ops env types flags_attr desc policy).1 = -EOPNOTSUPP) ∧
      ((nft_request_module env.module_list "nft-set" env.kmalloc_ok).1 ≠ -EAGAIN →
        (nft_select_set_ops env types flags_attr desc policy).1 = -EOPNOTSUPP)) := by
  have hinv := select_fold_inv (flags_attr.getD 0) desc policy types [] select_init
    (select_init_inv _ _ _)
  rw [List.nil_append] at hinv
  have hcases := select_set_ops_cases env types flags_attr desc policy
  refine ⟨fun t hres => ?_, fun hnone => ?_⟩
  · rcases hcases with h | h | h
    · rw [h.2.1] at hres; cases hres
    · rw [h.2.1] at hres; cases hres
    · rw [h.2.1] at hres
      obtain ⟨h1, h2, _⟩ := hinv.1 t hres
      have h3 : flags_attr.getD 0 &&& t.features = flags_attr.getD 0 &&& NFT_SET_FEATURES := by
        simpa [nft_set_ops_candidate] using h2
      refine ⟨h1, h3, fun f hf ha => and_feature_of_candidate _ _ _ _ h3 ?_ ha⟩
      simp only [List.mem_cons, List.mem_singleton, List.not_mem_nil, or_false] at hf
      rcases hf with rfl | rfl | rfl | rfl | rfl <;> decide
  · have hfold : (types.foldl (select_step (flags_attr.getD 0) desc policy) select_init).1 =
        none := by
      cases hf : (types.foldl (select_step (flags_attr.getD 0) desc policy) select_init).1 with
      | none => rfl
      | some b =>
        obtain ⟨h1, h2, _⟩ := hinv.1 b hf
        exact absurd (by simpa [nft_set_ops_candidate] using h2) (hnone b h1)
    rcases hcases with h | h | h
    · refine ⟨h.2.1, Or.inr ⟨h.1, h.2.2.1, h.2.2.2.1, h.2.2.2.2⟩, fun hne => absurd h.2.2.2.1 hne,
        fun hc => ?_, fun hr => absurd h.2.2.2.2 hr⟩
      rw [h.2.2.1] at hc
      cases hc
    · exact ⟨h.2.1, Or.inl h.1, fun _ => h.1, fun _ => h.1, fun _ => h.1⟩
    · exact absurd hfold h.2.2

theorem select_set_ops_feature_mask_witness :
    (nft_select_set_ops {} ex_set_types (some (NFT_SET_MAP ||| NFT_SET_EVAL)) {}
      NFT_SET_POL_PERFORMANCE).1 = -EOPNOTSUPP ∧
    (nft_select_set_ops { config_modules := false } [] (some NFT_SET_MAP) {}
      NFT_SET_POL_PERFORMANCE).1 = -EOPNOTSUPP :=
  ⟨((select_set_ops_feature_mask {} ex_set_types (some (NFT_SET_MAP ||| NFT_SET_EVAL)) {}
      NFT_SET_POL_PERFORMANCE).2 (by
        intro t ht
        simp only [ex_set_types, List.mem_cons, List.mem_singleton, List.not_mem_nil,
          or_false] at ht
        rcases ht with rfl | rfl | rfl <;> decide)).2.2.1 (by simp [ex_set_types]),
   ((select_set_ops_feature_mask { config_modules := false } [] (some NFT_SET_MAP) {}
      NFT_SET_POL_PERFORMANCE).2 (fun t ht => by cases ht)).2.2.2.1 rfl⟩

/-! ## C12, C13: the element counters of a set -/

theorem CountFrame.refl_count (z : State) : CountFrame z z :=
  ⟨rfl, fun _ => rfl, fun _ => rfl, fun _ => rfl⟩

theorem CountFrame.trans_count {a b c : State} (h1 : CountFrame a b) (h2 : CountFrame b c) :
    CountFrame a c :=
  ⟨h2.gencursor.trans h1.gencursor, fun x => (h2.size x).trans (h1.size x),
   fun x => (h2.nelems x).trans (h1.nelems x), fun x => (h2.ndeact x).trans (h1.ndeact x)⟩

theorem count_frame_of_set (z w : State) (hg : w.gencursor = z.gencursor) (h : w.set = z.set) :
    CountFrame z w :=
  ⟨hg, fun _ => by rw [h], fun _ => by rw [h], fun _ => by rw [h]⟩

theorem UseFrame.count_use {z w : State} (h : UseFrame z w) : CountFrame z w :=
  count_frame_of_set z w h.gencursor h.set

theorem AddElemFrame.count_add {z w : State} {p : Ptr} (h : AddElemFrame z w p) : CountFrame z w :=
  count_frame_of_set z w h.gencursor h.set

theorem updSet_elems_count (z : State) (p : Ptr) (f : List Ptr → List Ptr) :
    CountFrame z (z.updSet p (fun x => { x with elems := f x.elems })) := by
  unfold State.updSet
  refine ⟨rfl, fun x => ?_, fun x => ?_, fun x => ?_⟩ <;>
    (by_cases h : x = p
     · subst h; simp
     · simp [Function.update_noteq h])

theorem set_elem_limit_congr (a b : nft_set) (h1 : a.size = b.size) (h2 : a.ndeact = b.ndeact) :
    set_elem_limit a = set_elem_limit b := by
  unfold set_elem_limit
  rw [h1, h2]

theorem add_tail_newsetelem (z : State) (r : nft_trans) (h : r.msg_type = .NEWSETELEM) :
    nft_trans_commit_list_add_tail z r = { z with commit_list := z.commit_list ++ [r] } := by
  unfold nft_trans_commit_list_add_tail
  rw [h]

theorem add_tail_delsetelem (z : State) (r : nft_trans) (h : r.msg_type = .DELSETELEM) :
    nft_trans_commit_list_add_tail z r = { z with commit_list := z.commit_list ++ [r] } := by
  unfold nft_trans_commit_list_add_tail
  rw [h]

/-- The effect of `nft_add_set_elem` on the commit list and on the counters of the sets:
either no record is appended and the counters are as before, or the record of the new
element is appended and the counter `nelems` of a set with a size limit, which was not
at the limit, is one higher. -/
theorem add_set_elem_counts (ctx : nft_ctx) (set : Ptr) (nla : SetElemAttr)
    (nlmsg_flags : Nat) (env : AddElemEnv) (s : State) :
    (nft_add_set_elem ctx set nla nlmsg_flags env s).2.gencursor = s.gencursor ∧
    (∀ x, ((nft_add_set_elem ctx set nla nlmsg_flags env s).2.set x).size = (s.set x).size ∧
      ((nft_add_set_elem ctx set nla nlmsg_flags env s).2.set x).ndeact = (s.set x).ndeact) ∧
    (((nft_add_set_elem ctx set nla nlmsg_flags env s).2.commit_list = s.commit_list ∧
        ∀ x, ((nft_add_set_elem ctx set nla nlmsg_flags env s).2.set x).nelems =
          (s.set x).nelems) ∨
      ((nft_add_set_elem ctx set nla nlmsg_flags env s).1 = 0 ∧
        (nft_add_set_elem ctx set nla nlmsg_flags env s).2.commit_list = s.commit_list ++
          [{ msg_type := .NEWSETELEM, ctx_table := ctx.table, ctx_chain := ctx.chain,
             set := set, elem := (nft_add_set_elem_init ctx set nla env s).elem }] ∧
        (∀ x, ((nft_add_set_elem ctx set nla nlmsg_flags env s).2.set x).nelems =
          (s.set x).nelems + (if x = set ∧ (s.set x).size ≠ 0 then 1 else 0)) ∧
        ((s.set set).size ≠ 0 → (s.set set).nelems ≠ set_elem_limit (s.set set)))) := by
  have F := (add_set_elem_init_frame ctx set nla env s).count_add
  have FC := (add_set_elem_init_frame ctx set nla env s).commit_list
  unfold nft_add_set_elem
  dsimp only
  generalize nft_add_set_elem_init ctx set nla env s = B at F FC ⊢
  by_cases h1 : B.err < 0
  · rw [if_pos h1]
    exact ⟨F.gencursor, fun x => ⟨F.size x, F.ndeact x⟩, Or.inl ⟨FC, F.nelems⟩⟩
  rw [if_neg h1]
  unfold set_ops_insert
  cases hfind : (B.s.set set).elems.find? (fun e =>
      decide ((B.s.elem e).key = (B.s.elem B.elem).key ∧
      nft_active_genmask (B.s.elem e).genmask (nft_genmask_next B.s.gencursor) = true)) with
  | some e2 =>
    dsimp only
    have E := err3_frame B.s B.data B.obj
    have FE := F.trans_count E.count_use
    exact ⟨FE.gencursor, fun x => ⟨FE.size x, FE.ndeact x⟩,
      Or.inl ⟨E.commit_list.trans FC, FE.nelems⟩⟩
  | none =>
    dsimp only
    have I := updSet_elems_count B.s set (fun l => l ++ [B.elem])
    have IC : (B.s.updSet set (fun x => { x with elems := x.elems ++ [B.elem] })).commit_list =
      B.s.commit_list := rfl
    have FI := F.trans_count I
    generalize B.s.updSet set (fun x => { x with elems := x.elems ++ [B.elem] }) = i2
      at I IC FI ⊢
    have hlim : set_elem_limit (i2.set set) = set_elem_limit (s.set set) :=
      set_elem_limit_congr _ _ (FI.size set) (FI.ndeact set)
    by_cases hfull : (i2.set set).size ≠ 0 ∧
        (!(atomic_add_unless (i2.set set).nelems 1 (set_elem_limit (i2.set set))).1) = true
    · rw [if_pos hfull]
      have R := updSet_elems_count i2 set (fun l => l.erase B.elem)
      have E := err3_frame (set_ops_remove i2 set B.elem) B.data B.obj
      have FE := (FI.trans_count R).trans_count E.count_use
      refine ⟨FE.gencursor, fun x => ⟨FE.size x, FE.ndeact x⟩, Or.inl ⟨?_, FE.nelems⟩⟩
      rw [E.commit_list]
      exact IC.trans FC
    · rw [if_neg hfull]
      rw [add_tail_newsetelem _ _ rfl]
      dsimp only
      by_cases hs : (i2.set set).size ≠ 0
      · rw [if_pos hs]
        have hs2 : (s.set set).size ≠ 0 := by rw [← FI.size set]; exact hs
        have hne : (i2.set set).nelems ≠ set_elem_limit (i2.set set) := by
          intro he
          apply hfull
          refine ⟨hs, ?_⟩
          unfold atomic_add_unless
          rw [if_pos he]
          rfl
        have hval : (atomic_add_unless (i2.set set).nelems 1 (set_elem_limit (i2.set set))).2 =
            (i2.set set).nelems + 1 := by
          unfold atomic_add_unless
          rw [if_neg hne]
        refine ⟨FI.gencursor, fun x => ?_, Or.inr ⟨rfl, ?_, fun x => ?_, fun _ => ?_⟩⟩
        · by_cases hx : x = set
          · subst hx
            simp only [State.updSet, Function.update_same]
            exact ⟨FI.size x, FI.ndeact x⟩
          · simp only [State.updSet, Function.update_noteq hx]
            exact ⟨FI.size x, FI.ndeact x⟩
        · simp only [State.updSet]
          rw [IC, FC]
        · by_cases hx : x = set
          · subst hx
            simp only [State.updSet, Function.update_same]
            rw [hval, FI.nelems x]
            simp [hs2]
          · simp only [State.updSet, Function.update_noteq hx]
            rw [FI.nelems x, if_neg (fun h => hx h.1), add_zero]
        · rw [← hlim, ← FI.nelems set]
          exact hne
      · rw [if_neg hs]
        have hs2 : ¬ (s.set set).size ≠ 0 := by rw [← FI.size set]; exact hs
        refine ⟨FI.gencursor, fun x => ⟨FI.size x, FI.ndeact x⟩,
          Or.inr ⟨rfl, by rw [IC, FC], fun x => ?_, fun h => absurd h hs2⟩⟩
        rw [FI.nelems x, if_neg, add_zero]
        rintro ⟨rfl, h⟩
        exact hs2 h

theorem pend_new_cons (x : Ptr) (r : nft_trans) (L : List nft_trans) :
    pend_new x (r :: L) =
      pend_new x L + (if r.msg_type = .NEWSETELEM ∧ r.set = x ∧ r.set_bound = false then 1 else 0) := by
  unfold pend_new
  rw [List.countP_cons]
  simp

theorem pend_del_cons (x : Ptr) (r : nft_trans) (L : List nft_trans) :
    pend_del x (r :: L) =
      pend_del x L + (if r.msg_type = .DELSETELEM ∧ r.set = x then 1 else 0) := by
  unfold pend_del
  rw [List.countP_cons]
  simp

theorem pend_new_append (x : Ptr) (L M : List nft_trans) :
    pend_new x (L ++ M) = pend_new x L + pend_new x M := by
  unfold pend_new
  rw [List.countP_append]

theorem pend_del_append (x : Ptr) (L M : List nft_trans) :
    pend_del x (L ++ M) = pend_del x L + pend_del x M := by
  unfold pend_del
  rw [List.countP_append]

theorem pend_new_reverse (x : Ptr) (L : List nft_trans) :
    pend_new x L.reverse = pend_new x L := by
  unfold pend_new
  exact (List.reverse_perm L).countP_eq _

theorem pend_del_reverse (x : Ptr) (L : List nft_trans) :
    pend_del x L.reverse = pend_del x L := by
  unfold pend_del
  exact (List.reverse_perm L).countP_eq _

theorem updSet_at (z : State) (p : Ptr) (f : nft_set → nft_set) :
    (z.updSet p f).set p = f (z.set p) := by
  unfold State.updSet
  simp

theorem updSet_other (z : State) (p x : Ptr) (f : nft_set → nft_set) (h : x ≠ p) :
    (z.updSet p f).set x = z.set x := by
  unfold State.updSet
  simp [Function.update_noteq h]

theorem updSet_size (z : State) (p x : Ptr) (f : nft_set → nft_set)
    (hf : ∀ a, (f a).size = a.size) : ((z.updSet p f).set x).size = (z.set x).size := by
  by_cases h : x = p
  · subst h; rw [updSet_at]; exact hf _
  · rw [updSet_other _ _ _ _ h]

theorem updSet_nelems (z : State) (p x : Ptr) (f : nft_set → nft_set)
    (hf : ∀ a, (f a).nelems = a.nelems) : ((z.updSet p f).set x).nelems = (z.set x).nelems := by
  by_cases h : x = p
  · subst h; rw [updSet_at]; exact hf _
  · rw [updSet_other _ _ _ _ h]

/-- The effect of undoing one record of a set element on the counters of the sets. -/
theorem abort_one_counts (s : State) (r : nft_trans)
    (h : r.msg_type = .NEWSETELEM ∨ r.msg_type = .DELSETELEM) :
    (abort_one s r).1.gencursor = s.gencursor ∧
    ∀ x, ((abort_one s r).1.set x).size = (s.set x).size ∧
      ((abort_one s r).1.set x).nelems = (s.set x).nelems -
        (if r.msg_type = .NEWSETELEM ∧ r.set = x ∧ r.set_bound = false then 1 else 0) ∧
      ((abort_one s r).1.set x).ndeact =
        (if r.msg_type = .DELSETELEM ∧ r.set = x then ((s.set x).ndeact + 2 ^ 32 - 1) % 2 ^ 32
          else (s.set x).ndeact) := by
  unfold abort_one
  rcases h with h | h
  · rw [h]
    dsimp only
    by_cases hb : r.set_bound = true
    · rw [if_pos hb]
      refine ⟨rfl, fun x => ⟨rfl, ?_, ?_⟩⟩
      · rw [if_neg (fun e => by rw [hb] at e; cases e.2.2), Int.sub_zero]
      · exact (if_neg (fun e => by cases e.1)).symm
    · rw [if_neg hb]
      have hb2 : r.set_bound = false := by simpa using hb
      refine ⟨rfl, fun x => ?_⟩
      unfold set_ops_remove
      by_cases hx : x = r.set
      · subst hx
        rw [updSet_at, updSet_at]
        refine ⟨rfl, ?_, ?_⟩
        · rw [if_pos ⟨rfl, rfl, hb2⟩]
        · exact (if_neg (fun e => by cases e.1)).symm
      · have hx2 : ¬ r.set = x := fun e => hx e.symm
        rw [updSet_other _ _ _ _ hx, updSet_other _ _ _ _ hx]
        refine ⟨rfl, ?_, ?_⟩
        · rw [if_neg (fun e => hx2 e.2.1), Int.sub_zero]
        · exact (if_neg (fun e => by cases e.1)).symm
  · rw [h]
    dsimp only
    have F := (act_elem_frame s r.elem).count_use
    refine ⟨F.gencursor, fun x => ?_⟩
    by_cases hx : x = r.set
    · subst hx
      have e := updSet_at (set_elem_change_active (nft_setelem_data_activate s r.elem) r.elem)
        r.set (fun x => { x with ndeact := (x.ndeact + 2 ^ 32 - 1) % 2 ^ 32 })
      have es := (updSet_size (set_elem_change_active (nft_setelem_data_activate s r.elem)
        r.elem) r.set r.set (fun x => { x with ndeact := (x.ndeact + 2 ^ 32 - 1) % 2 ^ 32 })
        (fun _ => rfl)).trans (F.size r.set)
      have en := (updSet_nelems (set_elem_change_active (nft_setelem_data_activate s r.elem)
        r.elem) r.set r.set (fun x => { x with ndeact := (x.ndeact + 2 ^ 32 - 1) % 2 ^ 32 })
        (fun _ => rfl)).trans (F.nelems r.set)
      refine ⟨es, ?_, ?_⟩
      · refine en.trans ?_
        rw [if_neg (fun e => by cases e.1), Int.sub_zero]
      · refine Eq.trans (b := ((s.set r.set).ndeact + 2 ^ 32 - 1) % 2 ^ 32) ?_
          (if_pos ⟨rfl, rfl⟩).symm
        have e2 := congrArg nft_set.ndeact e
        refine e2.trans ?_
        have e3 := F.ndeact r.set
        exact congrArg (fun d => (d + 2 ^ 32 - 1) % 2 ^ 32) e3
    · have hx2 : ¬ r.set = x := fun e => hx e.symm
      have e := updSet_other (set_elem_change_active (nft_setelem_data_activate s r.elem) r.elem)
        r.set x (fun x => { x with ndeact := (x.ndeact + 2 ^ 32 - 1) % 2 ^ 32 }) hx
      have e1 : ((set_elem_change_active (nft_setelem_data_activate s r.elem) r.elem).updSet
          r.set (fun x => { x with ndeact := (x.ndeact + 2 ^ 32 - 1) % 2 ^ 32 })).set x =
          (nft_setelem_data_activate s r.elem).set x := e
      refine ⟨(congrArg nft_set.size e1).trans (F.size _), ?_, ?_⟩
      · refine ((congrArg nft_set.nelems e1).trans (F.nelems _)).trans ?_
        rw [if_neg (fun e => by cases e.1), Int.sub_zero]
      · refine Eq.trans ?_ (if_neg (fun e => hx2 e.2)).symm
        exact (congrArg nft_set.ndeact e1).trans (F.ndeact _)

/-- The effect of committing one record of a set element on the counters of the sets. -/
theorem commit_one_counts (s : State) (r : nft_trans)
    (h : r.msg_type = .NEWSETELEM ∨ r.msg_type = .DELSETELEM) :
    (commit_one s r).1.gencursor = s.gencursor ∧
    ∀ x, ((commit_one s r).1.set x).size = (s.set x).size ∧
      ((commit_one s r).1.set x).nelems = (s.set x).nelems -
        (if r.msg_type = .DELSETELEM ∧ r.set = x then 1 else 0) ∧
      ((commit_one s r).1.set x).ndeact =
        (if r.msg_type = .DELSETELEM ∧ r.set = x then ((s.set x).ndeact + 2 ^ 32 - 1) % 2 ^ 32
          else (s.set x).ndeact) := by
  unfold commit_one
  rcases h with h | h
  · rw [h]
    dsimp only [set_elem_change_active, State.updElem]
    refine ⟨rfl, fun x => ⟨rfl, ?_, ?_⟩⟩
    · rw [if_neg (fun e => by cases e.1), Int.sub_zero]
    · exact (if_neg (fun e => by cases e.1)).symm
  · rw [h]
    refine ⟨rfl, fun x => ?_⟩
    dsimp only
    by_cases hx : x = r.set
    · subst hx
      have R := updSet_elems_count s r.set (fun l => l.erase r.elem)
      have e := updSet_at (set_ops_remove s r.set r.elem) r.set
        (fun x => { x with nelems := x.nelems - 1, ndeact := (x.ndeact + 2 ^ 32 - 1) % 2 ^ 32 })
      have es := (updSet_size (set_ops_remove s r.set r.elem) r.set r.set (fun x =>
        { x with nelems := x.nelems - 1, ndeact := (x.ndeact + 2 ^ 32 - 1) % 2 ^ 32 })
        (fun _ => rfl)).trans (R.size r.set)
      refine ⟨es, ?_, ?_⟩
      · refine Eq.trans (b := (s.set r.set).nelems - 1) ?_
          (congrArg (fun d => (s.set r.set).nelems - d)
            (if_pos (⟨rfl, rfl⟩ : MsgType.DELSETELEM = MsgType.DELSETELEM ∧ r.set = r.set)).symm)
        have e2 := congrArg nft_set.nelems e
        refine e2.trans ?_
        have e3 := R.nelems r.set
        exact congrArg (fun d => d - 1) e3
      · refine Eq.trans (b := ((s.set r.set).ndeact + 2 ^ 32 - 1) % 2 ^ 32) ?_
          (if_pos ⟨rfl, rfl⟩).symm
        have e2 := congrArg nft_set.ndeact e
        refine e2.trans ?_
        have e3 := R.ndeact r.set
        exact congrArg (fun d => (d + 2 ^ 32 - 1) % 2 ^ 32) e3
    · have hx2 : ¬ r.set = x := fun e => hx e.symm
      have R := updSet_elems_count s r.set (fun l => l.erase r.elem)
      have e := updSet_other (set_ops_remove s r.set r.elem) r.set x
        (fun x => { x with nelems := x.nelems - 1, ndeact := (x.ndeact + 2 ^ 32 - 1) % 2 ^ 32 }) hx
      refine ⟨(congrArg nft_set.size e).trans (R.size _), ?_, ?_⟩
      · refine ((congrArg nft_set.nelems e).trans (R.nelems _)).trans ?_
        rw [if_neg (fun e => hx2 e.2), Int.sub_zero]
      · refine Eq.trans ?_ (if_neg (fun e => hx2 e.2)).symm
        exact (congrArg nft_set.ndeact e).trans (R.ndeact _)

theorem u32_dec (d : Nat) (h1 : 1 ≤ d) (h2 : d < 2 ^ 32) : (d + 2 ^ 32 - 1) % 2 ^ 32 = d - 1 := by
  omega

theorem elem_recs_cons {r : nft_trans} {L : List nft_trans} (h : ElemRecs (r :: L)) :
    (r.msg_type = .NEWSETELEM ∨ r.msg_type = .DELSETELEM) ∧ ElemRecs L :=
  ⟨h r (List.mem_cons_self _ _), fun t ht => h t (List.mem_cons_of_mem _ ht)⟩

theorem abort_loop_counts (x : Ptr) (L : List nft_trans) : ∀ s : State, ElemRecs L →
    (abort_loop L s).gencursor = s.gencursor ∧
    ((abort_loop L s).set x).size = (s.set x).size ∧
    ((abort_loop L s).set x).nelems = (s.set x).nelems - pend_new x L ∧
    (pend_del x L ≤ (s.set x).ndeact → (s.set x).ndeact < 2 ^ 32 →
      ((abort_loop L s).set x).ndeact = (s.set x).ndeact - pend_del x L) := by
  induction L with
  | nil =>
    intro s _
    simp [abort_loop, pend_new, pend_del]
  | cons r L ih =>
    intro s hL
    obtain ⟨hr, hL2⟩ := elem_recs_cons hL
    obtain ⟨g1, c1⟩ := abort_one_counts s r hr
    obtain ⟨g2, s2, n2, d2⟩ := ih (abort_one s r).1 hL2
    obtain ⟨cs, cn, cd⟩ := c1 x
    unfold abort_loop
    refine ⟨g2.trans g1, s2.trans cs, ?_, fun hle hlt => ?_⟩
    · rw [n2, cn, pend_new_cons]
      (split <;> simp); omega
    · rw [pend_del_cons] at hle ⊢
      by_cases hd : r.msg_type = .DELSETELEM ∧ r.set = x
      · rw [if_pos hd] at cd hle ⊢
        have e := u32_dec (s.set x).ndeact (by omega) hlt
        rw [e] at cd
        rw [d2 (by rw [cd]; omega) (by rw [cd]; omega), cd]
        omega
      · rw [if_neg hd] at cd hle ⊢
        rw [d2 (by rw [cd]; omega) (by rw [cd]; omega), cd]
        omega

theorem commit_loop_counts (x : Ptr) (L : List nft_trans) : ∀ s : State, ElemRecs L →
    (commit_loop L s).1.gencursor = s.gencursor ∧
    ((commit_loop L s).1.set x).size = (s.set x).size ∧
    ((commit_loop L s).1.set x).nelems = (s.set x).nelems - pend_del x L ∧
    (pend_del x L ≤ (s.set x).ndeact → (s.set x).ndeact < 2 ^ 32 →
      ((commit_loop L s).1.set x).ndeact = (s.set x).ndeact - pend_del x L) := by
  induction L with
  | nil =>
    intro s _
    simp [commit_loop, pend_del]
  | cons r L ih =>
    intro s hL
    obtain ⟨hr, hL2⟩ := elem_recs_cons hL
    obtain ⟨g1, c1⟩ := commit_one_counts s r hr
    obtain ⟨g2, s2, n2, d2⟩ := ih (commit_one s r).1 hL2
    obtain ⟨cs, cn, cd⟩ := c1 x
    unfold commit_loop
    dsimp only
    refine ⟨g2.trans g1, s2.trans cs, ?_, fun hle hlt => ?_⟩
    · rw [n2, cn, pend_del_cons]
      (split <;> simp); omega
    · rw [pend_del_cons] at hle ⊢
      by_cases hd : r.msg_type = .DELSETELEM ∧ r.set = x
      · rw [if_pos hd] at cd hle ⊢
        have e := u32_dec (s.set x).ndeact (by omega) hlt
        rw [e] at cd
        rw [d2 (by rw [cd]; omega) (by rw [cd]; omega), cd]
        omega
      · rw [if_neg hd] at cd hle ⊢
        rw [d2 (by rw [cd]; omega) (by rw [cd]; omega), cd]
        omega

theorem elem_recs_reverse (L : List nft_trans) (h : ElemRecs L) : ElemRecs L.reverse :=
  fun r hr => h r (List.mem_reverse.mp hr)

theorem validate_keeps (s : State) :
    (nf_tables_validate s).2.commit_list = s.commit_list ∧
    (nf_tables_validate s).2.set = s.set ∧
    (nf_tables_validate s).2.gencursor = s.gencursor := by
  obtain ⟨⟨vs, w, hv⟩, _, _⟩ := nf_tables_validate_spec s
  rw [hv]
  exact ⟨rfl, rfl, rfl⟩

/-- The counters of the sets after `__nf_tables_abort` of a list of records of set
elements. -/
theorem abort_counts (av : Bool) (s : State) (x : Ptr) (hL : ElemRecs s.commit_list) :
    (__nf_tables_abort av s).2.commit_list = [] ∧
    ((__nf_tables_abort av s).2.set x).size = (s.set x).size ∧
    ((__nf_tables_abort av s).2.set x).nelems = (s.set x).nelems - pend_new x s.commit_list ∧
    (pend_del x s.commit_list ≤ (s.set x).ndeact → (s.set x).ndeact < 2 ^ 32 →
      ((__nf_tables_abort av s).2.set x).ndeact = (s.set x).ndeact - pend_del x s.commit_list) := by
  have key : ∀ v : State, v.commit_list = s.commit_list → v.set = s.set →
      (((abort_left v.commit_list.reverse v).foldl nf_tables_abort_release
        (abort_loop v.commit_list.reverse v)).set x).size = (s.set x).size ∧
      (((abort_left v.commit_list.reverse v).foldl nf_tables_abort_release
        (abort_loop v.commit_list.reverse v)).set x).nelems =
        (s.set x).nelems - pend_new x s.commit_list ∧
      (pend_del x s.commit_list ≤ (s.set x).ndeact → (s.set x).ndeact < 2 ^ 32 →
        (((abort_left v.commit_list.reverse v).foldl nf_tables_abort_release
          (abort_loop v.commit_list.reverse v)).set x).ndeact =
          (s.set x).ndeact - pend_del x s.commit_list) := by
    intro v hc hs
    have R := (abort_release_loop_frame (abort_left v.commit_list.reverse v)
      (abort_loop v.commit_list.reverse v)).count_use
    obtain ⟨_, a2, a3, a4⟩ := abort_loop_counts x v.commit_list.reverse v
      (elem_recs_reverse _ (hc ▸ hL))
    have hp : pend_new x v.commit_list.reverse = pend_new x s.commit_list := by
      rw [pend_new_reverse, hc]
    have hd : pend_del x v.commit_list.reverse = pend_del x s.commit_list := by
      rw [pend_del_reverse, hc]
    rw [hp, hs] at a3
    rw [hd, hs] at a4
    rw [hs] at a2
    refine ⟨(R.size x).trans a2, (R.nelems x).trans a3, fun h1 h2 => ?_⟩
    exact (R.ndeact x).trans (a4 h1 h2)
  unfold __nf_tables_abort
  dsimp only
  cases av
  · exact ⟨rfl, key s rfl rfl⟩
  · exact ⟨rfl, key _ (validate_keeps s).1 (validate_keeps s).2.1⟩

theorem stage_add_elems_counts (reqs : List AddElemReq) : ∀ s : State,
    ∃ L, (stage_add_elems reqs s).commit_list = s.commit_list ++ L ∧
      (∀ r ∈ L, r.msg_type = .NEWSETELEM) ∧
      ∀ x, ((stage_add_elems reqs s).set x).size = (s.set x).size ∧
        ((stage_add_elems reqs s).set x).ndeact = (s.set x).ndeact ∧
        ((stage_add_elems reqs s).set x).nelems =
          (s.set x).nelems + (if (s.set x).size ≠ 0 then (pend_new x L : Int) else 0) := by
  induction reqs with
  | nil =>
    intro s
    exact ⟨[], by simp [stage_add_elems], fun r hr => (by cases hr),
      fun x => ⟨rfl, rfl, by simp [stage_add_elems, pend_new]⟩⟩
  | cons q reqs ih =>
    intro s
    obtain ⟨_, hsd, hc⟩ := add_set_elem_counts q.ctx q.set q.nla q.nlmsg_flags q.env s
    obtain ⟨L, hL, hty, hx⟩ := ih (nft_add_set_elem q.ctx q.set q.nla q.nlmsg_flags q.env s).2
    unfold stage_add_elems
    rcases hc with ⟨hcl, hn⟩ | ⟨_, hcl, hn, _⟩
    · refine ⟨L, by rw [hL, hcl], hty, fun x => ?_⟩
      obtain ⟨h1, h2, h3⟩ := hx x
      rw [h1, h2, h3, (hsd x).1, (hsd x).2, hn x]
      exact ⟨rfl, rfl, rfl⟩
    · refine ⟨_ :: L, by rw [hL, hcl, List.append_assoc]; rfl, ?_, fun x => ?_⟩
      · intro r hr
        rcases List.mem_cons.mp hr with rfl | hr
        · rfl
        · exact hty r hr
      · obtain ⟨h1, h2, h3⟩ := hx x
        rw [h1, h2, h3, (hsd x).1, (hsd x).2, hn x, pend_new_cons]
        refine ⟨rfl, rfl, ?_⟩
        by_cases hs : (s.set x).size = 0
        · simp [hs]
        · by_cases hq : x = q.set
          · subst hq
            simp [hs]
            try omega
          · have hq2 : ¬ q.set = x := fun e => hq e.symm
            simp [hs, hq, hq2]

/-- C12: after a batch of calls of `nft_add_set_elem` on an empty commit list and
`__nf_tables_abort`, the counter `nelems` of a set with a size limit has its value from
before the batch; the counter of a set without a size limit is lower than before by the
number of elements the batch added to the set, because `nft_add_set_elem` counts a new
element only when the set has a size limit while `__nf_tables_abort` decrements the
counter for every record it takes back. -/
theorem abort_added_elems_nelems (reqs : List AddElemReq) (s : State) (av : Bool) (x : Ptr)
    (hlist : s.commit_list = []) :
    ((s.set x).size ≠ 0 →
      ((__nf_tables_abort av (stage_add_elems reqs s)).2.set x).nelems = (s.set x).nelems) ∧
    ((s.set x).size = 0 →
      ((__nf_tables_abort av (stage_add_elems reqs s)).2.set x).nelems =
        (s.set x).nelems - pend_new x (stage_add_elems reqs s).commit_list) ∧
    ((stage_add_elems reqs s).set x).nelems =
      (s.set x).nelems +
        (if (s.set x).size ≠ 0 then (pend_new x (stage_add_elems reqs s).commit_list : Int)
          else 0) := by
  obtain ⟨L, hL, hty, hx⟩ := stage_add_elems_counts reqs s
  rw [hlist, List.nil_append] at hL
  have hrec : ElemRecs (stage_add_elems reqs s).commit_list := by
    rw [hL]
    exact fun r hr => Or.inl (hty r hr)
  obtain ⟨_, _, a3, _⟩ := abort_counts av (stage_add_elems reqs s) x hrec
  obtain ⟨h1, h2, h3⟩ := hx x
  rw [a3, h3, hL]
  refine ⟨fun hs => ?_, fun hs => ?_, rfl⟩
  · rw [if_pos hs]; omega
  · rw [if_neg (fun h => h hs)]; omega

theorem abort_added_elems_nelems_witness :
    (ex_unsized_state.set 20).size = 0 ∧ (ex_unsized_state.set 20).nelems = 0 ∧
    (stage_add_elems [{ ctx := { table := 1 }, set := 20, nla := ex_elem_attr }]
      ex_unsized_state).commit_list.length = 1 ∧
    ((stage_add_elems [{ ctx := { table := 1 }, set := 20, nla := ex_elem_attr }]
      ex_unsized_state).set 20).nelems = 0 ∧
    ((__nf_tables_abort false
      (stage_add_elems [{ ctx := { table := 1 }, set := 20, nla := ex_elem_attr }]
        ex_unsized_state)).2.set 20).nelems = -1 ∧
    (stage_add_elems [{ ctx := { table := 1 }, set := 20, nla := ex_elem_attr_new }]
      ex_elem_state).commit_list.length = 1 ∧
    ((stage_add_elems [{ ctx := { table := 1 }, set := 20, nla := ex_elem_attr_new }]
      ex_elem_state).set 20).nelems = 2 ∧
    ((__nf_tables_abort false
      (stage_add_elems [{ ctx := { table := 1 }, set := 20, nla := ex_elem_attr_new }]
        ex_elem_state)).2.set 20).nelems = 1 :=
  ⟨by decide, by decide, by decide, by decide,
   ((abort_added_elems_nelems [{ ctx := { table := 1 }, set := 20, nla := ex_elem_attr }]
      ex_unsized_state false 20 rfl).2.1 (by decide)).trans (by decide),
   by decide, by decide, by decide⟩

theorem DelEffect.of_count {s s' : State} (h : CountFrame s s')
    (hc : s'.commit_list = s.commit_list) : DelEffect s s' :=
  ⟨[], by rw [hc, List.append_nil], fun r hr => (by cases hr), fun x =>
    ⟨h.size x, h.nelems x, h.ndeact x⟩⟩

theorem DelEffect.trans_del {a b c : State} (h1 : DelEffect a b) (h2 : DelEffect b c) :
    DelEffect a c := by
  obtain ⟨L1, c1, t1, x1⟩ := h1
  obtain ⟨L2, c2, t2, x2⟩ := h2
  refine ⟨L1 ++ L2, by rw [c2, c1, List.append_assoc], ?_, fun x => ?_⟩
  · intro r hr
    rcases List.mem_append.mp hr with hr | hr
    · exact t1 r hr
    · exact t2 r hr
  · obtain ⟨a1, a2, a3⟩ := x1 x
    obtain ⟨b1, b2, b3⟩ := x2 x
    refine ⟨b1.trans a1, b2.trans a2, ?_⟩
    rw [b3, a3, pend_del_append, Nat.add_comm, Function.iterate_add_apply]

theorem u32_inc_small (k : Nat) : ∀ d : Nat, d + k < 2 ^ 32 →
    (fun d => (d + 1) % 2 ^ 32)^[k] d = d + k := by
  induction k with
  | zero => intro d _; rfl
  | succ k ih =>
    intro d h
    rw [Function.iterate_succ_apply, ih _ (by omega)]
    omega

/-- One deletion: the record is appended and `ndeact` of its set is incremented. -/
theorem DelEffect.one (s m s' : State) (r : nft_trans) (hr : r.msg_type = .DELSETELEM)
    (h1 : CountFrame s m) (hc : s'.commit_list = s.commit_list ++ [r])
    (hs : ∀ x, (s'.set x).size = (m.set x).size ∧ (s'.set x).nelems = (m.set x).nelems ∧
      (s'.set x).ndeact = if x = r.set then ((m.set x).ndeact + 1) % 2 ^ 32
        else (m.set x).ndeact) :
    DelEffect s s' := by
  refine ⟨[r], hc, fun t ht => by rw [List.mem_singleton.mp ht]; exact hr, fun x => ?_⟩
  obtain ⟨a, b, c⟩ := hs x
  refine ⟨a.trans (h1.size x), b.trans (h1.nelems x), ?_⟩
  rw [c, h1.ndeact x, pend_del_cons]
  by_cases hx : x = r.set
  · have e : (if r.msg_type = .DELSETELEM ∧ r.set = x then 1 else 0) = 1 :=
      if_pos ⟨hr, hx.symm⟩
    rw [if_pos hx, e]
    rfl
  · have e : (if r.msg_type = .DELSETELEM ∧ r.set = x then 1 else 0) = 0 :=
      if_neg (fun h => hx h.2.symm)
    rw [if_neg hx, e]
    rfl

theorem deactivate_count (z : State) (set elem : Ptr) :
    CountFrame z (set_ops_deactivate z set elem).2 ∧
    (set_ops_deactivate z set elem).2.commit_list = z.commit_list := by
  unfold set_ops_deactivate
  split
  · exact ⟨count_frame_of_set _ _ rfl rfl, rfl⟩
  · exact ⟨CountFrame.refl_count z, rfl⟩

theorem elem_init_count (z : State) (set : Ptr) (key : nft_data) (data : Option nft_data)
    (obj : Option Ptr) (flags timeout expiration : Nat) (userdata : Option (List Nat))
    (env : AddElemEnv) :
    CountFrame z (nft_set_elem_init z set key data obj flags timeout expiration userdata env).2 ∧
    (nft_set_elem_init z set key data obj flags timeout expiration userdata env).2.commit_list =
      z.commit_list := by
  unfold nft_set_elem_init
  split
  · exact ⟨CountFrame.refl_count z, rfl⟩
  · exact ⟨count_frame_of_set _ _ rfl rfl, rfl⟩

/-- The effect of `nft_del_setelem` on the commit list and on the counters: the
counters stay, and a successful call appends the record of the deletion. -/
theorem del_setelem_counts (ctx : nft_ctx) (set : Ptr) (nla : SetElemAttr) (env : AddElemEnv)
    (s : State) :
    CountFrame s (nft_del_setelem ctx set nla env s).2 ∧
    (((nft_del_setelem ctx set nla env s).1 < 0 ∧
        (nft_del_setelem ctx set nla env s).2.commit_list = s.commit_list) ∨
      ((nft_del_setelem ctx set nla env s).1 = 0 ∧
        ∃ r, r.msg_type = .DELSETELEM ∧ r.set = set ∧
          (nft_del_setelem ctx set nla env s).2.commit_list = s.commit_list ++ [r])) := by
  unfold nft_del_setelem
  by_cases h1 : nla.parse < 0
  · rw [if_pos h1]
    exact ⟨CountFrame.refl_count s, Or.inl ⟨h1, rfl⟩⟩
  rw [if_neg h1]
  cases hk : nla.key with
  | none => exact ⟨CountFrame.refl_count s, Or.inl ⟨by simp [EINVAL], rfl⟩⟩
  | some keyattr =>
    dsimp only
    by_cases h2 : (nft_setelem_parse_flags (s.set set) nla.flags).1 < 0
    · rw [if_pos h2]
      exact ⟨CountFrame.refl_count s, Or.inl ⟨h2, rfl⟩⟩
    rw [if_neg h2]
    have K := parse_key_frame s ctx set keyattr
    by_cases h3 : (nft_setelem_parse_key s ctx set keyattr).1 < 0
    · rw [if_pos h3]
      exact ⟨K.count_use, Or.inl ⟨h3, K.commit_list⟩⟩
    rw [if_neg h3]
    have E := elem_init_count (nft_setelem_parse_key s ctx set keyattr).2.1 set
      (nft_setelem_parse_key s ctx set keyattr).2.2 none none
      (nft_setelem_parse_flags (s.set set) nla.flags).2 0 0 none env
    generalize nft_set_elem_init (nft_setelem_parse_key s ctx set keyattr).2.1 set
      (nft_setelem_parse_key s ctx set keyattr).2.2 none none
      (nft_setelem_parse_flags (s.set set) nla.flags).2 0 0 none env = e at E ⊢
    have KE := K.count_use.trans_count E.1
    have KEc := E.2.trans K.commit_list
    have R := data_release_type_frame e.2 (nft_setelem_parse_key s ctx set keyattr).2.2
      NFT_DATA_VALUE
    cases he : e.1 with
    | none =>
      dsimp only
      exact ⟨KE.trans_count R.count_use, Or.inl ⟨by simp [ENOMEM], R.commit_list.trans KEc⟩⟩
    | some elem =>
      dsimp only
      by_cases h4 : (!env.trans_alloc_ok) = true
      · rw [if_pos h4]
        exact ⟨KE.trans_count R.count_use, Or.inl ⟨by simp [ENOMEM], R.commit_list.trans KEc⟩⟩
      rw [if_neg h4]
      have D := deactivate_count e.2 set elem
      cases hd : (set_ops_deactivate e.2 set elem).1 with
      | none =>
        dsimp only
        have R2 := data_release_type_frame (set_ops_deactivate e.2 set elem).2
          (nft_setelem_parse_key s ctx set keyattr).2.2 NFT_DATA_VALUE
        exact ⟨(KE.trans_count D.1).trans_count R2.count_use,
          Or.inl ⟨by simp [ENOENT], R2.commit_list.trans (D.2.trans KEc)⟩⟩
      | some priv =>
        dsimp only
        rw [add_tail_delsetelem _ _ rfl]
        have A := deact_elem_frame (set_ops_deactivate e.2 set elem).2 priv
        refine ⟨?_, Or.inr ⟨rfl, ?_⟩⟩
        · exact (KE.trans_count D.1).trans_count
            (A.count_use.trans_count (count_frame_of_set _ _ rfl rfl))
        · refine Exists.intro
            { msg_type := .DELSETELEM, ctx_table := ctx.table, ctx_chain := ctx.chain,
              set := set, elem := priv } ⟨rfl, rfl, ?_⟩
          dsimp only
          rw [A.commit_list, D.2, KEc]

theorem updSet_ndeact_inc (z : State) (p : Ptr) :
    ∀ x, ((z.updSet p (fun y => { y with ndeact := (y.ndeact + 1) % 2 ^ 32 })).set x).size =
        (z.set x).size ∧
      ((z.updSet p (fun y => { y with ndeact := (y.ndeact + 1) % 2 ^ 32 })).set x).nelems =
        (z.set x).nelems ∧
      ((z.updSet p (fun y => { y with ndeact := (y.ndeact + 1) % 2 ^ 32 })).set x).ndeact =
        if x = p then ((z.set x).ndeact + 1) % 2 ^ 32 else (z.set x).ndeact := by
  intro x
  refine ⟨updSet_size _ _ _ _ (fun _ => rfl), updSet_nelems _ _ _ _ (fun _ => rfl), ?_⟩
  by_cases h : x = p
  · subst h
    refine Eq.trans ?_ (if_pos rfl).symm
    exact congrArg nft_set.ndeact
      (updSet_at z x (fun y => { y with ndeact := (y.ndeact + 1) % 2 ^ 32 }))
  · refine Eq.trans ?_ (if_neg h).symm
    exact congrArg nft_set.ndeact
      (updSet_other z p x (fun y => { y with ndeact := (y.ndeact + 1) % 2 ^ 32 }) h)

theorem delsetelem_loop_effect (ctx : nft_ctx) (set : Ptr)
    (l : List (SetElemAttr × AddElemEnv)) : ∀ s : State,
    DelEffect s (delsetelem_loop ctx set l s).2 := by
  induction l with
  | nil => intro s; exact DelEffect.of_count (CountFrame.refl_count s) rfl
  | cons a rest ih =>
    intro s
    obtain ⟨hc, hr⟩ := del_setelem_counts ctx set a.1 a.2 s
    unfold delsetelem_loop
    by_cases h : (nft_del_setelem ctx set a.1 a.2 s).1 < 0
    · rw [if_pos h]
      rcases hr with ⟨_, hl⟩ | ⟨h0, _⟩
      · exact DelEffect.of_count hc hl
      · rw [h0] at h; exact absurd h (by decide)
    · rw [if_neg h]
      rcases hr with ⟨h0, _⟩ | ⟨_, r, hr1, hr2, hl⟩
      · exact absurd h0 h
      · refine DelEffect.trans_del ?_ (ih _)
        refine DelEffect.one s (nft_del_setelem ctx set a.1 a.2 s).2 _ r hr1 hc hl ?_
        rw [hr2]
        exact updSet_ndeact_inc _ set

theorem flush_set_effect (ctx : nft_ctx) (set : Ptr) (env : FlushEnv) (s : State) (elem : Ptr) :
    DelEffect s (nft_flush_set ctx set env s elem).2 := by
  unfold nft_flush_set
  split
  · exact DelEffect.of_count (CountFrame.refl_count s) rfl
  · split
    · exact DelEffect.of_count (CountFrame.refl_count s) rfl
    · dsimp only
      rw [add_tail_delsetelem _ _ rfl]
      have A := deact_elem_frame ((set_elem_change_active s elem).updSet set (fun x =>
        { x with ndeact := (x.ndeact + 1) % 2 ^ 32 })) elem
      have I := updSet_ndeact_inc (set_elem_change_active s elem) set
      refine DelEffect.one s s _
        { msg_type := .DELSETELEM, ctx_table := ctx.table, ctx_chain := ctx.chain,
          set := set, elem := elem } rfl (CountFrame.refl_count s) ?_ (fun x => ?_)
      · dsimp only
        rw [A.commit_list]
        rfl
      · obtain ⟨i1, i2, i3⟩ := I x
        exact ⟨(A.count_use.size x).trans i1, (A.count_use.nelems x).trans i2,
          (A.count_use.ndeact x).trans i3⟩

theorem walk_stop_effect (fn : State → Ptr → Int × State)
    (hf : ∀ z e, DelEffect z (fn z e).2) (genmask : Nat) (l : List Ptr) : ∀ s : State,
    DelEffect s (set_walk_stop fn genmask l s).2 := by
  induction l with
  | nil => intro s; exact DelEffect.of_count (CountFrame.refl_count s) rfl
  | cons e es ih =>
    intro s
    unfold set_walk_stop
    split
    · exact ih s
    · split
      · exact hf s e
      · exact (hf s e).trans_del (ih _)

theorem delsetelem_effect (ctx : nft_ctx) (set : Ptr)
    (attrs : Option (List (SetElemAttr × AddElemEnv))) (env : FlushEnv) (s : State) :
    DelEffect s (nf_tables_delsetelem ctx set attrs env s).2 := by
  unfold nf_tables_delsetelem
  split
  · exact DelEffect.of_count (CountFrame.refl_count s) rfl
  · split
    · exact DelEffect.of_count (CountFrame.refl_count s) rfl
    · cases attrs with
      | none => exact walk_stop_effect _ (flush_set_effect ctx set env) _ _ s
      | some l => exact delsetelem_loop_effect ctx set l s

theorem commit_release_keeps (s : State) :
    (nf_tables_commit_release s).commit_list = [] ∧ (nf_tables_commit_release s).set = s.set := by
  unfold nf_tables_commit_release
  cases h : s.commit_list.getLast? with
  | none =>
    dsimp only
    exact ⟨List.getLast?_eq_none_iff.mp h, rfl⟩
  | some last => exact ⟨rfl, rfl⟩

/-- The counters of the sets after `nf_tables_commit` of a list of records of set
elements: either the commit list and the counters are as before, or the commit list is
empty and the pending deletions are taken off `nelems` and `ndeact`. -/
theorem commit_counts (env : CommitEnv) (s : State) (x : Ptr) (hL : ElemRecs s.commit_list) :
    ((nf_tables_commit env s).2.commit_list = s.commit_list ∧
      CountFrame s (nf_tables_commit env s).2) ∨
    ((nf_tables_commit env s).2.commit_list = [] ∧
      ((nf_tables_commit env s).2.set x).size = (s.set x).size ∧
      ((nf_tables_commit env s).2.set x).nelems = (s.set x).nelems - pend_del x s.commit_list ∧
      (pend_del x s.commit_list ≤ (s.set x).ndeact → (s.set x).ndeact < 2 ^ 32 →
        ((nf_tables_commit env s).2.set x).ndeact =
          (s.set x).ndeact - pend_del x s.commit_list)) := by
  obtain ⟨v1, v2, v3⟩ := validate_keeps s
  have hp := (commit_prepare_loop_spec env.alloc (nf_tables_validate s).2.commit_list
    (nf_tables_validate s).2).1
  have hpub := (commit_publish_array_frame (commit_prepare_loop env.alloc
    (nf_tables_validate s).2.commit_list (nf_tables_validate s).2).2).1
  unfold nf_tables_commit
  by_cases h0 : s.commit_list = []
  · rw [if_pos h0]
    exact Or.inl ⟨rfl, CountFrame.refl_count s⟩
  rw [if_neg h0]
  by_cases h1 : commit_unbound_anon s = true
  · rw [if_pos h1]
    exact Or.inl ⟨rfl, CountFrame.refl_count s⟩
  rw [if_neg h1]
  dsimp only
  by_cases h2 : (nf_tables_validate s).1 < 0
  · rw [if_pos h2]
    exact Or.inl ⟨v1, count_frame_of_set _ _ v3 v2⟩
  rw [if_neg h2]
  by_cases h3 : env.offload < 0
  · rw [if_pos h3]
    exact Or.inl ⟨v1, count_frame_of_set _ _ v3 v2⟩
  rw [if_neg h3]
  by_cases h4 : (commit_prepare_loop env.alloc (nf_tables_validate s).2.commit_list
      (nf_tables_validate s).2).1 < 0
  · rw [if_pos h4]
    exact Or.inl ⟨hp.commit_list.trans v1,
      count_frame_of_set _ _ (hp.gencursor.trans v3) (hp.set.trans v2)⟩
  rw [if_neg h4]
  right
  generalize commit_prepare_loop env.alloc (nf_tables_validate s).2.commit_list
    (nf_tables_validate s).2 = p at hp hpub ⊢
  have hlist : (commit_publish p.2).2.commit_list = s.commit_list :=
    hpub.commit_list.trans (hp.commit_list.trans v1)
  have hset : (commit_publish p.2).2.set = s.set := hpub.set.trans (hp.set.trans v2)
  generalize commit_publish p.2 = pub at hlist hset ⊢
  obtain ⟨_, a2, a3, a4⟩ := commit_loop_counts x pub.2.commit_list pub.2 (hlist ▸ hL)
  have hr := commit_release_keeps (nft_gc_seq_end
    { (commit_loop pub.2.commit_list pub.2).1 with
      commit_list := (commit_loop pub.2.commit_list pub.2).2 } pub.1)
  dsimp only
  rw [hr.1, hr.2]
  have hd : pend_del x pub.2.commit_list = pend_del x s.commit_list := by rw [hlist]
  rw [hd, hset] at a3 a4
  rw [hset] at a2
  exact ⟨rfl, a2, a3, a4⟩

theorem abort_full_counts (av : Bool) (s : State) (x : Ptr) (hL : ElemRecs s.commit_list) :
    (nf_tables_abort av s).2.commit_list = [] ∧
    ((nf_tables_abort av s).2.set x).size = (s.set x).size ∧
    ((nf_tables_abort av s).2.set x).nelems = (s.set x).nelems - pend_new x s.commit_list ∧
    (pend_del x s.commit_list ≤ (s.set x).ndeact → (s.set x).ndeact < 2 ^ 32 →
      ((nf_tables_abort av s).2.set x).ndeact = (s.set x).ndeact - pend_del x s.commit_list) := by
  have h := abort_counts av (nft_gc_seq_begin s).2 x hL
  unfold nf_tables_abort nft_gc_seq_end
  exact h

theorem set_elem_limit_small (a : nft_set) (h : a.size + a.ndeact < 2 ^ 31) :
    set_elem_limit a = (a.size : Int) + a.ndeact := by
  unfold set_elem_limit
  have e : (a.size + a.ndeact) % 2 ^ 32 = a.size + a.ndeact := Nat.mod_eq_of_lt (by omega)
  rw [e, if_pos h]
  push_cast
  rfl

theorem pend_new_dels (x : Ptr) (L : List nft_trans) (h : ∀ r ∈ L, r.msg_type = .DELSETELEM) :
    pend_new x L = 0 := by
  unfold pend_new
  rw [List.countP_eq_zero]
  intro r hr
  simp [h r hr]

theorem pend_del_nil (x : Ptr) : pend_del x [] = 0 := rfl

theorem pend_new_nil (x : Ptr) : pend_new x [] = 0 := rfl

theorem pend_del_single (x : Ptr) (r : nft_trans) :
    pend_del x [r] = if r.msg_type = .DELSETELEM ∧ r.set = x then 1 else 0 := by
  rw [pend_del_cons, pend_del_nil, Nat.zero_add]

theorem pend_new_single (x : Ptr) (r : nft_trans) :
    pend_new x [r] =
      if r.msg_type = .NEWSETELEM ∧ r.set = x ∧ r.set_bound = false then 1 else 0 := by
  rw [pend_new_cons, pend_new_nil, Nat.zero_add]

theorem elem_recs_append {L M : List nft_trans} (h1 : ElemRecs L) (h2 : ElemRecs M) :
    ElemRecs (L ++ M) := by
  intro r hr
  rcases List.mem_append.mp hr with hr | hr
  · exact h1 r hr
  · exact h2 r hr

theorem erase_append_new (l : List Ptr) (e : Ptr) (h : e ∉ l) : (l ++ [e]).erase e = l := by
  rw [List.erase_append_right _ h]
  simp

/-- The outcome of `nft_add_set_elem` for an element whose key the set does not hold:
at the limit the call fails with `-ENFILE`, the element is removed again from the
container and `nelems` stays; below the limit the record of the element is appended, the
element stays in the container and `nelems` of a set with a size limit is incremented. -/
theorem add_set_elem_new_result (ctx : nft_ctx) (set : Ptr) (nla : SetElemAttr)
    (nlmsg_flags : Nat) (env : AddElemEnv) (s : State)
    (hinit : (nft_add_set_elem_init ctx set nla env s).err = 0)
    (hnone : (set_ops_insert (nft_add_set_elem_init ctx set nla env s).s set
      (nft_add_set_elem_init ctx set nla env s).elem).1 = none) :
    (((s.set set).size ≠ 0 ∧ (s.set set).nelems = set_elem_limit (s.set set)) →
      (nft_add_set_elem ctx set nla nlmsg_flags env s).1 = -ENFILE ∧
      (nft_add_set_elem ctx set nla nlmsg_flags env s).2.commit_list = s.commit_list ∧
      ((nft_add_set_elem ctx set nla nlmsg_flags env s).2.set set).nelems = (s.set set).nelems ∧
      ((nft_add_set_elem_init ctx set nla env s).elem ∉ (s.set set).elems →
        ((nft_add_set_elem ctx set nla nlmsg_flags env s).2.set set).elems =
          (s.set set).elems)) ∧
    (¬ ((s.set set).size ≠ 0 ∧ (s.set set).nelems = set_elem_limit (s.set set)) →
      (nft_add_set_elem ctx set nla nlmsg_flags env s).1 = 0 ∧
      (nft_add_set_elem ctx set nla nlmsg_flags env s).2.commit_list = s.commit_list ++
        [{ msg_type := .NEWSETELEM, ctx_table := ctx.table, ctx_chain := ctx.chain,
           set := set, elem := (nft_add_set_elem_init ctx set nla env s).elem }] ∧
      ((nft_add_set_elem ctx set nla nlmsg_flags env s).2.set set).elems =
        (s.set set).elems ++ [(nft_add_set_elem_init ctx set nla env s).elem] ∧
      ((s.set set).size ≠ 0 →
        ((nft_add_set_elem ctx set nla nlmsg_flags env s).2.set set).nelems =
          (s.set set).nelems + 1)) := by
  have F0 := add_set_elem_init_frame ctx set nla env s
  have F := F0.count_add
  have FC := F0.commit_list
  have FS := F0.set
  unfold nft_add_set_elem
  dsimp only
  unfold set_ops_insert at hnone ⊢
  generalize nft_add_set_elem_init ctx set nla env s = B at F FC FS hinit hnone ⊢
  rw [if_neg (by omega)]
  cases hfind : (B.s.set set).elems.find? (fun e =>
      decide ((B.s.elem e).key = (B.s.elem B.elem).key ∧
      nft_active_genmask (B.s.elem e).genmask (nft_genmask_next B.s.gencursor) = true)) with
  | some e2 => rw [hfind] at hnone; cases hnone
  | none =>
    dsimp only
    have I := updSet_elems_count B.s set (fun l => l ++ [B.elem])
    have IC : (B.s.updSet set (fun x => { x with elems := x.elems ++ [B.elem] })).commit_list =
      B.s.commit_list := rfl
    have IE : ((B.s.updSet set (fun x => { x with elems := x.elems ++ [B.elem] })).set
        set).elems = (s.set set).elems ++ [B.elem] := by
      rw [updSet_at, FS]
    have FI := F.trans_count I
    generalize B.s.updSet set (fun x => { x with elems := x.elems ++ [B.elem] }) = i2
      at I IC IE FI ⊢
    have hlim : set_elem_limit (i2.set set) = set_elem_limit (s.set set) :=
      set_elem_limit_congr _ _ (FI.size set) (FI.ndeact set)
    have hcond : ((i2.set set).size ≠ 0 ∧
        (!(atomic_add_unless (i2.set set).nelems 1 (set_elem_limit (i2.set set))).1) = true) ↔
        ((s.set set).size ≠ 0 ∧ (s.set set).nelems = set_elem_limit (s.set set)) := by
      rw [hlim, FI.size set, FI.nelems set]
      unfold atomic_add_unless
      by_cases he : (s.set set).nelems = set_elem_limit (s.set set)
      · rw [if_pos he]; simp [he]
      · rw [if_neg he]; simp [he]
    refine ⟨fun hfull => ?_, fun hnot => ?_⟩
    · rw [if_pos (hcond.mpr hfull)]
      have R := updSet_elems_count i2 set (fun l => l.erase B.elem)
      have E := err3_frame (set_ops_remove i2 set B.elem) B.data B.obj
      have FE := (FI.trans_count R).trans_count E.count_use
      refine ⟨rfl, ?_, FE.nelems set, fun hfresh => ?_⟩
      · exact E.commit_list.trans (IC.trans FC)
      · dsimp only
        rw [E.set]
        unfold set_ops_remove
        rw [updSet_at]
        dsimp only
        rw [IE]
        exact erase_append_new _ _ hfresh
    · rw [if_neg (fun h => hnot (hcond.mp h))]
      rw [add_tail_newsetelem _ _ rfl]
      dsimp only
      refine ⟨rfl, ?_, ?_, fun hs => ?_⟩
      · split
        · exact congrArg (fun l => l ++ _) (IC.trans FC)
        · exact congrArg (fun l => l ++ _) (IC.trans FC)
      · split
        · rw [updSet_at]
          exact IE
        · exact IE
      · have hs2 : (i2.set set).size ≠ 0 := by rw [FI.size set]; exact hs
        have hne : (s.set set).nelems ≠ set_elem_limit (s.set set) := fun e => hnot ⟨hs, e⟩
        rw [if_pos hs2, updSet_at]
        dsimp only
        unfold atomic_add_unless
        rw [hlim, FI.nelems set, if_neg hne]

theorem chain_use_dec_brk (z : State) (p : Ptr) : (chain_use_dec z p).brk = z.brk := rfl

theorem obj_use_dec_brk (z : State) (p : Ptr) : (obj_use_dec z p).brk = z.brk := rfl

theorem chain_use_inc_restore_brk (z : State) (p : Ptr) :
    (chain_use_inc_restore z p).brk = z.brk := rfl

theorem obj_use_inc_restore_brk (z : State) (p : Ptr) :
    (obj_use_inc_restore z p).brk = z.brk := rfl

theorem validate_state_update_brk (z : State) (v : Nat) :
    (nft_validate_state_update z v).brk = z.brk := by
  unfold nft_validate_state_update
  split
  · rfl
  · split
    · rfl
    · split <;> rfl

theorem data_release_brk (z : State) (d : nft_data) : (nft_data_release z d).brk = z.brk := by
  unfold nft_data_release
  cases d with
  | value b => rfl
  | verdict code chain =>
    dsimp only
    split <;> rfl

theorem data_hold_brk (z : State) (d : nft_data) : (nft_data_hold z d).brk = z.brk := by
  unfold nft_data_hold
  cases d with
  | value b => rfl
  | verdict code chain =>
    dsimp only
    split <;> rfl

theorem data_release_type_brk (z : State) (d : nft_data) (t : Nat) :
    (nft_data_release_type z d t).brk = z.brk := by
  unfold nft_data_release_type
  split
  · rfl
  · split
    · exact data_release_brk z d
    · rfl

theorem verdict_init_brk (z : State) (ctx : nft_ctx) (nla : VerdictAttr) :
    (nft_verdict_init z ctx nla).2.1.brk = z.brk := by
  unfold nft_verdict_init
  split
  · rfl
  · split
    · rfl
    · split
      · rfl
      · split
        · split
          · rfl
          · split
            · rfl
            · split
              · rfl
              · split <;> rfl
        · rfl

theorem data_init_brk (z : State) (ctx : nft_ctx) (size : Nat) (nla : DataAttr) :
    (nft_data_init z ctx size nla).2.1.brk = z.brk := by
  unfold nft_data_init
  split
  · rfl
  · split
    · rfl
    · split
      · exact verdict_init_brk z ctx _
      · rfl

theorem parse_key_brk (z : State) (ctx : nft_ctx) (set : Ptr) (nla : DataAttr) :
    (nft_setelem_parse_key z ctx set nla).2.1.brk = z.brk := by
  unfold nft_setelem_parse_key
  dsimp only
  split
  · exact data_init_brk z ctx _ nla
  · split
    · exact (data_release_type_brk _ _ _).trans (data_init_brk z ctx _ nla)
    · exact data_init_brk z ctx _ nla

theorem parse_data_brk (z : State) (ctx : nft_ctx) (set : Ptr) (nla : DataAttr) :
    (nft_setelem_parse_data z ctx set nla).2.1.brk = z.brk := by
  unfold nft_setelem_parse_data
  dsimp only
  by_cases h1 : (nft_data_init z ctx NFT_DATA_VALUE_MAXLEN nla).1 < 0
  · rw [if_pos h1]; exact data_init_brk z ctx _ nla
  · rw [if_neg h1]
    by_cases h2 : (if (z.set set).dtype = NFT_DATA_VERDICT then NFT_DATA_VERDICT
        else NFT_DATA_VALUE) ≠ (nft_data_init z ctx NFT_DATA_VALUE_MAXLEN nla).2.2.2.type ∨
        (z.set set).dlen ≠ (nft_data_init z ctx NFT_DATA_VALUE_MAXLEN nla).2.2.2.len
    · rw [if_pos h2]
      exact (data_release_type_brk _ _ _).trans (data_init_brk z ctx _ nla)
    · rw [if_neg h2]; exact data_init_brk z ctx _ nla

theorem bindings_brk (ctx : nft_ctx) (dreg : Nat) (data : nft_data) (desc : nft_data_desc)
    (l : List nft_set_binding) : ∀ z : State,
    (add_elem_bindings ctx dreg data desc l z).2.brk = z.brk := by
  induction l with
  | nil => intro z; rfl
  | cons b rest ih =>
    intro z
    unfold add_elem_bindings
    split
    · exact ih z
    · split
      · rfl
      · split
        · exact (ih _).trans (validate_state_update_brk z _)
        · exact ih z

theorem objref_brk (z : State) (attr : Option (List Ptr)) :
    (add_elem_objref z attr).2.1.brk = z.brk := by
  unfold add_elem_objref
  split
  · rfl
  · split
    · rfl
    · split <;> rfl

theorem add_elem_data_brk (z : State) (ctx : nft_ctx) (set : Ptr) (attr : Option DataAttr) :
    (add_elem_data z ctx set attr).2.1.brk = z.brk := by
  unfold add_elem_data
  split
  · rfl
  · dsimp only
    split
    · exact parse_data_brk z ctx set _
    · exact (bindings_brk _ _ _ _ _ _).trans (parse_data_brk z ctx set _)

theorem err2_brk (z : State) (obj : Option Ptr) : (add_elem_err2 z obj).brk = z.brk := by
  unfold add_elem_err2
  split <;> rfl

theorem err3_brk (z : State) (data : Option (nft_data × nft_data_desc)) (obj : Option Ptr) :
    (add_elem_err3 z data obj).brk = z.brk := by
  unfold add_elem_err3
  cases data with
  | none => exact err2_brk z obj
  | some d => exact (err2_brk _ obj).trans (data_release_type_brk z d.1 d.2.type)

theorem setelem_data_deactivate_brk (z : State) (e : Ptr) :
    (nft_setelem_data_deactivate z e).brk = z.brk := by
  unfold nft_setelem_data_deactivate
  dsimp only
  split <;> split <;> first | rfl | exact data_release_brk _ _

theorem setelem_data_activate_brk (z : State) (e : Ptr) :
    (nft_setelem_data_activate z e).brk = z.brk := by
  unfold nft_setelem_data_activate
  dsimp only
  split <;> split <;> first | rfl | exact data_hold_brk _ _

/-- The mark and the elements below it after `nft_set_elem_init`. -/
theorem set_elem_init_brk (z : State) (set : Ptr) (key : nft_data) (data : Option nft_data)
    (obj : Option Ptr) (flags timeout expiration : Nat) (userdata : Option (List Nat))
    (env : AddElemEnv) :
    z.brk ≤ (nft_set_elem_init z set key data obj flags timeout expiration userdata env).2.brk ∧
    (∀ e, e < z.brk →
      (nft_set_elem_init z set key data obj flags timeout expiration userdata env).2.elem e =
        z.elem e) ∧
    (∀ p, (nft_set_elem_init z set key data obj flags timeout expiration userdata env).1 =
        some p →
      p = z.brk ∧
      (nft_set_elem_init z set key data obj flags timeout expiration userdata env).2.brk =
        z.brk + 1) := by
  unfold nft_set_elem_init
  by_cases ha : (!env.elem_alloc_ok) = true
  · rw [if_pos ha]
    exact ⟨le_refl _, fun _ _ => rfl, fun p h => by cases h⟩
  · rw [if_neg ha]
    refine ⟨Nat.le_succ _, fun e he => ?_, fun p h => ?_⟩
    · exact Function.update_noteq (Nat.ne_of_lt he) _ _
    · simp only [Option.some.injEq] at h
      exact ⟨h.symm, rfl⟩

theorem attr_check_nonpos (set : nft_set) (nla : SetElemAttr) (flags : Nat) :
    add_elem_attr_check set nla flags ≤ 0 := by
  have e : (-EINVAL : Int) ≤ 0 := by decide
  unfold add_elem_attr_check
  repeat' split
  all_goals first | exact e | exact le_refl _

theorem msecs_to_jiffies64_nonpos (ms : Nat) : (nf_msecs_to_jiffies64 ms).1 ≤ 0 := by
  unfold nf_msecs_to_jiffies64
  split
  · decide
  · exact le_refl _

theorem timeouts_nonpos (set : nft_set) (nla : SetElemAttr) :
    (add_elem_timeouts set nla).1 ≤ 0 := by
  have e1 : (-EINVAL : Int) ≤ 0 := by decide
  have e2 : (-EOPNOTSUPP : Int) ≤ 0 := by decide
  have e3 : (-ERANGE : Int) ≤ 0 := by decide
  unfold add_elem_timeouts
  dsimp only
  repeat' split
  all_goals first | exact e1 | exact e2 | exact e3 | exact le_refl _ | exact msecs_to_jiffies64_nonpos _

/-- The allocation mark and the elements below it after the part of `nft_add_set_elem`
before the insertion; on success the new element is at the old mark. -/
theorem add_set_elem_init_below (ctx : nft_ctx) (set : Ptr) (nla : SetElemAttr)
    (env : AddElemEnv) (s : State) :
    s.brk ≤ (nft_add_set_elem_init ctx set nla env s).s.brk ∧
    (∀ e, e < s.brk → (nft_add_set_elem_init ctx set nla env s).s.elem e = s.elem e) ∧
    (¬ (nft_add_set_elem_init ctx set nla env s).err < 0 →
      (nft_add_set_elem_init ctx set nla env s).elem = s.brk ∧
      (nft_add_set_elem_init ctx set nla env s).s.brk = s.brk + 1) := by
  have key : ∀ (w : State), UseFrame s w → w.brk = s.brk →
      s.brk ≤ w.brk ∧ ∀ e, e < s.brk → w.elem e = s.elem e :=
    fun w hf hb => ⟨by rw [hb], fun e _ => by rw [hf.elem]⟩
  unfold nft_add_set_elem_init
  by_cases h1 : nla.parse < 0
  · rw [if_pos h1]
    exact ⟨le_refl _, fun _ _ => rfl, fun h => absurd h1 h⟩
  rw [if_neg h1]
  cases hk : nla.key with
  | none =>
    dsimp only
    exact ⟨le_refl _, fun _ _ => rfl, fun h => absurd (by decide) h⟩
  | some keyattr =>
    dsimp only
    by_cases h2 : (nft_setelem_parse_flags (s.set set) nla.flags).1 < 0
    · rw [if_pos h2]
      exact ⟨le_refl _, fun _ _ => rfl, fun h => absurd h2 h⟩
    rw [if_neg h2]
    by_cases h3 : add_elem_attr_check (s.set set) nla
        (nft_setelem_parse_flags (s.set set) nla.flags).2 ≠ 0
    · rw [if_pos h3]
      refine ⟨le_refl _, fun _ _ => rfl, fun h => absurd ?_ h⟩
      exact lt_of_le_of_ne (attr_check_nonpos _ _ _) h3
    rw [if_neg h3]
    by_cases h4 : (add_elem_timeouts (s.set set) nla).1 ≠ 0
    · rw [if_pos h4]
      refine ⟨le_refl _, fun _ _ => rfl, fun h => absurd ?_ h⟩
      exact lt_of_le_of_ne (timeouts_nonpos _ _) h4
    rw [if_neg h4]
    have fk := parse_key_frame s ctx set keyattr
    have bk := parse_key_brk s ctx set keyattr
    by_cases h5 : (nft_setelem_parse_key s ctx set keyattr).1 < 0
    · rw [if_pos h5]
      exact ⟨(key _ fk bk).1, (key _ fk bk).2, fun h => absurd h5 h⟩
    rw [if_neg h5]
    have fo := fk.trans_use (objref_frame (nft_setelem_parse_key s ctx set keyattr).2.1 nla.objref)
    have bo := (objref_brk (nft_setelem_parse_key s ctx set keyattr).2.1 nla.objref).trans bk
    by_cases h6 : (add_elem_objref (nft_setelem_parse_key s ctx set keyattr).2.1 nla.objref).1 < 0
    · rw [if_pos h6]
      have f := fo.trans_use (err2_frame _
        (add_elem_objref (nft_setelem_parse_key s ctx set keyattr).2.1 nla.objref).2.2)
      have b := (err2_brk _
        (add_elem_objref (nft_setelem_parse_key s ctx set keyattr).2.1 nla.objref).2.2).trans bo
      exact ⟨(key _ f b).1, (key _ f b).2, fun h => absurd h6 h⟩
    rw [if_neg h6]
    have fd := fo.trans_use (add_elem_data_frame
      (add_elem_objref (nft_setelem_parse_key s ctx set keyattr).2.1 nla.objref).2.1 ctx set nla.data)
    have bd := (add_elem_data_brk
      (add_elem_objref (nft_setelem_parse_key s ctx set keyattr).2.1 nla.objref).2.1 ctx set
        nla.data).trans bo
    by_cases h7 : (add_elem_data
      (add_elem_objref (nft_setelem_parse_key s ctx set keyattr).2.1 nla.objref).2.1 ctx set
        nla.data).1 < 0
    · rw [if_pos h7]
      dsimp only
      split
      · have f := fd.trans_use (err3_frame _ (add_elem_data
          (add_elem_objref (nft_setelem_parse_key s ctx set keyattr).2.1 nla.objref).2.1 ctx set
            nla.data).2.2.1
          (add_elem_objref (nft_setelem_parse_key s ctx set keyattr).2.1 nla.objref).2.2)
        have b := (err3_brk _ (add_elem_data
          (add_elem_objref (nft_setelem_parse_key s ctx set keyattr).2.1 nla.objref).2.1 ctx set
            nla.data).2.2.1
          (add_elem_objref (nft_setelem_parse_key s ctx set keyattr).2.1 nla.objref).2.2).trans bd
        exact ⟨(key _ f b).1, (key _ f b).2, fun h => absurd h7 h⟩
      · have f := fd.trans_use (err2_frame _
          (add_elem_objref (nft_setelem_parse_key s ctx set keyattr).2.1 nla.objref).2.2)
        have b := (err2_brk _
          (add_elem_objref (nft_setelem_parse_key s ctx set keyattr).2.1 nla.objref).2.2).trans bd
        exact ⟨(key _ f b).1, (key _ f b).2, fun h => absurd h7 h⟩
    rw [if_neg h7]
    obtain ⟨kd1, kd2⟩ := key _ fd bd
    generalize (add_elem_data
      (add_elem_objref (nft_setelem_parse_key s ctx set keyattr).2.1 nla.objref).2.1 ctx set
        nla.data) = D at fd bd kd1 kd2 ⊢
    generalize (add_elem_objref (nft_setelem_parse_key s ctx set keyattr).2.1 nla.objref).2.2 = O
    generalize (nft_setelem_parse_key s ctx set keyattr).2.2 = K
    have I := set_elem_init_brk D.2.1 set K (D.2.2.1.map (fun x => x.1)) O
      (nft_setelem_parse_flags (s.set set) nla.flags).2 (add_elem_timeouts (s.set set) nla).2.1
      (add_elem_timeouts (s.set set) nla).2.2 nla.userdata env
    generalize nft_set_elem_init D.2.1 set K (D.2.2.1.map (fun x => x.1)) O
      (nft_setelem_parse_flags (s.set set) nla.flags).2 (add_elem_timeouts (s.set set) nla).2.1
      (add_elem_timeouts (s.set set) nla).2.2 nla.userdata env = E at I ⊢
    obtain ⟨i1, i2, i3⟩ := I
    have e1 : s.brk ≤ E.2.brk := le_trans kd1 i1
    have e2 : ∀ e, e < s.brk → E.2.elem e = s.elem e := fun e he =>
      (i2 e (by rw [bd]; exact he)).trans (kd2 e he)
    split
    · have b := err3_brk E.2 D.2.2.1 O
      have f := err3_frame E.2 D.2.2.1 O
      refine ⟨by rw [b]; exact e1, fun e he => ?_,
          fun h => absurd (by show (-ENOMEM : Int) < 0; decide) h⟩
      rw [f.elem]; exact e2 e he
    · rename_i elem he
      obtain ⟨p1, p2⟩ := i3 elem he
      split
      · have b := err3_brk E.2 D.2.2.1 O
        have f := err3_frame E.2 D.2.2.1 O
        refine ⟨by rw [b]; exact e1, fun e he => ?_,
          fun h => absurd (by show (-ENOMEM : Int) < 0; decide) h⟩
        rw [f.elem]; exact e2 e he
      · dsimp only
        refine ⟨e1, fun e he => ?_, fun _ => ⟨by rw [p1, bd], by rw [← bd]; exact p2⟩⟩
        have hne : e ≠ elem := by rw [p1, bd]; exact Nat.ne_of_lt he
        simp only [State.updElem, Function.update_noteq hne]
        exact e2 e he

theorem updSet_elems_at (z : State) (p x : Ptr) (f : List Ptr → List Ptr) :
    ((z.updSet p (fun y => { y with elems := f y.elems })).set x).elems =
      if x = p then f (z.set x).elems else (z.set x).elems := by
  by_cases h : x = p
  · subst h; rw [updSet_at, if_pos rfl]
  · rw [updSet_other _ _ _ _ h, if_neg h]

/-- The effect of `nft_add_set_elem` on the elements of the set `x`, whose elements are
below the allocation mark: either no record is appended and the set holds the elements
it held, or the record of the new element, which is at the old mark, is appended and
the element has joined the set the call names. -/
theorem add_set_elem_elems (ctx : nft_ctx) (set : Ptr) (nla : SetElemAttr)
    (nlmsg_flags : Nat) (env : AddElemEnv) (s : State) (x : Ptr)
    (hb : ∀ e ∈ (s.set x).elems, e < s.brk) :
    s.brk ≤ (nft_add_set_elem ctx set nla nlmsg_flags env s).2.brk ∧
    (∀ e, e < s.brk → (nft_add_set_elem ctx set nla nlmsg_flags env s).2.elem e = s.elem e) ∧
    (((nft_add_set_elem ctx set nla nlmsg_flags env s).2.commit_list = s.commit_list ∧
        ((nft_add_set_elem ctx set nla nlmsg_flags env s).2.set x).elems = (s.set x).elems) ∨
      ((nft_add_set_elem ctx set nla nlmsg_flags env s).2.commit_list = s.commit_list ++
          [{ msg_type := .NEWSETELEM, ctx_table := ctx.table, ctx_chain := ctx.chain,
             set := set, elem := s.brk }] ∧
        s.brk < (nft_add_set_elem ctx set nla nlmsg_flags env s).2.brk ∧
        ((nft_add_set_elem ctx set nla nlmsg_flags env s).2.set x).elems =
          (s.set x).elems ++ (if x = set then [s.brk] else []))) := by
  have F0 := add_set_elem_init_frame ctx set nla env s
  obtain ⟨b1, b2, b3⟩ := add_set_elem_init_below ctx set nla env s
  have FC := F0.commit_list
  have FS := F0.set
  unfold nft_add_set_elem
  dsimp only
  generalize nft_add_set_elem_init ctx set nla env s = B at F0 b1 b2 b3 FC FS ⊢
  by_cases h1 : B.err < 0
  · rw [if_pos h1]
    exact ⟨b1, b2, Or.inl ⟨FC, by rw [FS]⟩⟩
  rw [if_neg h1]
  obtain ⟨be, bb⟩ := b3 h1
  unfold set_ops_insert
  cases hfind : (B.s.set set).elems.find? (fun e =>
      decide ((B.s.elem e).key = (B.s.elem B.elem).key ∧
      nft_active_genmask (B.s.elem e).genmask (nft_genmask_next B.s.gencursor) = true)) with
  | some e2 =>
    dsimp only
    have E := err3_frame B.s B.data B.obj
    have EB := err3_brk B.s B.data B.obj
    refine ⟨by rw [EB]; exact b1, fun e he => by rw [E.elem]; exact b2 e he,
      Or.inl ⟨E.commit_list.trans FC, by rw [E.set, FS]⟩⟩
  | none =>
    dsimp only
    have IC : (B.s.updSet set (fun x => { x with elems := x.elems ++ [B.elem] })).commit_list =
      B.s.commit_list := rfl
    have IB : (B.s.updSet set (fun x => { x with elems := x.elems ++ [B.elem] })).brk =
      B.s.brk := rfl
    have IE : (B.s.updSet set (fun x => { x with elems := x.elems ++ [B.elem] })).elem =
      B.s.elem := rfl
    have IX := updSet_elems_at B.s set x (fun l => l ++ [B.elem])
    generalize B.s.updSet set (fun x => { x with elems := x.elems ++ [B.elem] }) = i2
      at IC IB IE IX ⊢
    by_cases hfull : (i2.set set).size ≠ 0 ∧
        (!(atomic_add_unless (i2.set set).nelems 1 (set_elem_limit (i2.set set))).1) = true
    · rw [if_pos hfull]
      have E := err3_frame (set_ops_remove i2 set B.elem) B.data B.obj
      have EB := err3_brk (set_ops_remove i2 set B.elem) B.data B.obj
      have RX := updSet_elems_at i2 set x (fun l => l.erase B.elem)
      refine ⟨?_, fun e he => ?_, Or.inl ⟨?_, ?_⟩⟩
      · rw [EB]
        show s.brk ≤ i2.brk
        rw [IB]; exact b1
      · rw [E.elem]
        show i2.elem e = s.elem e
        rw [IE]; exact b2 e he
      · rw [E.commit_list]
        exact IC.trans FC
      · rw [E.set]
        unfold set_ops_remove
        rw [RX, IX, FS]
        by_cases hx : x = set
        · rw [if_pos hx, if_pos hx]
          apply erase_append_new
          intro hm
          have := hb _ hm
          rw [be] at this
          exact Nat.lt_irrefl _ this
        · rw [if_neg hx, if_neg hx]
    · rw [if_neg hfull]
      rw [add_tail_newsetelem _ _ rfl]
      dsimp only
      have hw : ∀ (w : State), w.commit_list = i2.commit_list → w.brk = i2.brk →
          w.elem = i2.elem → (w.set x).elems = (i2.set x).elems →
          s.brk ≤ w.brk ∧ (∀ e, e < s.brk → w.elem e = s.elem e) ∧ w.commit_list = s.commit_list ∧
          s.brk < w.brk ∧
          (w.set x).elems = (s.set x).elems ++ (if x = set then [s.brk] else []) := by
        intro w w1 w2 w3 w4
        refine ⟨by rw [w2, IB]; exact b1, fun e he => by rw [w3, IE]; exact b2 e he,
          by rw [w1, IC, FC], by rw [w2, IB, bb]; exact Nat.lt_succ_self _, ?_⟩
        rw [w4, IX, FS, be]
        by_cases hx : x = set
        · rw [if_pos hx, if_pos hx]
        · rw [if_neg hx, if_neg hx, List.append_nil]
      have hW : ∀ (w : State), w = (if (i2.set set).size ≠ 0 then
            i2.updSet set (fun x =>
              { x with nelems := (atomic_add_unless x.nelems 1 (set_elem_limit x)).2 })
          else i2) →
          w.commit_list = i2.commit_list ∧ w.brk = i2.brk ∧ w.elem = i2.elem ∧
          (w.set x).elems = (i2.set x).elems := by
        intro w hw0
        by_cases hs : (i2.set set).size ≠ 0
        · rw [if_pos hs] at hw0
          subst hw0
          refine ⟨rfl, rfl, rfl, ?_⟩
          simp only [State.updSet, Function.update_apply]
          split
          · rename_i h; subst h; rfl
          · rfl
        · rw [if_neg hs] at hw0
          subst hw0
          exact ⟨rfl, rfl, rfl, rfl⟩
      obtain ⟨v1, v2, v3, v4⟩ := hW _ rfl
      generalize (if (i2.set set).size ≠ 0 then
            i2.updSet set (fun x =>
              { x with nelems := (atomic_add_unless x.nelems 1 (set_elem_limit x)).2 })
          else i2) = W at v1 v2 v3 v4 ⊢
      obtain ⟨u1, u2, u3, u4, u5⟩ := hw W v1 v2 v3 v4
      refine ⟨u1, u2, Or.inr ⟨?_, u4, u5⟩⟩
      show W.commit_list ++ _ = _
      rw [u3, be]

theorem ElemFrame.refl_elem (z : State) : ElemFrame z z :=
  ⟨rfl, rfl, rfl, fun _ _ => rfl, le_refl _⟩

theorem ElemFrame.trans_elem {a b c : State} (h1 : ElemFrame a b) (h2 : ElemFrame b c) :
    ElemFrame a c :=
  ⟨h2.gencursor.trans h1.gencursor, h2.commit_list.trans h1.commit_list, h2.set.trans h1.set,
   fun e he => (h2.elem e (lt_of_lt_of_le he h1.brk)).trans (h1.elem e he),
   le_trans h1.brk h2.brk⟩

theorem UseFrame.elem_frame {z w : State} (h : UseFrame z w) (hb : w.brk = z.brk) :
    ElemFrame z w :=
  ⟨h.gencursor, h.commit_list, h.set, fun e _ => by rw [h.elem], by rw [hb]⟩

theorem del_elems_append (x : Ptr) (L M : List nft_trans) :
    del_elems x (L ++ M) = del_elems x L ++ del_elems x M := by
  unfold del_elems
  rw [List.filter_append, List.map_append]

theorem new_elems_append (x : Ptr) (L M : List nft_trans) :
    new_elems x (L ++ M) = new_elems x L ++ new_elems x M := by
  unfold new_elems
  rw [List.filter_append, List.map_append]

theorem del_elems_nil (x : Ptr) : del_elems x [] = [] := rfl

theorem new_elems_nil (x : Ptr) : new_elems x [] = [] := rfl

theorem del_elems_single (x : Ptr) (r : nft_trans) :
    del_elems x [r] = if r.msg_type = .DELSETELEM ∧ r.set = x then [r.elem] else [] := by
  unfold del_elems
  by_cases h : r.msg_type = .DELSETELEM ∧ r.set = x
  · rw [if_pos h, List.filter_cons_of_pos (by simpa using h)]
    rfl
  · rw [if_neg h, List.filter_cons_of_neg (by simpa using h)]
    rfl

theorem new_elems_single (x : Ptr) (r : nft_trans) :
    new_elems x [r] =
      if r.msg_type = .NEWSETELEM ∧ r.set = x ∧ r.set_bound = false then [r.elem] else [] := by
  unfold new_elems
  by_cases h : r.msg_type = .NEWSETELEM ∧ r.set = x ∧ r.set_bound = false
  · rw [if_pos h, List.filter_cons_of_pos (by simpa using h)]
    rfl
  · rw [if_neg h, List.filter_cons_of_neg (by simpa using h)]
    rfl

theorem del_elems_cons (x : Ptr) (r : nft_trans) (L : List nft_trans) :
    del_elems x (r :: L) =
      (if r.msg_type = .DELSETELEM ∧ r.set = x then [r.elem] else []) ++ del_elems x L := by
  rw [← del_elems_single, ← del_elems_append]
  rfl

theorem new_elems_cons (x : Ptr) (r : nft_trans) (L : List nft_trans) :
    new_elems x (r :: L) =
      (if r.msg_type = .NEWSETELEM ∧ r.set = x ∧ r.set_bound = false then [r.elem] else []) ++
        new_elems x L := by
  rw [← new_elems_single, ← new_elems_append]
  rfl

theorem del_elems_length (x : Ptr) (L : List nft_trans) :
    (del_elems x L).length = pend_del x L := by
  unfold del_elems pend_del
  rw [List.length_map, List.countP_eq_length_filter]

theorem new_elems_length (x : Ptr) (L : List nft_trans) :
    (new_elems x L).length = pend_new x L := by
  unfold new_elems pend_new
  rw [List.length_map, List.countP_eq_length_filter]

theorem del_elems_dels (x : Ptr) (L : List nft_trans) (h : ∀ r ∈ L, r.msg_type = .NEWSETELEM) :
    del_elems x L = [] := by
  unfold del_elems
  rw [List.map_eq_nil_iff, List.filter_eq_nil_iff]
  intro r hr
  simp [h r hr]

theorem new_elems_dels (x : Ptr) (L : List nft_trans) (h : ∀ r ∈ L, r.msg_type = .DELSETELEM) :
    new_elems x L = [] := by
  unfold new_elems
  rw [List.map_eq_nil_iff, List.filter_eq_nil_iff]
  intro r hr
  simp [h r hr]

theorem genmask_next_ne_zero (g : Nat) : nft_genmask_next g ≠ 0 := by
  rcases genmask_next_cases g with h | h <;> rw [h] <;> decide

theorem toggle_inactive (g m : Nat) (hm : m ≠ 0) (h : nft_active_genmask g m = true) :
    nft_active_genmask (g ^^^ m) m = false := by
  unfold nft_active_genmask at h ⊢
  have h0 : g &&& m = 0 := by simpa using h
  have e : (g ^^^ m) &&& m = m := by
    rw [Nat.and_xor_distrib_right, h0, Nat.and_self, Nat.zero_xor]
  rw [e]
  simpa using hm

theorem change_active_elem (z : State) (p e : Ptr) :
    (set_elem_change_active z p).elem e =
      if e = p then { z.elem p with genmask := (z.elem p).genmask ^^^ nft_genmask_next z.gencursor }
      else z.elem e := by
  unfold set_elem_change_active State.updElem
  by_cases h : e = p
  · subst h; rw [if_pos rfl]; exact Function.update_same _ _ _
  · rw [if_neg h]; exact Function.update_noteq h _ _

theorem change_active_inactive (z : State) (p : Ptr) (h : elem_active_next z p = true) :
    elem_active_next (set_elem_change_active z p) p = false := by
  unfold elem_active_next at h ⊢
  rw [change_active_elem, if_pos rfl]
  exact toggle_inactive _ _ (genmask_next_ne_zero _) h

theorem DelStep.of_frame {x : Ptr} {s s' : State} (h : ElemFrame s s') : DelStep x s s' := by
  refine ⟨h.gencursor, h.brk, by rw [h.set], fun e he hi => ?_, [], ?_, List.nodup_nil, ?_⟩
  · unfold elem_active_next at hi ⊢
    rw [h.elem e he, h.gencursor]
    exact hi
  · rw [h.commit_list, List.append_nil]
  · intro e he
    cases he

theorem DelStep.refl_step (x : Ptr) (s : State) : DelStep x s s :=
  DelStep.of_frame (ElemFrame.refl_elem s)

theorem DelStep.trans_step {x : Ptr} {a b c : State} (hb : ∀ e ∈ (a.set x).elems, e < a.brk)
    (h1 : DelStep x a b) (h2 : DelStep x b c) : DelStep x a c := by
  obtain ⟨L1, c1, n1, m1⟩ := h1.recs
  obtain ⟨L2, c2, n2, m2⟩ := h2.recs
  have keep2 : ∀ e, e < a.brk → elem_active_next b e = false → elem_active_next c e = false :=
    fun e he hi => h2.keep e (lt_of_lt_of_le he h1.brk) hi
  refine ⟨h2.gencursor.trans h1.gencursor, le_trans h1.brk h2.brk,
    h2.elems.trans h1.elems, fun e he hi => keep2 e he (h1.keep e he hi), L1 ++ L2, ?_, ?_, ?_⟩
  · rw [c2, c1, List.append_assoc]
  · rw [del_elems_append]
    refine List.Nodup.append n1 n2 ?_
    intro e he1 he2
    have a1 := (m1 e he1).2.2
    have a2 := (m2 e he2).2.1
    rw [a1] at a2
    cases a2
  · intro e he
    rw [del_elems_append] at he
    rcases List.mem_append.mp he with he | he
    · obtain ⟨q1, q2, q3⟩ := m1 e he
      exact ⟨q1, q2, keep2 e (hb e q1) q3⟩
    · obtain ⟨q1, q2, q3⟩ := m2 e he
      rw [h1.elems] at q1
      refine ⟨q1, ?_, q3⟩
      by_contra hn
      have hn2 : elem_active_next a e = false := by
        cases hv : elem_active_next a e
        · rfl
        · exact absurd hv hn
      have := h1.keep e (hb e q1) hn2
      rw [this] at q2
      cases q2

/-- A step that appends one record of a deletion whose element it made inactive in the
next generation. -/
theorem DelStep.one_record {x : Ptr} {s s' : State} (r : nft_trans)
    (hg : s'.gencursor = s.gencursor) (hbrk : s.brk ≤ s'.brk)
    (hel : (s'.set x).elems = (s.set x).elems)
    (hc : s'.commit_list = s.commit_list ++ [r])
    (hother : ∀ e, e < s.brk → e ≠ r.elem → s'.elem e = s.elem e)
    (hx : r.set = x → r.elem ∈ (s.set x).elems ∧ elem_active_next s r.elem = true)
    (hin : elem_active_next s' r.elem = false) : DelStep x s s' := by
  refine ⟨hg, hbrk, hel, fun e he hi => ?_, [r], hc, ?_, ?_⟩
  · by_cases hp : e = r.elem
    · subst hp
      exact hin
    · unfold elem_active_next at hi ⊢
      rw [hother e he hp, hg]
      exact hi
  · rw [del_elems_single]
    split
    · exact List.nodup_singleton _
    · exact List.nodup_nil
  · intro e he
    rw [del_elems_single] at he
    by_cases h : r.msg_type = .DELSETELEM ∧ r.set = x
    · rw [if_pos h] at he
      have := List.mem_singleton.mp he
      subst this
      exact ⟨(hx h.2).1, (hx h.2).2, hin⟩
    · rw [if_neg h] at he
      cases he

theorem deactivate_step (z : State) (set elem : Ptr) :
    (set_ops_deactivate z set elem).2.gencursor = z.gencursor ∧
    (set_ops_deactivate z set elem).2.brk = z.brk ∧
    (set_ops_deactivate z set elem).2.set = z.set ∧
    (set_ops_deactivate z set elem).2.commit_list = z.commit_list ∧
    ((set_ops_deactivate z set elem).1 = none → (set_ops_deactivate z set elem).2 = z) ∧
    (∀ p, (set_ops_deactivate z set elem).1 = some p →
      p ∈ (z.set set).elems ∧ elem_active_next z p = true ∧
      elem_active_next (set_ops_deactivate z set elem).2 p = false ∧
      ∀ e, e ≠ p → (set_ops_deactivate z set elem).2.elem e = z.elem e) := by
  unfold set_ops_deactivate
  cases hf : (z.set set).elems.find? (fun e => decide ((z.elem e).key = (z.elem elem).key ∧
      nft_active_genmask (z.elem e).genmask (nft_genmask_next z.gencursor) = true)) with
  | none =>
    dsimp only
    exact ⟨rfl, rfl, rfl, rfl, fun _ => rfl, fun p h => by cases h⟩
  | some q =>
    dsimp only
    refine ⟨rfl, rfl, rfl, rfl, fun h => ?_, fun p h => ?_⟩
    · cases h
    simp only [Option.some.injEq] at h
    subst h
    have hm := List.mem_of_find?_eq_some hf
    have hp := List.find?_some hf
    simp only [decide_eq_true_eq] at hp
    have ha : elem_active_next z q = true := hp.2
    refine ⟨hm, ha, change_active_inactive z q ha, fun e he => ?_⟩
    rw [change_active_elem, if_neg he]

theorem set_elem_init_elem_frame (z : State) (set : Ptr) (key : nft_data)
    (data : Option nft_data) (obj : Option Ptr) (flags timeout expiration : Nat)
    (userdata : Option (List Nat)) (env : AddElemEnv) :
    ElemFrame z (nft_set_elem_init z set key data obj flags timeout expiration userdata env).2 := by
  obtain ⟨b1, b2, _⟩ := set_elem_init_brk z set key data obj flags timeout expiration userdata env
  obtain ⟨c1, c2⟩ := elem_init_count z set key data obj flags timeout expiration userdata env
  refine ⟨c1.gencursor, c2, ?_, b2, b1⟩
  unfold nft_set_elem_init
  split <;> rfl

theorem elem_active_next_congr {z w : State} (e : Ptr) (h1 : w.elem e = z.elem e)
    (h2 : w.gencursor = z.gencursor) : elem_active_next w e = elem_active_next z e := by
  unfold elem_active_next
  rw [h1, h2]

/-- The step `nft_del_setelem` makes, seen from the set `x` whose elements are below the
allocation mark. -/
theorem del_setelem_step (ctx : nft_ctx) (set : Ptr) (nla : SetElemAttr) (env : AddElemEnv)
    (s : State) (x : Ptr) (hb : ∀ e ∈ (s.set x).elems, e < s.brk) :
    DelStep x s (nft_del_setelem ctx set nla env s).2 := by
  unfold nft_del_setelem
  by_cases h1 : nla.parse < 0
  · rw [if_pos h1]; exact DelStep.refl_step x s
  rw [if_neg h1]
  cases hk : nla.key with
  | none => exact DelStep.refl_step x s
  | some keyattr =>
    dsimp only
    by_cases h2 : (nft_setelem_parse_flags (s.set set) nla.flags).1 < 0
    · rw [if_pos h2]; exact DelStep.refl_step x s
    rw [if_neg h2]
    have K := (parse_key_frame s ctx set keyattr).elem_frame (parse_key_brk s ctx set keyattr)
    by_cases h3 : (nft_setelem_parse_key s ctx set keyattr).1 < 0
    · rw [if_pos h3]; exact DelStep.of_frame K
    rw [if_neg h3]
    have E := K.trans_elem (set_elem_init_elem_frame (nft_setelem_parse_key s ctx set keyattr).2.1
      set (nft_setelem_parse_key s ctx set keyattr).2.2 none none
      (nft_setelem_parse_flags (s.set set) nla.flags).2 0 0 none env)
    generalize nft_set_elem_init (nft_setelem_parse_key s ctx set keyattr).2.1 set
      (nft_setelem_parse_key s ctx set keyattr).2.2 none none
      (nft_setelem_parse_flags (s.set set) nla.flags).2 0 0 none env = e at E ⊢
    have R := E.trans_elem ((data_release_type_frame e.2
      (nft_setelem_parse_key s ctx set keyattr).2.2 NFT_DATA_VALUE).elem_frame
      (data_release_type_brk _ _ _))
    cases he : e.1 with
    | none => dsimp only; exact DelStep.of_frame R
    | some elem =>
      dsimp only
      by_cases h4 : (!env.trans_alloc_ok) = true
      · rw [if_pos h4]; exact DelStep.of_frame R
      rw [if_neg h4]
      obtain ⟨d1, d2, d3, d4, d5, d6⟩ := deactivate_step e.2 set elem
      cases hd : (set_ops_deactivate e.2 set elem).1 with
      | none =>
        dsimp only
        rw [d5 hd]
        exact DelStep.of_frame R
      | some priv =>
        dsimp only
        rw [add_tail_delsetelem _ _ rfl]
        obtain ⟨q1, q2, q3, q4⟩ := d6 priv hd
        have A := deact_elem_frame (set_ops_deactivate e.2 set elem).2 priv
        have AB := setelem_data_deactivate_brk (set_ops_deactivate e.2 set elem).2 priv
        generalize (set_ops_deactivate e.2 set elem).2 = D at d1 d2 d3 d4 q3 q4 A AB ⊢
        generalize nft_setelem_data_deactivate D priv = W at A AB ⊢
        have hrec : ∃ r : nft_trans, r =
            { msg_type := .DELSETELEM, ctx_table := ctx.table, ctx_chain := ctx.chain,
              set := set, elem := priv } := ⟨_, rfl⟩
        obtain ⟨r, hr⟩ := hrec
        rw [← hr]
        have hre : r.elem = priv := by rw [hr]
        have hrs : r.set = set := by rw [hr]
        clear hr
        refine DelStep.one_record r ?_ ?_ ?_ ?_ ?_ ?_ ?_
        · exact A.gencursor.trans (d1.trans E.gencursor)
        · show s.brk ≤ W.brk
          rw [AB, d2]; exact E.brk
        · show (W.set x).elems = (s.set x).elems
          rw [A.set, d3, E.set]
        · show W.commit_list ++ _ = _
          rw [A.commit_list, d4, E.commit_list]
        · intro p hp hne
          rw [hre] at hne
          show W.elem p = s.elem p
          rw [A.elem, q4 p hne]
          exact E.elem p hp
        · intro hx
          rw [hrs] at hx
          subst hx
          rw [E.set] at q1
          rw [hre]
          refine ⟨q1, ?_⟩
          rw [← elem_active_next_congr priv (E.elem priv (hb priv q1)) E.gencursor]
          exact q2
        · rw [hre]
          have : elem_active_next { W with commit_list := W.commit_list ++ [r] } priv =
              elem_active_next D priv :=
            elem_active_next_congr priv (by show W.elem priv = D.elem priv; rw [A.elem])
              (by show W.gencursor = D.gencursor; exact A.gencursor)
          rw [this]
          exact q3

theorem DelStep.of_elems {x : Ptr} {s s' : State} (hg : s'.gencursor = s.gencursor)
    (hbrk : s.brk ≤ s'.brk) (hel : (s'.set x).elems = (s.set x).elems)
    (hc : s'.commit_list = s.commit_list) (he : ∀ e, e < s.brk → s'.elem e = s.elem e) :
    DelStep x s s' := by
  refine ⟨hg, hbrk, hel, fun e h hi => ?_, [], ?_, List.nodup_nil, ?_⟩
  · rw [elem_active_next_congr e (he e h) hg]
    exact hi
  · rw [hc, List.append_nil]
  · intro e h
    cases h

theorem updSet_ndeact_elems (z : State) (p x : Ptr) (f : Nat → Nat) :
    ((z.updSet p (fun y => { y with ndeact := f y.ndeact })).set x).elems = (z.set x).elems := by
  by_cases h : x = p
  · subst h; rw [updSet_at]
  · rw [updSet_other _ _ _ _ h]

/-- The step `nft_flush_set` makes on an element that is active in the next generation,
seen from the set `x`. -/
theorem flush_set_step (ctx : nft_ctx) (set : Ptr) (env : FlushEnv) (s : State) (elem x : Ptr)
    (ha : elem_active_next s elem = true) (hm : set = x → elem ∈ (s.set x).elems) :
    DelStep x s (nft_flush_set ctx set env s elem).2 := by
  unfold nft_flush_set
  split
  · exact DelStep.refl_step x s
  · split
    · exact DelStep.refl_step x s
    · dsimp only
      rw [add_tail_delsetelem _ _ rfl]
      have A := deact_elem_frame ((set_elem_change_active s elem).updSet set (fun x =>
        { x with ndeact := (x.ndeact + 1) % 2 ^ 32 })) elem
      have AB := setelem_data_deactivate_brk ((set_elem_change_active s elem).updSet set
        (fun x => { x with ndeact := (x.ndeact + 1) % 2 ^ 32 })) elem
      have hel := updSet_ndeact_elems (set_elem_change_active s elem) set x
        (fun d => (d + 1) % 2 ^ 32)
      generalize nft_setelem_data_deactivate ((set_elem_change_active s elem).updSet set
        (fun x => { x with ndeact := (x.ndeact + 1) % 2 ^ 32 })) elem = W at A AB ⊢
      have hrec : ∃ r : nft_trans, r =
          { msg_type := .DELSETELEM, ctx_table := ctx.table, ctx_chain := ctx.chain,
            set := set, elem := elem } := ⟨_, rfl⟩
      obtain ⟨r, hr⟩ := hrec
      rw [← hr]
      have hre : r.elem = elem := by rw [hr]
      have hrs : r.set = set := by rw [hr]
      clear hr
      have hWe : W.elem = (set_elem_change_active s elem).elem := A.elem
      have hWg : W.gencursor = s.gencursor := A.gencursor
      refine DelStep.one_record r hWg ?_ ?_ ?_ ?_ ?_ ?_
      · show s.brk ≤ W.brk
        rw [AB]
        exact le_refl _
      · show (W.set x).elems = (s.set x).elems
        rw [A.set, hel]
        rfl
      · show W.commit_list ++ _ = _
        rw [A.commit_list]
        rfl
      · intro p _ hne
        rw [hre] at hne
        show W.elem p = s.elem p
        rw [hWe, change_active_elem, if_neg hne]
      · intro hx
        rw [hrs] at hx
        rw [hre]
        exact ⟨hm hx, ha⟩
      · rw [hre]
        have : elem_active_next { W with commit_list := W.commit_list ++ [r] } elem =
            elem_active_next (set_elem_change_active s elem) elem :=
          elem_active_next_congr elem (by show W.elem elem = _; rw [hWe]) hWg
        rw [this]
        exact change_active_inactive s elem ha

theorem walk_stop_step (ctx : nft_ctx) (set : Ptr) (env : FlushEnv) (x : Ptr) (g : Nat)
    (l : List Ptr) : ∀ s : State, g = nft_genmask_next s.gencursor →
    (∀ e ∈ (s.set x).elems, e < s.brk) → (set = x → ∀ e ∈ l, e ∈ (s.set x).elems) →
    DelStep x s (set_walk_stop (nft_flush_set ctx set env) g l s).2 := by
  induction l with
  | nil => intro s _ _ _; exact DelStep.refl_step x s
  | cons e es ih =>
    intro s hg hb hm
    unfold set_walk_stop
    by_cases ha : (!nft_active_genmask (s.elem e).genmask g) = true
    · rw [if_pos ha]
      exact ih s hg hb (fun hx p hp => hm hx p (List.mem_cons_of_mem _ hp))
    · rw [if_neg ha]
      have ha2 : elem_active_next s e = true := by
        unfold elem_active_next
        rw [← hg]
        simpa using ha
      have F := flush_set_step ctx set env s e x ha2 (fun hx => hm hx e (List.mem_cons_self _ _))
      split
      · exact F
      · refine DelStep.trans_step hb F (ih _ ?_ ?_ ?_)
        · rw [F.gencursor]; exact hg
        · intro p hp
          rw [F.elems] at hp
          exact lt_of_lt_of_le (hb p hp) F.brk
        · intro hx p hp
          rw [F.elems]
          exact hm hx p (List.mem_cons_of_mem _ hp)

theorem delsetelem_loop_step (ctx : nft_ctx) (set x : Ptr)
    (l : List (SetElemAttr × AddElemEnv)) : ∀ s : State,
    (∀ e ∈ (s.set x).elems, e < s.brk) → DelStep x s (delsetelem_loop ctx set l s).2 := by
  induction l with
  | nil => intro s _; exact DelStep.refl_step x s
  | cons a rest ih =>
    intro s hb
    have D := del_setelem_step ctx set a.1 a.2 s x hb
    unfold delsetelem_loop
    by_cases h : (nft_del_setelem ctx set a.1 a.2 s).1 < 0
    · rw [if_pos h]; exact D
    · rw [if_neg h]
      have hb1 : ∀ e ∈ ((nft_del_setelem ctx set a.1 a.2 s).2.set x).elems,
          e < (nft_del_setelem ctx set a.1 a.2 s).2.brk := by
        intro p hp
        rw [D.elems] at hp
        exact lt_of_lt_of_le (hb p hp) D.brk
      have U : DelStep x (nft_del_setelem ctx set a.1 a.2 s).2
          ((nft_del_setelem ctx set a.1 a.2 s).2.updSet set (fun x =>
            { x with ndeact := (x.ndeact + 1) % 2 ^ 32 })) :=
        DelStep.of_elems rfl (le_refl _)
          (updSet_ndeact_elems _ set x (fun d => (d + 1) % 2 ^ 32)) rfl (fun _ _ => rfl)
      refine DelStep.trans_step hb D (DelStep.trans_step hb1 U (ih _ ?_))
      intro p hp
      rw [U.elems] at hp
      exact lt_of_lt_of_le (hb1 p hp) U.brk

/-- The step `nf_tables_delsetelem` makes, seen from the set `x` whose elements are below
the allocation mark. -/
theorem delsetelem_step (ctx : nft_ctx) (set : Ptr)
    (attrs : Option (List (SetElemAttr × AddElemEnv))) (env : FlushEnv) (s : State) (x : Ptr)
    (hb : ∀ e ∈ (s.set x).elems, e < s.brk) :
    DelStep x s (nf_tables_delsetelem ctx set attrs env s).2 := by
  unfold nf_tables_delsetelem
  split
  · exact DelStep.refl_step x s
  · split
    · exact DelStep.refl_step x s
    · cases attrs with
      | none =>
        exact walk_stop_step ctx set env x _ _ s rfl hb (fun hx e he => by rw [← hx]; exact he)
      | some l => exact delsetelem_loop_step ctx set x l s hb

theorem commit_chain_brk (s : State) (chain : Ptr) :
    (nf_tables_commit_chain s chain).brk = s.brk := by
  unfold nf_tables_commit_chain nf_tables_commit_chain_free_rules_old
  dsimp only
  cases (s.chain chain).rules_next <;> dsimp only <;>
    cases (nft_gencursor_next s.gencursor != 0) <;>
    by_cases h01 : (s.chain chain).rules_gen_0 = (s.chain chain).rules_gen_1 <;>
    simp only [h01, if_true, if_false, Bool.false_eq_true] <;> rfl

theorem commit_chain_fold_brk (cs : List Ptr) : ∀ s : State,
    (cs.foldl nf_tables_commit_chain s).brk = s.brk := by
  induction cs with
  | nil => intro s; rfl
  | cons c cs ih =>
    intro s
    rw [List.foldl_cons]
    exact (ih _).trans (commit_chain_brk s c)

theorem commit_publish_brk (s : State) : (commit_publish s).2.brk = s.brk := by
  have gen : ∀ (ts : List Ptr) (s0 : State),
      (ts.foldl (fun s1 t => (s1.table t).chains.foldl nf_tables_commit_chain s1) s0).brk =
        s0.brk := by
    intro ts
    induction ts with
    | nil => intro s0; rfl
    | cons t ts ih =>
      intro s0
      rw [List.foldl_cons]
      exact (ih _).trans (commit_chain_fold_brk _ s0)
  unfold commit_publish nft_gc_seq_begin commit_publish_chains
  exact gen _ s

theorem prepare_loop_elem_recs (alloc : Ptr → Kvmalloc) (L : List nft_trans) : ∀ s : State,
    ElemRecs L → commit_prepare_loop alloc L s = (0, s) := by
  induction L with
  | nil => intro s _; rfl
  | cons r L ih =>
    intro s hL
    obtain ⟨hr, hL2⟩ := elem_recs_cons hL
    unfold commit_prepare_loop
    have hn : ¬ (r.msg_type = .NEWRULE ∨ r.msg_type = .DELRULE) := by
      rcases hr with h | h <;> rw [h] <;> simp
    rw [if_neg hn]
    exact ih s hL2

/-- The elements of the set `x` and the allocation mark after committing one record of
a set element. -/
theorem commit_one_elems (s : State) (r : nft_trans) (x : Ptr)
    (h : r.msg_type = .NEWSETELEM ∨ r.msg_type = .DELSETELEM) :
    (commit_one s r).1.brk = s.brk ∧
    ((commit_one s r).1.set x).elems =
      if r.msg_type = .DELSETELEM ∧ r.set = x then (s.set x).elems.erase r.elem
      else (s.set x).elems := by
  unfold commit_one
  rcases h with h | h
  · rw [h]
    dsimp only [set_elem_change_active, State.updElem]
    exact ⟨rfl, (if_neg (fun e => by cases e.1)).symm⟩
  · rw [h]
    dsimp only
    refine ⟨rfl, ?_⟩
    unfold set_ops_remove
    by_cases hx : r.set = x
    · subst hx
      rw [if_pos ⟨rfl, rfl⟩, updSet_at, updSet_at]
    · rw [if_neg (fun e => hx e.2), updSet_other _ _ _ _ (fun e => hx e.symm),
        updSet_other _ _ _ _ (fun e => hx e.symm)]

/-- The elements of the set `x` and the allocation mark after undoing one record of a
set element. -/
theorem abort_one_elems (s : State) (r : nft_trans) (x : Ptr)
    (h : r.msg_type = .NEWSETELEM ∨ r.msg_type = .DELSETELEM) :
    (abort_one s r).1.brk = s.brk ∧
    ((abort_one s r).1.set x).elems =
      if r.msg_type = .NEWSETELEM ∧ r.set = x ∧ r.set_bound = false then
        (s.set x).elems.erase r.elem
      else (s.set x).elems := by
  unfold abort_one
  rcases h with h | h
  · rw [h]
    dsimp only
    by_cases hb : r.set_bound = true
    · rw [if_pos hb]
      exact ⟨rfl, (if_neg (fun e => by rw [hb] at e; cases e.2.2)).symm⟩
    · rw [if_neg hb]
      have hb2 : r.set_bound = false := by simpa using hb
      refine ⟨rfl, ?_⟩
      unfold set_ops_remove
      by_cases hx : r.set = x
      · subst hx
        rw [if_pos ⟨rfl, rfl, hb2⟩, updSet_at, updSet_at]
      · rw [if_neg (fun e => hx e.2.1), updSet_other _ _ _ _ (fun e => hx e.symm),
          updSet_other _ _ _ _ (fun e => hx e.symm)]
  · rw [h]
    dsimp only
    have F := act_elem_frame s r.elem
    have FB := setelem_data_activate_brk s r.elem
    refine ⟨FB, ?_⟩
    rw [if_neg (fun e => by cases e.1)]
    have e1 := updSet_ndeact_elems (set_elem_change_active (nft_setelem_data_activate s r.elem)
      r.elem) r.set x (fun d => (d + 2 ^ 32 - 1) % 2 ^ 32)
    refine e1.trans ?_
    show ((nft_setelem_data_activate s r.elem).set x).elems = (s.set x).elems
    rw [F.set]

theorem nodup_erase_facts (l : List Ptr) (e : Ptr) (hn : l.Nodup) (he : e ∈ l) :
    (l.erase e).Nodup ∧ (∀ a ∈ l.erase e, a ∈ l ∧ a ≠ e) ∧ (l.erase e).length + 1 = l.length := by
  refine ⟨hn.erase e, fun a ha => ?_, ?_⟩
  · exact ⟨List.mem_of_mem_erase ha, fun h => by
      subst h
      exact (List.Nodup.not_mem_erase hn) ha⟩
  · rw [List.length_erase_of_mem he]
    have := List.length_pos_of_mem he
    omega

/-- The elements of the set `x` after the record loop of `nf_tables_commit` over
records of set elements: the elements the records delete, distinct elements of the set,
have left it. -/
theorem commit_loop_elems (x : Ptr) (L : List nft_trans) : ∀ s : State, ElemRecs L →
    (del_elems x L).Nodup → (∀ e ∈ del_elems x L, e ∈ (s.set x).elems) →
    (s.set x).elems.Nodup →
    (commit_loop L s).1.brk = s.brk ∧ ((commit_loop L s).1.set x).elems.Nodup ∧
    (∀ e ∈ ((commit_loop L s).1.set x).elems, e ∈ (s.set x).elems) ∧
    ((commit_loop L s).1.set x).elems.length + pend_del x L = (s.set x).elems.length := by
  induction L with
  | nil =>
    intro s _ _ _ hn
    exact ⟨rfl, hn, fun _ h => h, rfl⟩
  | cons r L ih =>
    intro s hL hd hm hn
    obtain ⟨hr, hL2⟩ := elem_recs_cons hL
    obtain ⟨b1, e1⟩ := commit_one_elems s r x hr
    rw [del_elems_cons] at hd hm
    unfold commit_loop
    dsimp only
    rw [pend_del_cons]
    by_cases hc : r.msg_type = .DELSETELEM ∧ r.set = x
    · rw [if_pos hc] at e1 hd hm ⊢
      have hin : r.elem ∈ (s.set x).elems := hm _ (List.mem_append_left _ (List.mem_singleton_self _))
      obtain ⟨f1, f2, f3⟩ := nodup_erase_facts _ _ hn hin
      have hd2 : (del_elems x L).Nodup := (List.nodup_append.mp hd).2.1
      have hdis : r.elem ∉ del_elems x L := fun h =>
        (List.nodup_append.mp hd).2.2 (List.mem_singleton_self _) h
      obtain ⟨i1, i2, i3, i4⟩ := ih (commit_one s r).1 hL2 hd2 (fun e he => by
        rw [e1]
        refine (List.mem_erase_of_ne ?_).mpr (hm e (List.mem_append_right _ he))
        intro h
        subst h
        exact hdis he) (by rw [e1]; exact f1)
      refine ⟨i1.trans b1, i2, fun e he => ?_, ?_⟩
      · have := i3 e he
        rw [e1] at this
        exact (f2 e this).1
      · rw [e1] at i4
        omega
    · rw [if_neg hc] at e1 hd hm ⊢
      rw [List.nil_append] at hd hm
      obtain ⟨i1, i2, i3, i4⟩ := ih (commit_one s r).1 hL2 hd (fun e he => by
        rw [e1]; exact hm e he) (by rw [e1]; exact hn)
      rw [e1] at i3 i4
      exact ⟨i1.trans b1, i2, i3, by omega⟩

/-- The elements of the set `x` after the record loop of `__nf_tables_abort` over
records of set elements: the elements the records added, distinct elements of the set,
have left it. -/
theorem abort_loop_elems (x : Ptr) (L : List nft_trans) : ∀ s : State, ElemRecs L →
    (new_elems x L).Nodup → (∀ e ∈ new_elems x L, e ∈ (s.set x).elems) →
    (s.set x).elems.Nodup →
    (abort_loop L s).brk = s.brk ∧ ((abort_loop L s).set x).elems.Nodup ∧
    (∀ e ∈ ((abort_loop L s).set x).elems, e ∈ (s.set x).elems) ∧
    ((abort_loop L s).set x).elems.length + pend_new x L = (s.set x).elems.length := by
  induction L with
  | nil =>
    intro s _ _ _ hn
    exact ⟨rfl, hn, fun _ h => h, rfl⟩
  | cons r L ih =>
    intro s hL hd hm hn
    obtain ⟨hr, hL2⟩ := elem_recs_cons hL
    obtain ⟨b1, e1⟩ := abort_one_elems s r x hr
    rw [new_elems_cons] at hd hm
    unfold abort_loop
    rw [pend_new_cons]
    by_cases hc : r.msg_type = .NEWSETELEM ∧ r.set = x ∧ r.set_bound = false
    · rw [if_pos hc] at e1 hd hm ⊢
      have hin : r.elem ∈ (s.set x).elems := hm _ (List.mem_append_left _ (List.mem_singleton_self _))
      obtain ⟨f1, f2, f3⟩ := nodup_erase_facts _ _ hn hin
      have hd2 : (new_elems x L).Nodup := (List.nodup_append.mp hd).2.1
      have hdis : r.elem ∉ new_elems x L := fun h =>
        (List.nodup_append.mp hd).2.2 (List.mem_singleton_self _) h
      obtain ⟨i1, i2, i3, i4⟩ := ih (abort_one s r).1 hL2 hd2 (fun e he => by
        rw [e1]
        refine (List.mem_erase_of_ne ?_).mpr (hm e (List.mem_append_right _ he))
        intro h
        subst h
        exact hdis he) (by rw [e1]; exact f1)
      refine ⟨i1.trans b1, i2, fun e he => ?_, ?_⟩
      · have := i3 e he
        rw [e1] at this
        exact (f2 e this).1
      · rw [e1] at i4
        omega
    · rw [if_neg hc] at e1 hd hm ⊢
      rw [List.nil_append] at hd hm
      obtain ⟨i1, i2, i3, i4⟩ := ih (abort_one s r).1 hL2 hd (fun e he => by
        rw [e1]; exact hm e he) (by rw [e1]; exact hn)
      rw [e1] at i3 i4
      exact ⟨i1.trans b1, i2, i3, by omega⟩

theorem set_elem_destroy_brk (z : State) (e : Ptr) : (nft_set_elem_destroy z e).brk = z.brk := by
  unfold nft_set_elem_destroy
  dsimp only
  split <;> split <;> first | rfl | exact data_release_brk _ _

theorem abort_release_brk (z : State) (t : nft_trans) :
    (nf_tables_abort_release z t).brk = z.brk := by
  unfold nf_tables_abort_release
  cases t.msg_type <;> simp only
  all_goals first
    | rfl
    | exact set_elem_destroy_brk z _
    | (unfold nf_tables_chain_destroy; split <;> rfl)

theorem abort_release_loop_brk (L : List nft_trans) : ∀ z : State,
    (L.foldl nf_tables_abort_release z).brk = z.brk := by
  induction L with
  | nil => intro z; rfl
  | cons t ts ih =>
    intro z
    exact (ih _).trans (abort_release_brk z t)

theorem new_elems_reverse (x : Ptr) (L : List nft_trans) :
    new_elems x L.reverse = (new_elems x L).reverse := by
  unfold new_elems
  rw [List.filter_reverse, List.map_reverse]

theorem commit_release_brk (s : State) : (nf_tables_commit_release s).brk = s.brk := by
  unfold nf_tables_commit_release
  cases s.commit_list.getLast? <;> rfl

/-- The elements of the set `x` after `nf_tables_commit` of a list of records of set
elements: either the state differs from the one before in the validation state and the
warning flag at most, or the commit list is empty and the elements the records delete
have left the set. -/
theorem commit_elems (env : CommitEnv) (s : State) (x : Ptr) (hL : ElemRecs s.commit_list)
    (hd : (del_elems x s.commit_list).Nodup)
    (hm : ∀ e ∈ del_elems x s.commit_list, e ∈ (s.set x).elems)
    (hn : (s.set x).elems.Nodup) :
    ((nf_tables_commit env s).2.commit_list = s.commit_list ∧
      (nf_tables_commit env s).2.gencursor = s.gencursor ∧
      (nf_tables_commit env s).2.set = s.set ∧ (nf_tables_commit env s).2.elem = s.elem ∧
      (nf_tables_commit env s).2.brk = s.brk) ∨
    (s.commit_list ≠ [] ∧ (nf_tables_commit env s).2.commit_list = [] ∧
      (nf_tables_commit env s).2.brk = s.brk ∧
      ((nf_tables_commit env s).2.set x).elems.Nodup ∧
      (∀ e ∈ ((nf_tables_commit env s).2.set x).elems, e ∈ (s.set x).elems) ∧
      ((nf_tables_commit env s).2.set x).elems.length + pend_del x s.commit_list =
        (s.set x).elems.length) := by
  obtain ⟨⟨vs, w, hv⟩, _, _⟩ := nf_tables_validate_spec s
  unfold nf_tables_commit
  by_cases h0 : s.commit_list = []
  · rw [if_pos h0]
    exact Or.inl ⟨rfl, rfl, rfl, rfl, rfl⟩
  rw [if_neg h0]
  by_cases h1 : commit_unbound_anon s = true
  · rw [if_pos h1]
    exact Or.inl ⟨rfl, rfl, rfl, rfl, rfl⟩
  rw [if_neg h1]
  dsimp only
  by_cases h2 : (nf_tables_validate s).1 < 0
  · rw [if_pos h2, hv]
    exact Or.inl ⟨rfl, rfl, rfl, rfl, rfl⟩
  rw [if_neg h2]
  by_cases h3 : env.offload < 0
  · rw [if_pos h3, hv]
    exact Or.inl ⟨rfl, rfl, rfl, rfl, rfl⟩
  rw [if_neg h3]
  have hvl : (nf_tables_validate s).2.commit_list = s.commit_list := by rw [hv]
  have hvs : (nf_tables_validate s).2.set = s.set := by rw [hv]
  have hvb : (nf_tables_validate s).2.brk = s.brk := by rw [hv]
  generalize (nf_tables_validate s).2 = v at hvl hvs hvb ⊢
  rw [prepare_loop_elem_recs env.alloc v.commit_list v (hvl ▸ hL)]
  dsimp only
  rw [if_neg (by decide)]
  right
  have hpub := (commit_publish_array_frame v).1
  have hpb := commit_publish_brk v
  have hlist : (commit_publish v).2.commit_list = s.commit_list := hpub.commit_list.trans hvl
  have hset : (commit_publish v).2.set = s.set := hpub.set.trans hvs
  generalize commit_publish v = pub at hlist hset hpb ⊢
  obtain ⟨a1, a2, a3, a4⟩ := commit_loop_elems x pub.2.commit_list pub.2 (hlist ▸ hL)
    (by rw [hlist]; exact hd) (by rw [hlist, hset]; exact hm) (by rw [hset]; exact hn)
  have hr := commit_release_keeps (nft_gc_seq_end
    { (commit_loop pub.2.commit_list pub.2).1 with
      commit_list := (commit_loop pub.2.commit_list pub.2).2 } pub.1)
  have hrb := commit_release_brk (nft_gc_seq_end
    { (commit_loop pub.2.commit_list pub.2).1 with
      commit_list := (commit_loop pub.2.commit_list pub.2).2 } pub.1)
  rw [hr.1, hr.2, hrb]
  have hpd : pend_del x pub.2.commit_list = pend_del x s.commit_list := by rw [hlist]
  rw [hset] at a3 a4
  rw [hpd] at a4
  refine ⟨h0, rfl, ?_, a2, a3, a4⟩
  show (commit_loop pub.2.commit_list pub.2).1.brk = s.brk
  rw [a1, hpb, hvb]

/-- The elements of the set `x` after `nf_tables_abort` of a list of records of set
elements: the elements the records added have left the set. -/
theorem abort_elems (av : Bool) (s : State) (x : Ptr) (hL : ElemRecs s.commit_list)
    (hd : (new_elems x s.commit_list).Nodup)
    (hm : ∀ e ∈ new_elems x s.commit_list, e ∈ (s.set x).elems)
    (hn : (s.set x).elems.Nodup) :
    (nf_tables_abort av s).2.brk = s.brk ∧
    ((nf_tables_abort av s).2.set x).elems.Nodup ∧
    (∀ e ∈ ((nf_tables_abort av s).2.set x).elems, e ∈ (s.set x).elems) ∧
    ((nf_tables_abort av s).2.set x).elems.length + pend_new x s.commit_list =
      (s.set x).elems.length := by
  have key : ∀ v : State, v.commit_list = s.commit_list → v.set = s.set → v.brk = s.brk →
      ((abort_left v.commit_list.reverse v).foldl nf_tables_abort_release
        (abort_loop v.commit_list.reverse v)).brk = s.brk ∧
      (((abort_left v.commit_list.reverse v).foldl nf_tables_abort_release
        (abort_loop v.commit_list.reverse v)).set x).elems.Nodup ∧
      (∀ e ∈ (((abort_left v.commit_list.reverse v).foldl nf_tables_abort_release
        (abort_loop v.commit_list.reverse v)).set x).elems, e ∈ (s.set x).elems) ∧
      (((abort_left v.commit_list.reverse v).foldl nf_tables_abort_release
        (abort_loop v.commit_list.reverse v)).set x).elems.length + pend_new x s.commit_list =
        (s.set x).elems.length := by
    intro v hc hs hb
    have R := abort_release_loop_frame (abort_left v.commit_list.reverse v)
      (abort_loop v.commit_list.reverse v)
    have RB := abort_release_loop_brk (abort_left v.commit_list.reverse v)
      (abort_loop v.commit_list.reverse v)
    obtain ⟨a1, a2, a3, a4⟩ := abort_loop_elems x v.commit_list.reverse v
      (elem_recs_reverse _ (hc ▸ hL))
      (by rw [new_elems_reverse, hc]; exact List.nodup_reverse.mpr hd)
      (by
        intro e he
        rw [new_elems_reverse, hc] at he
        rw [hs]
        exact hm e (List.mem_reverse.mp he))
      (by rw [hs]; exact hn)
    have hp : pend_new x v.commit_list.reverse = pend_new x s.commit_list := by
      rw [pend_new_reverse, hc]
    rw [hp] at a4
    rw [hs] at a3 a4
    rw [R.set, RB]
    exact ⟨a1.trans hb, a2, a3, a4⟩
  obtain ⟨⟨vs, w, hv⟩, _, _⟩ := nf_tables_validate_spec (nft_gc_seq_begin s).2
  unfold nf_tables_abort nft_gc_seq_end __nf_tables_abort
  dsimp only
  cases av
  · exact key (nft_gc_seq_begin s).2 rfl rfl rfl
  · simp only [if_true]
    refine key _ ?_ ?_ ?_ <;> rw [hv] <;> rfl

theorem nodup_subset_length {l m : List Ptr} (hn : l.Nodup) (hs : ∀ e ∈ l, e ∈ m) :
    l.length ≤ m.length :=
  (List.Nodup.subperm hn hs).length_le

theorem ElemInv.ndeact_le {x : Ptr} {s : State} (h : ElemInv x s) :
    (s.set x).ndeact ≤ (s.set x).elems.length := by
  rw [h.ndeact, ← del_elems_length]
  exact nodup_subset_length h.del_nodup (fun e he => (h.del_mem e he).1)

theorem append_singleton_ne {α : Type} (l : List α) (a : α) : l ++ [a] ≠ l := by
  intro h
  have := congrArg List.length h
  simp at this

theorem elem_inv_add (x : Ptr) (s : State) (ctx : nft_ctx) (set : Ptr) (nla : SetElemAttr)
    (nlmsg_flags : Nat) (env : AddElemEnv) (h : ElemInv x s)
    (hsmall : ((nft_add_set_elem ctx set nla nlmsg_flags env s).2.set x).elems.length < 2 ^ 31) :
    ElemInv x (nft_add_set_elem ctx set nla nlmsg_flags env s).2 := by
  obtain ⟨hg, hsd, hc⟩ := add_set_elem_counts ctx set nla nlmsg_flags env s
  obtain ⟨b1, b2, he⟩ := add_set_elem_elems ctx set nla nlmsg_flags env s x h.below
  have hact : ∀ e, e < s.brk →
      elem_active_next (nft_add_set_elem ctx set nla nlmsg_flags env s).2 e =
        elem_active_next s e := fun e he => elem_active_next_congr e (b2 e he) hg
  generalize nft_add_set_elem ctx set nla nlmsg_flags env s = R at hg hsd hc b1 b2 he hact hsmall ⊢
  rcases he with ⟨hcl, hel⟩ | ⟨hcl, hbk, hel⟩
  · have hn : (R.2.set x).nelems = (s.set x).nelems := by
      rcases hc with ⟨_, hn⟩ | ⟨_, hcl2, _, _⟩
      · exact hn x
      · rw [hcl] at hcl2
        exact absurd hcl2.symm (append_singleton_ne _ _)
    refine ⟨by rw [hcl]; exact h.recs, by rw [(hsd x).1]; exact h.size_pos,
      by rw [(hsd x).1]; exact h.size_u32, by rw [hel]; exact h.nodup, ?_,
      by rw [hn, hel]; exact h.count, by rw [hel]; exact h.small,
      by rw [(hsd x).2, hcl]; exact h.ndeact, by rw [hcl]; exact h.del_nodup, ?_,
      by rw [hcl]; exact h.new_nodup, by rw [hcl, hel]; exact h.new_mem,
      by rw [hel, (hsd x).1, (hsd x).2]; exact h.limit,
      by rw [hel, (hsd x).1, hcl]; exact h.base⟩
    · intro e he
      rw [hel] at he
      exact lt_of_lt_of_le (h.below e he) b1
    · intro e he
      rw [hcl] at he
      obtain ⟨m1, m2⟩ := h.del_mem e he
      rw [hel]
      exact ⟨m1, by rw [hact e (h.below e m1)]; exact m2⟩
  · obtain ⟨hn, hlim⟩ : (R.2.set x).nelems =
        (s.set x).nelems + (if x = set ∧ (s.set x).size ≠ 0 then 1 else 0) ∧
        ((s.set set).size ≠ 0 → (s.set set).nelems ≠ set_elem_limit (s.set set)) := by
      rcases hc with ⟨hcl2, _⟩ | ⟨_, _, hn, hlim⟩
      · rw [hcl] at hcl2
        exact absurd hcl2 (append_singleton_ne _ _)
      · exact ⟨hn x, hlim⟩
    have hfresh : s.brk ∉ (s.set x).elems := fun hm => Nat.lt_irrefl _ (h.below _ hm)
    have hdel : del_elems x R.2.commit_list = del_elems x s.commit_list := by
      rw [hcl, del_elems_append, del_elems_single, if_neg (fun e => by cases e.1),
        List.append_nil]
    have hpd : pend_del x R.2.commit_list = pend_del x s.commit_list := by
      rw [← del_elems_length, hdel, del_elems_length]
    have hnew : new_elems x R.2.commit_list =
        new_elems x s.commit_list ++ (if x = set then [s.brk] else []) := by
      rw [hcl, new_elems_append, new_elems_single]
      by_cases hx : x = set
      · subst hx
        rw [if_pos ⟨rfl, rfl, rfl⟩, if_pos rfl]
      · rw [if_neg (fun e => hx e.2.1.symm), if_neg hx]
    have hpn : pend_new x R.2.commit_list =
        pend_new x s.commit_list + (if x = set then 1 else 0) := by
      rw [← new_elems_length, hnew, List.length_append, new_elems_length]
      split <;> rfl
    have hlen : (R.2.set x).elems.length =
        (s.set x).elems.length + (if x = set then 1 else 0) := by
      rw [hel, List.length_append]
      split <;> rfl
    refine ⟨?_, by rw [(hsd x).1]; exact h.size_pos, by rw [(hsd x).1]; exact h.size_u32, ?_, ?_,
      ?_, hsmall, by rw [(hsd x).2, hpd]; exact h.ndeact, by rw [hdel]; exact h.del_nodup, ?_,
      ?_, ?_, ?_, ?_⟩
    · rw [hcl]
      exact elem_recs_append h.recs (fun r hr => Or.inl (by rw [List.mem_singleton.mp hr]))
    · rw [hel]
      by_cases hx : x = set
      · rw [if_pos hx]
        exact List.Nodup.append h.nodup (List.nodup_singleton _) (by
          intro e he1 he2
          rw [List.mem_singleton.mp he2] at he1
          exact hfresh he1)
      · rw [if_neg hx, List.append_nil]
        exact h.nodup
    · intro e he
      rw [hel] at he
      rcases List.mem_append.mp he with he | he
      · exact lt_trans (h.below e he) hbk
      · by_cases hx : x = set
        · rw [if_pos hx] at he
          rw [List.mem_singleton.mp he]
          exact hbk
        · rw [if_neg hx] at he
          cases he
    · rw [hn, hlen, h.count]
      by_cases hx : x = set
      · rw [if_pos ⟨hx, h.size_pos⟩, if_pos hx]
        push_cast
        rfl
      · rw [if_neg (fun e => hx e.1), if_neg hx]
        push_cast
        rfl
    · intro e he
      rw [hdel] at he
      obtain ⟨m1, m2⟩ := h.del_mem e he
      refine ⟨by rw [hel]; exact List.mem_append_left _ m1, ?_⟩
      rw [hact e (h.below e m1)]
      exact m2
    · rw [hnew]
      by_cases hx : x = set
      · rw [if_pos hx]
        exact List.Nodup.append h.new_nodup (List.nodup_singleton _) (by
          intro e he1 he2
          rw [List.mem_singleton.mp he2] at he1
          exact hfresh (h.new_mem _ he1))
      · rw [if_neg hx, List.append_nil]
        exact h.new_nodup
    · intro e he
      rw [hnew] at he
      rw [hel]
      rcases List.mem_append.mp he with he | he
      · exact List.mem_append_left _ (h.new_mem e he)
      · exact List.mem_append_right _ he
    · rw [hlen, (hsd x).1, (hsd x).2]
      have l0 := h.limit
      by_cases hx : x = set
      · rw [if_pos hx]
        subst hx
        have hne := hlim h.size_pos
        have hsm := h.small
        have hc0 := h.count
        by_contra hcon
        have heq : (s.set x).elems.length = (s.set x).size + (s.set x).ndeact := by omega
        apply hne
        rw [set_elem_limit_small _ (by omega), hc0, heq]
        push_cast
        rfl
      · rw [if_neg hx]
        exact l0
    · rw [hlen, (hsd x).1, hpn]
      have := h.base
      omega

theorem elem_inv_del (x : Ptr) (s s' : State) (h : ElemInv x s) (hd : DelEffect s s')
    (hs : DelStep x s s') : ElemInv x s' := by
  obtain ⟨L, hc, ht, hx⟩ := hd
  obtain ⟨a1, a2, a3⟩ := hx x
  obtain ⟨L2, hc2, n2, m2⟩ := hs.recs
  have hLL : L2 = L := List.append_cancel_left (hc2.symm.trans hc)
  subst hLL
  have hdel : del_elems x s'.commit_list = del_elems x s.commit_list ++ del_elems x L2 := by
    rw [hc, del_elems_append]
  have hnew : new_elems x s'.commit_list = new_elems x s.commit_list := by
    rw [hc, new_elems_append, new_elems_dels x L2 ht, List.append_nil]
  have hpn : pend_new x s'.commit_list = pend_new x s.commit_list := by
    rw [← new_elems_length, hnew, new_elems_length]
  have hnd : (del_elems x s'.commit_list).Nodup := by
    rw [hdel]
    refine List.Nodup.append h.del_nodup n2 ?_
    intro e he1 he2
    have q1 := (h.del_mem e he1).2
    have q2 := (m2 e he2).2.1
    rw [q1] at q2
    cases q2
  have hmem : ∀ e ∈ del_elems x s'.commit_list,
      e ∈ (s'.set x).elems ∧ elem_active_next s' e = false := by
    intro e he
    rw [hdel] at he
    rw [hs.elems]
    rcases List.mem_append.mp he with he | he
    · obtain ⟨q1, q2⟩ := h.del_mem e he
      exact ⟨q1, hs.keep e (h.below e q1) q2⟩
    · obtain ⟨q1, _, q3⟩ := m2 e he
      exact ⟨q1, q3⟩
  have hle : pend_del x s'.commit_list ≤ (s.set x).elems.length := by
    rw [← del_elems_length]
    refine nodup_subset_length hnd (fun e he => ?_)
    have := (hmem e he).1
    rw [hs.elems] at this
    exact this
  have hpd : pend_del x s'.commit_list = pend_del x s.commit_list + pend_del x L2 := by
    rw [hc, pend_del_append]
  have hsm := h.small
  have e : (s'.set x).ndeact = (s.set x).ndeact + pend_del x L2 := by
    rw [a3]
    refine u32_inc_small _ _ ?_
    rw [h.ndeact]
    omega
  refine ⟨?_, by rw [a1]; exact h.size_pos, by rw [a1]; exact h.size_u32,
    by rw [hs.elems]; exact h.nodup, ?_, by rw [a2, hs.elems]; exact h.count,
    by rw [hs.elems]; exact hsm, by rw [e, hpd, h.ndeact], hnd, hmem,
    by rw [hnew]; exact h.new_nodup, by rw [hnew, hs.elems]; exact h.new_mem, ?_, ?_⟩
  · rw [hc]
    exact elem_recs_append h.recs (fun r hr => Or.inr (ht r hr))
  · intro p hp
    rw [hs.elems] at hp
    exact lt_of_lt_of_le (h.below p hp) hs.brk
  · rw [hs.elems, a1, e]
    have := h.limit
    omega
  · rw [hs.elems, a1, hpn]
    exact h.base

theorem elem_inv_commit (x : Ptr) (s : State) (env : CommitEnv) (h : ElemInv x s) :
    ElemInv x (nf_tables_commit env s).2 := by
  have hnd := h.ndeact_le
  have hsm := h.small
  rcases commit_elems env s x h.recs h.del_nodup (fun e he => (h.del_mem e he).1) h.nodup with
    ⟨c1, c2, c3, c4, c5⟩ | ⟨hne, c1, c2, c3, c4, c5⟩
  · have hact : ∀ e, elem_active_next (nf_tables_commit env s).2 e = elem_active_next s e :=
      fun e => elem_active_next_congr e (by rw [c4]) c2
    exact ⟨by rw [c1]; exact h.recs, by rw [c3]; exact h.size_pos, by rw [c3]; exact h.size_u32,
      by rw [c3]; exact h.nodup, by rw [c3, c5]; exact h.below, by rw [c3]; exact h.count,
      by rw [c3]; exact h.small, by rw [c3, c1]; exact h.ndeact, by rw [c1]; exact h.del_nodup,
      by rw [c1, c3]; exact fun e he => ⟨(h.del_mem e he).1, by rw [hact]; exact (h.del_mem e he).2⟩,
      by rw [c1]; exact h.new_nodup, by rw [c1, c3]; exact h.new_mem,
      by rw [c3]; exact h.limit, by rw [c3, c1]; exact h.base⟩
  · rcases commit_counts env s x h.recs with ⟨d1, _⟩ | ⟨_, a1, a2, a3⟩
    · rw [c1] at d1
      exact absurd d1.symm hne
    · have a4 := a3 (by rw [h.ndeact]) (by omega)
      have hl := h.limit
      have hdd := h.ndeact
      have hcc := h.count
      refine ⟨by rw [c1]; exact fun r hr => (by cases hr), by rw [a1]; exact h.size_pos,
        by rw [a1]; exact h.size_u32, c3, ?_, ?_, by omega, ?_,
        by rw [c1]; exact List.nodup_nil, by rw [c1]; exact fun e he => (by cases he),
        by rw [c1]; exact List.nodup_nil, by rw [c1]; exact fun e he => (by cases he), ?_, ?_⟩
      · intro e he
        rw [c2]
        exact h.below e (c4 e he)
      · rw [a2, hcc]
        have : (s.set x).elems.length =
            ((nf_tables_commit env s).2.set x).elems.length + pend_del x s.commit_list := c5.symm
        rw [this]
        push_cast
        omega
      · rw [a4, c1, pend_del_nil]
        omega
      · rw [a1, a4]
        omega
      · rw [a1, c1, pend_new_nil]
        omega

theorem elem_inv_abort (x : Ptr) (s : State) (av : Bool) (h : ElemInv x s) :
    ElemInv x (nf_tables_abort av s).2 := by
  have hnd := h.ndeact_le
  have hsm := h.small
  obtain ⟨c2, c3, c4, c5⟩ := abort_elems av s x h.recs h.new_nodup h.new_mem h.nodup
  obtain ⟨c1, a1, a2, a3⟩ := abort_full_counts av s x h.recs
  have a4 := a3 (by rw [h.ndeact]) (by omega)
  have hl := h.base
  have hdd := h.ndeact
  have hcc := h.count
  refine ⟨by rw [c1]; exact fun r hr => (by cases hr), by rw [a1]; exact h.size_pos,
    by rw [a1]; exact h.size_u32, c3, ?_, ?_, by omega, ?_,
    by rw [c1]; exact List.nodup_nil, by rw [c1]; exact fun e he => (by cases he),
    by rw [c1]; exact List.nodup_nil, by rw [c1]; exact fun e he => (by cases he), ?_, ?_⟩
  · intro e he
    rw [c2]
    exact h.below e (c4 e he)
  · rw [a2, hcc]
    have : (s.set x).elems.length =
        ((nf_tables_abort av s).2.set x).elems.length + pend_new x s.commit_list := c5.symm
    rw [this]
    push_cast
    omega
  · rw [a4, c1, pend_del_nil]
    omega
  · rw [a1, a4]
    omega
  · rw [a1, c1, pend_new_nil]
    omega

theorem elem_reach_inv (x : Ptr) (s : State) (h : ElemReach x s) : ElemInv x s := by
  induction h with
  | init s hc hs hu hd hn hb hcnt hle hsm =>
    refine ⟨by rw [hc]; exact fun r hr => (by cases hr), hs, hu, hn, hb, hcnt, hsm,
      by rw [hd, hc, pend_del_nil], by rw [hc]; exact List.nodup_nil,
      by rw [hc]; exact fun e he => (by cases he), by rw [hc]; exact List.nodup_nil,
      by rw [hc]; exact fun e he => (by cases he), by omega, by omega⟩
  | add s ctx set nla nlmsg_flags env _ hsm ih =>
    exact elem_inv_add x s ctx set nla nlmsg_flags env ih hsm
  | del s ctx set attrs env _ ih =>
    exact elem_inv_del x s _ ih (delsetelem_effect ctx set attrs env s)
      (delsetelem_step ctx set attrs env s x ih.below)
  | commit s env _ ih => exact elem_inv_commit x s env ih
  | abort s av _ ih => exact elem_inv_abort x s av ih

/-- Under the invariant the limit `atomic_add_unless` compares `nelems` with, the sum of
the two `u32` converted to `int`, is equal to `nelems` exactly when `nelems` is
`size + ndeact`. -/
theorem elem_inv_limit_iff (x : Ptr) (s : State) (h : ElemInv x s) :
    (s.set x).nelems = set_elem_limit (s.set x) ↔
      (s.set x).nelems = ((s.set x).size : Int) + (s.set x).ndeact := by
  have h1 := h.ndeact_le
  have h2 := h.small
  have h3 := h.size_u32
  have h4 := h.count
  rw [h4]
  unfold set_elem_limit
  split <;> omega

/-- C13: for a set with a size limit, any `u32` but zero, in every state reachable by
staging additions (`nft_add_set_elem`) and deletions (`nf_tables_delsetelem`) of set
elements, `nf_tables_commit` and `nf_tables_abort` (from a state with an empty commit
list in which the set has no pending deletion and `nelems`, the number of its elements,
is at most `size`; the set holds fewer than `2 ^ 31` elements at any time, the range of
the counter), `nelems` is the number of elements of the set and `nelems ≤ size + ndeact`.
In such a state a call of `nft_add_set_elem` that has built its element and inserted it
without finding a duplicate returns `-ENFILE` exactly when `nelems = size + ndeact`; it
then stages nothing, leaves `nelems` as it was and takes the element out of the
container again.  Otherwise it returns `0`, appends the record of the element, keeps the
element in the container and increments `nelems` by one. -/
theorem set_size_limit_invariant (x : Ptr) (s : State) (h : ElemReach x s) :
    (s.set x).size ≠ 0 ∧ (s.set x).nelems = (s.set x).elems.length ∧
    (s.set x).nelems < 2 ^ 31 ∧
    (s.set x).nelems ≤ (s.set x).size + (s.set x).ndeact ∧
    ∀ (ctx : nft_ctx) (nla : SetElemAttr) (nlmsg_flags : Nat) (env : AddElemEnv),
      (nft_add_set_elem_init ctx x nla env s).err = 0 →
      (set_ops_insert (nft_add_set_elem_init ctx x nla env s).s x
        (nft_add_set_elem_init ctx x nla env s).elem).1 = none →
      ((nft_add_set_elem ctx x nla nlmsg_flags env s).1 = -ENFILE ↔
        (s.set x).nelems = (s.set x).size + (s.set x).ndeact) ∧
      ((s.set x).nelems = (s.set x).size + (s.set x).ndeact →
        (nft_add_set_elem ctx x nla nlmsg_flags env s).2.commit_list = s.commit_list ∧
        ((nft_add_set_elem ctx x nla nlmsg_flags env s).2.set x).nelems = (s.set x).nelems ∧
        ((nft_add_set_elem ctx x nla nlmsg_flags env s).2.set x).elems = (s.set x).elems) ∧
      ((s.set x).nelems ≠ (s.set x).size + (s.set x).ndeact →
        (nft_add_set_elem ctx x nla nlmsg_flags env s).1 = 0 ∧
        (nft_add_set_elem ctx x nla nlmsg_flags env s).2.commit_list = s.commit_list ++
          [{ msg_type := .NEWSETELEM, ctx_table := ctx.table, ctx_chain := ctx.chain,
             set := x, elem := (nft_add_set_elem_init ctx x nla env s).elem }] ∧
        ((nft_add_set_elem ctx x nla nlmsg_flags env s).2.set x).elems =
          (s.set x).elems ++ [(nft_add_set_elem_init ctx x nla env s).elem] ∧
        ((nft_add_set_elem ctx x nla nlmsg_flags env s).2.set x).nelems =
          (s.set x).nelems + 1) := by
  have inv := elem_reach_inv x s h
  have hs := inv.size_pos
  have hiff := elem_inv_limit_iff x s inv
  have hcount := inv.count
  have hsmall := inv.small
  have hlimit := inv.limit
  refine ⟨hs, hcount, by rw [hcount]; exact_mod_cast hsmall,
    by rw [hcount]; exact_mod_cast hlimit, fun ctx nla nlmsg_flags env hinit hnone => ?_⟩
  obtain ⟨hfull, hfree⟩ := add_set_elem_new_result ctx x nla nlmsg_flags env s hinit hnone
  have hfresh : (nft_add_set_elem_init ctx x nla env s).elem ∉ (s.set x).elems := by
    intro hm
    have e := ((add_set_elem_init_below ctx x nla env s).2.2 (by rw [hinit]; decide)).1
    rw [e] at hm
    exact Nat.lt_irrefl _ (inv.below _ hm)
  refine ⟨⟨fun he => ?_, fun he => (hfull ⟨hs, hiff.mpr he⟩).1⟩,
    fun he => ⟨(hfull ⟨hs, hiff.mpr he⟩).2.1, (hfull ⟨hs, hiff.mpr he⟩).2.2.1,
      (hfull ⟨hs, hiff.mpr he⟩).2.2.2 hfresh⟩,
    fun hne => ?_⟩
  · by_contra hne
    have h0 := (hfree (fun c => hne (hiff.mp c.2))).1
    rw [h0] at he
    simp [ENFILE] at he
  · obtain ⟨h1, h2, h3, h4⟩ := hfree (fun c => hne (hiff.mp c.2))
    exact ⟨h1, h2, h3, h4 hs⟩

theorem set_size_limit_invariant_witness :
    (ex_full_state.set 20).size = 1 ∧ (ex_full_state.set 20).nelems = 1 ∧
    (nft_add_set_elem { table := 1 } 20 ex_elem_attr_new 0 {} ex_full_state).1 = -ENFILE ∧
    ((nft_add_set_elem { table := 1 } 20 ex_elem_attr_new 0 {} ex_full_state).2.set 20).nelems =
      1 ∧
    ((nft_add_set_elem { table := 1 } 20 ex_elem_attr_new 0 {} ex_full_state).2.set 20).elems =
      [200] ∧
    (ex_wide_state.set 20).size = 4294967295 ∧
    (nft_add_set_elem { table := 1 } 20 ex_elem_attr_new 0 {} ex_wide_state).1 = 0 ∧
    ((nft_add_set_elem { table := 1 } 20 ex_elem_attr_new 0 {} ex_wide_state).2.set 20).nelems =
      2 ∧
    ((nft_add_set_elem { table := 1 } 20 ex_elem_attr_new 0 {} ex_wide_state).2.set 20).elems =
      [200, 201] ∧
    ((nft_add_set_elem { table := 1 } 20 ex_elem_attr_new 0 {} ex_elem_state).2.set 20).nelems ≤
      8 :=
  ⟨by decide, by decide,
   (((set_size_limit_invariant 20 ex_full_state
      (ElemReach.init _ rfl (by decide) (by decide) (by decide) (by decide) (by decide)
        (by decide) (by decide) (by decide))).2.2.2.2
      { table := 1 } ex_elem_attr_new 0 {} (by decide) (by decide)).1).mpr (by decide),
   by decide, by decide, by decide,
   ((set_size_limit_invariant 20 ex_wide_state
      (ElemReach.init _ rfl (by decide) (by decide) (by decide) (by decide) (by decide)
        (by decide) (by decide) (by decide))).2.2.2.2
      { table := 1 } ex_elem_attr_new 0 {} (by decide) (by decide)).2.2 (by decide) |>.1,
   by decide, by decide,
   (set_size_limit_invariant 20 _
      (ElemReach.add ex_elem_state { table := 1 } 20 ex_elem_attr_new 0 {}
        (ElemReach.init _ rfl (by decide) (by decide) (by decide) (by decide) (by decide)
          (by decide) (by decide) (by decide)) (by decide))).2.2.2.1⟩

/-! ## C23, C25, C26: registers and expression types -/

theorem expr_type_get_eq (types : List nft_expr_type) (family : Nat) (name : String)
    (hfam : family ≠ 0) :
    __nft_expr_type_get types family name =
      (types.reverse.find? (fun t => decide (name = t.name ∧ t.family = family))).orElse
        (fun _ => types.find? (fun t => decide (name = t.name ∧ t.family = 0))) := by
  have hz : ¬ (0 = family) := fun h => hfam h.symm
  unfold __nft_expr_type_get
  induction types using List.reverseRecOn with
  | nil => rfl
  | append_singleton l x ih =>
    rw [List.foldl_append, List.foldl_cons, List.foldl_nil, ih, List.reverse_append,
      List.reverse_singleton, List.singleton_append, List.find?_cons, List.find?_append]
    unfold expr_type_step
    by_cases hn : name = x.name
    · by_cases hs : x.family = family
      · have h0 : ¬ x.family = 0 := fun h => hfam (hs ▸ h)
        simp [hn, hs, h0]
      · by_cases ha : x.family = 0
        · simp only [hn, hs, ha, true_and, and_true, decide_True, decide_False, if_true,
            if_false]
          cases h1 : l.reverse.find? (fun t => decide (x.name = t.name ∧ t.family = family)) with
          | some t => simp [Option.orElse, hz]
          | none =>
            cases h2 : l.find? (fun t => decide (x.name = t.name ∧ t.family = 0)) with
            | some t => simp [Option.orElse, List.find?_cons, hz]
            | none => simp [Option.orElse, List.find?_cons, ha, hz]
        · simp only [hn, hs, ha, true_and, and_false, false_and, decide_True, decide_False,
            if_false]
          cases h1 : l.reverse.find? (fun t => decide (x.name = t.name ∧ t.family = family)) with
          | some t => simp [Option.orElse]
          | none =>
            cases h2 : l.find? (fun t => decide (x.name = t.name ∧ t.family = 0)) with
            | some t => simp [Option.orElse]
            | none => simp [Option.orElse, List.find?_cons, ha]
    · simp only [hn, false_and, decide_False, if_false]
      cases h1 : l.reverse.find? (fun t => decide (name = t.name ∧ t.family = family)) with
      | some t => simp [Option.orElse]
      | none =>
        cases h2 : l.find? (fun t => decide (name = t.name ∧ t.family = 0)) with
        | some t => simp [Option.orElse]
        | none => simp [Option.orElse, List.find?_cons, hn]

theorem register_expr_mem (a : nft_expr_type) (R : List nft_expr_type) (t : nft_expr_type) :
    t ∈ nft_register_expr a R ↔ t = a ∨ t ∈ R := by
  unfold nft_register_expr
  split
  · simp [or_comm]
  · simp

/-- C23: for a requested family other than `NFPROTO_UNSPEC` and any content of the list
`nf_tables_expressions`: when the list holds a type with the name and exactly that
family, `__nft_expr_type_get` returns such a type, wherever a family-agnostic type of
the name stands in the list; when it holds only family-agnostic types of the name it
returns one of them; when it holds neither the result is `NULL`.  In particular, when a
type `a` of the family, the only one with its name and family, and a family-agnostic type
`b` of the same name are registered with `nft_register_expr`, in either order, the result
is `a`. -/
theorem expr_type_get_prefers_family (types : List nft_expr_type) (family : Nat) (name : String)
    (hfam : family ≠ NFPROTO_UNSPEC) :
    ((∃ t ∈ types, t.name = name ∧ t.family = family) →
      ∃ t ∈ types, __nft_expr_type_get types family name = some t ∧ t.name = name ∧
        t.family = family) ∧
    ((¬ ∃ t ∈ types, t.name = name ∧ t.family = family) →
      (∃ t ∈ types, t.name = name ∧ t.family = NFPROTO_UNSPEC) →
      ∃ t ∈ types, __nft_expr_type_get types family name = some t ∧ t.name = name ∧
        t.family = NFPROTO_UNSPEC) ∧
    ((¬ ∃ t ∈ types, t.name = name ∧ t.family = family) →
      (¬ ∃ t ∈ types, t.name = name ∧ t.family = NFPROTO_UNSPEC) →
      __nft_expr_type_get types family name = none) ∧
    (∀ a b : nft_expr_type, a.name = name → a.family = family → b.name = name →
      b.family = NFPROTO_UNSPEC →
      (∀ t ∈ types, t.name = name → t.family = family → t = a) →
      __nft_expr_type_get (nft_register_expr a (nft_register_expr b types)) family name =
        some a ∧
      __nft_expr_type_get (nft_register_expr b (nft_register_expr a types)) family name =
        some a) := by
  have hf0 : family ≠ 0 := hfam
  have key : ∀ L : List nft_expr_type, (∃ t ∈ L, t.name = name ∧ t.family = family) →
      ∃ t ∈ L, __nft_expr_type_get L family name = some t ∧ t.name = name ∧
        t.family = family := by
    intro L ⟨t, ht, hn, hf⟩
    rw [expr_type_get_eq L family name hf0]
    cases h1 : L.reverse.find? (fun t => decide (name = t.name ∧ t.family = family)) with
    | some u =>
      have hu := List.find?_some h1
      have hm := List.mem_of_find?_eq_some h1
      simp only [decide_eq_true_eq] at hu
      exact ⟨u, List.mem_reverse.mp hm, rfl, hu.1.symm, hu.2⟩
    | none =>
      rw [List.find?_eq_none] at h1
      have := h1 t (List.mem_reverse.mpr ht)
      simp [hn, hf] at this
  refine ⟨key types, fun hno ⟨t, ht, hn, hf⟩ => ?_, fun hno hno2 => ?_, fun a b ha1 ha2 hb1 hb2 hu => ?_⟩
  · rw [expr_type_get_eq types family name hf0]
    have h1 : types.reverse.find? (fun t => decide (name = t.name ∧ t.family = family)) = none := by
      rw [List.find?_eq_none]
      intro u hu hd
      simp only [decide_eq_true_eq] at hd
      exact hno ⟨u, List.mem_reverse.mp hu, hd.1.symm, hd.2⟩
    rw [h1]
    cases h2 : types.find? (fun t => decide (name = t.name ∧ t.family = 0)) with
    | some u =>
      have hu := List.find?_some h2
      simp only [decide_eq_true_eq] at hu
      exact ⟨u, List.mem_of_find?_eq_some h2, rfl, hu.1.symm, hu.2⟩
    | none =>
      rw [List.find?_eq_none] at h2
      have := h2 t ht
      simp [hn] at this
      exact absurd hf this
  · rw [expr_type_get_eq types family name hf0]
    have h1 : types.reverse.find? (fun t => decide (name = t.name ∧ t.family = family)) = none := by
      rw [List.find?_eq_none]
      intro u hu hd
      simp only [decide_eq_true_eq] at hd
      exact hno ⟨u, List.mem_reverse.mp hu, hd.1.symm, hd.2⟩
    have h2 : types.find? (fun t => decide (name = t.name ∧ t.family = 0)) = none := by
      rw [List.find?_eq_none]
      intro u hu hd
      simp only [decide_eq_true_eq] at hd
      exact hno2 ⟨u, hu, hd.1.symm, hd.2⟩
    rw [h1, h2]
    rfl
  · have hb0 : ¬ (b.family = family) := fun h => hfam (h ▸ hb2)
    have uniq : ∀ L : List nft_expr_type, (∀ t, t ∈ L → t = a ∨ t = b ∨ t ∈ types) → a ∈ L →
        __nft_expr_type_get L family name = some a := by
      intro L hL haL
      obtain ⟨t, ht, he, hn, hf⟩ := key L ⟨a, haL, ha1, ha2⟩
      rcases hL t ht with h | h | h
      · rw [he, h]
      · exact absurd (h ▸ hf) hb0
      · rw [he, hu t h hn hf]
    constructor
    · apply uniq
      · intro t ht
        rw [register_expr_mem, register_expr_mem] at ht
        exact ht
      · rw [register_expr_mem]; exact Or.inl rfl
    · apply uniq
      · intro t ht
        rw [register_expr_mem, register_expr_mem] at ht
        rcases ht with h | h | h
        · exact Or.inr (Or.inl h)
        · exact Or.inl h
        · exact Or.inr (Or.inr h)
      · rw [register_expr_mem, register_expr_mem]; exact Or.inr (Or.inl rfl)

theorem expr_type_get_prefers_family_witness :
    __nft_expr_type_get
      (nft_register_expr { name := "meta", family := 2 }
        (nft_register_expr { name := "meta", family := 0 } [{ name := "cmp", family := 0 }]))
      2 "meta" = some { name := "meta", family := 2 } ∧
    __nft_expr_type_get
      (nft_register_expr { name := "meta", family := 0 }
        (nft_register_expr { name := "meta", family := 2 } [{ name := "cmp", family := 0 }]))
      2 "meta" = some { name := "meta", family := 2 } ∧
    __nft_expr_type_get [{ name := "cmp", family := 0 }] 2 "cmp" =
      some { name := "cmp", family := 0 } ∧
    __nft_expr_type_get [{ name := "cmp", family := 0 }] 2 "meta" = none :=
  ⟨((expr_type_get_prefers_family [{ name := "cmp", family := 0 }] 2 "meta" (by decide)).2.2.2
      { name := "meta", family := 2 } { name := "meta", family := 0 } rfl rfl rfl rfl
      (by decide)).1,
   ((expr_type_get_prefers_family [{ name := "cmp", family := 0 }] 2 "meta" (by decide)).2.2.2
      { name := "meta", family := 2 } { name := "meta", family := 0 } rfl rfl rfl rfl
      (by decide)).2,
   by decide, by decide⟩

theorem parse_register_range (attr r : Nat) (h : (nft_parse_register attr).2 = some r) :
    r = 0 ∨ (4 ≤ r ∧ r ≤ 19) := by
  unfold nft_parse_register at h
  simp only [NFT_REG_VERDICT, NFT_REG_4, NFT_REG32_00, NFT_REG32_15, NFT_REG_SIZE,
    NFT_REG32_SIZE] at h
  split at h
  · simp only [Option.some.injEq] at h
    omega
  · split at h
    · simp only [Option.some.injEq] at h
      omega
    · cases h

/-- C26: `nft_parse_register` produces exactly the register indices `0` and `4` to `19`;
for each of them parsing the value `nft_dump_register` writes gives the index back.  An
index that is a multiple of `4` is written as the 128-bit register number `index / 4`
(`0` to `4`), every other index as the 32-bit register number `index + 4` (between
`NFT_REG32_00` and `NFT_REG32_15`). -/
theorem register_dump_parse_roundtrip :
    (∀ attr r, (nft_parse_register attr).2 = some r → r = 0 ∨ (4 ≤ r ∧ r ≤ 19)) ∧
    (∀ r, r = 0 ∨ (4 ≤ r ∧ r ≤ 19) →
      nft_dump_register r < 2 ^ 32 ∧
      nft_parse_register (nft_dump_register r) = (0, some r) ∧
      (r % 4 = 0 → nft_dump_register r = r / 4 ∧ nft_dump_register r ≤ NFT_REG_4) ∧
      (r % 4 ≠ 0 → nft_dump_register r = r + 4 ∧ NFT_REG32_00 ≤ nft_dump_register r ∧
        nft_dump_register r ≤ NFT_REG32_15)) := by
  constructor
  · exact parse_register_range
  · intro r hr
    have hr2 : r ≤ 19 := by omega
    interval_cases r <;> first | omega | decide

theorem register_dump_parse_roundtrip_witness :
    nft_dump_register 8 = 2 ∧ nft_parse_register 2 = (0, some 8) ∧
    nft_dump_register 5 = 9 ∧ nft_parse_register 9 = (0, some 5) ∧
    nft_parse_register (nft_dump_register 19) = (0, some 19) :=
  ⟨by decide, by decide, by decide, by decide,
   (register_dump_parse_roundtrip.2 19 (Or.inr (by decide))).2.1⟩

/-- C25: `nft_parse_register_load` returns `0`, `-EINVAL` or `-ERANGE`; it leaves the
output register as it was unless it returns `0`; and it returns `0` exactly when the
attribute parses to a register index `r` with `r ≥ 4`, `len > 0` and the sum
`4 * r + len`, computed in 32 bits, is at most the size of the register file.  For
`len ≤ 2^32 - 77` that sum is `4 * r + len`; a larger `len` can wrap it around: with the
register `NFT_REG_1` (index `4`) and `len = 2^32 - 16` the call succeeds although
`4 * 4 + len` exceeds the size of the register file. -/
theorem parse_register_load_bounds (attr sreg len : Nat) (hlen : len < 2 ^ 32) :
    ((nft_parse_register_load attr sreg len).1 = 0 ∨
      (nft_parse_register_load attr sreg len).1 = -EINVAL ∨
      (nft_parse_register_load attr sreg len).1 = -ERANGE) ∧
    ((nft_parse_register_load attr sreg len).1 ≠ 0 →
      (nft_parse_register_load attr sreg len).2 = sreg) ∧
    ((nft_parse_register_load attr sreg len).1 = 0 ↔
      ∃ r, (nft_parse_register attr).2 = some r ∧ 4 ≤ r ∧ 0 < len ∧
        (4 * r + len) % 2 ^ 32 ≤ NFT_REGS_DATA_SIZE) ∧
    (∀ r, (nft_parse_register attr).2 = some r →
      (nft_parse_register_load attr sreg len).1 = 0 →
      (nft_parse_register_load attr sreg len).2 = r) ∧
    (len ≤ 2 ^ 32 - 77 → (nft_parse_register_load attr sreg len).1 = 0 →
      ∃ r, (nft_parse_register attr).2 = some r ∧ 4 ≤ r ∧ 0 < len ∧
        4 * r + len ≤ NFT_REGS_DATA_SIZE) ∧
    nft_parse_register_load NFT_REG_1 sreg (2 ^ 32 - 16) = (0, 4) := by
  have hrange := parse_register_range attr
  have hx : nft_parse_register_load NFT_REG_1 sreg (2 ^ 32 - 16) = (0, 4) := rfl
  unfold nft_parse_register_load nft_validate_register_load
  simp only [NFT_REG_1, NFT_REG_SIZE, NFT_REG32_SIZE, NFT_REGS_DATA_SIZE]
  refine ⟨?_, ?_, ?_, ?_, ?_, hx⟩
  all_goals
    rcases hp : nft_parse_register attr with ⟨err, _ | reg⟩
    · have he : err = -ERANGE := by
        unfold nft_parse_register at hp
        split at hp
        · cases hp
        · split at hp
          · cases hp
          · cases hp; rfl
      subst he
      simp [ERANGE]
    · have he : err = 0 := by
        unfold nft_parse_register at hp
        split at hp
        · cases hp; rfl
        · split at hp
          · cases hp; rfl
          · cases hp
      subst he
      have hr := hrange reg (by rw [hp])
      simp only [lt_self_iff_false, if_false, EINVAL, ERANGE]
      split_ifs <;> simp at * <;> omega

theorem parse_register_load_bounds_witness :
    nft_parse_register_load NFT_REG_1 0 (2 ^ 32 - 16) = (0, 4) ∧
    ¬ (4 * 4 + (2 ^ 32 - 16) ≤ NFT_REGS_DATA_SIZE) ∧
    nft_parse_register_load NFT_REG_1 0 65 = (-ERANGE, 0) ∧
    nft_parse_register_load NFT_REG_VERDICT 7 4 = (-EINVAL, 7) :=
  ⟨(parse_register_load_bounds 1 0 (2 ^ 32 - 16) (by decide)).2.2.2.2.2, by decide, by decide,
   by decide⟩

/-! ## C28, C29, C30: rule deletion and element timeouts -/

/-- C30: `nf_msecs_to_jiffies64` returns `-ERANGE` exactly when the millisecond value is
at least `(2^64 - 1) / NSEC_PER_MSEC` (rounded down); otherwise it returns `0`, the
product with `NSEC_PER_MSEC` is below `2^64`, so the 64-bit multiplication is exact, and
the stored result is `0` exactly when the millisecond value is `0`. -/
theorem msecs_to_jiffies64_range (ms : Nat) :
    ((nf_msecs_to_jiffies64 ms).1 = -ERANGE ↔ (2 ^ 64 - 1) / NSEC_PER_MSEC ≤ ms) ∧
    (ms < (2 ^ 64 - 1) / NSEC_PER_MSEC →
      (nf_msecs_to_jiffies64 ms).1 = 0 ∧
      ms * NSEC_PER_MSEC < 2 ^ 64 ∧
      ms * NSEC_PER_MSEC % 2 ^ 64 = ms * NSEC_PER_MSEC ∧
      (nf_msecs_to_jiffies64 ms).2 < 2 ^ 64 ∧
      ((nf_msecs_to_jiffies64 ms).2 = 0 ↔ ms = 0)) := by
  have hmax : (2 ^ 64 - 1) / NSEC_PER_MSEC = 18446744073709 := by norm_num [NSEC_PER_MSEC]
  rw [hmax]
  constructor
  · unfold nf_msecs_to_jiffies64
    rw [hmax]
    split
    · simp only [true_iff]; omega
    · simp only [ERANGE]; omega
  · intro h
    have hlt : ms * NSEC_PER_MSEC < 2 ^ 64 := by simp only [NSEC_PER_MSEC]; omega
    have h1 := Nat.mod_eq_of_lt hlt
    unfold nf_msecs_to_jiffies64
    rw [hmax, if_neg (by omega), h1]
    refine ⟨rfl, hlt, rfl, ?_, ?_⟩
    · simp only [nsecs_to_jiffies64, HZ, NSEC_PER_MSEC] at *
      split_ifs <;> omega
    · simp only [nsecs_to_jiffies64, HZ, NSEC_PER_MSEC] at *
      split_ifs <;> first | omega | exact ⟨False.elim, fun _ => by omega⟩

theorem msecs_to_jiffies64_range_witness :
    nf_msecs_to_jiffies64 1 = (0, 1) ∧ nf_msecs_to_jiffies64 0 = (0, 0) ∧
    nf_msecs_to_jiffies64 18446744073708 = (0, 4611686018427) ∧
    (nf_msecs_to_jiffies64 18446744073709).1 = -ERANGE :=
  ⟨by decide, by decide, by decide,
   (msecs_to_jiffies64_range 18446744073709).1.mpr (by decide)⟩

theorem deactivate_next_inactive (g : Nat) :
    nft_is_active_next g (nft_deactivate_next g) = false := by
  unfold nft_is_active_next nft_deactivate_next nft_genmask_next nft_gencursor_next
  split <;> decide

/-- C28, the claim as stated fails: the rule `120` of chain `12` jumps to chain `12`;
`nft_delrule` on it succeeds and decrements the use count of the chain twice, from `2`
to `0`, once in `nf_tables_delrule_deactivate` and once in the `deactivate` callback of
the verdict expression (`nft_data_release`), without a warning; the second
`nft_delrule` fails with `-ENOENT`. -/
theorem delrule_decrements_twice_counterexample :
    (nft_delrule { table := 1, chain := 12 } 120 true ex_selfjump_state).1 = 0 ∧
    (ex_selfjump_state.chain 12).use = 2 ∧
    ((nf_tables_delrule_deactivate { table := 1, chain := 12 } 120
      ex_selfjump_state).2.chain 12).use = 1 ∧
    ((nft_delrule { table := 1, chain := 12 } 120 true ex_selfjump_state).2.chain 12).use = 0 ∧
    (nft_delrule { table := 1, chain := 12 } 120 true ex_selfjump_state).2.warned = false ∧
    ((nft_delrule { table := 1, chain := 12 } 120 true ex_selfjump_state).2.chain 12).use ≠
      (nft_use_dec (ex_selfjump_state.chain 12).use).1 ∧
    (nft_delrule { table := 1, chain := 12 } 120 true
      (nft_delrule { table := 1, chain := 12 } 120 true ex_selfjump_state).2).1 = -ENOENT := by
  decide

/-- C28 (amended): a successful `nft_delrule` appends one `DELRULE` record, leaves the
rule inactive in the next generation, and is `nf_tables_delrule_deactivate`, which
decrements the use count of the chain once, followed by the `deactivate` callbacks of
the expressions of the rule; without a use counter underflow the use count of the chain
is then lower by one plus the number of references to that chain which the expressions
of the rule hold (a jump or goto of the rule to its own chain), hence by exactly one
when they hold none.  A second `nft_delrule` on that rule then fails, with `-ENOENT`
when its record could be allocated (with `-ENOMEM` when not), and leaves the whole state
as it was: no record is added and the use count of the chain stays.  The same holds in
any later state of the batch in which the rule is still inactive in the next
generation. -/
theorem delrule_twice_enoent (ctx : nft_ctx) (rule : Ptr) (kzalloc_ok : Bool) (s : State)
    (h1 : (nft_delrule ctx rule kzalloc_ok s).1 = 0) :
    (nft_delrule ctx rule kzalloc_ok s).2.commit_list = s.commit_list ++
      [{ msg_type := .DELRULE, ctx_table := ctx.table, ctx_chain := ctx.chain, rule := rule }] ∧
    (nft_delrule ctx rule kzalloc_ok s).2 =
      nft_rule_expr_deactivate (nf_tables_delrule_deactivate ctx rule
        (nft_trans_commit_list_add_tail s
          { msg_type := .DELRULE, ctx_table := ctx.table, ctx_chain := ctx.chain,
            rule := rule })).2 rule .PREPARE ∧
    ((nf_tables_delrule_deactivate ctx rule
        (nft_trans_commit_list_add_tail s
          { msg_type := .DELRULE, ctx_table := ctx.table, ctx_chain := ctx.chain,
            rule := rule })).2.chain ctx.chain).use = (nft_use_dec (s.chain ctx.chain).use).1 ∧
    ((nft_delrule ctx rule kzalloc_ok s).2.warned = false →
      (s.chain ctx.chain).use = ((nft_delrule ctx rule kzalloc_ok s).2.chain ctx.chain).use + 1 +
        (exprs_refs s (s.rule rule).exprs).chain ctx.chain ∧
      ((exprs_refs s (s.rule rule).exprs).chain ctx.chain = 0 →
        ((nft_delrule ctx rule kzalloc_ok s).2.chain ctx.chain).use =
          (nft_use_dec (s.chain ctx.chain).use).1)) ∧
    nft_is_active_next (nft_delrule ctx rule kzalloc_ok s).2.gencursor
      (((nft_delrule ctx rule kzalloc_ok s).2.rule rule).genmask) = false ∧
    (nft_delrule ctx rule true (nft_delrule ctx rule kzalloc_ok s).2).1 = -ENOENT ∧
    (nft_delrule ctx rule false (nft_delrule ctx rule kzalloc_ok s).2).1 = -ENOMEM ∧
    (∀ k, (nft_delrule ctx rule k (nft_delrule ctx rule kzalloc_ok s).2).2 =
      (nft_delrule ctx rule kzalloc_ok s).2) ∧
    (∀ (c : nft_ctx) (k : Bool) (z : State),
      nft_is_active_next z.gencursor (z.rule rule).genmask = false →
      (nft_delrule c rule k z).1 = (if k then -ENOENT else -ENOMEM) ∧
      (nft_delrule c rule k z).2 = z) := by
  have gen : ∀ (c : nft_ctx) (k : Bool) (z : State),
      nft_is_active_next z.gencursor (z.rule rule).genmask = false →
      (nft_delrule c rule k z).1 = (if k then -ENOENT else -ENOMEM) ∧
      (nft_delrule c rule k z).2 = z := by
    intro c k z hz
    cases k
    · simp [nft_delrule, nft_trans_rule_add]
    · simp [nft_delrule, nft_trans_rule_add, nft_trans_commit_list_add_tail,
        nf_tables_delrule_deactivate, hz, nft_trans_destroy_last, ENOENT]
  have hk : kzalloc_ok = true := by
    cases kzalloc_ok
    · simp [nft_delrule, nft_trans_rule_add, ENOMEM] at h1
    · rfl
  subst hk
  have hact : nft_is_active_next s.gencursor (s.rule rule).genmask = true := by
    by_contra hc
    have hc2 : nft_is_active_next s.gencursor (s.rule rule).genmask = false := by
      cases h : nft_is_active_next s.gencursor (s.rule rule).genmask
      · rfl
      · exact absurd h hc
    rw [(gen ctx true s hc2).1] at h1
    simp [ENOENT] at h1
  have hstate := delrule_active_eq ctx rule s hact
  have hF := exprs_deact_prepare_frame (s.rule rule).exprs
    (chain_use_dec (({ s with commit_list := s.commit_list ++
          [({ msg_type := .DELRULE, ctx_table := ctx.table, ctx_chain := ctx.chain,
              rule := rule } : nft_trans)] } : State).updRule rule
            (fun r => { r with genmask := nft_deactivate_next s.gencursor })) ctx.chain)
  have hin : nft_is_active_next (nft_delrule ctx rule true s).2.gencursor
      (((nft_delrule ctx rule true s).2.rule rule).genmask) = false := by
    rw [hstate, hF.gencursor, hF.rule]
    simp only [chain_use_dec, State.warn, State.updChain,
      State.updRule, Function.update_same]
    exact deactivate_next_inactive s.gencursor
  refine ⟨?_, ?_, ?_, ?_, hin, ?_, ?_, fun k => (gen ctx k _ hin).2, gen⟩
  · rw [hstate, hF.commit_list]
    rfl
  · rw [hstate]
    simp [nft_rule_expr_deactivate, nft_trans_commit_list_add_tail,
      nf_tables_delrule_deactivate, hact, chain_use_dec, State.warn, State.updChain,
      State.updRule]
  · simp [nft_trans_commit_list_add_tail, nf_tables_delrule_deactivate, hact, chain_use_dec,
      State.warn, State.updChain, State.updRule]
  · intro hw
    rw [hstate] at hw ⊢
    have D := (delrule_dropped _ ctx.chain _ hw).1
    have hr : exprs_refs (({ s with commit_list := s.commit_list ++
          [({ msg_type := .DELRULE, ctx_table := ctx.table, ctx_chain := ctx.chain,
              rule := rule } : nft_trans)] } : State).updRule rule
            (fun r => { r with genmask := nft_deactivate_next s.gencursor }))
        (s.rule rule).exprs = exprs_refs s (s.rule rule).exprs :=
      exprs_refs_congr s (({ s with commit_list := s.commit_list ++
          [({ msg_type := .DELRULE, ctx_table := ctx.table, ctx_chain := ctx.chain,
              rule := rule } : nft_trans)] } : State).updRule rule
            (fun r => { r with genmask := nft_deactivate_next s.gencursor }))
        rfl rfl (fun _ => ⟨rfl, rfl⟩) _
    have a := D.chain ctx.chain
    rw [hr] at a
    simp only [ExprRefs.add, ExprRefs.zero, if_true] at a
    have a0 : (s.chain ctx.chain).use =
        ((List.foldl (nft_expr_deactivate nft_trans_phase.PREPARE)
          (chain_use_dec (({ s with commit_list := s.commit_list ++
          [({ msg_type := .DELRULE, ctx_table := ctx.table, ctx_chain := ctx.chain,
              rule := rule } : nft_trans)] } : State).updRule rule
            (fun r => { r with genmask := nft_deactivate_next s.gencursor })) ctx.chain)
          (s.rule rule).exprs).chain ctx.chain).use + 1 +
          (exprs_refs s (s.rule rule).exprs).chain ctx.chain := by
      rw [show (s.chain ctx.chain).use = _ from a]
      omega
    refine ⟨a0, ?_⟩
    intro h0
    rw [h0] at a0
    simp only [nft_use_dec]
    rw [if_neg (by omega)]
    dsimp only
    omega
  · exact (gen ctx true _ hin).1
  · exact (gen ctx false _ hin).1

theorem delrule_twice_enoent_witness :
    (nft_delrule { table := 1, chain := 10 } 100 true ex_del_state).1 = 0 ∧
    (ex_del_state.chain 10).use = 1 ∧
    ((nft_delrule { table := 1, chain := 10 } 100 true ex_del_state).2.chain 10).use = 0 ∧
    (nft_delrule { table := 1, chain := 10 } 100 true ex_del_state).2.commit_list.length = 1 ∧
    (nft_delrule { table := 1, chain := 10 } 100 true
      (nft_delrule { table := 1, chain := 10 } 100 true ex_del_state).2).1 = -ENOENT ∧
    ((nft_delrule { table := 1, chain := 10 } 100 true
      (nft_delrule { table := 1, chain := 10 } 100 true ex_del_state).2).2.chain 10).use = 0 ∧
    (nft_delrule { table := 1, chain := 10 } 100 true
      (nft_delrule { table := 1, chain := 10 } 100 true ex_del_state).2).2.commit_list.length =
      1 ∧
    (ex_selfjump_state.chain 12).use =
      ((nft_delrule { table := 1, chain := 12 } 120 true ex_selfjump_state).2.chain 12).use +
        1 + (exprs_refs ex_selfjump_state (ex_selfjump_state.rule 120).exprs).chain 12 :=
  ⟨by decide, by decide, by decide, by decide,
   (delrule_twice_enoent { table := 1, chain := 10 } 100 true ex_del_state
      (by decide)).2.2.2.2.2.1,
   by decide, by decide,
   ((delrule_twice_enoent { table := 1, chain := 12 } 120 true ex_selfjump_state
      (by decide)).2.2.2.1 (by decide)).1⟩

/-- The timeout and the expiration of the element a successful `nft_add_set_elem_init`
has built, from the values `add_elem_timeouts` computed. -/
theorem add_set_elem_init_times (ctx : nft_ctx) (set : Ptr) (nla : SetElemAttr)
    (env : AddElemEnv) (s : State)
    (hinit : (nft_add_set_elem_init ctx set nla env s).err = 0) :
    (add_elem_timeouts (s.set set) nla).1 = 0 ∧
    ((nft_add_set_elem_init ctx set nla env s).s.elem
      (nft_add_set_elem_init ctx set nla env s).elem).expiration =
      (if (add_elem_timeouts (s.set set) nla).2.1 > 0 then
        some ((env.jiffies + (add_elem_timeouts (s.set set) nla).2.2 +
          (if (add_elem_timeouts (s.set set) nla).2.2 = 0 then
            (add_elem_timeouts (s.set set) nla).2.1 else 0)) % 2 ^ 64)
      else none) ∧
    ((nft_add_set_elem_init ctx set nla env s).s.elem
      (nft_add_set_elem_init ctx set nla env s).elem).timeout =
      (if (add_elem_timeouts (s.set set) nla).2.1 > 0 ∧
          (add_elem_timeouts (s.set set) nla).2.1 ≠ (s.set set).timeout then
        some (add_elem_timeouts (s.set set) nla).2.1
      else none) := by
  unfold nft_add_set_elem_init at hinit ⊢
  by_cases h1 : nla.parse < 0
  · rw [if_pos h1] at hinit; dsimp only at hinit; omega
  rw [if_neg h1] at hinit ⊢
  cases hk : nla.key with
  | none => rw [hk] at hinit; simp [EINVAL] at hinit
  | some keyattr =>
    rw [hk] at hinit
    dsimp only at hinit ⊢
    by_cases h2 : (nft_setelem_parse_flags (s.set set) nla.flags).1 < 0
    · rw [if_pos h2] at hinit; dsimp only at hinit; omega
    rw [if_neg h2] at hinit ⊢
    by_cases h3 : add_elem_attr_check (s.set set) nla
        (nft_setelem_parse_flags (s.set set) nla.flags).2 ≠ 0
    · rw [if_pos h3] at hinit; exact absurd hinit h3
    rw [if_neg h3] at hinit ⊢
    by_cases h4 : (add_elem_timeouts (s.set set) nla).1 ≠ 0
    · rw [if_pos h4] at hinit; exact absurd hinit h4
    rw [if_neg h4] at hinit ⊢
    have h4z : (add_elem_timeouts (s.set set) nla).1 = 0 := not_not.mp h4
    refine ⟨h4z, ?_⟩
    have fk := parse_key_frame s ctx set keyattr
    by_cases h5 : (nft_setelem_parse_key s ctx set keyattr).1 < 0
    · rw [if_pos h5] at hinit; dsimp only at hinit; omega
    rw [if_neg h5] at hinit ⊢
    have fo := fk.trans_use (objref_frame (nft_setelem_parse_key s ctx set keyattr).2.1 nla.objref)
    by_cases h6 : (add_elem_objref (nft_setelem_parse_key s ctx set keyattr).2.1 nla.objref).1 < 0
    · rw [if_pos h6] at hinit; dsimp only at hinit; omega
    rw [if_neg h6] at hinit ⊢
    have fd := fo.trans_use (add_elem_data_frame
      (add_elem_objref (nft_setelem_parse_key s ctx set keyattr).2.1 nla.objref).2.1 ctx set nla.data)
    by_cases h7 : (add_elem_data
      (add_elem_objref (nft_setelem_parse_key s ctx set keyattr).2.1 nla.objref).2.1 ctx set
        nla.data).1 < 0
    · rw [if_pos h7] at hinit; dsimp only at hinit; omega
    rw [if_neg h7] at hinit ⊢
    have hset := fd.set
    generalize (add_elem_data
      (add_elem_objref (nft_setelem_parse_key s ctx set keyattr).2.1 nla.objref).2.1 ctx set
        nla.data) = D at hinit hset ⊢
    generalize add_elem_timeouts (s.set set) nla = T at hinit ⊢
    unfold nft_set_elem_init at hinit ⊢
    by_cases ha : (!env.elem_alloc_ok) = true
    · rw [if_pos ha] at hinit; simp [ENOMEM] at hinit
    rw [if_neg ha] at hinit ⊢
    dsimp only at hinit ⊢
    by_cases hb : (!env.trans_alloc_ok) = true
    · rw [if_pos hb] at hinit; simp [ENOMEM] at hinit
    rw [if_neg hb]
    simp only [State.updElem, Function.update_same, hset]
    exact ⟨trivial, trivial⟩

theorem msecs_to_jiffies64_val (ms : Nat) (h : ms < 18446744073709) :
    nf_msecs_to_jiffies64 ms =
      (0, if ms * 1000000 / 4000000 ≠ 0 then ms * 1000000 / 4000000
        else if ms * 1000000 ≠ 0 then 1 else 0) := by
  have hmax : (2 ^ 64 - 1) / NSEC_PER_MSEC = 18446744073709 := by norm_num [NSEC_PER_MSEC]
  have hlt : ms * 1000000 < 2 ^ 64 := by omega
  have h1 := Nat.mod_eq_of_lt hlt
  unfold nf_msecs_to_jiffies64
  rw [hmax, if_neg (by omega)]
  simp only [nsecs_to_jiffies64, HZ, NSEC_PER_MSEC, h1]

theorem msecs_to_jiffies64_big (ms : Nat) (h : 18446744073709 ≤ ms) :
    nf_msecs_to_jiffies64 ms = (-ERANGE, 0) := by
  have hmax : (2 ^ 64 - 1) / NSEC_PER_MSEC = 18446744073709 := by norm_num [NSEC_PER_MSEC]
  unfold nf_msecs_to_jiffies64
  rw [hmax, if_pos h]

theorem msecs_to_jiffies64_lt (ms : Nat) : (nf_msecs_to_jiffies64 ms).2 < 2 ^ 64 := by
  by_cases h : ms < 18446744073709
  · rw [msecs_to_jiffies64_val ms h]
    dsimp only
    split_ifs <;> omega
  · rw [msecs_to_jiffies64_big ms (by omega)]
    norm_num

theorem msecs_to_jiffies64_pos (ms : Nat) (h0 : (nf_msecs_to_jiffies64 ms).1 = 0)
    (h : (nf_msecs_to_jiffies64 ms).2 = 0) : ms = 0 := by
  by_cases hm : ms < 18446744073709
  · rw [msecs_to_jiffies64_val ms hm] at h
    dsimp only at h
    split_ifs at h <;> omega
  · rw [msecs_to_jiffies64_big ms (by omega)] at h0
    simp [ERANGE] at h0

theorem msecs_to_jiffies64_zero : nf_msecs_to_jiffies64 0 = (0, 0) := by decide

/-- The values computed from the timeout `t` (result and jiffies) and the expiration
attribute, as in `add_elem_timeouts`. -/
theorem timeouts_core (flag : Nat) (t : Int × Nat) (exp : Option Nat) (ht : t.2 < 2 ^ 64)
    (R : Option Nat → Int × Nat × Nat)
    (hR : R = fun e => if t.1 ≠ 0 then (t.1, 0, 0)
      else
        match e with
        | some ms =>
          if flag = 0 then (-EINVAL, 0, 0)
          else if t.2 = 0 then (-EOPNOTSUPP, 0, 0)
          else if (nf_msecs_to_jiffies64 ms).1 ≠ 0 then ((nf_msecs_to_jiffies64 ms).1, 0, 0)
          else if (nf_msecs_to_jiffies64 ms).2 > t.2 then (-ERANGE, 0, 0)
          else (0, t.2, (nf_msecs_to_jiffies64 ms).2)
        | none => (0, t.2, 0)) :
    ((R exp).1 = 0 →
      (R exp).2.1 < 2 ^ 64 ∧ (R exp).2.2 ≤ (R exp).2.1 ∧ (R none).1 = 0 ∧
      (R exp).2.1 = (R none).2.1 ∧
      ((exp = none ∨ exp = some 0) → (R exp).2.2 = 0) ∧
      (∀ ms, exp = some ms → (R exp).2.2 = (nf_msecs_to_jiffies64 ms).2 ∧
        (nf_msecs_to_jiffies64 ms).1 = 0)) ∧
    (∀ ms, exp = some ms → flag ≠ 0 → (R none).1 = 0 →
      ((R none).2.1 = 0 → (R exp).1 = -EOPNOTSUPP) ∧
      ((R none).2.1 ≠ 0 → (nf_msecs_to_jiffies64 ms).1 = 0 →
        (nf_msecs_to_jiffies64 ms).2 > (R none).2.1 → (R exp).1 = -ERANGE)) := by
  subst hR
  dsimp only
  by_cases h0 : t.1 ≠ 0
  · simp only [if_pos h0]
    exact ⟨fun h => absurd h h0, fun ms _ _ h => absurd h h0⟩
  simp only [if_neg h0]
  have h0z : t.1 = 0 := not_not.mp h0
  constructor
  · intro h
    cases exp with
    | none =>
      exact ⟨ht, Nat.zero_le _, trivial, rfl, fun _ => rfl, fun ms hm => by cases hm⟩
    | some ms =>
      dsimp only at h ⊢
      by_cases c1 : flag = 0
      · rw [if_pos c1] at h; simp [EINVAL] at h
      rw [if_neg c1] at h ⊢
      by_cases c2 : t.2 = 0
      · rw [if_pos c2] at h; simp [EOPNOTSUPP] at h
      rw [if_neg c2] at h ⊢
      by_cases c3 : (nf_msecs_to_jiffies64 ms).1 ≠ 0
      · rw [if_pos c3] at h; exact absurd h c3
      rw [if_neg c3] at h ⊢
      by_cases c4 : (nf_msecs_to_jiffies64 ms).2 > t.2
      · rw [if_pos c4] at h; simp [ERANGE] at h
      rw [if_neg c4]
      refine ⟨ht, by dsimp only; omega, trivial, rfl, fun hz => ?_, fun m hm => ?_⟩
      · rcases hz with hz | hz
        · cases hz
        · simp only [Option.some.injEq] at hz
          subst hz
          rw [msecs_to_jiffies64_zero]
      · simp only [Option.some.injEq] at hm
        subst hm
        exact ⟨rfl, not_not.mp c3⟩
  · intro ms he hfl _
    subst he
    dsimp only
    rw [if_neg hfl]
    refine ⟨fun hz => by rw [if_pos hz], fun hnz hc hgt => ?_⟩
    rw [if_neg hnz, if_neg (not_not.mpr hc), if_pos hgt]

/-- The values `add_elem_timeouts` computes: the timeout, which does not depend on the
expiration attribute, and the outcomes for the expiration attribute. -/
theorem add_elem_timeouts_spec (x : nft_set) (a : SetElemAttr) (hst : x.timeout < 2 ^ 64) :
    ((add_elem_timeouts x a).1 = 0 →
      (add_elem_timeouts x a).2.1 < 2 ^ 64 ∧
      (add_elem_timeouts x a).2.2 ≤ (add_elem_timeouts x a).2.1 ∧
      (add_elem_timeouts x { a with expiration := none }).1 = 0 ∧
      (add_elem_timeouts x a).2.1 = (add_elem_timeouts x { a with expiration := none }).2.1 ∧
      ((a.expiration = none ∨ a.expiration = some 0) → (add_elem_timeouts x a).2.2 = 0) ∧
      (∀ ms, a.expiration = some ms →
        (add_elem_timeouts x a).2.2 = (nf_msecs_to_jiffies64 ms).2 ∧
        (nf_msecs_to_jiffies64 ms).1 = 0)) ∧
    (∀ ms, a.expiration = some ms → x.flags &&& NFT_SET_TIMEOUT ≠ 0 →
      (add_elem_timeouts x { a with expiration := none }).1 = 0 →
      ((add_elem_timeouts x { a with expiration := none }).2.1 = 0 →
        (add_elem_timeouts x a).1 = -EOPNOTSUPP) ∧
      ((add_elem_timeouts x { a with expiration := none }).2.1 ≠ 0 →
        (nf_msecs_to_jiffies64 ms).1 = 0 →
        (nf_msecs_to_jiffies64 ms).2 > (add_elem_timeouts x { a with expiration := none }).2.1 →
        (add_elem_timeouts x a).1 = -ERANGE)) := by
  have htlt : (match a.timeout with
      | some ms => if x.flags &&& NFT_SET_TIMEOUT = 0 then ((-EINVAL : Int), 0)
        else nf_msecs_to_jiffies64 ms
      | none => (0, if x.flags &&& NFT_SET_TIMEOUT ≠ 0 then x.timeout else 0)).2 < 2 ^ 64 := by
    cases a.timeout with
    | none => dsimp only; split <;> omega
    | some ms =>
      dsimp only
      split
      · dsimp only; omega
      · exact msecs_to_jiffies64_lt ms
  exact timeouts_core (x.flags &&& NFT_SET_TIMEOUT) _ a.expiration htlt
    (fun e => add_elem_timeouts x { a with expiration := e }) rfl

/-- C29: an element that `nft_add_set_elem_init` (the part of `nft_add_set_elem` that
builds the element) creates with a non-zero timeout `T` stores the expiration
`jiffies + D` modulo `2^64` with `0 < D ≤ T`, where `D` is the requested expiration, or
`T` when the expiration attribute is absent or zero; the timeout is stored in the element
unless it is the default of the set.  For a set with the flag `NFT_SET_TIMEOUT` a
requested expiration is rejected with `-EOPNOTSUPP` when the timeout is zero and with
`-ERANGE` when it is larger than the timeout. -/
theorem set_elem_expiration_bounds (ctx : nft_ctx) (set : Ptr) (nla : SetElemAttr)
    (env : AddElemEnv) (s : State) (hj : env.jiffies < 2 ^ 64)
    (hst : (s.set set).timeout < 2 ^ 64) :
    ((nft_add_set_elem_init ctx set nla env s).err = 0 →
      0 < (add_elem_timeouts (s.set set) nla).2.1 →
      ∃ e, ((nft_add_set_elem_init ctx set nla env s).s.elem
          (nft_add_set_elem_init ctx set nla env s).elem).expiration = some e ∧
        e < 2 ^ 64 ∧
        0 < (e + 2 ^ 64 - env.jiffies) % 2 ^ 64 ∧
        (e + 2 ^ 64 - env.jiffies) % 2 ^ 64 ≤ (add_elem_timeouts (s.set set) nla).2.1 ∧
        ((nla.expiration = none ∨ nla.expiration = some 0) →
          (e + 2 ^ 64 - env.jiffies) % 2 ^ 64 = (add_elem_timeouts (s.set set) nla).2.1) ∧
        (∀ ms, nla.expiration = some ms → ms ≠ 0 →
          (e + 2 ^ 64 - env.jiffies) % 2 ^ 64 = (nf_msecs_to_jiffies64 ms).2) ∧
        (((nft_add_set_elem_init ctx set nla env s).s.elem
            (nft_add_set_elem_init ctx set nla env s).elem).timeout =
            some (add_elem_timeouts (s.set set) nla).2.1 ∨
          (((nft_add_set_elem_init ctx set nla env s).s.elem
            (nft_add_set_elem_init ctx set nla env s).elem).timeout = none ∧
            (add_elem_timeouts (s.set set) nla).2.1 = (s.set set).timeout))) ∧
    ((nft_add_set_elem_init ctx set nla env s).err = 0 →
      (add_elem_timeouts (s.set set) nla).2.1 = 0 →
      ((nft_add_set_elem_init ctx set nla env s).s.elem
        (nft_add_set_elem_init ctx set nla env s).elem).expiration = none) ∧
    (∀ ms, nla.expiration = some ms → (s.set set).flags &&& NFT_SET_TIMEOUT ≠ 0 →
      (add_elem_timeouts (s.set set) { nla with expiration := none }).1 = 0 →
      ((add_elem_timeouts (s.set set) { nla with expiration := none }).2.1 = 0 →
        (add_elem_timeouts (s.set set) nla).1 = -EOPNOTSUPP) ∧
      ((add_elem_timeouts (s.set set) { nla with expiration := none }).2.1 ≠ 0 →
        (nf_msecs_to_jiffies64 ms).1 = 0 →
        (nf_msecs_to_jiffies64 ms).2 >
          (add_elem_timeouts (s.set set) { nla with expiration := none }).2.1 →
        (add_elem_timeouts (s.set set) nla).1 = -ERANGE)) ∧
    ((add_elem_timeouts (s.set set) nla).1 ≠ 0 →
      (nft_add_set_elem_init ctx set nla env s).err ≠ 0) := by
  have hspec := add_elem_timeouts_spec (s.set set) nla hst
  refine ⟨fun hinit hT => ?_, fun hinit hT => ?_, hspec.2, fun hne hinit => ?_⟩
  · obtain ⟨ht0, hexp, htime⟩ := add_set_elem_init_times ctx set nla env s hinit
    obtain ⟨hlt, hle, _, _, hzero, hms⟩ := hspec.1 ht0
    rw [if_pos hT] at hexp
    refine ⟨_, hexp, Nat.mod_lt _ (by norm_num), ?_⟩
    generalize (add_elem_timeouts (s.set set) nla).2.1 = T at *
    generalize (add_elem_timeouts (s.set set) nla).2.2 = E at *
    have h64 : (2 : Nat) ^ 64 = 18446744073709551616 := by norm_num
    rw [h64] at hj hlt ⊢
    have hD : (((env.jiffies + E + if E = 0 then T else 0) % 18446744073709551616 +
        18446744073709551616 - env.jiffies) % 18446744073709551616) =
        if E = 0 then T else E := by
      split <;> omega
    rw [hD]
    refine ⟨by split <;> omega, by split <;> omega, fun hz => by rw [if_pos (hzero hz)],
      fun ms he hne => ?_, ?_⟩
    · obtain ⟨hE, hok⟩ := hms ms he
      have hnz : (nf_msecs_to_jiffies64 ms).2 ≠ 0 :=
        fun hc => hne (msecs_to_jiffies64_pos ms hok hc)
      rw [← hE] at hnz ⊢
      rw [if_neg hnz]
    · rw [htime]
      by_cases hd : T ≠ (s.set set).timeout
      · exact Or.inl (by rw [if_pos ⟨hT, hd⟩])
      · exact Or.inr ⟨by rw [if_neg (fun c => hd c.2)], not_not.mp hd⟩
  · obtain ⟨_, hexp, _⟩ := add_set_elem_init_times ctx set nla env s hinit
    rw [hexp, if_neg (by omega)]
  · exact hne (add_set_elem_init_times ctx set nla env s hinit).1

theorem set_elem_expiration_bounds_witness :
    (nft_add_set_elem_init { table := 1 } 20 ex_elem_attr_expiring { jiffies := 100 }
      ex_timeout_state).err = 0 ∧
    (add_elem_timeouts (ex_timeout_state.set 20) ex_elem_attr_expiring).2.1 = 2000 ∧
    ((nft_add_set_elem_init { table := 1 } 20 ex_elem_attr_expiring { jiffies := 100 }
      ex_timeout_state).s.elem 200).expiration = some 600 ∧
    ((nft_add_set_elem_init { table := 1 } 20 ex_elem_attr_expiring { jiffies := 100 }
      ex_timeout_state).s.elem 200).timeout = some 2000 ∧
    (∃ e, ((nft_add_set_elem_init { table := 1 } 20 ex_elem_attr_expiring { jiffies := 100 }
        ex_timeout_state).s.elem
        (nft_add_set_elem_init { table := 1 } 20 ex_elem_attr_expiring { jiffies := 100 }
          ex_timeout_state).elem).expiration = some e ∧
      0 < (e + 2 ^ 64 - 100) % 2 ^ 64 ∧ (e + 2 ^ 64 - 100) % 2 ^ 64 ≤ 2000) :=
  ⟨by decide, by decide, by decide, by decide,
   (fun h => Exists.elim h (fun e he => ⟨e, he.1, he.2.2.1, he.2.2.2.1⟩))
     ((set_elem_expiration_bounds { table := 1 } 20 ex_elem_attr_expiring { jiffies := 100 }
        ex_timeout_state (by decide) (by decide)).1 (by decide) (by decide))⟩

/-! ## C27: table updates and abort -/

theorem u32_bit_high (F : Nat) (hF : F < 2 ^ 32) (i : Nat) (hi : 32 ≤ i) :
    F.testBit i = false := by
  apply Nat.testBit_lt_two_pow
  calc F < 2 ^ 32 := hF
    _ ≤ 2 ^ i := Nat.pow_le_pow_right (by norm_num) hi

theorem and_ne_zero_of_bit (a m i : Nat) (ha : a.testBit i = true) (hm : m.testBit i = true) :
    a &&& m ≠ 0 := by
  intro h
  have := congrArg (fun x => x.testBit i) h
  simp [Nat.testBit_and, ha, hm] at this

theorem and_one_bit (F : Nat) (h : F &&& 1 ≠ 0) : F.testBit 0 = true := by
  rw [Nat.and_one_is_mod] at h
  rw [Nat.testBit_zero]
  simp only [decide_eq_true_eq]
  omega

/-- The flags after an update from awake to dormant and its undoing by the abort. -/
theorem flags_restore_awaken (F : Nat) (hF : F < 2 ^ 32) (h0 : F &&& 6 = 0) (h1 : F &&& 1 = 0) :
    (F ||| 1 ||| 4) &&& 6 ≠ 0 ∧ (F ||| 1 ||| 4) &&& 2 = 0 ∧ (F ||| 1 ||| 4) &&& 4 ≠ 0 ∧
    (F ||| 1) &&& 6 = 0 ∧
    ((F ||| 1 ||| 4) &&& (4294967295 ^^^ 1)) &&& (4294967295 ^^^ 6) = F ∧
    (F ||| 1 ||| 4) &&& 1 ≠ 0 := by
  have hb : ∀ i, (F.testBit i && Nat.testBit 6 i) = false ∧
      (F.testBit i && Nat.testBit 1 i) = false := by
    intro i
    have b0 := congrArg (fun x => x.testBit i) h0
    have b1 := congrArg (fun x => x.testBit i) h1
    simp only [Nat.testBit_and, Nat.zero_testBit] at b0 b1
    exact ⟨b0, b1⟩
  have hbit : (F ||| 1 ||| 4).testBit 2 = true := by
    rw [Nat.testBit_or, show Nat.testBit 4 2 = true by decide, Bool.or_true]
  have hbit0 : (F ||| 1 ||| 4).testBit 0 = true := by
    rw [Nat.testBit_or, Nat.testBit_or, show Nat.testBit 1 0 = true by decide, Bool.or_true,
      Bool.true_or]
  refine ⟨and_ne_zero_of_bit _ _ 2 hbit (by decide), ?_,
    and_ne_zero_of_bit _ _ 2 hbit (by decide), ?_, ?_,
    and_ne_zero_of_bit _ _ 0 hbit0 (by decide)⟩
  all_goals
    apply Nat.eq_of_testBit_eq
    intro i
    obtain ⟨b0, b1⟩ := hb i
    simp only [Nat.testBit_and, Nat.testBit_or, Nat.testBit_xor, Nat.zero_testBit]
    by_cases hi : 32 ≤ i
    · simp [u32_bit_high F hF i hi, u32_bit_high 1 (by norm_num) i hi,
        u32_bit_high 6 (by norm_num) i hi, u32_bit_high 4 (by norm_num) i hi,
        u32_bit_high 2 (by norm_num) i hi, u32_bit_high 4294967295 (by norm_num) i hi]
    · have : i < 32 := by omega
      clear h0 h1 hF hb
      interval_cases i <;> (generalize F.testBit _ = b at b0 b1 ⊢; revert b; decide)

/-- The flags after an update from dormant to awake and its undoing by the abort. -/
theorem flags_restore_dormant (F : Nat) (hF : F < 2 ^ 32) (h0 : F &&& 6 = 0)
    (h1 : F &&& 1 ≠ 0) :
    (F &&& (4294967295 ^^^ 1)) &&& 6 = 0 ∧
    ((F &&& (4294967295 ^^^ 1)) ||| 2) &&& 6 ≠ 0 ∧
    ((F &&& (4294967295 ^^^ 1)) ||| 2) &&& 2 ≠ 0 ∧
    ((((F &&& (4294967295 ^^^ 1)) ||| 2) &&& (4294967295 ^^^ 1) ||| 1) ||| 1) &&&
      (4294967295 ^^^ 6) = F ∧
    ((F &&& (4294967295 ^^^ 1)) ||| 2) &&& 1 = 0 := by
  have hb : ∀ i, (F.testBit i && Nat.testBit 6 i) = false := by
    intro i
    have b0 := congrArg (fun x => x.testBit i) h0
    simp only [Nat.testBit_and, Nat.zero_testBit] at b0
    exact b0
  have hz := and_one_bit F h1
  have hbit : ((F &&& (4294967295 ^^^ 1)) ||| 2).testBit 1 = true := by
    rw [Nat.testBit_or, show Nat.testBit 2 1 = true by decide, Bool.or_true]
  refine ⟨?_, and_ne_zero_of_bit _ _ 1 hbit (by decide),
    and_ne_zero_of_bit _ _ 1 hbit (by decide), ?_, ?_⟩
  all_goals
    apply Nat.eq_of_testBit_eq
    intro i
    have b0 := hb i
    simp only [Nat.testBit_and, Nat.testBit_or, Nat.testBit_xor, Nat.zero_testBit]
    by_cases hi : 32 ≤ i
    · simp [u32_bit_high F hF i hi, u32_bit_high 1 (by norm_num) i hi,
        u32_bit_high 6 (by norm_num) i hi, u32_bit_high 2 (by norm_num) i hi,
        u32_bit_high 4294967295 (by norm_num) i hi]
    · have : i < 32 := by omega
      clear h0 h1 hF hb
      interval_cases i <;>
        (first
          | (rw [hz]; decide)
          | (generalize F.testBit _ = b at b0 ⊢; revert b; decide))

theorem updTable_flags (s : State) (p : Ptr) (f : nft_table → nft_table) (t : Ptr)
    (hf : ∀ x, (f x).flags = x.flags) :
    ((s.updTable p f).table t).flags = (s.table t).flags := by
  unfold State.updTable
  by_cases h : t = p
  · subst h
    simp only [Function.update_same]
    exact hf _
  · simp only [Function.update_noteq h]

theorem updTable_other_table (s : State) (p : Ptr) (f : nft_table → nft_table) (t : Ptr)
    (h : t ≠ p) : (s.updTable p f).table t = s.table t := by
  unfold State.updTable
  simp only [Function.update_noteq h]

theorem updTable_at (s : State) (p : Ptr) (f : nft_table → nft_table) :
    (s.updTable p f).table p = f (s.table p) := by
  unfold State.updTable
  simp only [Function.update_same]

theorem table_use_dec_flags (s : State) (p t : Ptr) :
    ((table_use_dec s p).table t).flags = (s.table t).flags := by
  unfold table_use_dec State.warn
  show ((s.updTable p (fun x => { x with use := (nft_use_dec x.use).1 })).table t).flags = _
  exact updTable_flags s p _ t (fun _ => rfl)

theorem table_use_inc_restore_flags (s : State) (p t : Ptr) :
    ((table_use_inc_restore s p).table t).flags = (s.table t).flags := by
  unfold table_use_inc_restore State.warn
  show ((s.updTable p (fun x => { x with use := (nft_use_inc_restore x.use).1 })).table
    t).flags = _
  exact updTable_flags s p _ t (fun _ => rfl)

/-- A record of `__nf_tables_abort` that is not an update of the table `t` leaves the
flags of `t`. -/
theorem abort_one_table_flags (s : State) (r : nft_trans) (t : Ptr)
    (hr : ¬ (r.msg_type = .NEWTABLE ∧ r.table_update = true ∧ r.ctx_table = t)) :
    ((abort_one s r).1.table t).flags = (s.table t).flags := by
  unfold abort_one
  cases hm : r.msg_type <;> simp only
  case NEWTABLE =>
    by_cases hu : r.table_update = true
    · have hne : t ≠ r.ctx_table := fun e => hr ⟨hm, hu, e.symm⟩
      rw [if_pos hu]
      split
      · rfl
      · dsimp only
        rw [updTable_other_table _ _ _ _ hne]
        split
        · rw [updTable_other_table _ _ _ _ hne]
          unfold nf_tables_table_disable
          rw [updTable_other_table _ _ _ _ hne]
        · split
          · rw [updTable_other_table _ _ _ _ hne]
          · rfl
    · rw [if_neg hu]
  case DELTABLE => exact updTable_flags _ _ _ _ (fun _ => rfl)
  case NEWCHAIN =>
    split
    · rfl
    · dsimp only
      refine (updTable_flags _ _ _ _ ?_).trans ?_
      · intro x; rfl
      · exact table_use_dec_flags _ _ _
  case DELCHAIN => exact table_use_inc_restore_flags _ _ _
  case NEWRULE => exact (rule_expr_deactivate_frame _ _ _).table_flags t
  case DELRULE => exact (rule_expr_activate_frame _ _).callback.table_flags t
  case NEWSET =>
    split
    · exact table_use_dec_flags _ _ _
    · dsimp only
      refine (updTable_flags _ _ _ _ ?_).trans ?_
      · intro x; rfl
      · exact table_use_dec_flags _ _ _
  case DELSET =>
    split
    · refine (congrArg (fun f => (f t).flags) (map_activate_frame _ _).table).trans ?_
      exact table_use_inc_restore_flags _ _ _
    · exact table_use_inc_restore_flags _ _ _
  case NEWSETELEM => split <;> rfl
  case DELSETELEM => exact congrArg (fun f => (f t).flags) (act_elem_frame s r.elem).table
  case NEWOBJ =>
    split
    · rfl
    · dsimp only
      refine (updTable_flags _ _ _ _ ?_).trans ?_
      · intro x; rfl
      · exact table_use_dec_flags _ _ _
  case DELOBJ => exact table_use_inc_restore_flags _ _ _
  case NEWFLOWTABLE =>
    refine (updTable_flags _ _ _ _ ?_).trans ?_
    · intro x; rfl
    · exact table_use_dec_flags _ _ _
  case DELFLOWTABLE => exact table_use_inc_restore_flags _ _ _

/-- An update record of a table whose internal update flags are clear is dropped by
`__nf_tables_abort` without a change of the state. -/
theorem abort_one_update_clear (s : State) (r : nft_trans)
    (hm : r.msg_type = .NEWTABLE) (hu : r.table_update = true)
    (hf : (s.table r.ctx_table).flags &&& __NFT_TABLE_F_UPDATE = 0) :
    (abort_one s r).1 = s := by
  unfold abort_one
  rw [hm]
  simp only [hu, if_true, hf]

theorem abort_loop_flags_clear (t : Ptr) (F : Nat) (hF : F &&& __NFT_TABLE_F_UPDATE = 0)
    (L : List nft_trans) : ∀ s : State, (s.table t).flags = F →
    ((abort_loop L s).table t).flags = F := by
  induction L with
  | nil => intro s h; exact h
  | cons r L ih =>
    intro s h
    rw [abort_loop]
    apply ih
    by_cases hr : r.msg_type = .NEWTABLE ∧ r.table_update = true ∧ r.ctx_table = t
    · obtain ⟨h1, h2, h3⟩ := hr
      rw [abort_one_update_clear s r h1 h2 (by rw [h3, h]; exact hF)]
      exact h
    · rw [abort_one_table_flags s r t hr]
      exact h

theorem abort_loop_flags_other (t : Ptr) (L : List nft_trans)
    (hL : ∀ r ∈ L, ¬ (r.msg_type = .NEWTABLE ∧ r.table_update = true ∧ r.ctx_table = t)) :
    ∀ s : State, ((abort_loop L s).table t).flags = (s.table t).flags := by
  induction L with
  | nil => intro s; rfl
  | cons r L ih =>
    intro s
    rw [abort_loop, ih (fun x hx => hL x (List.mem_cons_of_mem _ hx)),
      abort_one_table_flags s r t (hL r (List.mem_cons_self _ _))]

/-- The flags of the table after `__nf_tables_abort` has undone an update record of the
table, from the flags before. -/
theorem abort_one_update_flags (x : State) (r : nft_trans)
    (hm : r.msg_type = .NEWTABLE) (hu : r.table_update = true) :
    ((abort_one x r).1.table r.ctx_table).flags =
      (if (x.table r.ctx_table).flags &&& 6 = 0 then (x.table r.ctx_table).flags
      else
        (if (x.table r.ctx_table).flags &&& 2 ≠ 0 then
          (((x.table r.ctx_table).flags &&& (4294967295 ^^^ 1)) ||| 1) ||| 1
        else if (x.table r.ctx_table).flags &&& 4 ≠ 0 then
          (x.table r.ctx_table).flags &&& (4294967295 ^^^ 1)
        else (x.table r.ctx_table).flags) &&& (4294967295 ^^^ 6)) := by
  unfold abort_one
  rw [hm]
  simp only [hu, if_true]
  have e6 : __NFT_TABLE_F_UPDATE = 6 := by decide
  have e2 : __NFT_TABLE_F_WAS_DORMANT = 2 := by decide
  have e4 : __NFT_TABLE_F_WAS_AWAKEN = 4 := by decide
  have e1 : NFT_TABLE_F_DORMANT = 1 := by decide
  have em : UINT_MAX = 4294967295 := by decide
  rw [e6, e2, e4, e1, em]
  by_cases h6 : (x.table r.ctx_table).flags &&& 6 = 0
  · rw [if_pos h6, if_pos h6]
  · rw [if_neg h6, if_neg h6]
    dsimp only
    rw [updTable_at]
    dsimp only
    by_cases h2 : (x.table r.ctx_table).flags &&& 2 ≠ 0
    · rw [if_pos h2, if_pos h2, updTable_at]
      unfold nf_tables_table_disable
      rw [updTable_at, e1, em]
    · rw [if_neg h2, if_neg h2]
      by_cases h4 : (x.table r.ctx_table).flags &&& 4 ≠ 0
      · rw [if_pos h4, if_pos h4, updTable_at]
      · rw [if_neg h4, if_neg h4]

theorem u32_low_bit (f : Nat) (hf : f < 2 ^ 32) (h : f &&& (4294967295 ^^^ 1) = 0) :
    f = 0 ∨ f = 1 := by
  have key : f &&& 1 = f := by
    apply Nat.eq_of_testBit_eq
    intro i
    have b := congrArg (fun x => x.testBit i) h
    simp only [Nat.testBit_and, Nat.testBit_xor, Nat.zero_testBit] at b
    simp only [Nat.testBit_and]
    by_cases hi : 32 ≤ i
    · simp [u32_bit_high f hf i hi]
    · have : i < 32 := by omega
      clear h hf
      interval_cases i <;> (generalize f.testBit _ = c at b ⊢; revert c; decide)
  rw [Nat.and_one_is_mod] at key
  omega

/-- A call of `nf_tables_updtable` that returns `0` and stages a record: the table had
no internal update flag, the record is the update record of the table, and the flags of
the table are the old ones with the dormant bit and `__NFT_TABLE_F_WAS_AWAKEN` set (the
table was awake), or with the dormant bit cleared and `__NFT_TABLE_F_WAS_DORMANT` set
(the table was dormant). -/
theorem updtable_staged (ctx : nft_ctx) (env : UpdTableEnv) (s : State)
    (hreq : ∀ f, env.flags = some f → f < 2 ^ 32) (hu32 : (s.table ctx.table).flags < 2 ^ 32)
    (hok : (nf_tables_updtable ctx env s).1 = 0)
    (hstaged : (nf_tables_updtable ctx env s).2.commit_list ≠ s.commit_list) :
    (nf_tables_updtable ctx env s).2.commit_list = s.commit_list ++
      [{ msg_type := .NEWTABLE, ctx_table := ctx.table, ctx_chain := ctx.chain,
         table_update := true }] ∧
    (s.table ctx.table).flags &&& 6 = 0 ∧
    (((s.table ctx.table).flags &&& 1 = 0 ∧ env.flags = some 1 ∧
        ((nf_tables_updtable ctx env s).2.table ctx.table).flags =
          (s.table ctx.table).flags ||| 1 ||| 4) ∨
      ((s.table ctx.table).flags &&& 1 ≠ 0 ∧ env.flags = some 0 ∧
        ((nf_tables_updtable ctx env s).2.table ctx.table).flags =
          ((s.table ctx.table).flags &&& (4294967295 ^^^ 1)) ||| 2)) := by
  have e6 : __NFT_TABLE_F_UPDATE = 6 := by decide
  have e2 : __NFT_TABLE_F_WAS_DORMANT = 2 := by decide
  have e4 : __NFT_TABLE_F_WAS_AWAKEN = 4 := by decide
  have e1 : NFT_TABLE_F_DORMANT = 1 := by decide
  have e1m : NFT_TABLE_F_MASK = 1 := by decide
  have em : UINT_MAX = 4294967295 := by decide
  unfold nf_tables_updtable at hok hstaged ⊢
  cases hfl : env.flags with
  | none => rw [hfl] at hstaged; exact absurd rfl hstaged
  | some flags =>
    have hlt := hreq flags hfl
    rw [hfl] at hok hstaged
    dsimp only at hok hstaged ⊢
    rw [e1, e1m, em, e6, e2, e4] at hok hstaged ⊢
    by_cases c1 : flags &&& (4294967295 ^^^ 1) ≠ 0
    · rw [if_pos c1] at hstaged; exact absurd rfl hstaged
    rw [if_neg c1] at hok hstaged ⊢
    have hbit := u32_low_bit flags hlt (not_not.mp c1)
    by_cases c2 : flags = (s.table ctx.table).flags &&& 1
    · rw [if_pos c2] at hstaged; exact absurd rfl hstaged
    rw [if_neg c2] at hok hstaged ⊢
    by_cases c3 : nft_table_pending_update s ctx = true
    · rw [if_pos c3] at hstaged; exact absurd rfl hstaged
    rw [if_neg c3] at hok hstaged ⊢
    have h6 : (s.table ctx.table).flags &&& 6 = 0 := by
      unfold nft_table_pending_update at c3
      rw [e6] at c3
      by_contra hc
      exact c3 (by simp [hc])
    by_cases c4 : (!env.trans_alloc_ok) = true
    · rw [if_pos c4] at hstaged; exact absurd rfl hstaged
    rw [if_neg c4] at hok hstaged ⊢
    have hF01 : (s.table ctx.table).flags &&& 1 = 0 ∨ (s.table ctx.table).flags &&& 1 = 1 := by
      rw [Nat.and_one_is_mod]; omega
    by_cases hA : (s.table ctx.table).flags &&& 1 = 0
    · have hf1 : flags = 1 := by
        rcases hbit with h | h
        · exact absurd (h.trans hA.symm) c2
        · exact h
      subst hf1
      rw [if_pos ⟨by decide, hA⟩]
      have hc6 : ((s.updTable ctx.table (fun t => { t with flags := t.flags ||| 1 })).table
          ctx.table).flags &&& 6 = 0 := by
        rw [updTable_at]
        exact (flags_restore_awaken _ hu32 h6 hA).2.2.2.1
      rw [if_pos hc6]
      refine ⟨rfl, h6, Or.inl ⟨hA, rfl, ?_⟩⟩
      simp only [nft_trans_commit_list_add_tail]
      rw [updTable_at, updTable_at]
    · have hA1 : (s.table ctx.table).flags &&& 1 = 1 := by
        rcases hF01 with h | h
        · exact absurd h hA
        · exact h
      have hf0 : flags = 0 := by
        rcases hbit with h | h
        · exact h
        · exact absurd (h.trans hA1.symm) c2
      subst hf0
      rw [if_neg (fun c => hA c.2), if_pos ⟨by decide, hA⟩]
      rw [if_neg (fun c => hA c.2), if_pos ⟨by decide, hA⟩] at hok hstaged
      have hc6 : ((s.updTable ctx.table (fun t =>
          { t with flags := t.flags &&& (4294967295 ^^^ 1) })).table ctx.table).flags &&& 6 =
          0 := by
        rw [updTable_at]
        exact (flags_restore_dormant _ hu32 h6 hA).1
      rw [if_pos hc6] at hok hstaged ⊢
      by_cases c5 : nf_tables_table_enable (s.updTable ctx.table (fun t =>
          { t with flags := t.flags &&& (4294967295 ^^^ 1) })) ctx.table env.register < 0
      · rw [if_pos c5] at hok
        dsimp only at hok
        omega
      rw [if_neg c5]
      refine ⟨rfl, h6, Or.inr ⟨hA, rfl, ?_⟩⟩
      simp only [nft_trans_commit_list_add_tail]
      rw [updTable_at, updTable_at]

theorem validate_table (s : State) :
    (nf_tables_validate s).2.commit_list = s.commit_list ∧
    (nf_tables_validate s).2.table = s.table := by
  obtain ⟨⟨vs, w, hv⟩, _, _⟩ := nf_tables_validate_spec s
  rw [hv]
  exact ⟨rfl, rfl⟩

/-- C27: a call of `nf_tables_updtable` that returns `0` and stages its record changes
the dormant bit of the table and sets one internal bit of `__NFT_TABLE_F_UPDATE`; the
table had none of them before.  When the batch goes on with records that are not updates
of this table and leaves the flags of the table alone, `__nf_tables_abort` (and
`nf_tables_abort`) restores the flags of the table to their value before the update: the
dormant bit is as before and no internal bit is set. -/
theorem updtable_abort_restores_flags (ctx : nft_ctx) (env : UpdTableEnv) (s z : State)
    (L2 : List nft_trans) (av : Bool)
    (hreq : ∀ f, env.flags = some f → f < 2 ^ 32)
    (hu32 : (s.table ctx.table).flags < 2 ^ 32)
    (hok : (nf_tables_updtable ctx env s).1 = 0)
    (hstaged : (nf_tables_updtable ctx env s).2.commit_list ≠ s.commit_list)
    (hz1 : z.commit_list = (nf_tables_updtable ctx env s).2.commit_list ++ L2)
    (hz2 : (z.table ctx.table).flags = ((nf_tables_updtable ctx env s).2.table ctx.table).flags)
    (hL2 : ∀ r ∈ L2,
      ¬ (r.msg_type = .NEWTABLE ∧ r.table_update = true ∧ r.ctx_table = ctx.table)) :
    (s.table ctx.table).flags &&& __NFT_TABLE_F_UPDATE = 0 ∧
    ((nf_tables_updtable ctx env s).2.table ctx.table).flags &&& __NFT_TABLE_F_UPDATE ≠ 0 ∧
    ((nf_tables_updtable ctx env s).2.table ctx.table).flags &&& NFT_TABLE_F_DORMANT ≠
      (s.table ctx.table).flags &&& NFT_TABLE_F_DORMANT ∧
    ((__nf_tables_abort av z).2.table ctx.table).flags = (s.table ctx.table).flags ∧
    ((nf_tables_abort av z).2.table ctx.table).flags = (s.table ctx.table).flags ∧
    ((__nf_tables_abort av z).2.table ctx.table).flags &&& __NFT_TABLE_F_UPDATE = 0 ∧
    ((__nf_tables_abort av z).2.table ctx.table).flags &&& NFT_TABLE_F_DORMANT =
      (s.table ctx.table).flags &&& NFT_TABLE_F_DORMANT := by
  have e6 : __NFT_TABLE_F_UPDATE = 6 := by decide
  have e1 : NFT_TABLE_F_DORMANT = 1 := by decide
  obtain ⟨hcl, h6, hcase⟩ := updtable_staged ctx env s hreq hu32 hok hstaged
  -- the flags the record loop computes
  have hrec : ∀ (x : State) (r : nft_trans), r.msg_type = .NEWTABLE →
      r.table_update = true → r.ctx_table = ctx.table →
      (x.table ctx.table).flags = ((nf_tables_updtable ctx env s).2.table ctx.table).flags →
      ((abort_one x r).1.table ctx.table).flags = (s.table ctx.table).flags := by
    intro x r hm hu hc hx
    have h := abort_one_update_flags x r hm hu
    rw [hc] at h
    rw [h, hx]
    rcases hcase with ⟨hA, _, hF⟩ | ⟨hA, _, hF⟩
    · obtain ⟨a1, a2, a3, _, a5, _⟩ := flags_restore_awaken _ hu32 h6 hA
      rw [hF, if_neg a1, if_neg (not_not.mpr a2), if_pos a3]
      exact a5
    · obtain ⟨_, d1, d2, d3, _⟩ := flags_restore_dormant _ hu32 h6 hA
      rw [hF, if_neg d1, if_pos d2]
      exact d3
  have key : ∀ v : State, v.commit_list = z.commit_list → v.table = z.table →
      ((((abort_left v.commit_list.reverse v).foldl nf_tables_abort_release
        (abort_loop v.commit_list.reverse v)).table ctx.table).flags =
        (s.table ctx.table).flags) := by
    intro v hc ht
    rw [(abort_release_loop_frame _ _).table, hc, hz1, hcl, List.reverse_append,
      List.reverse_append, List.reverse_singleton, List.singleton_append, abort_loop_append,
      abort_loop]
    apply abort_loop_flags_clear ctx.table _ (by rw [e6]; exact h6)
    apply hrec _ _ rfl rfl rfl
    rw [abort_loop_flags_other ctx.table L2.reverse
      (fun r hr => hL2 r (List.mem_reverse.mp hr)), ht]
    exact hz2
  have habort : ∀ y : State, y.commit_list = z.commit_list → y.table = z.table →
      ((__nf_tables_abort av y).2.table ctx.table).flags = (s.table ctx.table).flags := by
    intro y hc ht
    unfold __nf_tables_abort
    dsimp only
    cases av
    · exact key y hc ht
    · exact key _ ((validate_table y).1.trans hc) ((validate_table y).2.trans ht)
  have hmain := habort z rfl rfl
  refine ⟨by rw [e6]; exact h6, ?_, ?_, hmain, ?_, by rw [hmain, e6]; exact h6,
    by rw [hmain]⟩
  · rw [e6]
    rcases hcase with ⟨hA, _, hF⟩ | ⟨hA, _, hF⟩
    · rw [hF]; exact (flags_restore_awaken _ hu32 h6 hA).1
    · rw [hF]; exact (flags_restore_dormant _ hu32 h6 hA).2.1
  · rw [e1]
    rcases hcase with ⟨hA, _, hF⟩ | ⟨hA, _, hF⟩
    · rw [hF, hA]; exact (flags_restore_awaken _ hu32 h6 hA).2.2.2.2.2
    · rw [hF, (flags_restore_dormant _ hu32 h6 hA).2.2.2.2]; exact fun h => hA h.symm
  · unfold nf_tables_abort
    dsimp only
    exact habort (nft_gc_seq_begin z).2 rfl rfl

theorem updtable_abort_restores_flags_witness :
    (ex_table_state.table 1).flags = 0 ∧
    (nf_tables_updtable { table := 1 } { flags := some 1 } ex_table_state).1 = 0 ∧
    ((nf_tables_updtable { table := 1 } { flags := some 1 } ex_table_state).2.table 1).flags =
      5 ∧
    ((__nf_tables_abort false
      (nf_tables_updtable { table := 1 } { flags := some 1 } ex_table_state).2).2.table
        1).flags = 0 ∧
    (ex_table_state.table 2).flags = 1 ∧
    ((nf_tables_updtable { table := 2 } { flags := some 0 } ex_table_state).2.table 2).flags =
      2 ∧
    ((__nf_tables_abort false
      (nf_tables_updtable { table := 2 } { flags := some 0 } ex_table_state).2).2.table
        2).flags = 1 :=
  ⟨by decide, by decide, by decide,
   (updtable_abort_restores_flags { table := 1 } { flags := some 1 } ex_table_state
      (nf_tables_updtable { table := 1 } { flags := some 1 } ex_table_state).2 [] false
      (fun f hf => by cases hf; decide) (by decide) (by decide) (by decide) (by simp)
      rfl (fun r hr => by cases hr)).2.2.2.1,
   by decide, by decide, by decide⟩

/-! ## C24: flowtable creation -/

theorem FlowFrame.of_heap {z w v : State} {t : Ptr} (h : FlowFrame z w t)
    (hc : v.commit_list = w.commit_list) (ht : v.table = w.table) : FlowFrame z v t :=
  ⟨hc.trans h.commit_list, by rw [ht]; exact h.flowtables, by rw [ht]; exact h.use⟩

theorem FlowFrame.undo {z w : State} {t : Ptr} (h : FlowFrame z w t) :
    (table_use_dec w t).commit_list = z.commit_list ∧
    ((table_use_dec w t).table t).flowtables = (z.table t).flowtables ∧
    ((table_use_dec w t).table t).use = (z.table t).use := by
  unfold table_use_dec State.warn State.updTable
  simp only [Function.update_same, nft_use_dec]
  refine ⟨h.commit_list, h.flowtables, ?_⟩
  rw [h.use, if_neg (by omega)]
  rfl

theorem use_inc_frame (s : State) (t : Ptr) (h : (nft_use_inc (s.table t).use).1 = true) :
    FlowFrame s (s.updTable t (fun x => { x with use := (nft_use_inc x.use).2 })) t := by
  unfold State.updTable
  refine ⟨rfl, ?_, ?_⟩
  · simp only [Function.update_same]
  · simp only [Function.update_same]
    unfold nft_use_inc at h ⊢
    split
    · rename_i hc; rw [if_pos hc] at h; cases h
    · rfl

theorem alloc_handle_frame {z w : State} {t : Ptr} (h : FlowFrame z w t) (p : Ptr) :
    FlowFrame z (nf_tables_alloc_handle w p).2 t := by
  unfold nf_tables_alloc_handle State.updTable
  dsimp only
  by_cases hp : t = p
  · subst hp
    exact ⟨h.commit_list, by simp only [Function.update_same]; exact h.flowtables,
      by simp only [Function.update_same]; exact h.use⟩
  · exact ⟨h.commit_list, by simp only [Function.update_noteq hp]; exact h.flowtables,
      by simp only [Function.update_noteq hp]; exact h.use⟩

theorem trans_flowtable_add_frame (ctx : nft_ctx) (f : Ptr) (k : Bool) (w : State) :
    (nft_trans_flowtable_add ctx .NEWFLOWTABLE f k w).2.table = w.table ∧
    ((nft_trans_flowtable_add ctx .NEWFLOWTABLE f k w).1 < 0 →
      (nft_trans_flowtable_add ctx .NEWFLOWTABLE f k w).2.commit_list = w.commit_list) ∧
    (¬ (nft_trans_flowtable_add ctx .NEWFLOWTABLE f k w).1 < 0 →
      (nft_trans_flowtable_add ctx .NEWFLOWTABLE f k w).2.commit_list = w.commit_list ++
        [{ msg_type := .NEWFLOWTABLE, ctx_table := ctx.table, ctx_chain := ctx.chain,
           flowtable := f }]) := by
  unfold nft_trans_flowtable_add
  cases k
  · simp [ENOMEM]
  · simp [nft_trans_commit_list_add_tail, State.updFlowtable]

/-- The part of `nf_tables_newflowtable` from `nf_tables_flowtable_parse_hook` on. -/
theorem newflowtable_tail (ctx : nft_ctx) (env : NewFlowtableEnv) (s s4 : State)
    (F4 : FlowFrame s s4 ctx.table) (R : Int × State) :
    ((if (nf_tables_flowtable_parse_hook env.hook (s4.flowtable s.brk).flags).1 < 0 then
        ((nf_tables_flowtable_parse_hook env.hook (s4.flowtable s.brk).flags).1,
          table_use_dec s4 ctx.table)
      else if flowtable_hooks_loop
          (s4.updFlowtable s.brk (fun f => { f with ops_dev :=
            (nf_tables_flowtable_parse_hook env.hook (s4.flowtable s.brk).flags).2 }))
          ctx.table env.register_hook
          (nf_tables_flowtable_parse_hook env.hook (s4.flowtable s.brk).flags).2 0 < 0 then
        (flowtable_hooks_loop
          (s4.updFlowtable s.brk (fun f => { f with ops_dev :=
            (nf_tables_flowtable_parse_hook env.hook (s4.flowtable s.brk).flags).2 }))
          ctx.table env.register_hook
          (nf_tables_flowtable_parse_hook env.hook (s4.flowtable s.brk).flags).2 0,
          table_use_dec (s4.updFlowtable s.brk (fun f => { f with ops_dev :=
            (nf_tables_flowtable_parse_hook env.hook (s4.flowtable s.brk).flags).2 }))
            ctx.table)
      else if (nft_trans_flowtable_add ctx .NEWFLOWTABLE s.brk env.trans_ok
          (s4.updFlowtable s.brk (fun f => { f with ops_dev :=
            (nf_tables_flowtable_parse_hook env.hook (s4.flowtable s.brk).flags).2 }))).1 < 0 then
        ((nft_trans_flowtable_add ctx .NEWFLOWTABLE s.brk env.trans_ok
          (s4.updFlowtable s.brk (fun f => { f with ops_dev :=
            (nf_tables_flowtable_parse_hook env.hook (s4.flowtable s.brk).flags).2 }))).1,
          table_use_dec (nft_trans_flowtable_add ctx .NEWFLOWTABLE s.brk env.trans_ok
            (s4.updFlowtable s.brk (fun f => { f with ops_dev :=
              (nf_tables_flowtable_parse_hook env.hook (s4.flowtable s.brk).flags).2 }))).2
            ctx.table)
      else
        (0, (nft_trans_flowtable_add ctx .NEWFLOWTABLE s.brk env.trans_ok
          (s4.updFlowtable s.brk (fun f => { f with ops_dev :=
            (nf_tables_flowtable_parse_hook env.hook (s4.flowtable s.brk).flags).2 }))).2.updTable
          ctx.table (fun t => { t with flowtables := t.flowtables ++ [s.brk] })) :
        Int × State)) = R →
    ((R.1 < 0 → R.2.commit_list = s.commit_list ∧
      (R.2.table ctx.table).flowtables = (s.table ctx.table).flowtables ∧
      (R.2.table ctx.table).use = (s.table ctx.table).use) ∧
    (R.2.commit_list ≠ s.commit_list →
      R.1 = 0 ∧
      R.2.commit_list = s.commit_list ++
        [{ msg_type := .NEWFLOWTABLE, ctx_table := ctx.table, ctx_chain := ctx.chain,
           flowtable := s.brk }] ∧
      (R.2.table ctx.table).flowtables = (s.table ctx.table).flowtables ++ [s.brk] ∧
      (R.2.table ctx.table).use = (s.table ctx.table).use + 1)) := by
  intro hR
  subst hR
  generalize (nf_tables_flowtable_parse_hook env.hook (s4.flowtable s.brk).flags) = p
  by_cases h6 : p.1 < 0
  · rw [if_pos h6]
    exact ⟨fun _ => F4.undo, fun h => absurd F4.undo.1 h⟩
  rw [if_neg h6]
  have F5 : FlowFrame s (s4.updFlowtable s.brk (fun f => { f with ops_dev := p.2 }))
      ctx.table := F4.of_heap rfl rfl
  generalize s4.updFlowtable s.brk (fun f => { f with ops_dev := p.2 }) = s5 at F5 ⊢
  by_cases h7 : flowtable_hooks_loop s5 ctx.table env.register_hook p.2 0 < 0
  · rw [if_pos h7]
    exact ⟨fun _ => F5.undo, fun h => absurd F5.undo.1 h⟩
  rw [if_neg h7]
  obtain ⟨t1, t2, t3⟩ := trans_flowtable_add_frame ctx s.brk env.trans_ok s5
  by_cases h8 : (nft_trans_flowtable_add ctx .NEWFLOWTABLE s.brk env.trans_ok s5).1 < 0
  · rw [if_pos h8]
    have F6 : FlowFrame s (nft_trans_flowtable_add ctx .NEWFLOWTABLE s.brk env.trans_ok s5).2
        ctx.table := F5.of_heap (t2 h8) t1
    exact ⟨fun _ => F6.undo, fun h => absurd F6.undo.1 h⟩
  rw [if_neg h8]
  refine ⟨fun h => absurd h (lt_irrefl 0), fun _ => ⟨rfl, ?_, ?_, ?_⟩⟩
  · show (nft_trans_flowtable_add ctx .NEWFLOWTABLE s.brk env.trans_ok s5).2.commit_list = _
    rw [t3 h8, F5.commit_list]
  · dsimp only
    unfold State.updTable
    simp only [Function.update_same]
    rw [t1, F5.flowtables]
  · dsimp only
    unfold State.updTable
    simp only [Function.update_same]
    rw [t1, F5.use]

/-- C24: for a request that names a flowtable the table does not hold,
`nf_tables_newflowtable` leaves the commit list, the flowtable list of the table and the
use count of the table as they were when it returns a negative value, and when it stages
a record it returns `0`, appends the `NEWFLOWTABLE` record, links the new flowtable at the
tail of the list of the table and has incremented the use count.  But a request whose
flags hold a bit other than `NF_FLOWTABLE_F_HW` leaves by the error label without setting
the error: the function returns the result of the `init` callback of the flowtable type,
which is not negative (`0` for a callback that succeeded), and has staged nothing. -/
theorem newflowtable_all_or_nothing (ctx : nft_ctx) (env : NewFlowtableEnv) (s : State)
    (hnew : nft_flowtable_lookup s ctx.table env.name (nft_genmask_next s.gencursor) = none) :
    ((nf_tables_newflowtable ctx env s).1 < 0 →
      (nf_tables_newflowtable ctx env s).2.commit_list = s.commit_list ∧
      ((nf_tables_newflowtable ctx env s).2.table ctx.table).flowtables =
        (s.table ctx.table).flowtables ∧
      ((nf_tables_newflowtable ctx env s).2.table ctx.table).use = (s.table ctx.table).use) ∧
    ((nf_tables_newflowtable ctx env s).2.commit_list ≠ s.commit_list →
      (nf_tables_newflowtable ctx env s).1 = 0 ∧
      (nf_tables_newflowtable ctx env s).2.commit_list = s.commit_list ++
        [{ msg_type := .NEWFLOWTABLE, ctx_table := ctx.table, ctx_chain := ctx.chain,
           flowtable := s.brk }] ∧
      ((nf_tables_newflowtable ctx env s).2.table ctx.table).flowtables =
        (s.table ctx.table).flowtables ++ [s.brk] ∧
      ((nf_tables_newflowtable ctx env s).2.table ctx.table).use =
        (s.table ctx.table).use + 1) ∧
    (∀ (flags : Nat) (type : nf_flowtable_type), env.flags = some flags →
      flags &&& (UINT_MAX ^^^ NF_FLOWTABLE_F_HW) ≠ 0 →
      (s.table ctx.table).use ≠ UINT_MAX → env.flowtable_alloc_ok = true →
      env.name_ok = true → nft_flowtable_type_get env = (0, some type) → 0 ≤ type.init →
      (nf_tables_newflowtable ctx env s).1 = type.init ∧
      ¬ (nf_tables_newflowtable ctx env s).1 < 0 ∧
      (nf_tables_newflowtable ctx env s).2.commit_list = s.commit_list ∧
      ((nf_tables_newflowtable ctx env s).2.table ctx.table).flowtables =
        (s.table ctx.table).flowtables ∧
      ((nf_tables_newflowtable ctx env s).2.table ctx.table).use = (s.table ctx.table).use) := by
  unfold nf_tables_newflowtable
  rw [hnew]
  dsimp only
  by_cases h1 : (!(nft_use_inc (s.table ctx.table).use).1) = true
  · rw [if_pos h1]
    refine ⟨fun _ => ⟨rfl, rfl, rfl⟩, fun h => absurd rfl h, ?_⟩
    intro flags type _ _ hu _ _ _ _
    exfalso
    unfold nft_use_inc at h1
    rw [if_neg hu] at h1
    simp at h1
  rw [if_neg h1]
  have F1 := use_inc_frame s ctx.table (by simpa using h1)
  generalize s.updTable ctx.table (fun t => { t with use := (nft_use_inc t.use).2 }) = s1 at F1 ⊢
  by_cases h2 : (!env.flowtable_alloc_ok) = true
  · rw [if_pos h2]
    refine ⟨fun _ => F1.undo, fun h => absurd F1.undo.1 h, ?_⟩
    intro flags type _ _ _ ha _ _ _
    rw [ha] at h2
    simp at h2
  rw [if_neg h2]
  have F2 : FlowFrame s ({ (nf_tables_alloc_handle s1 ctx.table).2 with
      flowtable := Function.update (nf_tables_alloc_handle s1 ctx.table).2.flowtable s.brk
        { table := ctx.table, handle := (nf_tables_alloc_handle s1 ctx.table).1 },
      brk := s.brk + 1 } : State) ctx.table :=
    (alloc_handle_frame F1 ctx.table).of_heap rfl rfl
  generalize ({ (nf_tables_alloc_handle s1 ctx.table).2 with
      flowtable := Function.update (nf_tables_alloc_handle s1 ctx.table).2.flowtable s.brk
        { table := ctx.table, handle := (nf_tables_alloc_handle s1 ctx.table).1 },
      brk := s.brk + 1 } : State) = s2 at F2 ⊢
  by_cases h3 : (!env.name_ok) = true
  · rw [if_pos h3]
    refine ⟨fun _ => F2.undo, fun h => absurd F2.undo.1 h, ?_⟩
    intro flags type _ _ _ _ hn _ _
    rw [hn] at h3
    simp at h3
  rw [if_neg h3]
  have F3 : FlowFrame s (s2.updFlowtable s.brk (fun f => { f with name := env.name }))
      ctx.table := F2.of_heap rfl rfl
  generalize s2.updFlowtable s.brk (fun f => { f with name := env.name }) = s3 at F3 ⊢
  rcases hty : nft_flowtable_type_get env with ⟨err, _ | type⟩
  · dsimp only
    have herr : err < 0 := by
      unfold nft_flowtable_type_get at hty
      split at hty
      · split at hty
        · cases hty
        · cases hty; simp [ENOENT]
      · split at hty
        · cases hty; simp [EAGAIN]
        · cases hty; simp [ENOENT]
    refine ⟨fun _ => F3.undo, fun h => absurd F3.undo.1 h, ?_⟩
    intro flags type _ _ _ _ _ ht _
    cases ht
  dsimp only
  by_cases h4 : type.init < 0
  · rw [if_pos h4]
    refine ⟨fun _ => F3.undo, fun h => absurd F3.undo.1 h, ?_⟩
    intro flags ty _ _ _ _ _ ht hi
    simp only [Prod.mk.injEq, Option.some.injEq] at ht
    rw [ht.2] at h4
    omega
  rw [if_neg h4]
  cases hfl : env.flags with
  | some flags =>
    dsimp only
    have F4 : FlowFrame s (s3.updFlowtable s.brk (fun f => { f with flags := flags }))
        ctx.table := F3.of_heap rfl rfl
    generalize s3.updFlowtable s.brk (fun f => { f with flags := flags }) = s4 at F4 ⊢
    by_cases h5 : flags &&& (UINT_MAX ^^^ NF_FLOWTABLE_F_HW) ≠ 0
    · rw [if_pos (by simpa using h5)]
      refine ⟨fun _ => F4.undo, fun h => absurd F4.undo.1 h, ?_⟩
      intro fl ty _ _ _ _ _ ht _
      simp only [Prod.mk.injEq, Option.some.injEq] at ht
      rw [← ht.2]
      exact ⟨rfl, h4, F4.undo⟩
    · rw [if_neg (by simpa using h5)]
      have tail := newflowtable_tail ctx env s s4 F4 _ rfl
      refine ⟨tail.1, tail.2, ?_⟩
      intro fl ty hf hb _ _ _ _ _
      simp only [Option.some.injEq] at hf
      rw [hf] at h5
      exact absurd hb h5
  | none =>
    dsimp only
    rw [if_neg (by simp)]
    have tail := newflowtable_tail ctx env s s3 F3 _ rfl
    refine ⟨tail.1, tail.2, ?_⟩
    intro fl ty hf _ _ _ _ _ _
    cases hf

theorem newflowtable_all_or_nothing_witness :
    (nf_tables_newflowtable { table := 1 } ex_flow_env ex_flow_state).1 = 0 ∧
    (nf_tables_newflowtable { table := 1 } ex_flow_env ex_flow_state).2.commit_list = [] ∧
    ((nf_tables_newflowtable { table := 1 } ex_flow_env ex_flow_state).2.table 1).flowtables =
      [] ∧
    ((nf_tables_newflowtable { table := 1 } ex_flow_env ex_flow_state).2.table 1).use = 3 ∧
    (nf_tables_newflowtable { table := 1 } { ex_flow_env with flags := none }
      ex_flow_state).1 = 0 ∧
    (nf_tables_newflowtable { table := 1 } { ex_flow_env with flags := none }
      ex_flow_state).2.commit_list.length = 1 ∧
    ((nf_tables_newflowtable { table := 1 } { ex_flow_env with flags := none }
      ex_flow_state).2.table 1).flowtables = [40] ∧
    ((nf_tables_newflowtable { table := 1 } { ex_flow_env with flags := none }
      ex_flow_state).2.table 1).use = 4 :=
  ⟨((newflowtable_all_or_nothing { table := 1 } ex_flow_env ex_flow_state (by decide)).2.2 2
      { family := 2 } rfl (by decide) (by decide) rfl rfl (by decide) (by decide)).1,
   by decide, by decide, by decide, by decide, by decide, by decide, by decide⟩

/-! ## C22: rule placement -/

theorem list_add_rcu_spec (new o : Ptr) (l : List Ptr) (ho : o ∈ l) :
    ∃ l1 l2, l = l1 ++ o :: l2 ∧ o ∉ l1 ∧ list_add_rcu new (some o) l = l1 ++ o :: new :: l2 := by
  induction l with
  | nil => cases ho
  | cons x xs ih =>
    by_cases hx : x = o
    · subst hx
      exact ⟨[], xs, rfl, List.not_mem_nil _, by simp [list_add_rcu]⟩
    · have ho2 : o ∈ xs := by
        rcases List.mem_cons.mp ho with h | h
        · exact absurd h.symm hx
        · exact h
      obtain ⟨l1, l2, h1, h2, h3⟩ := ih ho2
      refine ⟨x :: l1, l2, by rw [h1]; rfl, ?_, ?_⟩
      · intro hm
        rcases List.mem_cons.mp hm with h | h
        · exact hx h.symm
        · exact h2 h
      · rw [list_add_rcu, if_neg hx, h3]
        rfl

theorem list_add_tail_rcu_spec (new o : Ptr) (l : List Ptr) (ho : o ∈ l) :
    ∃ l1 l2, l = l1 ++ o :: l2 ∧ o ∉ l1 ∧
      list_add_tail_rcu new (some o) l = l1 ++ new :: o :: l2 := by
  induction l with
  | nil => cases ho
  | cons x xs ih =>
    by_cases hx : x = o
    · subst hx
      exact ⟨[], xs, rfl, List.not_mem_nil _, by simp [list_add_tail_rcu]⟩
    · have ho2 : o ∈ xs := by
        rcases List.mem_cons.mp ho with h | h
        · exact absurd h.symm hx
        · exact h
      obtain ⟨l1, l2, h1, h2, h3⟩ := ih ho2
      refine ⟨x :: l1, l2, by rw [h1]; rfl, ?_, ?_⟩
      · intro hm
        rcases List.mem_cons.mp hm with h | h
        · exact hx h.symm
        · exact h2 h
      · rw [list_add_tail_rcu, if_neg hx, h3]
        rfl

theorem filter_ne_self (new : Ptr) (l : List Ptr) (h : new ∉ l) :
    l.filter (fun p => decide (p ≠ new)) = l := by
  rw [List.filter_eq_self]
  intro a ha
  simp only [decide_eq_true_eq]
  exact fun e => h (e ▸ ha)

theorem list_add_rcu_filter (new : Ptr) (pos : Option Ptr) (l : List Ptr) (h : new ∉ l) :
    (list_add_rcu new pos l).filter (fun p => decide (p ≠ new)) = l := by
  cases pos with
  | none =>
    rw [list_add_rcu, List.filter_cons_of_neg (by simp)]
    exact filter_ne_self new l h
  | some o =>
    induction l with
    | nil => rfl
    | cons x xs ih =>
      have hx : x ≠ new := fun e => h (e ▸ List.mem_cons_self _ _)
      have hxs : new ∉ xs := fun m => h (List.mem_cons_of_mem _ m)
      rw [list_add_rcu]
      split
      · rw [List.filter_cons_of_pos (by simpa using hx), List.filter_cons_of_neg (by simp),
          filter_ne_self new xs hxs]
      · rw [List.filter_cons_of_pos (by simpa using hx), ih hxs]

theorem list_add_tail_rcu_filter (new : Ptr) (pos : Option Ptr) (l : List Ptr) (h : new ∉ l) :
    (list_add_tail_rcu new pos l).filter (fun p => decide (p ≠ new)) = l := by
  cases pos with
  | none =>
    rw [list_add_tail_rcu, List.filter_append, filter_ne_self new l h, List.filter_cons_of_neg (by simp),
      List.filter_nil, List.append_nil]
  | some o =>
    induction l with
    | nil => rfl
    | cons x xs ih =>
      have hx : x ≠ new := fun e => h (e ▸ List.mem_cons_self _ _)
      have hxs : new ∉ xs := fun m => h (List.mem_cons_of_mem _ m)
      rw [list_add_tail_rcu]
      split
      · rw [List.filter_cons_of_neg (by simp), List.filter_cons_of_pos (by simpa using hx),
          filter_ne_self new xs hxs]
      · rw [List.filter_cons_of_pos (by simpa using hx), ih hxs]

theorem updSet_use_bindings_frame (z : State) (p : Ptr) (u : Nat → Nat)
    (f : List nft_set_binding → List nft_set_binding) :
    CallbackFrame z (z.updSet p (fun x => { x with use := u x.use, bindings := f x.bindings })) := by
  simp only [State.updSet]
  refine ⟨rfl, rfl, rfl, rfl, fun _ => rfl, fun _ => rfl, fun _ => rfl, ?_, fun _ => rfl, rfl⟩
  intro c
  by_cases hc : c = p
  · subst hc; simp
  · simp [Function.update_noteq hc]

theorem bind_set_frame (ctx : nft_ctx) (set : Ptr) (b : nft_set_binding) (s : State) :
    CallbackFrame s (nf_tables_bind_set ctx set b s).2 := by
  unfold nf_tables_bind_set
  dsimp only
  split_ifs <;>
    first
    | exact CallbackFrame.refl_cb s
    | exact (updSet_use_bindings_frame s set (fun u => (nft_use_inc u).2)
        (fun l => l ++ [({ chain := ctx.chain, flags := b.flags } : nft_set_binding)])).trans_cb
        (set_trans_bind_frame _ set true)

theorem updFlowtable_use_frame (z : State) (p : Ptr) (u : Nat → Nat) :
    CallbackFrame z (z.updFlowtable p (fun x => { x with use := u x.use })) := by
  simp only [State.updFlowtable]
  refine ⟨rfl, rfl, rfl, rfl, fun _ => rfl, fun _ => rfl, ?_, fun _ => rfl, fun _ => rfl, rfl⟩
  intro c
  by_cases hc : c = p
  · subst hc; simp
  · simp [Function.update_noteq hc]

/-- The `init` callback of an expression writes what the other callbacks write. -/
theorem expr_init_frame (ctx : nft_ctx) (s : State) (a : nft_expr_attr) :
    CallbackFrame s (nft_expr_init ctx s a).2.1 := by
  cases a with
  | other v => exact CallbackFrame.refl_cb s
  | immediate nla => exact (verdict_init_frame s ctx nla).expr_frame.callback
  | objref objects => exact (objref_frame s (some objects)).expr_frame.callback
  | flow_offload name v =>
    simp only [nft_expr_init]
    split
    · exact CallbackFrame.refl_cb s
    · split
      · exact CallbackFrame.refl_cb s
      · exact updFlowtable_use_frame s _ (fun u => (nft_use_inc u).2)
  | lookup set_name set_id flags v =>
    simp only [nft_expr_init]
    split
    · exact CallbackFrame.refl_cb s
    · exact bind_set_frame ctx _ _ s

/-- The loop over the expressions writes the expressions of the rule, the validation
state and what the `init` callbacks write: the lists of the chains stay, and so do the
other rules and the handle of the rule. -/
theorem init_exprs_frame (ctx : nft_ctx) (rule : Ptr) (L : List RuleExprAttr) : ∀ s : State,
    (∀ c, ((newrule_init_exprs ctx rule L s).2.chain c).rules = (s.chain c).rules) ∧
    (∀ p, p ≠ rule → (newrule_init_exprs ctx rule L s).2.rule p = s.rule p) ∧
    ((newrule_init_exprs ctx rule L s).2.rule rule).handle = (s.rule rule).handle := by
  induction L with
  | nil => intro s; exact ⟨fun _ => rfl, fun _ _ => rfl, rfl⟩
  | cons a L ih =>
    intro s
    rw [newrule_init_exprs]
    split
    · exact ⟨fun _ => rfl, fun _ _ => rfl, rfl⟩
    · dsimp only
      have F := expr_init_frame ctx s a.attr
      split
      · exact ⟨fun c => F.chain_rules c, fun p _ => by rw [F.rule], by rw [F.rule]⟩
      · have key : ∀ w : State, (∀ c, (w.chain c).rules = (s.chain c).rules) →
            (∀ p, p ≠ rule → w.rule p = s.rule p) →
            (w.rule rule).handle = (s.rule rule).handle →
            (∀ c, ((newrule_init_exprs ctx rule L w).2.chain c).rules = (s.chain c).rules) ∧
            (∀ p, p ≠ rule → (newrule_init_exprs ctx rule L w).2.rule p = s.rule p) ∧
            ((newrule_init_exprs ctx rule L w).2.rule rule).handle = (s.rule rule).handle := by
          intro w h1 h3 h4
          obtain ⟨i1, i3, i4⟩ := ih w
          exact ⟨fun c => (i1 c).trans (h1 c), fun p hp => (i3 p hp).trans (h3 p hp),
            i4.trans h4⟩
        have hupd : (∀ c, (((nft_expr_init ctx s a.attr).2.1.updRule rule (fun r =>
              { r with exprs := r.exprs ++ [(nft_expr_init ctx s a.attr).2.2] })).chain c).rules =
              (s.chain c).rules) ∧
            (∀ p, p ≠ rule →
              ((nft_expr_init ctx s a.attr).2.1.updRule rule (fun r =>
              { r with exprs := r.exprs ++ [(nft_expr_init ctx s a.attr).2.2] })).rule p =
                s.rule p) ∧
            (((nft_expr_init ctx s a.attr).2.1.updRule rule (fun r =>
              { r with exprs := r.exprs ++ [(nft_expr_init ctx s a.attr).2.2] })).rule
                rule).handle = (s.rule rule).handle := by
          unfold State.updRule
          refine ⟨fun c => F.chain_rules c, fun p hp => ?_, ?_⟩
          · simp only [Function.update_noteq hp]; rw [F.rule]
          · simp only [Function.update_same]; rw [F.rule]
        generalize (nft_expr_init ctx s a.attr).2.1.updRule rule (fun r =>
              { r with exprs := r.exprs ++ [(nft_expr_init ctx s a.attr).2.2] }) = s1
          at hupd ⊢
        obtain ⟨u1, u3, u4⟩ := hupd
        split
        · have f := validate_state_update_frame s1 NFT_VALIDATE_NEED
          apply key
          · intro c
            have := congrArg nft_chain.rules (f.chain c)
            simp only at this
            rw [this]; exact u1 c
          · intro p hp; rw [f.rule]; exact u3 p hp
          · rw [f.rule]; exact u4
        · exact key s1 u1 u3 u4

/-- A call of `newrule_link` without `NLM_F_REPLACE` that returns `0` has linked the new
rule into the list of the chain at the place the flags and the position give; the rules
themselves and the lists of the other chains stay. -/
theorem newrule_link_spec (ctx : nft_ctx) (env : NewRuleEnv) (old : Option Ptr) (rule : Ptr)
    (s : State) (hrep : env.nlmsg_flags &&& NLM_F_REPLACE = 0) :
    (newrule_link ctx env old rule s).1 = 0 →
    ((newrule_link ctx env old rule s).2.chain ctx.chain).rules =
      (if env.nlmsg_flags &&& NLM_F_APPEND ≠ 0 then
        match old with
        | some o => list_add_rcu rule (some o) (s.chain ctx.chain).rules
        | none => list_add_tail_rcu rule none (s.chain ctx.chain).rules
      else
        match old with
        | some o => list_add_tail_rcu rule (some o) (s.chain ctx.chain).rules
        | none => list_add_rcu rule none (s.chain ctx.chain).rules) ∧
    (newrule_link ctx env old rule s).2.rule = s.rule ∧
    (∀ c, c ≠ ctx.chain →
      ((newrule_link ctx env old rule s).2.chain c).rules = (s.chain c).rules) := by
  intro hok
  unfold newrule_link at hok ⊢
  by_cases h6 : (!(nft_use_inc (s.chain ctx.chain).use).1) = true
  · rw [if_pos h6] at hok; simp [EMFILE] at hok
  rw [if_neg h6] at hok ⊢
  dsimp only at hok ⊢
  have hk : env.trans_ok = true := by
    by_contra hc
    have hf : env.trans_ok = false := by simpa using hc
    simp [nft_trans_rule_add, hf, ENOMEM] at hok
  have hadd : ∀ w : State, nft_trans_rule_add ctx .NEWRULE rule env.rule_id env.trans_ok w =
      some (nft_trans_commit_list_add_tail w
        { msg_type := .NEWRULE, ctx_table := ctx.table, ctx_chain := ctx.chain, rule := rule,
          rule_id := match env.rule_id with
            | some i => i
            | none => 0 }) := by
    intro w
    unfold nft_trans_rule_add
    rw [hk]
    cases env.rule_id <;> simp
  simp only [hadd] at hok ⊢
  have hrep2 : ¬ (env.nlmsg_flags &&& NLM_F_REPLACE ≠ 0) := not_not.mpr hrep
  rw [if_neg hrep2] at hok ⊢
  have hfin : ∀ (w : State), ((if (0 : Int) < 0 then ((0 : Int), w)
      else if w.validate_state = NFT_VALIDATE_DO then (nft_table_validate w ctx.table, w)
      else if (w.chain ctx.chain).flags &&& NFT_CHAIN_HW_OFFLOAD ≠ 0 ∧ env.flow_rule < 0 then
        (env.flow_rule, w)
      else (0, w)) : Int × State).2 = w := by
    intro w
    rw [if_neg (lt_irrefl 0)]
    split
    · rfl
    · split <;> rfl
  have hrules : ∀ (f : List Ptr → List Ptr) (w : State),
      (w.chain ctx.chain).rules = (s.chain ctx.chain).rules → w.rule = s.rule →
      (∀ c, c ≠ ctx.chain → (w.chain c).rules = (s.chain c).rules) →
      (((w.updChain ctx.chain (fun c => { c with rules := f c.rules })).chain ctx.chain).rules =
        f (s.chain ctx.chain).rules ∧
      (w.updChain ctx.chain (fun c => { c with rules := f c.rules })).rule = s.rule ∧
      (∀ c, c ≠ ctx.chain →
        ((w.updChain ctx.chain (fun c => { c with rules := f c.rules })).chain c).rules =
          (s.chain c).rules)) := by
    intro f w hc hr ho
    unfold State.updChain
    refine ⟨?_, hr, fun c hne => ?_⟩
    · simp only [Function.update_same, hc]
    · simp only [Function.update_noteq hne]
      exact ho c hne
  have hW : ∀ r : nft_trans,
      ((nft_trans_commit_list_add_tail
        (s.updChain ctx.chain (fun c => { c with use := (nft_use_inc c.use).2 })) r).chain
        ctx.chain).rules = (s.chain ctx.chain).rules ∧
      (nft_trans_commit_list_add_tail
        (s.updChain ctx.chain (fun c => { c with use := (nft_use_inc c.use).2 })) r).rule =
        s.rule ∧
      (∀ c, c ≠ ctx.chain → ((nft_trans_commit_list_add_tail
        (s.updChain ctx.chain (fun c => { c with use := (nft_use_inc c.use).2 })) r).chain
        c).rules = (s.chain c).rules) := by
    intro r
    have hh : ∀ w : State, (nft_trans_commit_list_add_tail w r).chain = w.chain ∧
        (nft_trans_commit_list_add_tail w r).rule = w.rule := by
      intro w
      unfold nft_trans_commit_list_add_tail
      split
      · split <;> exact ⟨rfl, rfl⟩
      · exact ⟨rfl, rfl⟩
    rw [(hh _).1, (hh _).2]
    unfold State.updChain
    refine ⟨by simp only [Function.update_same], rfl, fun c hne => ?_⟩
    simp only [Function.update_noteq hne]
  clear hok
  by_cases hap : env.nlmsg_flags &&& NLM_F_APPEND ≠ 0
  · simp only [if_pos hap]
    rw [hfin]
    cases old with
    | some o =>
      exact hrules (fun l => list_add_rcu rule (some o) l) _ (hW _).1 (hW _).2.1 (hW _).2.2
    | none =>
      exact hrules (fun l => list_add_tail_rcu rule none l) _ (hW _).1 (hW _).2.1 (hW _).2.2
  · simp only [if_neg hap]
    rw [hfin]
    cases old with
    | some o =>
      exact hrules (fun l => list_add_tail_rcu rule (some o) l) _ (hW _).1 (hW _).2.1 (hW _).2.2
    | none =>
      exact hrules (fun l => list_add_rcu rule none l) _ (hW _).1 (hW _).2.1 (hW _).2.2

/-- A call of `newrule_build` without `NLM_F_REPLACE` that returns `0` has linked the new
rule, which carries the handle, into the list of the chain at the place the flags and the
position give; the other rules and the lists of the other chains stay. -/
theorem newrule_build_linked (ctx : nft_ctx) (env : NewRuleEnv) (handle : Nat)
    (old : Option Ptr) (s : State) (hrep : env.nlmsg_flags &&& NLM_F_REPLACE = 0) :
    (newrule_build ctx env handle old s).1 = 0 →
    ((newrule_build ctx env handle old s).2.chain ctx.chain).rules =
      (if env.nlmsg_flags &&& NLM_F_APPEND ≠ 0 then
        match old with
        | some o => list_add_rcu s.brk (some o) (s.chain ctx.chain).rules
        | none => list_add_tail_rcu s.brk none (s.chain ctx.chain).rules
      else
        match old with
        | some o => list_add_tail_rcu s.brk (some o) (s.chain ctx.chain).rules
        | none => list_add_rcu s.brk none (s.chain ctx.chain).rules) ∧
    (∀ p, p ≠ s.brk → (newrule_build ctx env handle old s).2.rule p = s.rule p) ∧
    ((newrule_build ctx env handle old s).2.rule s.brk).handle = handle ∧
    (∀ c, c ≠ ctx.chain →
      ((newrule_build ctx env handle old s).2.chain c).rules = (s.chain c).rules) := by
  intro hok
  unfold newrule_build at hok ⊢
  by_cases h1 : env.exprs.isSome = true ∧ (!env.info_alloc_ok) = true
  · rw [if_pos h1] at hok; simp [ENOMEM] at hok
  rw [if_neg h1] at hok ⊢
  dsimp only at hok ⊢
  by_cases h2 : (newrule_parse_exprs (env.exprs.getD []) 0 0).1 < 0
  · rw [if_pos h2] at hok; dsimp only at hok; omega
  rw [if_neg h2] at hok ⊢
  by_cases h3 : (newrule_parse_exprs (env.exprs.getD []) 0 0).2.2 ≥ 1 <<< 12
  · rw [if_pos h3] at hok; simp [EFBIG] at hok
  rw [if_neg h3] at hok ⊢
  by_cases h4 : (!env.rule_alloc_ok) = true
  · rw [if_pos h4] at hok; simp [ENOMEM] at hok
  rw [if_neg h4] at hok ⊢
  obtain ⟨i1, i3, i4⟩ := init_exprs_frame ctx s.brk (env.exprs.getD [])
    ({ s with
      rule := Function.update s.rule s.brk
        { handle := handle, genmask := nft_activate_next s.gencursor, exprs := [] },
      brk := s.brk + 1 } : State)
  dsimp only at i1 i3 i4
  simp only [Function.update_same] at i4
  by_cases h5 : (newrule_init_exprs ctx s.brk (env.exprs.getD [])
      ({ s with
        rule := Function.update s.rule s.brk
          { handle := handle, genmask := nft_activate_next s.gencursor, exprs := [] },
        brk := s.brk + 1 } : State)).1 < 0
  · rw [if_pos h5] at hok; dsimp only at hok; omega
  rw [if_neg h5] at hok ⊢
  obtain ⟨l1, l2, l3⟩ := newrule_link_spec ctx env old s.brk _ hrep hok
  refine ⟨?_, fun p hp => ?_, ?_, fun c hc => ?_⟩
  · rw [l1, i1 ctx.chain]
  · rw [l2, i3 p hp]
    simp only [Function.update_noteq hp]
  · rw [l2]
    exact i4
  · rw [l3 c hc, i1 c]

/-- From the list, the handles and the reference of a placed rule to the placement in the
words of the position: tail, head, after or before the referenced rule. -/
theorem newrule_place_facts (ctx : nft_ctx) (env : NewRuleEnv) (s : State) (old : Option Ptr)
    (R : State) (H : Nat)
    (hl : (R.chain ctx.chain).rules =
      (if env.nlmsg_flags &&& NLM_F_APPEND ≠ 0 then
        match old with
        | some o => list_add_rcu s.brk (some o) (s.chain ctx.chain).rules
        | none => list_add_tail_rcu s.brk none (s.chain ctx.chain).rules
      else
        match old with
        | some o => list_add_tail_rcu s.brk (some o) (s.chain ctx.chain).rules
        | none => list_add_rcu s.brk none (s.chain ctx.chain).rules))
    (hr : ∀ p, p ≠ s.brk → R.rule p = s.rule p)
    (hH : (R.rule s.brk).handle = H)
    (hfresh : s.brk ∉ (s.chain ctx.chain).rules)
    (hnone : old = none → env.position = none ∧ env.position_id = none)
    (hsome : ∀ o, old = some o → (env.position ≠ none ∨ env.position_id ≠ none) ∧
      ((∃ pos, env.position = some pos ∧ __nft_rule_lookup s ctx.chain pos = some o) ∨
        (env.position = none ∧
          ∃ id, env.position_id = some id ∧ nft_rule_lookup_byid s ctx.chain id = some o))) :
    (∀ p, p ≠ s.brk → (R.rule p).handle = (s.rule p).handle) ∧
    (R.chain ctx.chain).rules.filter (fun p => decide (p ≠ s.brk)) = (s.chain ctx.chain).rules ∧
    (R.rule s.brk).handle = H ∧
    (env.position = none → env.position_id = none →
      (R.chain ctx.chain).rules =
        if env.nlmsg_flags &&& NLM_F_APPEND ≠ 0 then (s.chain ctx.chain).rules ++ [s.brk]
        else s.brk :: (s.chain ctx.chain).rules) ∧
    (∀ o, o ∈ (s.chain ctx.chain).rules →
      ((∃ pos, env.position = some pos ∧ __nft_rule_lookup s ctx.chain pos = some o) ∨
        (env.position = none ∧
          ∃ id, env.position_id = some id ∧ nft_rule_lookup_byid s ctx.chain id = some o)) →
      ∃ l1 l2, (s.chain ctx.chain).rules = l1 ++ o :: l2 ∧ o ∉ l1 ∧
        (R.chain ctx.chain).rules =
          if env.nlmsg_flags &&& NLM_F_APPEND ≠ 0 then l1 ++ o :: s.brk :: l2
          else l1 ++ s.brk :: o :: l2) := by
  refine ⟨fun p hp => by rw [hr p hp], ?_, hH, fun h1 h2 => ?_, fun o ho href => ?_⟩
  · rw [hl]
    split
    · cases old with
      | some o => exact list_add_rcu_filter _ _ _ hfresh
      | none => exact list_add_tail_rcu_filter _ _ _ hfresh
    · cases old with
      | some o => exact list_add_tail_rcu_filter _ _ _ hfresh
      | none => exact list_add_rcu_filter _ _ _ hfresh
  · cases old with
    | some o =>
      rcases (hsome o rfl).1 with h | h
      · exact absurd h1 h
      · exact absurd h2 h
    | none =>
      rw [hl]
      by_cases hap : env.nlmsg_flags &&& NLM_F_APPEND ≠ 0
      · rw [if_pos hap, if_pos hap]
        show list_add_tail_rcu s.brk none (s.chain ctx.chain).rules = _
        rw [list_add_tail_rcu]
      · rw [if_neg hap, if_neg hap]
        show list_add_rcu s.brk none (s.chain ctx.chain).rules = _
        rw [list_add_rcu]
  · cases old with
    | none =>
      obtain ⟨h1, h2⟩ := hnone rfl
      rcases href with ⟨pos, hp, _⟩ | ⟨_, id, hi, _⟩
      · rw [h1] at hp; cases hp
      · rw [h2] at hi; cases hi
    | some o2 =>
      have ho2 : o2 = o := by
        rcases (hsome o2 rfl).2 with ⟨pos, hp, hq⟩ | ⟨hp, id, hi, hq⟩
        · rcases href with ⟨pos2, hp2, hq2⟩ | ⟨hp2, _⟩
          · rw [hp] at hp2
            cases hp2
            rw [hq] at hq2
            exact Option.some.inj hq2
          · rw [hp] at hp2; cases hp2
        · rcases href with ⟨pos2, hp2, _⟩ | ⟨_, id2, hi2, hq2⟩
          · rw [hp] at hp2; cases hp2
          · rw [hi] at hi2
            cases hi2
            rw [hq] at hq2
            exact Option.some.inj hq2
      subst ho2
      by_cases hap : env.nlmsg_flags &&& NLM_F_APPEND ≠ 0
      · obtain ⟨l1, l2, e1, e2, e3⟩ := list_add_rcu_spec s.brk o2 _ ho
        refine ⟨l1, l2, e1, e2, ?_⟩
        rw [hl, if_pos hap, if_pos hap]
        exact e3
      · obtain ⟨l1, l2, e1, e2, e3⟩ := list_add_tail_rcu_spec s.brk o2 _ ho
        refine ⟨l1, l2, e1, e2, ?_⟩
        rw [hl, if_neg hap, if_neg hap]
        exact e3

/-- C22: a call of `nf_tables_newrule` without a rule handle (a new rule, not a
replacement) that returns `0` places the new rule, which lies at `s.brk` and carries the
next handle of the table, in the list of the chain: every other rule keeps its handle, the
list without the new rule is the list of before (the existing rules keep their relative
order), without position the new rule stands at the tail with `NLM_F_APPEND` and at the
head without it, and with a position, by handle or by the id of a rule of the batch that
is in the list, it stands immediately after the referenced rule with `NLM_F_APPEND` and
immediately before it without. -/
theorem newrule_places_rule (ctx : nft_ctx) (env : NewRuleEnv) (s : State)
    (hh : env.handle = none)
    (hfresh : s.brk ∉ (s.chain ctx.chain).rules)
    (hok : (nf_tables_newrule ctx env s).1 = 0) :
    (∀ p, p ≠ s.brk →
      ((nf_tables_newrule ctx env s).2.rule p).handle = (s.rule p).handle) ∧
    ((nf_tables_newrule ctx env s).2.chain ctx.chain).rules.filter
      (fun p => decide (p ≠ s.brk)) = (s.chain ctx.chain).rules ∧
    ((nf_tables_newrule ctx env s).2.rule s.brk).handle =
      ((s.table ctx.table).hgenerator + 1) % 2 ^ 64 ∧
    (env.position = none → env.position_id = none →
      ((nf_tables_newrule ctx env s).2.chain ctx.chain).rules =
        if env.nlmsg_flags &&& NLM_F_APPEND ≠ 0 then (s.chain ctx.chain).rules ++ [s.brk]
        else s.brk :: (s.chain ctx.chain).rules) ∧
    (∀ o, o ∈ (s.chain ctx.chain).rules →
      ((∃ pos, env.position = some pos ∧ __nft_rule_lookup s ctx.chain pos = some o) ∨
        (env.position = none ∧
          ∃ id, env.position_id = some id ∧ nft_rule_lookup_byid s ctx.chain id = some o)) →
      ∃ l1 l2, (s.chain ctx.chain).rules = l1 ++ o :: l2 ∧ o ∉ l1 ∧
        ((nf_tables_newrule ctx env s).2.chain ctx.chain).rules =
          if env.nlmsg_flags &&& NLM_F_APPEND ≠ 0 then l1 ++ o :: s.brk :: l2
          else l1 ++ s.brk :: o :: l2) := by
  have e1 : ∀ pos, __nft_rule_lookup (nf_tables_alloc_handle s ctx.table).2 ctx.chain pos =
      __nft_rule_lookup s ctx.chain pos := fun _ => rfl
  have e2 : ∀ id, nft_rule_lookup_byid (nf_tables_alloc_handle s ctx.table).2 ctx.chain id =
      nft_rule_lookup_byid s ctx.chain id := fun _ => rfl
  have e3 : (nf_tables_alloc_handle s ctx.table).1 =
      ((s.table ctx.table).hgenerator + 1) % 2 ^ 64 := rfl
  by_cases hc : env.nlmsg_flags &&& NLM_F_CREATE = 0 ∨ env.nlmsg_flags &&& NLM_F_REPLACE ≠ 0
  · exfalso
    unfold nf_tables_newrule at hok
    simp only [hh] at hok
    rw [if_pos hc] at hok
    simp [EINVAL] at hok
  have hrep : env.nlmsg_flags &&& NLM_F_REPLACE = 0 := by
    by_contra h
    exact hc (Or.inr h)
  obtain hp | ⟨pos, hp⟩ : env.position = none ∨ ∃ pos, env.position = some pos := by
    cases env.position with
    | none => exact Or.inl rfl
    | some pos => exact Or.inr ⟨pos, rfl⟩
  · obtain hi | ⟨id, hi⟩ : env.position_id = none ∨ ∃ id, env.position_id = some id := by
      cases env.position_id with
      | none => exact Or.inl rfl
      | some id => exact Or.inr ⟨id, rfl⟩
    · have hres : nf_tables_newrule ctx env s =
          newrule_build ctx env (nf_tables_alloc_handle s ctx.table).1 none
            (nf_tables_alloc_handle s ctx.table).2 := by
        unfold nf_tables_newrule
        simp only [hh, hp, hi, if_neg hc]
      rw [hres] at hok ⊢
      obtain ⟨l1, l2, l3, _⟩ := newrule_build_linked ctx env _ none _ hrep hok
      exact newrule_place_facts ctx env s none _ _ l1 l2 (l3.trans e3) hfresh
        (fun _ => ⟨hp, hi⟩) (fun o2 ho2 => by cases ho2)
    · obtain hl | ⟨o, hl⟩ : nft_rule_lookup_byid s ctx.chain id = none ∨
          ∃ o, nft_rule_lookup_byid s ctx.chain id = some o := by
        cases nft_rule_lookup_byid s ctx.chain id with
        | none => exact Or.inl rfl
        | some o => exact Or.inr ⟨o, rfl⟩
      · exfalso
        unfold nf_tables_newrule at hok
        simp [hh, hp, hi, if_neg hc, e2, hl, ENOENT] at hok
      · have hres : nf_tables_newrule ctx env s =
            newrule_build ctx env (nf_tables_alloc_handle s ctx.table).1 (some o)
              (nf_tables_alloc_handle s ctx.table).2 := by
          unfold nf_tables_newrule
          simp only [hh, hp, hi, if_neg hc, e2, hl]
        rw [hres] at hok ⊢
        obtain ⟨l1, l2, l3, _⟩ := newrule_build_linked ctx env _ (some o) _ hrep hok
        refine newrule_place_facts ctx env s (some o) _ _ l1 l2 (l3.trans e3) hfresh
          (fun h => by cases h) (fun o2 ho2 => ?_)
        cases ho2
        exact ⟨Or.inr (by rw [hi]; exact fun h => by cases h), Or.inr ⟨hp, id, hi, hl⟩⟩
  · obtain hl | ⟨o, hl⟩ : __nft_rule_lookup s ctx.chain pos = none ∨
        ∃ o, __nft_rule_lookup s ctx.chain pos = some o := by
      cases __nft_rule_lookup s ctx.chain pos with
      | none => exact Or.inl rfl
      | some o => exact Or.inr ⟨o, rfl⟩
    · exfalso
      unfold nf_tables_newrule at hok
      simp [hh, hp, if_neg hc, e1, hl, ENOENT] at hok
    · have hres : nf_tables_newrule ctx env s =
          newrule_build ctx env (nf_tables_alloc_handle s ctx.table).1 (some o)
            (nf_tables_alloc_handle s ctx.table).2 := by
        unfold nf_tables_newrule
        simp only [hh, hp, if_neg hc, e1, hl]
      rw [hres] at hok ⊢
      obtain ⟨l1, l2, l3, _⟩ := newrule_build_linked ctx env _ (some o) _ hrep hok
      refine newrule_place_facts ctx env s (some o) _ _ l1 l2 (l3.trans e3) hfresh
        (fun h => by cases h) (fun o2 ho2 => ?_)
      cases ho2
      exact ⟨Or.inl (by rw [hp]; exact fun h => by cases h), Or.inl ⟨pos, hp, hl⟩⟩

/-- On the example chain with the rules `100`, `101`, `102`, appending at the position of
handle `2` puts the new rule `103` right after `101`; it gets the handle `4`. -/
theorem newrule_places_rule_witness :
    ex_rule_env.handle = none ∧
    ex_rule_state.brk ∉ (ex_rule_state.chain 10).rules ∧
    (nf_tables_newrule { table := 1, chain := 10 } ex_rule_env ex_rule_state).1 = 0 ∧
    ((nf_tables_newrule { table := 1, chain := 10 } ex_rule_env ex_rule_state).2.chain 10).rules =
      [100, 101, 103, 102] ∧
    ((nf_tables_newrule { table := 1, chain := 10 } ex_rule_env ex_rule_state).2.chain
      10).rules.filter (fun p => decide (p ≠ ex_rule_state.brk)) = (ex_rule_state.chain 10).rules ∧
    ((nf_tables_newrule { table := 1, chain := 10 } ex_rule_env ex_rule_state).2.rule
      ex_rule_state.brk).handle = ((ex_rule_state.table 1).hgenerator + 1) % 2 ^ 64 :=
  ⟨rfl, by decide, by decide, by decide,
   (newrule_places_rule { table := 1, chain := 10 } ex_rule_env ex_rule_state rfl (by decide)
      (by decide)).2.1,
   (newrule_places_rule { table := 1, chain := 10 } ex_rule_env ex_rule_state rfl (by decide)
      (by decide)).2.2.1⟩

/-! ## C21: names of anonymous sets -/

/-- The bits the scan of the sets leaves set: those set before, and one for each active
set whose name gives a number of the window. -/
theorem alloc_name_scan_spec (env : AllocNameEnv) (s : State) (name : String) (min : Nat)
    (sets : List Ptr) (inuse : Nat → Bool) (k : Nat) :
    alloc_name_scan env s name min sets inuse k = true ↔
      (inuse k = true ∨ ∃ i ∈ sets, nft_is_active_next s.gencursor (s.set i).genmask = true ∧
        ∃ tmp, env.sscanf (s.set i).name name = some tmp ∧
          ¬ ((tmp % 2 ^ 32).toNat < min ∨
            (tmp % 2 ^ 64).toNat ≥ min + BITS_PER_BYTE * PAGE_SIZE) ∧
          k = ((tmp % 2 ^ 32).toNat + 2 ^ 32 - min) % 2 ^ 32) := by
  induction sets generalizing inuse with
  | nil =>
    rw [alloc_name_scan]
    simp
  | cons i rest ih =>
    rw [alloc_name_scan]
    by_cases ha : nft_is_active_next s.gencursor (s.set i).genmask = true
    · have ha2 : ¬ ((!nft_is_active_next s.gencursor (s.set i).genmask) = true) := by simp [ha]
      rw [if_neg ha2]
      cases hs : env.sscanf (s.set i).name name with
      | none =>
        dsimp only
        rw [ih]
        constructor
        · rintro (h | ⟨j, hj, h⟩)
          · exact Or.inl h
          · exact Or.inr ⟨j, List.mem_cons_of_mem _ hj, h⟩
        · rintro (h | ⟨j, hj, hact, tmp, h1, h2⟩)
          · exact Or.inl h
          · rcases List.mem_cons.mp hj with e | hj2
            · subst e
              rw [hs] at h1
              cases h1
            · exact Or.inr ⟨j, hj2, hact, tmp, h1, h2⟩
      | some tmp =>
        dsimp only
        by_cases hw : (tmp % 2 ^ 32).toNat < min ∨
            (tmp % 2 ^ 64).toNat ≥ min + BITS_PER_BYTE * PAGE_SIZE
        · rw [if_pos hw, ih]
          constructor
          · rintro (h | ⟨j, hj, h⟩)
            · exact Or.inl h
            · exact Or.inr ⟨j, List.mem_cons_of_mem _ hj, h⟩
          · rintro (h | ⟨j, hj, hact, tmp2, h1, h2, h3⟩)
            · exact Or.inl h
            · rcases List.mem_cons.mp hj with e | hj2
              · subst e
                rw [hs] at h1
                cases h1
                exact absurd hw h2
              · exact Or.inr ⟨j, hj2, hact, tmp2, h1, h2, h3⟩
        · rw [if_neg hw, ih]
          constructor
          · rintro (h | ⟨j, hj, h⟩)
            · unfold set_bit at h
              rcases Bool.or_eq_true _ _ ▸ h with h | h
              · exact Or.inr ⟨i, List.mem_cons_self _ _, ha, tmp, hs, hw, of_decide_eq_true h⟩
              · exact Or.inl h
            · exact Or.inr ⟨j, List.mem_cons_of_mem _ hj, h⟩
          · rintro (h | ⟨j, hj, hact, tmp2, h1, h2, h3⟩)
            · left
              unfold set_bit
              rw [h, Bool.or_true]
            · rcases List.mem_cons.mp hj with e | hj2
              · subst e
                rw [hs] at h1
                cases h1
                left
                unfold set_bit
                rw [decide_eq_true h3, Bool.true_or]
              · exact Or.inr ⟨j, hj2, hact, tmp2, h1, h2, h3⟩
    · have ha2 : (!nft_is_active_next s.gencursor (s.set i).genmask) = true := by
        simpa using ha
      rw [if_pos ha2, ih]
      constructor
      · rintro (h | ⟨j, hj, h⟩)
        · exact Or.inl h
        · exact Or.inr ⟨j, List.mem_cons_of_mem _ hj, h⟩
      · rintro (h | ⟨j, hj, hact, h⟩)
        · exact Or.inl h
        · rcases List.mem_cons.mp hj with e | hj2
          · subst e
            exact absurd hact ha
          · exact Or.inr ⟨j, hj2, hact, h⟩

/-- For a value of an `int` and a window that starts at most at `2 ^ 31`, the two
comparisons of the scan let through exactly the numbers of the window, and the bit is the
offset in the window. -/
theorem alloc_name_window (tmp : Int) (min k : Nat) (h1 : -2 ^ 31 ≤ tmp) (h2 : tmp < 2 ^ 31)
    (hmin : min ≤ 2 ^ 31) :
    (¬ ((tmp % 2 ^ 32).toNat < min ∨ (tmp % 2 ^ 64).toNat ≥ min + BITS_PER_BYTE * PAGE_SIZE) ∧
      k = ((tmp % 2 ^ 32).toNat + 2 ^ 32 - min) % 2 ^ 32) ↔
    (tmp = ((min + k : Nat) : Int) ∧ k < BITS_PER_BYTE * PAGE_SIZE) := by
  simp only [BITS_PER_BYTE, PAGE_SIZE, Nat.reduceMul]
  norm_num at h1 h2 hmin ⊢
  omega

/-- The result of the search of a clear bit. -/
theorem find_zero_bit_from_spec (addr : Nat → Bool) (len k : Nat) :
    k ≤ find_zero_bit_from addr k len ∧ find_zero_bit_from addr k len ≤ k + len ∧
    (∀ j, k ≤ j → j < find_zero_bit_from addr k len → addr j = true) ∧
    (find_zero_bit_from addr k len < k + len →
      addr (find_zero_bit_from addr k len) = false) := by
  induction len generalizing k with
  | zero =>
    rw [find_zero_bit_from]
    exact ⟨le_refl _, le_refl _, fun j h1 h2 => by omega, fun h => by omega⟩
  | succ len ih =>
    rw [find_zero_bit_from]
    by_cases hk : addr k = true
    · rw [if_pos hk]
      obtain ⟨a, b, c, d⟩ := ih (k + 1)
      refine ⟨by omega, by omega, fun j h1 h2 => ?_, fun h => d (by omega)⟩
      by_cases hj : j = k
      · rw [hj]; exact hk
      · exact c j (by omega) h2
    · rw [if_neg hk]
      exact ⟨le_refl _, by omega, fun j h1 h2 => by omega, fun _ => by simpa using hk⟩

/-- When every number below `N` is given by the name of a set of the list, the list has
at least `N` sets. -/
theorem alloc_name_used_le (env : AllocNameEnv) (s : State) (name : String) (sets : List Ptr)
    (N : Nat)
    (h : ∀ m, m < N → ∃ i ∈ sets, nft_is_active_next s.gencursor (s.set i).genmask = true ∧
      env.sscanf (s.set i).name name = some ((m : Nat) : Int)) :
    N ≤ sets.length := by
  have hsub : (List.range N).map (fun m : Nat => (m : Int)) ⊆
      sets.filterMap (fun i => env.sscanf (s.set i).name name) := by
    intro v hv
    obtain ⟨m, hm, rfl⟩ := List.mem_map.mp hv
    obtain ⟨i, hi, _, hs⟩ := h m (List.mem_range.mp hm)
    exact List.mem_filterMap.mpr ⟨i, hi, hs⟩
  have hnd : ((List.range N).map (fun m : Nat => (m : Int))).Nodup :=
    (List.nodup_range N).map (fun a b hab => Int.ofNat.inj hab)
  have hle := (List.subperm_of_subset hnd hsub).length_le
  rw [List.length_map, List.length_range] at hle
  exact hle.trans (List.length_filterMap_le _ _)

/-- The passes over the windows end: with values of an `int`, after the windows below
`2 ^ 31`, which are `65536`, the next one is empty.  The result is the smallest number
that no active set gives. -/
theorem alloc_name_cont_spec (env : AllocNameEnv) (s : State) (name : String)
    (sets : List Ptr)
    (hint : ∀ i ∈ sets, ∀ v, env.sscanf (s.set i).name name = some v →
      -2 ^ 31 ≤ v ∧ v < 2 ^ 31)
    (fuel w : Nat) (hw : w ≤ 65536) (hfuel : 65537 ≤ fuel + w)
    (hused : ∀ m, m < 32768 * w → ∃ i ∈ sets,
      nft_is_active_next s.gencursor (s.set i).genmask = true ∧
      env.sscanf (s.set i).name name = some ((m : Nat) : Int)) :
    ∃ mn n, alloc_name_cont env s name sets fuel (32768 * w) = some (mn, n) ∧
      mn + n ≤ 2 ^ 31 ∧
      (∀ i ∈ sets, nft_is_active_next s.gencursor (s.set i).genmask = true →
        env.sscanf (s.set i).name name ≠ some ((mn + n : Nat) : Int)) ∧
      (∀ m, m < mn + n → ∃ i ∈ sets,
        nft_is_active_next s.gencursor (s.set i).genmask = true ∧
        env.sscanf (s.set i).name name = some ((m : Nat) : Int)) := by
  induction fuel generalizing w with
  | zero => omega
  | succ fuel ih =>
    have hbit : ∀ k, k < 32768 →
        (alloc_name_scan env s name (32768 * w) sets (fun _ => false) k = true ↔
          ∃ i ∈ sets, nft_is_active_next s.gencursor (s.set i).genmask = true ∧
            env.sscanf (s.set i).name name = some ((32768 * w + k : Nat) : Int)) := by
      intro k hk
      rw [alloc_name_scan_spec]
      constructor
      · rintro (h | ⟨i, hi, hact, tmp, h1, h2⟩)
        · cases h
        · obtain ⟨r1, r2⟩ := hint i hi tmp h1
          have := (alloc_name_window tmp (32768 * w) k r1 r2 (by omega)).mp h2
          exact ⟨i, hi, hact, by rw [h1, this.1]⟩
      · rintro ⟨i, hi, hact, h1⟩
        obtain ⟨r1, r2⟩ := hint i hi _ h1
        exact Or.inr ⟨i, hi, hact, _, h1,
          (alloc_name_window _ (32768 * w) k r1 r2 (by omega)).mpr
            ⟨rfl, by simp only [BITS_PER_BYTE, PAGE_SIZE]; omega⟩⟩
    obtain ⟨_, f2, f3, f4⟩ := find_zero_bit_from_spec
      (alloc_name_scan env s name (32768 * w) sets (fun _ => false)) 32768 0
    rw [alloc_name_cont]
    have hW : BITS_PER_BYTE * PAGE_SIZE = 32768 := rfl
    simp only [hW, find_first_zero_bit]
    by_cases hn : find_zero_bit_from
        (alloc_name_scan env s name (32768 * w) sets (fun _ => false)) 0 32768 ≥ 32768
    · rw [if_pos hn]
      have hall : ∀ k, k < 32768 → ∃ i ∈ sets,
          nft_is_active_next s.gencursor (s.set i).genmask = true ∧
          env.sscanf (s.set i).name name = some ((32768 * w + k : Nat) : Int) :=
        fun k hk => (hbit k hk).mp (f3 k (Nat.zero_le _) (by omega))
      have hw2 : w < 65536 := by
        by_contra hc
        obtain ⟨i, hi, _, h1⟩ := hall 0 (by omega)
        obtain ⟨_, r2⟩ := hint i hi _ h1
        have : w = 65536 := by omega
        subst this
        norm_num at r2
      have hmin : (32768 * w + 32768) % 2 ^ 32 = 32768 * (w + 1) := by omega
      rw [hmin]
      refine ih (w + 1) (by omega) (by omega) (fun m hm => ?_)
      by_cases hlt : m < 32768 * w
      · exact hused m hlt
      · have := hall (m - 32768 * w) (by omega)
        rwa [show 32768 * w + (m - 32768 * w) = m by omega] at this
    · rw [if_neg hn]
      have hlt : find_zero_bit_from
          (alloc_name_scan env s name (32768 * w) sets (fun _ => false)) 0 32768 < 32768 := by
        omega
      have hclear := f4 (by omega)
      refine ⟨_, _, rfl, ?_, fun i hi hact hs => ?_, fun m hm => ?_⟩
      · by_cases hw2 : w < 65536
        · omega
        · have hw3 : w = 65536 := by omega
          subst hw3
          have h0 : alloc_name_scan env s name (32768 * 65536) sets (fun _ => false) 0 ≠
              true := by
            intro hc
            obtain ⟨i, hi, _, h1⟩ := (hbit 0 (by omega)).mp hc
            obtain ⟨_, r2⟩ := hint i hi _ h1
            norm_num at r2
          have : find_zero_bit_from
              (alloc_name_scan env s name (32768 * 65536) sets (fun _ => false)) 0 32768 =
              0 := by
            by_contra hc
            exact h0 (f3 0 (le_refl _) (Nat.pos_of_ne_zero hc))
          rw [this]
          norm_num
      · have := (hbit _ hlt).mpr ⟨i, hi, hact, hs⟩
        rw [hclear] at this
        cases this
      · by_cases hlt2 : m < 32768 * w
        · exact hused m hlt2
        · have := (hbit (m - 32768 * w) (by omega)).mp (f3 _ (Nat.zero_le _) (by omega))
          rwa [show 32768 * w + (m - 32768 * w) = m by omega] at this

/-- The search of the first `%` in a template skips the text before it. -/
theorem dropWhile_percent (pre rest : List Char) (hpre : '%' ∉ pre) :
    (pre ++ '%' :: rest).dropWhile (fun c => c != '%') = '%' :: rest := by
  induction pre with
  | nil => simp [List.dropWhile]
  | cons c cs ih =>
    have hc : c ≠ '%' := fun e => hpre (e ▸ List.mem_cons_self _ _)
    have hcs : '%' ∉ cs := fun m => hpre (List.mem_cons_of_mem _ m)
    rw [List.cons_append, List.dropWhile_cons_of_pos (by simpa using hc)]
    exact ih hcs

/-- For a template with one `%d`, shorter than `NFT_SET_MAX_ANONLEN`, and with the page
allocated, the first part of `nf_tables_set_alloc_name` returns the smallest number that
no active set of the table gives. -/
theorem alloc_name_number_spec (ctx : nft_ctx) (name : String) (env : AllocNameEnv)
    (s : State) (fuel : Nat) (pre post : List Char)
    (hname : name.toList = pre ++ '%' :: 'd' :: post) (hpre : '%' ∉ pre)
    (hpost : '%' ∉ post)
    (hlen : name.utf8ByteSize < NFT_SET_MAX_ANONLEN)
    (hpage : env.page_ok = true)
    (hint : ∀ i ∈ (s.table ctx.table).sets, ∀ v,
      env.sscanf (s.set i).name name = some v → -2 ^ 31 ≤ v ∧ v < 2 ^ 31)
    (hfuel : 65537 ≤ fuel) :
    ∃ n : Nat, alloc_name_number ctx name env s fuel = some (0, n) ∧
      (∀ i ∈ (s.table ctx.table).sets,
        nft_is_active_next s.gencursor (s.set i).genmask = true →
        env.sscanf (s.set i).name name ≠ some ((n : Nat) : Int)) ∧
      (∀ m, m < n → ∃ i ∈ (s.table ctx.table).sets,
        nft_is_active_next s.gencursor (s.set i).genmask = true ∧
        env.sscanf (s.set i).name name = some ((m : Nat) : Int)) := by
  obtain ⟨mn, n, h1, h2, h3, h4⟩ := alloc_name_cont_spec env s name (s.table ctx.table).sets
    hint fuel 0 (by omega) (by omega) (fun m hm => by omega)
  refine ⟨mn + n, ?_, h3, h4⟩
  unfold alloc_name_number
  rw [hname, dropWhile_percent pre _ hpre]
  dsimp only
  have c1 : ¬ (('d' :: post).head? ≠ some 'd' ∨ '%' ∈ ('d' :: post).tail) := by
    simp only [List.head?_cons, List.tail_cons, ne_eq, not_true_eq_false, false_or]
    exact hpost
  have c2 : ¬ (name.utf8ByteSize ≥ NFT_SET_MAX_ANONLEN) := by omega
  have c3 : ¬ ((!env.page_ok) = true) := by simp [hpage]
  rw [if_neg c1, if_neg c2, if_neg c3]
  have h1b : alloc_name_cont env s name (s.table ctx.table).sets fuel 0 = some (mn, n) := h1
  rw [h1b]
  dsimp only
  rw [Nat.mod_eq_of_lt (by omega)]

/-- The template `anonymous_set_%d` has one `%d` and 16 bytes: nothing is substituted,
the call returns `-EINVAL` although the table holds no set named `anonymous_set_0`. -/
theorem set_alloc_name_long_template_counterexample :
    "anonymous_set_%d".toList = "anonymous_set_".toList ++ '%' :: 'd' :: [] ∧
    '%' ∉ "anonymous_set_".toList ∧
    "anonymous_set_%d".utf8ByteSize = 16 ∧
    (∀ i ∈ (ex_name_state.table 1).sets,
      ex_name_env.sscanf (ex_name_state.set i).name "anonymous_set_%d" = none) ∧
    (nf_tables_set_alloc_name { table := 1 } 23 "anonymous_set_%d" ex_name_env ex_name_state
      65537).map (fun r => (r.1, (r.2.set 23).name)) = some (-EINVAL, "") := by
  decide

/-- C21 (amended): for a name template with exactly one `%d` and `sscanf` storing values
of an `int`, `nf_tables_set_alloc_name` returns after at most `65537` passes.  A
template of `NFT_SET_MAX_ANONLEN` (16) bytes or more is rejected with `-EINVAL`, and a
shorter one with `-ENOMEM` when the page of the bitmap cannot be allocated; in both cases
nothing is substituted and the state stays.  For a shorter template with the page
allocated, the number `n` the function hands to `kasprintf` is the smallest non-negative
integer that the template parses from the name of no set of the table that is active in
the next generation; `n` is at most the number of sets.  When `kasprintf` fails the
result is `-ENOMEM`; otherwise the generated name is written to the set and the result is
`0` when the name differs from the name of every set of the table that is active in the
next generation, and `-ENFILE` when it collides with one. -/
theorem set_alloc_name_smallest_unused (ctx : nft_ctx) (set : Ptr) (name : String)
    (env : AllocNameEnv) (s : State) (fuel : Nat) (pre post : List Char)
    (hname : name.toList = pre ++ '%' :: 'd' :: post) (hpre : '%' ∉ pre)
    (hpost : '%' ∉ post)
    (hint : ∀ i ∈ (s.table ctx.table).sets, ∀ v,
      env.sscanf (s.set i).name name = some v → -2 ^ 31 ≤ v ∧ v < 2 ^ 31)
    (hfuel : 65537 ≤ fuel) :
    (NFT_SET_MAX_ANONLEN ≤ name.utf8ByteSize →
      nf_tables_set_alloc_name ctx set name env s fuel = some (-EINVAL, s)) ∧
    (name.utf8ByteSize < NFT_SET_MAX_ANONLEN → env.page_ok = false →
      nf_tables_set_alloc_name ctx set name env s fuel = some (-ENOMEM, s)) ∧
    (name.utf8ByteSize < NFT_SET_MAX_ANONLEN → env.page_ok = true →
      ∃ n : Nat,
        (∀ i ∈ (s.table ctx.table).sets,
          nft_is_active_next s.gencursor (s.set i).genmask = true →
          env.sscanf (s.set i).name name ≠ some ((n : Nat) : Int)) ∧
        (∀ m, m < n → ∃ i ∈ (s.table ctx.table).sets,
          nft_is_active_next s.gencursor (s.set i).genmask = true ∧
          env.sscanf (s.set i).name name = some ((m : Nat) : Int)) ∧
        n ≤ (s.table ctx.table).sets.length ∧
        (env.kasprintf name n = none →
          nf_tables_set_alloc_name ctx set name env s fuel = some (-ENOMEM, s)) ∧
        (∀ str, env.kasprintf name n = some str →
          ∃ err s1, nf_tables_set_alloc_name ctx set name env s fuel = some (err, s1) ∧
            s1 = s.updSet set (fun x => { x with name := str }) ∧
            (err = 0 ∨ err = -ENFILE) ∧
            (err = 0 ↔ ∀ i ∈ (s1.table ctx.table).sets,
              nft_is_active_next s1.gencursor (s1.set i).genmask = true →
              (s1.set i).name ≠ (s1.set set).name))) := by
  have c1 : ¬ (('d' :: post).head? ≠ some 'd' ∨ '%' ∈ ('d' :: post).tail) := by
    simp only [List.head?_cons, List.tail_cons, ne_eq, not_true_eq_false, false_or]
    exact hpost
  refine ⟨fun hlen => ?_, fun hlen hpage => ?_, fun hlen hpage => ?_⟩
  · have hnum : alloc_name_number ctx name env s fuel = some (-EINVAL, 0) := by
      unfold alloc_name_number
      rw [hname, dropWhile_percent pre _ hpre]
      dsimp only
      rw [if_neg c1, if_pos hlen]
    unfold nf_tables_set_alloc_name
    rw [hnum]
    dsimp only
    rw [if_pos (by simp [EINVAL])]
  · have hnum : alloc_name_number ctx name env s fuel = some (-ENOMEM, 0) := by
      unfold alloc_name_number
      rw [hname, dropWhile_percent pre _ hpre]
      dsimp only
      rw [if_neg c1, if_neg (by omega), if_pos (by simp [hpage])]
    unfold nf_tables_set_alloc_name
    rw [hnum]
    dsimp only
    rw [if_pos (by simp [ENOMEM])]
  obtain ⟨n, h1, h2, h3⟩ := alloc_name_number_spec ctx name env s fuel pre post hname hpre
    hpost hlen hpage hint hfuel
  refine ⟨n, h2, h3, alloc_name_used_le env s name _ n h3, fun hk => ?_, fun str hk => ?_⟩
  · unfold nf_tables_set_alloc_name
    rw [h1]
    dsimp only
    rw [if_neg (lt_irrefl 0), hk]
  · unfold nf_tables_set_alloc_name
    rw [h1]
    dsimp only
    rw [if_neg (lt_irrefl 0), hk]
    dsimp only
    by_cases hany : ((s.updSet set (fun x => { x with name := str })).table ctx.table).sets.any
        (fun i => nft_is_active_next (s.updSet set (fun x => { x with name := str })).gencursor
            ((s.updSet set (fun x => { x with name := str })).set i).genmask &&
          decide (((s.updSet set (fun x => { x with name := str })).set set).name =
            ((s.updSet set (fun x => { x with name := str })).set i).name)) = true
    · rw [if_pos hany]
      refine ⟨_, _, rfl, rfl, Or.inr rfl, ?_⟩
      constructor
      · intro h
        simp [ENFILE] at h
      · intro h
        exfalso
        obtain ⟨i, hi, hb⟩ := List.any_eq_true.mp hany
        rw [Bool.and_eq_true] at hb
        exact h i hi hb.1 (of_decide_eq_true hb.2).symm
    · rw [if_neg hany]
      refine ⟨_, _, rfl, rfl, Or.inl rfl, ?_⟩
      constructor
      · intro _ i hi hact hne
        apply hany
        exact List.any_eq_true.mpr ⟨i, hi, by rw [Bool.and_eq_true]; exact
          ⟨hact, decide_eq_true hne.symm⟩⟩
      · intro _
        rfl

theorem set_alloc_name_smallest_unused_witness :
    "__set%d".toList = "__set".toList ++ '%' :: 'd' :: [] ∧
    "__set%d".utf8ByteSize < NFT_SET_MAX_ANONLEN ∧
    (nf_tables_set_alloc_name { table := 1 } 23 "__set%d" ex_name_env ex_name_state
      65537).map (fun r => (r.1, (r.2.set 23).name)) = some (0, "__set2") ∧
    ∃ n : Nat,
      (∀ i ∈ (ex_name_state.table 1).sets,
        nft_is_active_next ex_name_state.gencursor (ex_name_state.set i).genmask = true →
        ex_name_env.sscanf (ex_name_state.set i).name "__set%d" ≠ some ((n : Nat) : Int)) ∧
      (∀ m, m < n → ∃ i ∈ (ex_name_state.table 1).sets,
        nft_is_active_next ex_name_state.gencursor (ex_name_state.set i).genmask = true ∧
        ex_name_env.sscanf (ex_name_state.set i).name "__set%d" = some ((m : Nat) : Int)) ∧
      n ≤ (ex_name_state.table 1).sets.length :=
  ⟨by decide, by decide, by decide,
   ((set_alloc_name_smallest_unused { table := 1 } 23 "__set%d" ex_name_env ex_name_state 65537
      "__set".toList [] (by decide) (by decide) (by decide)
      (fun i hi v hv => by
        have hi2 : i = 20 ∨ i = 21 ∨ i = 22 := by
          have : i ∈ [20, 21, 22] := hi
          simpa using this
        have e0 : ex_name_env.sscanf (ex_name_state.set 20).name "__set%d" = some 0 := by
          decide
        have e1 : ex_name_env.sscanf (ex_name_state.set 21).name "__set%d" = some 1 := by
          decide
        have e3 : ex_name_env.sscanf (ex_name_state.set 22).name "__set%d" = some 3 := by
          decide
        rcases hi2 with h | h | h
        · subst h
          rw [e0] at hv
          cases hv
          decide
        · subst h
          rw [e1] at hv
          cases hv
          decide
        · subst h
          rw [e3] at hv
          cases hv
          decide)
      (le_refl _)).2.2 (by decide) rfl).imp (fun _ h => ⟨h.1, h.2.1, h.2.2.1⟩)⟩

end NfTables
